import Mathlib

/-!
kibutsu-docker: the compose orchestration engine

A shallow embedding of `backend/docker/compose.go`, of the types it uses from
`backend/api/types/compose.go` and of `stdCopy` of `backend/docker/exec.go`, followed by
theorems about them.

Conventions of the embedding.

* A Go `map[string]T` is an association list with pairwise distinct keys; a `range`
  over the map visits the entries in list order.  Go leaves that order unspecified,
  so a statement that holds for every association list holds for every iteration
  order of the map.
* A Go `map[string]bool` that is only read with the zero default is a function
  `String → Bool`.
* Go `int` is `Int`; none of the arithmetic of this file can leave the 64-bit range.
* The Docker client and `nat.ParsePortSpec` live outside the repository.  They are a
  parameter (`External`): a deterministic state machine over an arbitrary state type.
  Every call the engine issues is recorded, with its answer, as an `Event`.
* The runs of the operations are those of an operation that runs alone.  The mutex of
  `ComposeProject` is modelled apart, in the section on the project lock.
-/

namespace Compose

/-! ## Specification model (`api/types/compose.go`) -/

/-- DeploySpec defines deployment configuration for a service. -/
structure DeploySpec where
  Replicas : Int
deriving DecidableEq

/-- ServiceSpec defines the configuration for a service.  The default values are the
Go zero values, so `{}` is what a lookup of an absent key of `Services` yields. -/
structure ServiceSpec where
  Image : String := ""
  Command : List String := []
  Environment : List (String × String) := []
  Ports : List String := []
  Volumes : List String := []
  DependsOn : List String := []
  Deploy : Option DeploySpec := none
deriving DecidableEq

/-- NetworkSpec defines network configuration. -/
structure NetworkSpec where
  External : Bool := false
deriving DecidableEq

/-- VolumeSpec defines volume configuration. -/
structure VolumeSpec where
  External : Bool := false
deriving DecidableEq

/-- ComposeConfig represents the configuration for a Docker Compose project. -/
structure ComposeConfig where
  Version : String := ""
  Services : List (String × ServiceSpec) := []
  Networks : List (String × NetworkSpec) := []
  Volumes : List (String × VolumeSpec) := []
deriving DecidableEq

/-- The fields of `docker.ComposeProject` that the operations read. -/
structure ComposeProject where
  Name : String
  Config : ComposeConfig
deriving DecidableEq

/-- The declared service names, in the iteration order of the map. -/
def ComposeConfig.serviceNames (cfg : ComposeConfig) : List String :=
  cfg.Services.map Prod.fst

/-- The expression `p.Config.Services[service]`: the zero value for an absent key. -/
def ComposeConfig.service (cfg : ComposeConfig) (service : String) : ServiceSpec :=
  (cfg.Services.lookup service).getD {}

/-! ## Dependency resolver (`getServiceOrder`) -/

/-- The local map `graph` of `getServiceOrder`, read as `graph[node]`: the declared
`DependsOn` of a declared service, and nil for any other name. -/
def graphOf (services : List (String × ServiceSpec)) (node : String) : List String :=
  match services.lookup node with
  | some service => service.DependsOn
  | none => []

/-- The three locals that the closure `visit` captures and mutates. -/
structure VisitState where
  visited : String → Bool
  temp : String → Bool
  order : List String

/-- The loop `for _, dep := range graph[node] { if !visit(dep) { return false } }`,
with the recursive call passed in.  The Boolean is `true` when the loop ran to its
end and `false` when it returned early. -/
def visitDeps (visit : String → VisitState → Option (Bool × VisitState)) :
    List String → VisitState → Option (Bool × VisitState)
  | [], s => some (true, s)
  | dep :: rest, s =>
    match visit dep s with
    | none => none
    | some (false, s1) => some (false, s1)
    | some (true, s1) => visitDeps visit rest s1

/-- The closure `visit`.  The first argument bounds the recursion depth; `none` means
that the bound was reached (see `getServiceOrder_total`: it never is). -/
def visit (graph : String → List String) : Nat → String → VisitState → Option (Bool × VisitState)
  | 0, _, _ => none
  | fuel + 1, node, s =>
    if s.temp node then some (false, s)
    else if s.visited node then some (true, s)
    else
      match visitDeps (visit graph fuel) (graph node)
          { s with temp := Function.update s.temp node true } with
      | none => none
      | some (false, s1) => some (false, s1)
      | some (true, s1) =>
        some (true, { visited := Function.update s1.visited node true
                      temp := Function.update s1.temp node false
                      order := s1.order ++ [node] })

/-- The loop `for name := range p.Config.Services` at the end of `getServiceOrder`.
The second component collects the lines written with `log.Printf`. -/
def visitAll (graph : String → List String) (fuel : Nat) :
    List String → VisitState → List String → Option (VisitState × List String)
  | [], s, logged => some (s, logged)
  | name :: rest, s, logged =>
    if s.visited name then visitAll graph fuel rest s logged
    else
      match visit graph fuel name s with
      | none => none
      | some (true, s1) => visitAll graph fuel rest s1 logged
      | some (false, s1) =>
        visitAll graph fuel rest s1
          (logged ++ ["Warning: circular dependency detected in service " ++ name])

/-- What `getServiceOrder` produces: the returned slice and the warnings it logged. -/
structure Resolved where
  order : List String
  logged : List String
deriving DecidableEq

/-- The method `getServiceOrder`. -/
def getServiceOrder (p : ComposeProject) : Option Resolved :=
  match visitAll (graphOf p.Config.Services) (p.Config.Services.length + 1)
      p.Config.serviceNames
      { visited := fun _ => false, temp := fun _ => false, order := [] } [] with
  | none => none
  | some (s, logged) => some { order := s.order, logged := logged }

/-- Service `a` declares service `b` in its `depends_on`. -/
def DependsOn (cfg : ComposeConfig) (a b : String) : Prop :=
  b ∈ graphOf cfg.Services a

/-- The depends-on graph has no cycle: no name reaches itself along one or more
depends-on edges. -/
def Acyclic (cfg : ComposeConfig) : Prop :=
  ∀ a, ¬ Relation.TransGen (DependsOn cfg) a a

end Compose
namespace Compose

/-- The order read backwards: each name is followed only by names issued before it,
and all its dependencies are among them. -/
def depsFirstRev (graph : String → List String) : List String → Prop
  | [] => True
  | n :: earlier => (∀ d ∈ graph n, d ∈ earlier) ∧ depsFirstRev graph earlier

/-- Every name of `order` has all the names `graph` gives it at earlier positions. -/
def DepsFirst (graph : String → List String) (order : List String) : Prop :=
  depsFirstRev graph order.reverse

/-- The invariant of the traversal. -/
structure Good (graph : String → List String) (s : VisitState) : Prop where
  nodup : s.order.Nodup
  mem_iff : ∀ n, n ∈ s.order ↔ s.visited n = true
  disj : ∀ n, s.visited n = true → s.temp n = true → False
  topo : DepsFirst graph s.order

/-- How a later state of the traversal relates to an earlier one. -/
structure Ext (s s' : VisitState) : Prop where
  visited_mono : ∀ n, s.visited n = true → s'.visited n = true
  temp_mono : ∀ n, s.temp n = true → s'.temp n = true
  order_ext : ∃ ext, s'.order = s.order ++ ext

/-- The number of names of `keys` that are not marked in `temp`. -/
def free (keys : Finset String) (temp : String → Bool) : Nat :=
  (keys.filter (fun k => temp k = false)).card

/-- What one call of `visit` (or one run of the loop over the dependencies)
guarantees. -/
structure VisitPost (graph : String → List String) (s : VisitState) (b : Bool)
    (s' : VisitState) : Prop where
  good : Good graph s'
  ext : Ext s s'
  temp_eq : b = true → s'.temp = s.temp

end Compose
namespace Compose

/-! ## The container runtime, as the engine sees it -/

/-- The fields of `types.Container` that the engine reads from a listing. -/
structure Container where
  ID : String
  Names : List String := []
  State : String := ""
  Status : String := ""
  Created : Int := 0
  Labels : List (String × String) := []
deriving DecidableEq

/-- The fields of `types.NetworkResource` that the engine reads from a listing. -/
structure NetworkResource where
  ID : String
  Name : String := ""
  Labels : List (String × String) := []
deriving DecidableEq

/-- A host binding, `nat.PortBinding`. -/
structure PortBinding where
  HostIP : String := ""
  HostPort : String := ""
deriving DecidableEq

/-- One result of `nat.ParsePortSpec`, `nat.PortMapping`. -/
structure PortMapping where
  Port : String
  Binding : PortBinding
deriving DecidableEq

/-- The fields of `container.Config` that `createContainer` sets. -/
structure ContainerConfig where
  Image : String
  Cmd : List String
  Env : List String
  ExposedPorts : List String
  Labels : List (String × String)
deriving DecidableEq

/-- The fields of `container.HostConfig` that `createContainer` sets. -/
structure HostConfig where
  PortBindings : List (String × List PortBinding)
  Binds : List String
deriving DecidableEq

/-- The keys of `network.NetworkingConfig.EndpointsConfig`; every value is the empty
`EndpointSettings`. -/
structure NetworkingConfig where
  EndpointsConfig : List String
deriving DecidableEq

/-- A `filters.Args` value: the pairs added with `Add`. -/
abbrev Filters := List (String × String)

/-- A request to the Docker client, with the arguments the engine passes. -/
inductive Call where
  | ContainerList (all : Bool) (filters : Filters)
  | ContainerCreate (config : ContainerConfig) (hostConfig : HostConfig)
      (networking : NetworkingConfig) (name : String)
  | ContainerStart (id : String)
  | ContainerStop (id : String) (timeout : Int)
  | ContainerRemove (id : String) (removeVolumes : Bool) (force : Bool)
  | ContainerLogs (id : String) (follow : Bool)
  | NetworkCreate (name : String) (driver : String) (labels : List (String × String))
  | NetworkList (filters : Filters)
  | NetworkRemove (id : String)
deriving DecidableEq

/-- What the client answered. -/
inductive Answer where
  | failed (msg : String)
  | done
  | created (id : String)
  | containers (cs : List Container)
  | networks (ns : List NetworkResource)
  | stream (content : String)
deriving DecidableEq

/-- One call issued to the client.  `svc` is the service argument of the enclosing
`startService`, `stopService` or `Scale` call, and `none` for a project-wide call. -/
structure Event where
  svc : Option String
  call : Call
  answer : Answer
deriving DecidableEq

/-- The code outside the repository: the Docker client, as a deterministic state
machine over `σ`, and `nat.ParsePortSpec`.  A Go `error` result is `Option String`
(`none` is nil) or the error side of `Except`. -/
structure External (σ : Type) where
  ParsePortSpec : String → Except String (List PortMapping)
  ContainerList : σ → Bool → Filters → Except String (List Container) × σ
  ContainerCreate : σ → ContainerConfig → HostConfig → NetworkingConfig → String →
    Except String String × σ
  ContainerStart : σ → String → Option String × σ
  ContainerStop : σ → String → Int → Option String × σ
  ContainerRemove : σ → String → Bool → Bool → Option String × σ
  ContainerLogs : σ → String → Bool → Except String String × σ
  NetworkCreate : σ → String → String → List (String × String) → Option String × σ
  NetworkList : σ → Filters → Except String (List NetworkResource) × σ
  NetworkRemove : σ → String → Option String × σ

/-- How a Go function ends: with a value, with a non-nil `error`, or with a run-time
panic. -/
inductive Result (α : Type) where
  | ok (a : α)
  | err (msg : String)
  | crash (msg : String)
deriving DecidableEq

/-- One run of a piece of the engine: its result, the runtime state it leaves, the
calls it issued in order, and the lines it logged in order. -/
structure Run (σ α : Type) where
  val : α
  rt : σ
  events : List Event
  logged : List String

/-- A step that issues no call. -/
def Run.pure {σ α : Type} (a : α) (rt : σ) : Run σ α :=
  { val := a, rt := rt, events := [], logged := [] }

/-- Sequencing: `k` continues from the value and the runtime state of `r`. -/
def Run.bind {σ α β : Type} (r : Run σ α) (k : α → σ → Run σ β) : Run σ β :=
  { val := (k r.val r.rt).val
    rt := (k r.val r.rt).rt
    events := r.events ++ (k r.val r.rt).events
    logged := r.logged ++ (k r.val r.rt).logged }

/-- Marks every call of `r` as issued on behalf of `service`. -/
def Run.tag {σ α : Type} (service : String) (r : Run σ α) : Run σ α :=
  { r with events := r.events.map (fun e => { e with svc := some service }) }

/-- The statement `log.Printf(...)` with the formatted line. -/
def logPrintf {σ : Type} (line : String) (rt : σ) : Run σ Unit :=
  { val := (), rt := rt, events := [], logged := [line] }

/-- The answer recorded for a call that returns only an `error`. -/
def Answer.ofError : Option String → Answer
  | none => Answer.done
  | some e => Answer.failed e

/-- The answer recorded for a call that returns a value and an `error`. -/
def Answer.ofExcept {α : Type} (f : α → Answer) : Except String α → Answer
  | Except.ok a => f a
  | Except.error e => Answer.failed e

/-- The call `p.client.ContainerList(ctx, container.ListOptions{All: true, Filters: f})`. -/
def clientContainerList {σ : Type} (x : External σ) (f : Filters) (rt : σ) :
    Run σ (Except String (List Container)) :=
  { val := (x.ContainerList rt true f).1
    rt := (x.ContainerList rt true f).2
    events := [{ svc := none, call := Call.ContainerList true f,
                 answer := Answer.ofExcept Answer.containers (x.ContainerList rt true f).1 }]
    logged := [] }

/-- The call `p.client.ContainerCreate(ctx, config, hostConfig, networking, nil, name)`. -/
def clientContainerCreate {σ : Type} (x : External σ) (config : ContainerConfig)
    (hostConfig : HostConfig) (networking : NetworkingConfig) (name : String) (rt : σ) :
    Run σ (Except String String) :=
  { val := (x.ContainerCreate rt config hostConfig networking name).1
    rt := (x.ContainerCreate rt config hostConfig networking name).2
    events := [{ svc := none, call := Call.ContainerCreate config hostConfig networking name,
                 answer := Answer.ofExcept Answer.created
                   (x.ContainerCreate rt config hostConfig networking name).1 }]
    logged := [] }

/-- The call `p.client.ContainerStart(ctx, id, container.StartOptions{})`. -/
def clientContainerStart {σ : Type} (x : External σ) (id : String) (rt : σ) :
    Run σ (Option String) :=
  { val := (x.ContainerStart rt id).1
    rt := (x.ContainerStart rt id).2
    events := [{ svc := none, call := Call.ContainerStart id,
                 answer := Answer.ofError (x.ContainerStart rt id).1 }]
    logged := [] }

/-- The call `p.client.ContainerStop(ctx, id, container.StopOptions{Timeout: &timeout})`. -/
def clientContainerStop {σ : Type} (x : External σ) (id : String) (timeout : Int) (rt : σ) :
    Run σ (Option String) :=
  { val := (x.ContainerStop rt id timeout).1
    rt := (x.ContainerStop rt id timeout).2
    events := [{ svc := none, call := Call.ContainerStop id timeout,
                 answer := Answer.ofError (x.ContainerStop rt id timeout).1 }]
    logged := [] }

/-- The call `p.client.ContainerRemove(ctx, id, container.RemoveOptions{...})`. -/
def clientContainerRemove {σ : Type} (x : External σ) (id : String) (removeVolumes : Bool)
    (force : Bool) (rt : σ) : Run σ (Option String) :=
  { val := (x.ContainerRemove rt id removeVolumes force).1
    rt := (x.ContainerRemove rt id removeVolumes force).2
    events := [{ svc := none, call := Call.ContainerRemove id removeVolumes force,
                 answer := Answer.ofError (x.ContainerRemove rt id removeVolumes force).1 }]
    logged := [] }

/-- The call `p.client.ContainerLogs(ctx, id, container.LogsOptions{...})`. -/
def clientContainerLogs {σ : Type} (x : External σ) (id : String) (follow : Bool) (rt : σ) :
    Run σ (Except String String) :=
  { val := (x.ContainerLogs rt id follow).1
    rt := (x.ContainerLogs rt id follow).2
    events := [{ svc := none, call := Call.ContainerLogs id follow,
                 answer := Answer.ofExcept Answer.stream (x.ContainerLogs rt id follow).1 }]
    logged := [] }

/-- The call `p.client.NetworkCreate(ctx, name, types.NetworkCreate{Driver, Labels})`. -/
def clientNetworkCreate {σ : Type} (x : External σ) (name : String) (driver : String)
    (labels : List (String × String)) (rt : σ) : Run σ (Option String) :=
  { val := (x.NetworkCreate rt name driver labels).1
    rt := (x.NetworkCreate rt name driver labels).2
    events := [{ svc := none, call := Call.NetworkCreate name driver labels,
                 answer := Answer.ofError (x.NetworkCreate rt name driver labels).1 }]
    logged := [] }

/-- The call `p.client.NetworkList(ctx, types.NetworkListOptions{Filters: f})`. -/
def clientNetworkList {σ : Type} (x : External σ) (f : Filters) (rt : σ) :
    Run σ (Except String (List NetworkResource)) :=
  { val := (x.NetworkList rt f).1
    rt := (x.NetworkList rt f).2
    events := [{ svc := none, call := Call.NetworkList f,
                 answer := Answer.ofExcept Answer.networks (x.NetworkList rt f).1 }]
    logged := [] }

/-- The call `p.client.NetworkRemove(ctx, id)`. -/
def clientNetworkRemove {σ : Type} (x : External σ) (id : String) (rt : σ) :
    Run σ (Option String) :=
  { val := (x.NetworkRemove rt id).1
    rt := (x.NetworkRemove rt id).2
    events := [{ svc := none, call := Call.NetworkRemove id,
                 answer := Answer.ofError (x.NetworkRemove rt id).1 }]
    logged := [] }

/-- A loop whose body returns an `error` and which returns at the first body that does
not end with nil. -/
def forEach {σ α : Type} (body : α → σ → Run σ (Result Unit)) :
    List α → σ → Run σ (Result Unit)
  | [], rt => Run.pure (Result.ok ()) rt
  | a :: rest, rt =>
    (body a rt).bind fun res =>
      match res with
      | Result.ok _ => forEach body rest
      | Result.err e => Run.pure (Result.err e)
      | Result.crash e => Run.pure (Result.crash e)

/-- A loop whose body cannot leave the loop. -/
def forAll {σ α : Type} (body : α → σ → Run σ Unit) : List α → σ → Run σ Unit
  | [], rt => Run.pure () rt
  | a :: rest, rt => (body a rt).bind fun _ => forAll body rest

/-- The values `lo, lo+1, ..., hi-1` of `for i := lo; i < hi; i++`; read backwards they
are the values of `for i := hi-1; i >= lo; i--`. -/
def intRange (lo hi : Int) : List Int :=
  (List.range (hi - lo).toNat).map (fun (k : Nat) => lo + (k : Int))

/-- The assignment `m[k] = v` on a map. -/
def mapSet {β : Type} : List (String × β) → String → β → List (String × β)
  | [], k, v => [(k, v)]
  | (k', v') :: rest, k, v => if k' = k then (k, v) :: rest else (k', v') :: mapSet rest k v

/-- The test `strings.Contains(s, sub)`. -/
def stringsContains (s sub : String) : Bool :=
  decide (sub.data <:+: s.data)

/-- The call `strings.TrimPrefix(s, "/")`. -/
def trimSlash (s : String) : String :=
  match s.data with
  | '/' :: rest => String.mk rest
  | _ => s

/-- The two-label filter that selects the containers of one service of the project. -/
def serviceFilters (p : ComposeProject) (service : String) : Filters :=
  [("label", "com.docker.compose.project=" ++ p.Name),
   ("label", "com.docker.compose.service=" ++ service)]

/-- The one-label filter that selects everything of the project. -/
def projectFilters (p : ComposeProject) : Filters :=
  [("label", "com.docker.compose.project=" ++ p.Name)]

/-! ## Container provisioner (`createContainer`, `removeContainer`) -/

/-- The function `mapToEnvSlice`. -/
def mapToEnvSlice (m : List (String × String)) : List String :=
  m.map (fun kv => kv.1 ++ "=" ++ kv.2)

/-- The inner loop over one parsed spec: appends each binding to `portBindings[pm.Port]`
and puts `pm.Port` into `exposedPorts`. -/
def addPortMappings :
    List PortMapping → List (String × List PortBinding) × List String →
      List (String × List PortBinding) × List String
  | [], acc => acc
  | pm :: rest, acc =>
    addPortMappings rest
      (mapSet acc.1 pm.Port (((acc.1.lookup pm.Port).getD []) ++ [pm.Binding]),
       if pm.Port ∈ acc.2 then acc.2 else acc.2 ++ [pm.Port])

/-- The loop `for _, portStr := range config.Ports` of `createContainer`: the port
bindings and exposed ports, or the error of the first string that does not parse. -/
def parsePorts (parsePortSpec : String → Except String (List PortMapping)) :
    List String → List (String × List PortBinding) × List String →
      Except String (List (String × List PortBinding) × List String)
  | [], acc => Except.ok acc
  | portStr :: rest, acc =>
    match parsePortSpec portStr with
    | Except.error e => Except.error ("invalid port mapping " ++ portStr ++ ": " ++ e)
    | Except.ok portMapping => parsePorts parsePortSpec rest (addPortMappings portMapping acc)

/-- The labels `createContainer` puts on a container. -/
def containerLabels (p : ComposeProject) (service : String) (index : Int) :
    List (String × String) :=
  [("com.docker.compose.project", p.Name),
   ("com.docker.compose.service", service),
   ("com.docker.compose.instance", toString index)]

/-- The name `fmt.Sprintf("%s_%s_%d", p.Name, service, index)`. -/
def containerName (p : ComposeProject) (service : String) (index : Int) : String :=
  p.Name ++ "_" ++ service ++ "_" ++ toString index

/-- The loop `for netName := range p.Config.Networks` of `createContainer`: one endpoint
key per declared network. -/
def endpointKeys (p : ComposeProject) : List String :=
  p.Config.Networks.foldl
    (fun keys net =>
      if (p.Name ++ "_" ++ net.1) ∈ keys then keys else keys ++ [p.Name ++ "_" ++ net.1]) []

/-- The method `createContainer`. -/
def createContainer {σ : Type} (x : External σ) (p : ComposeProject) (service : String)
    (config : ServiceSpec) (index : Int) (rt : σ) : Run σ (Result Unit) :=
  match parsePorts x.ParsePortSpec config.Ports ([], []) with
  | Except.error e => Run.pure (Result.err e) rt
  | Except.ok (portBindings, exposedPorts) =>
    (clientContainerCreate x
        { Image := config.Image, Cmd := config.Command,
          Env := mapToEnvSlice config.Environment, ExposedPorts := exposedPorts,
          Labels := containerLabels p service index }
        { PortBindings := portBindings, Binds := config.Volumes }
        { EndpointsConfig := endpointKeys p }
        (containerName p service index) rt).bind fun resp =>
      match resp with
      | Except.error e => Run.pure (Result.err ("failed to create container: " ++ e))
      | Except.ok id => fun rt1 =>
        (clientContainerStart x id rt1).bind fun err =>
          match err with
          | some e => Run.pure (Result.err ("failed to start container: " ++ e))
          | none => Run.pure (Result.ok ())

/-- The method `removeContainer`. -/
def removeContainer {σ : Type} (x : External σ) (containerID : String) (rt : σ) :
    Run σ (Result Unit) :=
  (clientContainerStop x containerID 30 rt).bind fun err =>
    match err with
    | some e => Run.pure (Result.err ("failed to stop container " ++ containerID ++ ": " ++ e))
    | none => fun rt1 =>
      (clientContainerRemove x containerID true true rt1).bind fun err2 =>
        match err2 with
        | some e =>
          Run.pure (Result.err ("failed to remove container " ++ containerID ++ ": " ++ e))
        | none => Run.pure (Result.ok ())

/-! ## Network manager (`createNetworks`, `removeNetworks`) -/

/-- The body of the loop of `createNetworks`. -/
def createNetwork {σ : Type} (x : External σ) (p : ComposeProject)
    (net : String × NetworkSpec) (rt : σ) : Run σ (Result Unit) :=
  if net.2.External then Run.pure (Result.ok ()) rt
  else
    (clientNetworkCreate x (p.Name ++ "_" ++ net.1) "bridge"
        [("com.docker.compose.project", p.Name), ("com.docker.compose.network", net.1)] rt).bind
      fun err =>
        match err with
        | none => Run.pure (Result.ok ())
        | some e =>
          if stringsContains e "already exists" then Run.pure (Result.ok ())
          else Run.pure (Result.err ("failed to create network " ++ net.1 ++ ": " ++ e))

/-- The method `createNetworks`. -/
def createNetworks {σ : Type} (x : External σ) (p : ComposeProject) (rt : σ) :
    Run σ (Result Unit) :=
  forEach (createNetwork x p) p.Config.Networks rt

/-- The body of the loop of `removeNetworks`. -/
def removeNetwork {σ : Type} (x : External σ) (network : NetworkResource) (rt : σ) :
    Run σ Unit :=
  (clientNetworkRemove x network.ID rt).bind fun err =>
    match err with
    | some e => logPrintf ("Warning: failed to remove network " ++ network.Name ++ ": " ++ e)
    | none => Run.pure ()

/-- The method `removeNetworks`. -/
def removeNetworks {σ : Type} (x : External σ) (p : ComposeProject) (rt : σ) :
    Run σ (Result Unit) :=
  (clientNetworkList x (projectFilters p) rt).bind fun res =>
    match res with
    | Except.error e => Run.pure (Result.err e)
    | Except.ok networks => fun rt1 =>
      (forAll (removeNetwork x) networks rt1).bind fun _ => Run.pure (Result.ok ())

/-! ## Lifecycle controller (`Up`, `Down`, `startService`, `stopService`) -/

/-- The number of instances `startService` starts: the declared replica count when a
deploy directive is present and positive, and 1 otherwise. -/
def replicasOf (svcConfig : ServiceSpec) : Int :=
  match svcConfig.Deploy with
  | some deploy => if deploy.Replicas > 0 then deploy.Replicas else 1
  | none => 1

/-- The method `startService`. -/
def startService {σ : Type} (x : External σ) (p : ComposeProject) (service : String)
    (rt : σ) : Run σ (Result Unit) :=
  forEach (fun i => createContainer x p service (p.Config.service service) i)
    (intRange 0 (replicasOf (p.Config.service service))) rt

/-- The body of the loop of `stopService`. -/
def stopContainer {σ : Type} (x : External σ) (c : Container) (rt : σ) : Run σ Unit :=
  (clientContainerStop x c.ID 30 rt).bind fun err =>
    match err with
    | some e => logPrintf ("Warning: failed to stop container " ++ c.ID ++ ": " ++ e)
    | none => fun rt1 =>
      (clientContainerRemove x c.ID false true rt1).bind fun err2 =>
        match err2 with
        | some e => logPrintf ("Warning: failed to remove container " ++ c.ID ++ ": " ++ e)
        | none => Run.pure ()

/-- The method `stopService`. -/
def stopService {σ : Type} (x : External σ) (p : ComposeProject) (service : String)
    (rt : σ) : Run σ (Result Unit) :=
  (clientContainerList x (serviceFilters p service) rt).bind fun res =>
    match res with
    | Except.error e => Run.pure (Result.err e)
    | Except.ok containers => fun rt1 =>
      (forAll (stopContainer x) containers rt1).bind fun _ => Run.pure (Result.ok ())

/-- The body of the loop of `Up`. -/
def upService {σ : Type} (x : External σ) (p : ComposeProject) (serviceName : String)
    (rt : σ) : Run σ (Result Unit) :=
  (Run.tag serviceName (startService x p serviceName rt)).bind fun res =>
    match res with
    | Result.ok _ => Run.pure (Result.ok ())
    | Result.err e =>
      Run.pure (Result.err ("failed to start service " ++ serviceName ++ ": " ++ e))
    | Result.crash e => Run.pure (Result.crash e)

/-- The method `Up`, after the resolver has returned `resolved`. -/
def upWith {σ : Type} (x : External σ) (p : ComposeProject) (resolved : Resolved) (rt : σ) :
    Run σ (Result Unit) :=
  (createNetworks x p rt).bind fun res =>
    match res with
    | Result.err e => Run.pure (Result.err ("failed to create networks: " ++ e))
    | Result.crash e => Run.pure (Result.crash e)
    | Result.ok _ => fun rt1 =>
      { forEach (upService x p) resolved.order rt1 with
        logged := resolved.logged ++ (forEach (upService x p) resolved.order rt1).logged }

/-- The method `Up`. -/
def Up {σ : Type} (x : External σ) (p : ComposeProject) (rt : σ) :
    Option (Run σ (Result Unit)) :=
  (getServiceOrder p).map fun resolved => upWith x p resolved rt

/-- The body of the loop of `Down`. -/
def downService {σ : Type} (x : External σ) (p : ComposeProject) (serviceName : String)
    (rt : σ) : Run σ (Result Unit) :=
  (Run.tag serviceName (stopService x p serviceName rt)).bind fun res =>
    match res with
    | Result.ok _ => Run.pure (Result.ok ())
    | Result.err e =>
      Run.pure (Result.err ("failed to stop service " ++ serviceName ++ ": " ++ e))
    | Result.crash e => Run.pure (Result.crash e)

/-- The method `Down`, after the resolver has returned `resolved`. -/
def downWith {σ : Type} (x : External σ) (p : ComposeProject) (resolved : Resolved)
    (rt : σ) : Run σ (Result Unit) :=
  ({ forEach (downService x p) resolved.order.reverse rt with
     logged := resolved.logged ++
       (forEach (downService x p) resolved.order.reverse rt).logged }).bind fun res =>
    match res with
    | Result.ok _ => removeNetworks x p
    | Result.err e => Run.pure (Result.err e)
    | Result.crash e => Run.pure (Result.crash e)

/-- The method `Down`. -/
def Down {σ : Type} (x : External σ) (p : ComposeProject) (rt : σ) :
    Option (Run σ (Result Unit)) :=
  (getServiceOrder p).map fun resolved => downWith x p resolved rt

/-! ## Scaling controller (`Scale`) -/

/-- The expression `containers[i]`: `none` stands for the index-out-of-range panic. -/
def containerAt (containers : List Container) (i : Int) : Option Container :=
  if i < 0 then none else containers.get? i.toNat

/-- The body of the scale-down loop of `Scale`. -/
def scaleDownStep {σ : Type} (x : External σ) (containers : List Container) (i : Int)
    (rt : σ) : Run σ (Result Unit) :=
  match containerAt containers i with
  | none => Run.pure (Result.crash "index out of range") rt
  | some c => removeContainer x c.ID rt

/-- The method `Scale`, from the listing on. -/
def scaleTo {σ : Type} (x : External σ) (p : ComposeProject) (service : String)
    (svcConfig : ServiceSpec) (replicas : Int) (containers : List Container) (rt : σ) :
    Run σ (Result Unit) :=
  (if replicas > (containers.length : Int) then
      forEach (fun i => createContainer x p service svcConfig i)
        (intRange (containers.length : Int) replicas) rt
    else Run.pure (Result.ok ()) rt).bind fun res =>
    match res with
    | Result.err e => Run.pure (Result.err e)
    | Result.crash e => Run.pure (Result.crash e)
    | Result.ok _ => fun rt1 =>
      if replicas < (containers.length : Int) then
        forEach (scaleDownStep x containers)
          (intRange replicas (containers.length : Int)).reverse rt1
      else Run.pure (Result.ok ()) rt1

/-- The method `Scale`. -/
def Scale {σ : Type} (x : External σ) (p : ComposeProject) (service : String)
    (replicas : Int) (rt : σ) : Run σ (Result Unit) :=
  match p.Config.Services.lookup service with
  | none => Run.pure (Result.err ("service " ++ service ++ " not found")) rt
  | some svcConfig =>
    Run.tag service
      ((clientContainerList x (serviceFilters p service) rt).bind fun res =>
        match res with
        | Except.error e => Run.pure (Result.err e)
        | Except.ok containers => scaleTo x p service svcConfig replicas containers)

/-! ## Status aggregator (`Status`, `determineProjectStatus`) -/

/-- The struct `ContainerInfo`; `Created` is the Unix time that `time.Unix` wraps. -/
structure ContainerInfo where
  ID : String := ""
  Name : String := ""
  Status : String := ""
  Created : Int := 0
deriving DecidableEq

/-- The struct `ServiceInfo`; the defaults are the Go zero values. -/
structure ServiceInfo where
  Name : String := ""
  Status : String := ""
  Replicas : Int := 0
  DesiredState : String := ""
  Containers : List ContainerInfo := []
  Labels : List (String × String) := []
deriving DecidableEq

/-- The struct `ProjectStatus`; `Status` never sets the two time stamps, which are left
out. -/
structure ProjectStatus where
  Name : String
  Status : String
  Services : List (String × ServiceInfo)
deriving DecidableEq

/-- The method `determineProjectStatus`. -/
def determineProjectStatus (services : List (String × ServiceInfo)) : String :=
  if services.length = 0 then "not_created"
  else if (services.filter (fun kv => kv.2.Status = "running")).length = services.length then
    "running"
  else if (services.filter
      (fun kv => kv.2.Status = "exited" ∨ kv.2.Status = "dead")).length = services.length then
    "stopped"
  else "partial"

/-- The first loop of `Status`: one seeded entry per declared service. -/
def seedServices (names : List String) : List (String × ServiceInfo) :=
  names.foldl
    (fun services serviceName =>
      mapSet services serviceName
        { Name := serviceName, Status := "not_created", Replicas := 0, Containers := [] }) []

/-- The second loop of `Status`: folds the listed containers into the map; `none`
stands for the index-out-of-range panic of `c.Names[0]`. -/
def addContainers :
    List Container → List (String × ServiceInfo) → Option (List (String × ServiceInfo))
  | [], services => some services
  | c :: rest, services =>
    match c.Names with
    | [] => none
    | name0 :: _ =>
      addContainers rest
        (mapSet services ((c.Labels.lookup "com.docker.compose.service").getD "")
          { (services.lookup ((c.Labels.lookup "com.docker.compose.service").getD "")).getD {} with
            Replicas :=
              ((services.lookup
                ((c.Labels.lookup "com.docker.compose.service").getD "")).getD {}).Replicas + 1
            Status := c.State
            Containers :=
              ((services.lookup
                ((c.Labels.lookup "com.docker.compose.service").getD "")).getD {}).Containers ++
                [{ ID := c.ID, Name := trimSlash name0, Status := c.Status,
                   Created := c.Created }] })

/-- The method `Status`. -/
def Status {σ : Type} (x : External σ) (p : ComposeProject) (rt : σ) :
    Run σ (Result ProjectStatus) :=
  (clientContainerList x (projectFilters p) rt).bind fun res =>
    match res with
    | Except.error e => Run.pure (Result.err e)
    | Except.ok containers =>
      match addContainers containers (seedServices p.Config.serviceNames) with
      | none => Run.pure (Result.crash "index out of range")
      | some services =>
        Run.pure (Result.ok
          { Name := p.Name, Services := services, Status := determineProjectStatus services })

end Compose
namespace Compose

/-! ## A reference runtime

The runtime is outside the repository.  `sim` is a small deterministic stand-in, used
to run the engine on concrete inputs: containers and networks are kept in lists, a
successful create appends one entry carrying the labels of the request, a successful
remove deletes the entry with that id, and a listing returns, in list order, the entries
that carry every label of the filter.  `failing` scripts errors: a call it maps to
`some e` is answered with the error `e` and changes nothing. -/

/-- The state of the reference runtime. -/
structure SimState where
  containers : List Container := []
  networks : List NetworkResource := []
  next : Nat := 0
deriving DecidableEq

/-- A label filter `("label", "key=value")` accepts a label set that has that pair. -/
def matchesFilters (labels : List (String × String)) (f : Filters) : Bool :=
  f.all fun kv => labels.any fun l => l.1 ++ "=" ++ l.2 == kv.2

/-- Splits a character list at every occurrence of `sep`. -/
def splitAt (sep : Char) : List Char → List (List Char)
  | [] => [[]]
  | c :: rest =>
    if c = sep then [] :: splitAt sep rest
    else
      match splitAt sep rest with
      | [] => [[c]]
      | first :: others => (c :: first) :: others

/-- Splits `containerPort[/proto]`, then checks the port, as `nat.ParsePortSpec` does
for a single port. -/
def simParsePort (rawPort : String) (ip hostPort : List Char) (container : List Char) :
    Except String (List PortMapping) :=
  match splitAt '/' container with
  | [port] =>
    if port = [] then Except.error ("no port specified: " ++ rawPort ++ "<empty>")
    else if port.all Char.isDigit then
      Except.ok [{ Port := String.mk port ++ "/tcp",
                   Binding := { HostIP := String.mk ip, HostPort := String.mk hostPort } }]
    else Except.error ("invalid containerPort: " ++ String.mk port)
  | [port, proto] =>
    if port = [] then Except.error ("no port specified: " ++ rawPort ++ "<empty>")
    else if port.all Char.isDigit then
      Except.ok [{ Port := String.mk port ++ "/" ++ String.mk proto,
                   Binding := { HostIP := String.mk ip, HostPort := String.mk hostPort } }]
    else Except.error ("invalid containerPort: " ++ String.mk port)
  | _ => Except.error ("invalid containerPort: " ++ String.mk container)

/-- A stand-in for `nat.ParsePortSpec` on single ports, `[[ip:]hostPort:]containerPort[/proto]`:
it rejects a spec without a container port or with one that is not a number. -/
def simParsePortSpec (rawPort : String) : Except String (List PortMapping) :=
  match splitAt ':' rawPort.data with
  | [container] => simParsePort rawPort [] [] container
  | [hostPort, container] => simParsePort rawPort [] hostPort container
  | [ip, hostPort, container] => simParsePort rawPort ip hostPort container
  | _ => Except.error ("invalid port specification: " ++ rawPort)

/-- Sets the state of the container with the given id. -/
def setState (id : String) (state : String) (cs : List Container) : List Container :=
  cs.map fun c => if c.ID = id then { c with State := state } else c

/-- The reference runtime with the error script `failing`. -/
def sim (failing : Call → Option String) : External SimState where
  ParsePortSpec := simParsePortSpec
  ContainerList s all f :=
    match failing (Call.ContainerList all f) with
    | some e => (Except.error e, s)
    | none => (Except.ok (s.containers.filter fun c => matchesFilters c.Labels f), s)
  ContainerCreate s config hostConfig networking name :=
    match failing (Call.ContainerCreate config hostConfig networking name) with
    | some e => (Except.error e, s)
    | none =>
      (Except.ok ("c" ++ toString s.next),
       { s with
         containers := s.containers ++
           [{ ID := "c" ++ toString s.next, Names := ["/" ++ name], State := "created",
              Status := "Created", Created := 0, Labels := config.Labels }]
         next := s.next + 1 })
  ContainerStart s id :=
    match failing (Call.ContainerStart id) with
    | some e => (some e, s)
    | none =>
      if s.containers.any (fun c => c.ID = id) then
        (none, { s with containers := setState id "running" s.containers })
      else (some ("No such container: " ++ id), s)
  ContainerStop s id timeout :=
    match failing (Call.ContainerStop id timeout) with
    | some e => (some e, s)
    | none =>
      if s.containers.any (fun c => c.ID = id) then
        (none, { s with containers := setState id "exited" s.containers })
      else (some ("No such container: " ++ id), s)
  ContainerRemove s id removeVolumes force :=
    match failing (Call.ContainerRemove id removeVolumes force) with
    | some e => (some e, s)
    | none =>
      if s.containers.any (fun c => c.ID = id) then
        (none, { s with containers := s.containers.filter fun c => c.ID ≠ id })
      else (some ("No such container: " ++ id), s)
  ContainerLogs s id follow :=
    match failing (Call.ContainerLogs id follow) with
    | some e => (Except.error e, s)
    | none =>
      if s.containers.any (fun c => c.ID = id) then (Except.ok ("log of " ++ id ++ "\n"), s)
      else (Except.error ("No such container: " ++ id), s)
  NetworkCreate s name _driver labels :=
    match failing (Call.NetworkCreate name _driver labels) with
    | some e => (some e, s)
    | none =>
      if s.networks.any (fun n => n.Name = name) then
        (some ("network with name " ++ name ++ " already exists"), s)
      else
        (none,
         { s with
           networks := s.networks ++
             [{ ID := "n" ++ toString s.next, Name := name, Labels := labels }]
           next := s.next + 1 })
  NetworkList s f :=
    match failing (Call.NetworkList f) with
    | some e => (Except.error e, s)
    | none => (Except.ok (s.networks.filter fun n => matchesFilters n.Labels f), s)
  NetworkRemove s id :=
    match failing (Call.NetworkRemove id) with
    | some e => (some e, s)
    | none =>
      if s.networks.any (fun n => n.ID = id) then
        (none, { s with networks := s.networks.filter fun n => n.ID ≠ id })
      else (some ("No such network: " ++ id), s)

/-- The script without errors. -/
def noFailure : Call → Option String := fun _ => none

/-- The reference runtime in which no call is scripted to fail. -/
def simOk : External SimState := sim noFailure

end Compose
namespace Compose

/-! ## Vocabulary for statements about the issued calls -/

/-- The call is a `ContainerCreate`. -/
def Call.isCreate : Call → Bool
  | Call.ContainerCreate _ _ _ _ => true
  | _ => false

/-- The call is a `ContainerStart`. -/
def Call.isStart : Call → Bool
  | Call.ContainerStart _ => true
  | _ => false

/-- The call is a `ContainerStop`. -/
def Call.isStop : Call → Bool
  | Call.ContainerStop _ _ => true
  | _ => false

/-- The call is a `ContainerRemove`. -/
def Call.isRemove : Call → Bool
  | Call.ContainerRemove _ _ _ => true
  | _ => false

/-- The container id that a start, stop, remove or logs call addresses. -/
def Call.target : Call → Option String
  | Call.ContainerStart id => some id
  | Call.ContainerStop id _ => some id
  | Call.ContainerRemove id _ _ => some id
  | Call.ContainerLogs id _ => some id
  | _ => none

/-- The call is a create or a start. -/
def Event.provisions (e : Event) : Bool := e.call.isCreate || e.call.isStart

/-- The call is a stop or a remove. -/
def Event.tearsDown (e : Event) : Bool := e.call.isStop || e.call.isRemove

/-- The client answered the call with an error. -/
def Event.failed (e : Event) : Bool :=
  match e.answer with
  | Answer.failed _ => true
  | _ => false

/-- The create request `createContainer` issues for instance `index` of `service` once
the port strings have parsed to `ports`. -/
def createCall (p : ComposeProject) (service : String) (config : ServiceSpec)
    (ports : List (String × List PortBinding) × List String) (index : Int) : Call :=
  Call.ContainerCreate
    { Image := config.Image, Cmd := config.Command, Env := mapToEnvSlice config.Environment,
      ExposedPorts := ports.2, Labels := containerLabels p service index }
    { PortBindings := ports.1, Binds := config.Volumes }
    { EndpointsConfig := endpointKeys p }
    (containerName p service index)

/-- A successful create and start pair for instance `index`: the create is answered with
`id` and the start addresses `id`. -/
def provisionEvents (p : ComposeProject) (service : String) (config : ServiceSpec)
    (ports : List (String × List PortBinding) × List String) (index : Int) (id : String) :
    List Event :=
  [{ svc := some service, call := createCall p service config ports index,
     answer := Answer.created id },
   { svc := some service, call := Call.ContainerStart id, answer := Answer.done }]

/-- A successful stop (30 seconds of grace) and forced remove pair for container `c`. -/
def removalEvents (service : String) (removeVolumes : Bool) (c : Container) : List Event :=
  [{ svc := some service, call := Call.ContainerStop c.ID 30, answer := Answer.done },
   { svc := some service, call := Call.ContainerRemove c.ID removeVolumes true,
     answer := Answer.done }]

/-- The entry the first loop of `Status` stores for a declared service. -/
def seededInfo (serviceName : String) : ServiceInfo :=
  { Name := serviceName, Status := "not_created", Replicas := 0, Containers := [] }

end Compose
namespace Compose

/-- The example project of the specification: `web` with two replicas, `db` depending
on `migrate`, and `migrate`. -/
def exampleConfig : ComposeConfig :=
  { Services := [("web", { Image := "nginx", Deploy := some { Replicas := 2 } }),
                 ("db", { Image := "postgres", DependsOn := ["migrate"] }),
                 ("migrate", { Image := "migrator" })] }

/-- The example project. -/
def exampleProject : ComposeProject := { Name := "demo", Config := exampleConfig }

/-- A rank for the example project: `db` above everything else. -/
def exampleRank (name : String) : Nat := if name = "db" then 1 else 0

end Compose

namespace Compose

/-- A container of the example project, as the reference runtime lists it. -/
def exampleContainer (id : String) (service : String) (index : Int) : Container :=
  { ID := id, Names := ["/" ++ containerName exampleProject service index], State := "running",
    Status := "Up 2 minutes", Created := 0,
    Labels := containerLabels exampleProject service index }

/-- A runtime state with three `web` containers and one `db` container.  The listing
order of the `web` containers is not the order of their instance indices. -/
def exampleState : SimState :=
  { containers := [exampleContainer "c7" "web" 2, exampleContainer "c3" "db" 0,
                   exampleContainer "c5" "web" 0, exampleContainer "c6" "web" 1],
    next := 8 }

end Compose

namespace Compose

/-- A project with one network and one service, which publishes a port string that is
not a port: the container port of "8080:http" is not a number. -/
def badPortProject : ComposeProject :=
  { Name := "demo"
    Config := { Services := [("web", { Image := "nginx", Ports := ["8080:http"] })],
                Networks := [("backend", {})] } }

end Compose

namespace Compose

/-- The state of the reference runtime after `Up` of the example project from the
empty state: two `web` containers, then `migrate`, then `db`, all running. -/
def exampleUpState : SimState :=
  { containers :=
      [{ ID := "c0", Names := ["/demo_web_0"], State := "running", Status := "Created",
         Labels := containerLabels exampleProject "web" 0 },
       { ID := "c1", Names := ["/demo_web_1"], State := "running", Status := "Created",
         Labels := containerLabels exampleProject "web" 1 },
       { ID := "c2", Names := ["/demo_migrate_0"], State := "running", Status := "Created",
         Labels := containerLabels exampleProject "migrate" 0 },
       { ID := "c3", Names := ["/demo_db_0"], State := "running", Status := "Created",
         Labels := containerLabels exampleProject "db" 0 }],
    next := 4 }

end Compose

namespace Compose

/-- The script that fails the start of the container with id `c2`. -/
def failStartC2 : Call → Option String :=
  fun call => if call = Call.ContainerStart "c2" then some "boom" else none

end Compose
namespace Compose

/-- A runtime model for the containers that the filter `f` selects, as far as `Scale`
can observe it.  `ids rt` are the ids of the selected containers in state `rt`.  A listing
answers with the selected containers and changes nothing; a successful create whose labels
satisfy `f` adds one container to the selection; a successful start or stop leaves the
selection as it is; a successful remove deletes the container with that id from it.
Nothing else changes the state: the runtime is a function of the calls it receives. -/
structure ServiceModel {σ : Type} (x : External σ) (f : Filters) (ids : σ → List String) :
    Prop where
  list : ∀ rt, ∃ cs, x.ContainerList rt true f = (Except.ok cs, rt) ∧
    cs.map Container.ID = ids rt
  create : ∀ rt config hostConfig networking name id rt',
    x.ContainerCreate rt config hostConfig networking name = (Except.ok id, rt') →
    matchesFilters config.Labels f = true → (ids rt').length = (ids rt).length + 1
  start : ∀ rt id rt', x.ContainerStart rt id = (none, rt') → ids rt' = ids rt
  stop : ∀ rt id timeout rt', x.ContainerStop rt id timeout = (none, rt') → ids rt' = ids rt
  remove : ∀ rt id removeVolumes force rt',
    x.ContainerRemove rt id removeVolumes force = (none, rt') →
    ids rt' = (ids rt).filter (fun i => i ≠ id)

/-- The ids of the containers that `f` selects in a state of the reference runtime. -/
def simIds (f : Filters) (s : SimState) : List String :=
  (s.containers.filter fun c => matchesFilters c.Labels f).map Container.ID

end Compose

namespace Compose

/-- A create or start that the client answered with an error. -/
def Event.failedProvision (e : Event) : Bool := e.provisions && e.failed

/-- Fail-fast: a failed create or start can only be the last call of the run, and a run
that holds one returns an error. -/
def FailLast {σ : Type} (r : Run σ (Result Unit)) : Prop :=
  (∀ e ∈ r.events.dropLast, e.failedProvision = false) ∧
  ((∃ e ∈ r.events, e.failedProvision = true) → ∃ msg, r.val = Result.err msg)

end Compose
namespace Compose

/-! ## Vocabulary for the second group of statements -/

/-- The call is a container or network listing. -/
def Call.isList : Call → Bool
  | Call.ContainerList _ _ => true
  | Call.NetworkList _ => true
  | _ => false

/-- The network attachments of a create request: the keys of its `EndpointsConfig`. -/
def Call.attachments : Call → List String
  | Call.ContainerCreate _ _ networking _ => networking.EndpointsConfig
  | _ => []

/-- The name `n` lies on a dependency cycle. -/
def OnCycle (cfg : ComposeConfig) (n : String) : Prop :=
  Relation.TransGen (DependsOn cfg) n n

/-- The name `n` lies on a dependency cycle or transitively depends on a name that
does. -/
def Entangled (cfg : ComposeConfig) (n : String) : Prop :=
  OnCycle cfg n ∨ ∃ m, Relation.TransGen (DependsOn cfg) n m ∧ OnCycle cfg m

/-- A project with one ordinary and one external network. -/
def externalNetProject : ComposeProject :=
  { Name := "demo"
    Config := { Services := [("web", { Image := "nginx" })],
                Networks := [("backend", {}), ("shared", { External := true })] } }

end Compose

namespace Compose

/-- The script that fails the stop of `c3` and the remove of `c0`. -/
def failStopC3RemoveC0 : Call → Option String :=
  fun call =>
    if call = Call.ContainerStop "c3" 30 then some "cannot stop"
    else if call = Call.ContainerRemove "c0" false true then some "cannot remove"
    else none

end Compose

namespace Compose

/-- The expression `c.Labels["com.docker.compose.service"]` of `Status`: the empty
string when the label is absent. -/
def serviceLabel (c : Container) : String :=
  (c.Labels.lookup "com.docker.compose.service").getD ""

/-- The `ContainerInfo` that `Status` appends for a listed container with a name. -/
def containerInfoOf (c : Container) : ContainerInfo :=
  { ID := c.ID, Name := trimSlash (c.Names.headD ""), Status := c.Status, Created := c.Created }

/-- The listed containers that carry the service label `k`, in listing order. -/
def labeledFor (k : String) (cs : List Container) : List Container :=
  cs.filter (fun c => serviceLabel c = k)

/-- The entry `base` after the second loop of `Status` has met the containers
`matching`: one replica and one `ContainerInfo` more per container, and the state of
the last one as status. -/
def applyContainers (base : ServiceInfo) (matching : List Container) : ServiceInfo :=
  { base with
    Replicas := base.Replicas + (matching.length : Int)
    Status := (matching.getLast?.map Container.State).getD base.Status
    Containers := base.Containers ++ matching.map containerInfoOf }

/-- A listing in which the project's only `web` containers are a running one followed
by an exited one. -/
def mixedState : SimState :=
  { containers :=
      [{ ID := "c0", Names := ["/demo_web_0"], State := "running", Status := "Up 5 minutes",
         Labels := containerLabels exampleProject "web" 0 },
       { ID := "c1", Names := ["/demo_web_1"], State := "exited", Status := "Exited (0)",
         Labels := containerLabels exampleProject "web" 1 },
       { ID := "c2", Names := ["/demo_migrate_0"], State := "running", Status := "Up 5 minutes",
         Labels := containerLabels exampleProject "migrate" 0 },
       { ID := "c3", Names := ["/demo_db_0"], State := "running", Status := "Up 5 minutes",
         Labels := containerLabels exampleProject "db" 0 }],
    next := 4 }

/-- A listing with a `web` container that has no name. -/
def namelessState : SimState :=
  { containers :=
      [{ ID := "c0", Names := [], State := "running", Status := "Up 5 minutes",
         Labels := containerLabels exampleProject "web" 0 }],
    next := 1 }

end Compose

namespace Compose

/-- The name `n` is on a cycle of `graph` or reaches one: some `m` that `n` reaches in
zero or more steps reaches itself in one or more. -/
def ReachesCycle (graph : String → List String) (n : String) : Prop :=
  ∃ m, Relation.ReflTransGen (fun a b => b ∈ graph a) n m ∧
    Relation.TransGen (fun a b => b ∈ graph a) m m

/-- The loop over the dependencies of `m` stopped at one of them: the dependencies in
front of it are visited and it is marked in `temp`. -/
def FailedAt (graph : String → List String) (s : VisitState) (m : String) : Prop :=
  ∃ l1 d l2, graph m = l1 ++ d :: l2 ∧ (∀ x ∈ l1, s.visited x = true) ∧ s.temp d = true

/-- A mark that a failed visit left behind in `temp`. -/
def Polluted (graph : String → List String) (s : VisitState) (t : String) : Prop :=
  ReachesCycle graph t ∧ FailedAt graph s t

/-- The names on which the closure `visit` is ever called: the keys of the map, and the
dependencies of such a name up to and including the first one that reaches a cycle. -/
inductive Entered (graph : String → List String) (names : List String) : String → Prop where
  | root {n : String} : n ∈ names → Entered graph names n
  | dep {m d : String} {l1 l2 : List String} : Entered graph names m →
      graph m = l1 ++ d :: l2 → (∀ x ∈ l1, ¬ ReachesCycle graph x) → Entered graph names d

/-- What a call of `visit` guarantees about cycles, for the marks `S` of the calls that
are still running. -/
structure CyclePost (graph : String → List String) (names : List String)
    (S : String → Prop) (node : String) (s : VisitState) (b : Bool) (s' : VisitState) :
    Prop where
  good : Good graph s'
  ext : Ext s s'
  ok_temp : b = true → s'.temp = s.temp
  ok_visited : b = true → s'.visited node = true
  fail_cycle : b = false → ReachesCycle graph node
  fail_temp : b = false → s'.temp node = true
  marks : ∀ t, s'.temp t = true → S t ∨ Polluted graph s' t
  entered : ∀ n, s'.visited n = true ∨ s'.temp n = true → Entered graph names n

end Compose

namespace Compose

/-- The line `getServiceOrder` logs when the top-level visit of `name` reports a
cycle. -/
def cycleWarning (name : String) : String :=
  "Warning: circular dependency detected in service " ++ name

/-- A project with a mutual pair `a`, `b`, a service `c` that depends on the pair, a
service `s` that depends on itself, and two services `d`, `e` clear of every cycle. -/
def cyclicProject : ComposeProject :=
  { Name := "demo"
    Config := { Services := [("c", { DependsOn := ["a"] }), ("a", { DependsOn := ["b"] }),
                             ("e", { DependsOn := ["d"] }), ("b", { DependsOn := ["a"] }),
                             ("s", { DependsOn := ["s"] }), ("d", {})] } }

/-- Two independent services, in one iteration order of the map. -/
def twoServices : ComposeProject :=
  { Name := "demo", Config := { Services := [("a", {}), ("b", {})] } }

/-- The same two services in the other iteration order of the map. -/
def twoServicesSwapped : ComposeProject :=
  { Name := "demo", Config := { Services := [("b", {}), ("a", {})] } }

end Compose

namespace Compose

/-- A project whose only service depends on `cache`, which is not declared. -/
def undeclaredDepProject : ComposeProject :=
  { Name := "demo"
    Config := { Services := [("web", { Image := "nginx", DependsOn := ["cache"] })] } }

end Compose
namespace Compose

/-! ## Vocabulary for the third group of statements -/

/-- The call carries the identity of instance `i` of service `s`: it is a create request
whose label map gives the project name, `s` and the decimal string of `i` under the three
compose keys, and whose container name is the project name, `s` and that string joined
by underscores. -/
def CarriesIdentity (p : ComposeProject) (s : String) (i : Int) (call : Call) : Prop :=
  ∃ config hostConfig networking,
    call = Call.ContainerCreate config hostConfig networking
      (p.Name ++ "_" ++ s ++ "_" ++ toString i) ∧
    config.Labels.lookup "com.docker.compose.project" = some p.Name ∧
    config.Labels.lookup "com.docker.compose.service" = some s ∧
    config.Labels.lookup "com.docker.compose.instance" = some (toString i)

end Compose
namespace Compose

/-- The call is a `NetworkCreate`. -/
def Call.isNetworkCreate : Call → Bool
  | Call.NetworkCreate _ _ _ => true
  | _ => false

/-- The script that answers the creation of `demo_backend` with a conflict and the
creation of `demo_front` with a daemon error. -/
def failNetworks : Call → Option String :=
  fun call =>
    if call.isNetworkCreate then
      (if call = Call.NetworkCreate "demo_backend" "bridge"
          [("com.docker.compose.project", "demo"), ("com.docker.compose.network", "backend")]
        then some "network with name demo_backend already exists"
        else some "daemon unreachable")
    else none

/-- A project with the networks `backend`, `shared` (external) and `front`. -/
def threeNetProject : ComposeProject :=
  { Name := "demo"
    Config := { Services := [("web", { Image := "nginx" })],
                Networks := [("backend", {}), ("shared", { External := true }),
                             ("front", {})] } }

end Compose
namespace Compose

/-- The script that fails the stop of the container with id `c5`. -/
def failStopC5 : Call → Option String :=
  fun call => if call = Call.ContainerStop "c5" 30 then some "cannot stop" else none

/-- The stop of `c5` on behalf of `web`, answered with the scripted error. -/
def failedStopC5 : Event :=
  { svc := some "web", call := Call.ContainerStop "c5" 30, answer := Answer.failed "cannot stop" }

end Compose
namespace Compose

/-! ## Log streaming (`Logs`) -/

/-- The filter `Logs` builds: the project label, and the service label when a service is
named. -/
def logsFilters (p : ComposeProject) (service : String) : Filters :=
  ("label", "com.docker.compose.project=" ++ p.Name) ::
    (if service ≠ "" then [("label", "com.docker.compose.service=" ++ service)] else [])

/-- The loop of `Logs`: asks for the log stream of each listed container and appends it
to `readers`; a container whose request fails is passed over. -/
def collectLogs {σ : Type} (x : External σ) (follow : Bool) :
    List Container → List String → σ → Run σ (List String)
  | [], readers, rt => Run.pure readers rt
  | c :: rest, readers, rt =>
    (clientContainerLogs x c.ID follow rt).bind fun res =>
      match res with
      | Except.error _ => collectLogs x follow rest readers
      | Except.ok logs => collectLogs x follow rest (readers ++ [logs])

/-- The reader `io.NopCloser(io.MultiReader(readers...))`, as the content a caller reads
from it: the contents of the readers one after the other.  A stream is its content, a
finite string. -/
def multiReader (readers : List String) : String :=
  String.join readers

/-- The method `Logs`. -/
def Logs {σ : Type} (x : External σ) (p : ComposeProject) (service : String) (follow : Bool)
    (rt : σ) : Run σ (Result String) :=
  (clientContainerList x (logsFilters p service) rt).bind fun res =>
    match res with
    | Except.error e => Run.pure (Result.err e)
    | Except.ok containers => fun rt1 =>
      (collectLogs x follow containers [] rt1).bind fun readers =>
        Run.pure (Result.ok (multiReader readers))

/-- What an answered log request contributes to the combined stream: its content, and
nothing when the request failed. -/
def Answer.content : Answer → String
  | Answer.stream s => s
  | _ => ""

/-- The `web` containers of `exampleUpState`, as the reference runtime lists them. -/
def exampleWebListing : List Container :=
  [{ ID := "c0", Names := ["/demo_web_0"], State := "running", Status := "Created",
     Labels := containerLabels exampleProject "web" 0 },
   { ID := "c1", Names := ["/demo_web_1"], State := "running", Status := "Created",
     Labels := containerLabels exampleProject "web" 1 }]

/-- The script that fails the log request for `c1`. -/
def failLogsC1 : Call → Option String :=
  fun call => if call.target = some "c1" then some "no logs" else none

end Compose
namespace Compose

/-- A listing with a container of a service that the example project does not declare
(`cache`) and a container of the project without a service label. -/
def orphanState : SimState :=
  { containers :=
      [{ ID := "c0", Names := ["/demo_cache_0"], State := "running", Status := "Up 5 minutes",
         Labels := containerLabels exampleProject "cache" 0 },
       { ID := "c1", Names := ["/adhoc"], State := "running", Status := "Up 5 minutes",
         Labels := [("com.docker.compose.project", "demo")] }],
    next := 2 }

/-- The keys of the service map of a status report; nil when `Status` did not return
one. -/
def statusKeys (res : Result ProjectStatus) : List String :=
  match res with
  | Result.ok st => st.Services.map Prod.fst
  | _ => []

end Compose
namespace Compose

/-- The script that fails the listing of the containers of `migrate`. -/
def failListMigrate : Call → Option String :=
  fun call =>
    if call = Call.ContainerList true (serviceFilters exampleProject "migrate") then some "boom"
    else none

/-- The script that fails the listing of the networks. -/
def failNetworkList : Call → Option String :=
  fun call => if call = Call.NetworkList (projectFilters exampleProject) then some "boom" else none

end Compose
namespace Compose

/-! ## The project lock (`ComposeProject.mu`)

The lock calls of the five public methods, and a model of `sync.RWMutex` and of
goroutines that call the methods on one `ComposeProject` value. -/

/-- The public methods of `ComposeProject`. -/
inductive Operation where
  | Up
  | Down
  | Scale
  | Status
  | Logs
deriving DecidableEq

/-- The two ways to hold a `sync.RWMutex`: `Lock`/`Unlock` and `RLock`/`RUnlock`. -/
inductive LockMode where
  | write
  | read
deriving DecidableEq

/-- The lock call at the head of the method, whose counterpart is deferred to the return
of the method: `p.mu.Lock()` in `Up`, `Down` and `Scale`, `p.mu.RLock()` in `Status`,
and no call in `Logs`. -/
def Operation.acquires : Operation → Option LockMode
  | Operation.Up => some LockMode.write
  | Operation.Down => some LockMode.write
  | Operation.Scale => some LockMode.write
  | Operation.Status => some LockMode.read
  | Operation.Logs => none

/-- The method issues create, start, stop or remove requests: `Up`, `Down` and `Scale`
do, `Status` and `Logs` only list and read. -/
def Operation.mutates : Operation → Bool
  | Operation.Up => true
  | Operation.Down => true
  | Operation.Scale => true
  | Operation.Status => false
  | Operation.Logs => false

/-- The state of a `sync.RWMutex`: whether it is held for writing, and by how many
readers it is held. -/
structure RWMutex where
  writer : Bool := false
  readers : Nat := 0
deriving DecidableEq

/-- The call `mu.Lock()`: it returns only when the lock is held by nobody; `none` means
that the caller is blocked. -/
def RWMutex.lock (mu : RWMutex) : Option RWMutex :=
  if mu.writer = false ∧ mu.readers = 0 then some { mu with writer := true } else none

/-- The call `mu.Unlock()`. -/
def RWMutex.unlock (mu : RWMutex) : RWMutex :=
  { mu with writer := false }

/-- The call `mu.RLock()`: it returns only when the lock is not held for writing; `none`
means that the caller is blocked. -/
def RWMutex.rlock (mu : RWMutex) : Option RWMutex :=
  if mu.writer = false then some { mu with readers := mu.readers + 1 } else none

/-- The call `mu.RUnlock()`. -/
def RWMutex.runlock (mu : RWMutex) : RWMutex :=
  { mu with readers := mu.readers - 1 }

/-- Where a goroutine stands: before the call of its method, inside it (past the lock call
at its head, before its return), or after it. -/
inductive Phase where
  | idle
  | running
  | returned
deriving DecidableEq

/-- A goroutine that calls one method once. -/
structure Thread where
  op : Operation
  phase : Phase
deriving DecidableEq

/-- One step of a goroutine.  An idle one enters its method, which takes the lock call at
its head (`none` when that call blocks); a running one returns, which runs the deferred
unlock; a returned one has no step. -/
def stepThread (t : Thread) (mu : RWMutex) : Option (Thread × RWMutex) :=
  match t.phase with
  | Phase.idle =>
    match t.op.acquires with
    | some LockMode.write => mu.lock.map fun mu1 => ({ t with phase := Phase.running }, mu1)
    | some LockMode.read => mu.rlock.map fun mu1 => ({ t with phase := Phase.running }, mu1)
    | none => some ({ t with phase := Phase.running }, mu)
  | Phase.running =>
    match t.op.acquires with
    | some LockMode.write => some ({ t with phase := Phase.returned }, mu.unlock)
    | some LockMode.read => some ({ t with phase := Phase.returned }, mu.runlock)
    | none => some ({ t with phase := Phase.returned }, mu)
  | Phase.returned => none

/-- The step of the goroutine at position `i`. -/
def stepAt : List Thread → Nat → RWMutex → Option (List Thread × RWMutex)
  | [], _, _ => none
  | t :: ts, 0, mu => (stepThread t mu).map fun r => (r.1 :: ts, r.2)
  | t :: ts, i + 1, mu => (stepAt ts i mu).map fun r => (t :: r.1, r.2)

/-- The goroutines run interleaved: `schedule` names the goroutine that takes each step.
The result is `none` when the schedule asks a goroutine for a step it cannot take. -/
def runSchedule : List Nat → List Thread × RWMutex → Option (List Thread × RWMutex)
  | [], s => some s
  | i :: rest, s =>
    match stepAt s.1 i s.2 with
    | none => none
    | some s1 => runSchedule rest s1

/-- One idle goroutine per operation, and the lock free. -/
def initialThreads (ops : List Operation) : List Thread × RWMutex :=
  (ops.map fun o => { op := o, phase := Phase.idle }, {})

/-- The goroutine is inside its method. -/
def Thread.isRunning (t : Thread) : Bool := decide (t.phase = Phase.running)

/-- A mutating operation overlaps another operation: some goroutine is inside a mutating
method while at least two goroutines are inside a method. -/
def Overlap (ts : List Thread) : Prop :=
  1 ≤ ts.countP (fun t => t.isRunning && t.op.mutates) ∧ 2 ≤ ts.countP Thread.isRunning

instance (ts : List Thread) : Decidable (Overlap ts) := by
  unfold Overlap
  exact inferInstance

/-- The goroutine is inside a method that holds the lock for writing. -/
def Thread.holdsWrite (t : Thread) : Bool :=
  t.isRunning && decide (t.op.acquires = some LockMode.write)

/-- The goroutine is inside a method that holds the lock for reading. -/
def Thread.holdsRead (t : Thread) : Bool :=
  t.isRunning && decide (t.op.acquires = some LockMode.read)

/-- The lock agrees with the goroutines: it counts the readers that are inside their
method, it is held for writing exactly when one writer is inside its method, and then no
reader is. -/
structure LockInv (ts : List Thread) (mu : RWMutex) : Prop where
  readers : mu.readers = ts.countP Thread.holdsRead
  held : mu.writer = true → ts.countP Thread.holdsWrite = 1 ∧ ts.countP Thread.holdsRead = 0
  free : mu.writer = false → ts.countP Thread.holdsWrite = 0

end Compose
namespace Compose

/-! ## Demultiplexing of an exec stream (`stdCopy`, `backend/docker/exec.go`) -/

/-- The `error` of a `Read`: `io.EOF` or another error. -/
inductive ReadError where
  | eof
  | other (msg : String)
deriving DecidableEq

/-- What one call `src.Read(buf)` returns: the bytes it put into `buf[0:nr]`, so that `nr`
is their number, and its `error`.  A read returns at most `len(buf)` = 32*1024 bytes. -/
structure ReadResult where
  data : List Nat
  err : Option ReadError := none
deriving DecidableEq

/-- An `io.Writer`, as `stdCopy` sees it: for the bytes passed to `Write`, the number of
bytes written and the `error`. -/
abbrev Writer := List Nat → Nat × Option String

/-- A writer that takes every byte. -/
def writeAll : Writer := fun p => (p.length, none)

/-- The two destinations. -/
inductive Stream where
  | stdout
  | stderr
deriving DecidableEq

/-- The variable `written` and the bytes that reached each writer. -/
structure CopyState where
  written : Int := 0
  stdout : List Nat := []
  stderr : List Nat := []
deriving DecidableEq

/-- What `stdCopy` returns, `(written, err)`, with the bytes that reached the writers. -/
structure CopyResult where
  state : CopyState
  err : Option String
deriving DecidableEq

/-- The choice of `dst`: `stdout` when `buf[0] == 1`, `stderr` when `buf[0] == 2`, and
nil otherwise. -/
def chooseDst (b0 : Nat) : Option Stream :=
  if b0 = 1 then some Stream.stdout else if b0 = 2 then some Stream.stderr else none

/-- The slice expression `buf[8:nr]` on a buffer that holds `data` at its front: the
bytes at positions `8 .. nr-1`; `none` stands for the run-time panic of a slice
expression whose low bound exceeds its high bound. -/
def sliceFrom8 (data : List Nat) (nr : Nat) : Option (List Nat) :=
  if 8 ≤ nr then some ((data.take nr).drop 8) else none

/-- The statements under `if nr > 0`: the state after them, and the `error` of the write
when the loop breaks on it. -/
def copyChunk (stdout stderr : Writer) (data : List Nat) (st : CopyState) :
    Result (CopyState × Option String) :=
  match data with
  | [] => Result.ok (st, none)
  | b0 :: _ =>
    match chooseDst b0 with
    | none => Result.ok (st, none)
    | some dst =>
      match sliceFrom8 data data.length with
      | none => Result.crash "slice bounds out of range"
      | some payload =>
        match dst with
        | Stream.stdout =>
          Result.ok
            ({ st with
               written := if (stdout payload).1 > 0 then st.written + ((stdout payload).1 : Int)
                 else st.written
               stdout := st.stdout ++ payload.take (stdout payload).1 },
             (stdout payload).2)
        | Stream.stderr =>
          Result.ok
            ({ st with
               written := if (stderr payload).1 > 0 then st.written + ((stderr payload).1 : Int)
                 else st.written
               stderr := st.stderr ++ payload.take (stderr payload).1 },
             (stderr payload).2)

/-- The loop of `stdCopy` over the reads that `src` answers with; when they are used up,
`src` answers with no bytes and `io.EOF`. -/
def stdCopyLoop (stdout stderr : Writer) : List ReadResult → CopyState → Result CopyResult
  | [], st => Result.ok { state := st, err := none }
  | r :: rest, st =>
    match copyChunk stdout stderr r.data st with
    | Result.crash msg => Result.crash msg
    | Result.err msg => Result.err msg
    | Result.ok (st1, some ew) => Result.ok { state := st1, err := some ew }
    | Result.ok (st1, none) =>
      match r.err with
      | some ReadError.eof => Result.ok { state := st1, err := none }
      | some (ReadError.other msg) => Result.ok { state := st1, err := some msg }
      | none => stdCopyLoop stdout stderr rest st1

/-- The function `stdCopy`. -/
def stdCopy (stdout stderr : Writer) (reads : List ReadResult) : Result CopyResult :=
  stdCopyLoop stdout stderr reads {}

end Compose
namespace Compose

/-! ## Sequences of `Scale` calls and the listing order -/

/-- The reference runtime made strict in the two ways of the Docker daemon that bear on
the instance names: it refuses to create a container without image and command, and it
refuses a container name that is in use.  Its listing returns the newest container
first. -/
def simStrict : External SimState :=
  { simOk with
    ContainerList := fun s _ f =>
      (Except.ok (s.containers.filter fun c => matchesFilters c.Labels f).reverse, s)
    ContainerCreate := fun s config hostConfig networking name =>
      if config.Image = "" ∧ config.Cmd = [] then (Except.error "No command specified", s)
      else if s.containers.any (fun c => c.Names = ["/" ++ name]) then
        (Except.error ("Conflict. The container name /" ++ name ++ " is already in use"), s)
      else simOk.ContainerCreate s config hostConfig networking name }

/-- A sequence of `Scale` calls for one service, each continuing from the runtime state
the one before left; `none` when one of them does not return nil. -/
def scaleSeq {σ : Type} (x : External σ) (p : ComposeProject) (service : String) :
    List Int → σ → Option σ
  | [], rt => some rt
  | replicas :: rest, rt =>
    if (Scale x p service replicas rt).val = Result.ok () then
      scaleSeq x p service rest (Scale x p service replicas rt).rt
    else none

/-- The instance-index labels of the containers of `service` that the runtime lists. -/
def liveInstances {σ : Type} (x : External σ) (p : ComposeProject) (service : String)
    (rt : σ) : List (Option String) :=
  match (x.ContainerList rt true (serviceFilters p service)).1 with
  | Except.ok cs => cs.map fun c => c.Labels.lookup "com.docker.compose.instance"
  | Except.error _ => []

/-- The state the strict runtime reaches from no containers through `Scale` of `web` to
3 and 2: the instances 1 and 2, the listing position 2 having been instance 0. -/
def strictReuseState : SimState :=
  { containers :=
      [{ ID := "c1", Names := ["/demo_web_1"], State := "running", Status := "Created",
         Labels := containerLabels exampleProject "web" 1 },
       { ID := "c2", Names := ["/demo_web_2"], State := "running", Status := "Created",
         Labels := containerLabels exampleProject "web" 2 }],
    next := 3 }

end Compose
namespace Compose

/-- The three ways a run of `Down` ends.  Every listing succeeded: `Down` returns nil,
every service of the order was listed and the networks were listed.  The network listing
failed: every service of the order was listed and `Down` returns the error of the
network listing.  The listing for a service `s` failed: the services the loop met before
`s` were listed and `Down` returns the error of that listing, wrapped. -/
def DownOutcome {σ : Type} (x : External σ) (p : ComposeProject) (order : List String)
    (r : Run σ (Result Unit)) : Prop :=
  (r.val = Result.ok () ∧
    (∀ e ∈ r.events, e.call.isList = true → e.failed = false) ∧
    (∀ s ∈ order, ∃ rt' cs,
      (x.ContainerList rt' true (serviceFilters p s)).1 = Except.ok cs ∧
      Event.mk (some s) (Call.ContainerList true (serviceFilters p s))
        (Answer.containers cs) ∈ r.events) ∧
    ∃ rt' ns, (x.NetworkList rt' (projectFilters p)).1 = Except.ok ns ∧
      Event.mk none (Call.NetworkList (projectFilters p)) (Answer.networks ns) ∈ r.events) ∨
  (∃ msg pre rt', (x.NetworkList rt' (projectFilters p)).1 = Except.error msg ∧
    r.val = Result.err msg ∧
    r.events = pre ++
      [Event.mk none (Call.NetworkList (projectFilters p)) (Answer.failed msg)] ∧
    (∀ e ∈ pre, e.call.isList = true → e.failed = false) ∧
    ∀ s ∈ order, ∃ rt'' cs,
      (x.ContainerList rt'' true (serviceFilters p s)).1 = Except.ok cs ∧
      Event.mk (some s) (Call.ContainerList true (serviceFilters p s))
        (Answer.containers cs) ∈ pre) ∨
  ∃ before s after msg pre rt', order = before ++ s :: after ∧
    (x.ContainerList rt' true (serviceFilters p s)).1 = Except.error msg ∧
    r.events = pre ++
      [Event.mk (some s) (Call.ContainerList true (serviceFilters p s)) (Answer.failed msg)] ∧
    r.val = Result.err ("failed to stop service " ++ s ++ ": " ++ msg) ∧
    (∀ e ∈ pre, (e.call.isList = true → e.failed = false) ∧ ∃ s' ∈ after, e.svc = some s') ∧
    ∀ s' ∈ after, ∃ rt'' cs,
      (x.ContainerList rt'' true (serviceFilters p s')).1 = Except.ok cs ∧
      Event.mk (some s') (Call.ContainerList true (serviceFilters p s'))
        (Answer.containers cs) ∈ pre

end Compose
namespace Compose

/-! ## The dependency resolver -/

theorem Ext.refl (s : VisitState) : Ext s s :=
  ⟨fun _ h => h, fun _ h => h, ⟨[], (List.append_nil _).symm⟩⟩

theorem Ext.trans {s1 s2 s3 : VisitState} (h12 : Ext s1 s2) (h23 : Ext s2 s3) : Ext s1 s3 :=
  ⟨fun n h => h23.visited_mono n (h12.visited_mono n h),
   fun n h => h23.temp_mono n (h12.temp_mono n h),
   by
     obtain ⟨e1, h1⟩ := h12.order_ext
     obtain ⟨e2, h2⟩ := h23.order_ext
     exact ⟨e1 ++ e2, by rw [h2, h1, List.append_assoc]⟩⟩

theorem lookup_mem_keys {β : Type} (l : List (String × β)) (k : String) (v : β)
    (h : l.lookup k = some v) : k ∈ l.map Prod.fst := by
  induction l with
  | nil => simp at h
  | cons kv rest ih =>
    obtain ⟨k', v'⟩ := kv
    by_cases hk : k = k'
    · simp [hk]
    · have hb : (k == k') = false := by simpa using hk
      rw [List.lookup_cons, hb] at h
      simp only [List.map_cons, List.mem_cons]
      exact Or.inr (ih h)

theorem graphOf_ne_nil_mem (services : List (String × ServiceSpec)) (n : String)
    (h : graphOf services n ≠ []) : n ∈ (services.map Prod.fst).toFinset := by
  unfold graphOf at h
  cases hl : services.lookup n with
  | none => rw [hl] at h; exact absurd rfl h
  | some v => exact List.mem_toFinset.2 (lookup_mem_keys services n v hl)

theorem free_le_card (keys : Finset String) (temp : String → Bool) :
    free keys temp ≤ keys.card :=
  Finset.card_filter_le _ _

theorem free_update_lt (keys : Finset String) (temp : String → Bool) (node : String)
    (hmem : node ∈ keys) (ht : temp node = false) :
    free keys (Function.update temp node true) < free keys temp := by
  unfold free
  apply Finset.card_lt_card
  rw [Finset.ssubset_iff_of_subset]
  · refine ⟨node, ?_, ?_⟩
    · simp [hmem, ht]
    · simp
  · intro k hk
    simp only [Finset.mem_filter] at hk ⊢
    refine ⟨hk.1, ?_⟩
    by_cases hkn : k = node
    · subst hkn; simpa using hk.2
    · simpa [Function.update_noteq hkn] using hk.2

theorem depsFirst_concat (graph : String → List String) (l : List String) (n : String) :
    DepsFirst graph (l ++ [n]) ↔ (∀ d ∈ graph n, d ∈ l) ∧ DepsFirst graph l := by
  simp [DepsFirst, depsFirstRev]

theorem depsFirst_indexOf (graph : String → List String) (l : List String)
    (h : DepsFirst graph l) (n d : String) (hn : n ∈ l) (hd : d ∈ graph n) :
    d ∈ l ∧ l.indexOf d < l.indexOf n := by
  induction l using List.reverseRecOn with
  | nil => simp at hn
  | append_singleton l m ih =>
    rw [depsFirst_concat] at h
    by_cases hnl : n ∈ l
    · obtain ⟨hdl, hlt⟩ := ih h.2 hnl
      refine ⟨List.mem_append_left _ hdl, ?_⟩
      rw [List.indexOf_append_of_mem hdl, List.indexOf_append_of_mem hnl]
      exact hlt
    · have hnm : n = m := by
        rcases List.mem_append.1 hn with h1 | h1
        · exact absurd h1 hnl
        · simpa using h1
      subst hnm
      have hdl : d ∈ l := h.1 d hd
      refine ⟨List.mem_append_left _ hdl, ?_⟩
      rw [List.indexOf_append_of_mem hdl, List.indexOf_append_of_not_mem hnl]
      have := List.indexOf_lt_length.2 hdl
      simp
      omega

/-- The hypothesis under which a visit of `node` cannot meet a marked name: every
name marked in `temp` reaches `node` along depends-on edges. -/
def OnPath (graph : String → List String) (temp : String → Bool) (node : String) : Prop :=
  ∀ t, temp t = true → Relation.TransGen (fun a b => b ∈ graph a) t node

theorem visitDeps_spec (graph : String → List String) (keys : Finset String) (fuel : Nat)
    (ih : ∀ node s, Good graph s → free keys s.temp < fuel →
      ∃ b s', visit graph fuel node s = some (b, s') ∧ VisitPost graph s b s' ∧
        (b = true → s'.visited node = true) ∧
        (OnPath graph s.temp node → (∀ a, ¬ Relation.TransGen (fun a b => b ∈ graph a) a a) →
          b = true)) :
    ∀ deps s, Good graph s → (deps ≠ [] → free keys s.temp < fuel) →
      ∃ b s', visitDeps (visit graph fuel) deps s = some (b, s') ∧ VisitPost graph s b s' ∧
        (b = true → ∀ d ∈ deps, s'.visited d = true) ∧
        ((∀ d ∈ deps, OnPath graph s.temp d) →
          (∀ a, ¬ Relation.TransGen (fun a b => b ∈ graph a) a a) → b = true) := by
  intro deps
  induction deps with
  | nil =>
    intro s hg _
    exact ⟨true, s, rfl, ⟨hg, Ext.refl s, fun _ => rfl⟩, by simp, fun _ _ => rfl⟩
  | cons d rest ihd =>
    intro s hg hfree
    have hf : free keys s.temp < fuel := hfree (by simp)
    obtain ⟨b1, s1, hv, hpost, hvis, hacy⟩ := ih d s hg hf
    cases b1 with
    | false =>
      refine ⟨false, s1, by simp [visitDeps, hv], ⟨hpost.good, hpost.ext, by simp⟩, by simp, ?_⟩
      intro hp hac
      exact hacy (hp d (by simp)) hac
    | true =>
      have ht : s1.temp = s.temp := hpost.temp_eq rfl
      obtain ⟨b2, s2, hv2, hpost2, hvis2, hacy2⟩ := ihd s1 hpost.good (fun _ => by rw [ht]; exact hf)
      refine ⟨b2, s2, by simp [visitDeps, hv, hv2],
        ⟨hpost2.good, hpost.ext.trans hpost2.ext, fun hb => by rw [hpost2.temp_eq hb, ht]⟩, ?_, ?_⟩
      · intro hb x hx
        rcases List.mem_cons.1 hx with h1 | h1
        · subst h1; exact hpost2.ext.visited_mono _ (hvis rfl)
        · exact hvis2 hb x h1
      · intro hp hac
        apply hacy2 _ hac
        intro x hx
        rw [ht]
        exact hp x (List.mem_cons_of_mem _ hx)

theorem visit_spec (graph : String → List String) (keys : Finset String)
    (hkeys : ∀ n, graph n ≠ [] → n ∈ keys) :
    ∀ fuel node s, Good graph s → free keys s.temp < fuel →
      ∃ b s', visit graph fuel node s = some (b, s') ∧ VisitPost graph s b s' ∧
        (b = true → s'.visited node = true) ∧
        (OnPath graph s.temp node → (∀ a, ¬ Relation.TransGen (fun a b => b ∈ graph a) a a) →
          b = true) := by
  intro fuel
  induction fuel with
  | zero => intro node s _ h; exact absurd h (Nat.not_lt_zero _)
  | succ fuel ih =>
    intro node s hg hfree
    by_cases htemp : s.temp node = true
    · refine ⟨false, s, by simp [visit, htemp], ⟨hg, Ext.refl s, by simp⟩, by simp, ?_⟩
      intro hp hac
      exact absurd (hp node htemp) (hac node)
    · have htf : s.temp node = false := by simpa using htemp
      by_cases hvis : s.visited node = true
      · exact ⟨true, s, by simp [visit, htf, hvis], ⟨hg, Ext.refl s, fun _ => rfl⟩,
          fun _ => hvis, fun _ _ => rfl⟩
      · have hvf : s.visited node = false := by simpa using hvis
        have hg0 : Good graph { s with temp := Function.update s.temp node true } := by
          refine ⟨hg.nodup, hg.mem_iff, ?_, hg.topo⟩
          intro n hn ht
          by_cases hnn : n = node
          · subst hnn; simp [hvf] at hn
          · simp only [Function.update_noteq hnn] at ht
            exact hg.disj n hn ht
        have hfree0 : graph node ≠ [] →
            free keys (Function.update s.temp node true) < fuel := by
          intro hne
          have := free_update_lt keys s.temp node (hkeys node hne) htf
          omega
        obtain ⟨b1, s1, hv, hpost, hdeps, hacy⟩ :=
          visitDeps_spec graph keys fuel ih (graph node)
            { s with temp := Function.update s.temp node true } hg0 hfree0
        cases b1 with
        | false =>
          refine ⟨false, s1, by simp [visit, htf, hvf, hv], ⟨hpost.good, ?_, by simp⟩, by simp, ?_⟩
          · refine ⟨hpost.ext.visited_mono, ?_, hpost.ext.order_ext⟩
            intro n hn
            apply hpost.ext.temp_mono
            by_cases hnn : n = node
            · subst hnn; simp
            · simpa [Function.update_noteq hnn] using hn
          · intro hp hac
            apply hacy _ hac
            intro d hd t ht
            by_cases htn : t = node
            · subst htn; exact Relation.TransGen.single hd
            · simp only [Function.update_noteq htn] at ht
              exact Relation.TransGen.tail (hp t ht) hd
        | true =>
          have ht1 : s1.temp = Function.update s.temp node true := hpost.temp_eq rfl
          have hnv1 : s1.visited node = false := by
            by_contra hc
            have hc' : s1.visited node = true := by simpa using hc
            exact hpost.good.disj node hc' (by rw [ht1]; simp)
          have hnotin : node ∉ s1.order := fun hm => by
            have := (hpost.good.mem_iff node).1 hm
            rw [hnv1] at this; exact Bool.false_ne_true this
          refine ⟨true, { visited := Function.update s1.visited node true
                          temp := Function.update s1.temp node false
                          order := s1.order ++ [node] },
            by simp [visit, htf, hvf, hv], ⟨⟨?_, ?_, ?_, ?_⟩, ⟨?_, ?_, ?_⟩, ?_⟩,
            by simp, fun _ _ => rfl⟩
          · exact List.Nodup.append hpost.good.nodup (List.nodup_singleton _)
              (by simpa using hnotin)
          · intro n
            by_cases hnn : n = node
            · subst hnn; simp
            · simp only [List.mem_append, List.mem_singleton, hnn, or_false,
                Function.update_noteq hnn]
              exact hpost.good.mem_iff n
          · intro n hn ht
            by_cases hnn : n = node
            · subst hnn; simp at ht
            · simp only [Function.update_noteq hnn] at hn ht
              exact hpost.good.disj n hn ht
          · rw [depsFirst_concat]
            exact ⟨fun d hd => (hpost.good.mem_iff d).2 (hdeps rfl d hd), hpost.good.topo⟩
          · intro n hn
            by_cases hnn : n = node
            · subst hnn; simp
            · simp only [Function.update_noteq hnn]
              exact hpost.ext.visited_mono n hn
          · intro n hn
            by_cases hnn : n = node
            · subst hnn; rw [htf] at hn; exact absurd hn Bool.false_ne_true
            · simp only [Function.update_noteq hnn]
              apply hpost.ext.temp_mono
              simpa [Function.update_noteq hnn] using hn
          · obtain ⟨e1, h1⟩ := hpost.ext.order_ext
            exact ⟨e1 ++ [node], by rw [h1, List.append_assoc]⟩
          · intro _
            funext n
            by_cases hnn : n = node
            · subst hnn; simp [htf]
            · simp [Function.update_noteq hnn, ht1]

end Compose
namespace Compose

theorem visitAll_spec (graph : String → List String) (keys : Finset String)
    (hkeys : ∀ n, graph n ≠ [] → n ∈ keys) (fuel : Nat) (hfuel : keys.card < fuel) :
    ∀ names s logged, Good graph s →
      ∃ s' logged', visitAll graph fuel names s logged = some (s', logged') ∧
        Good graph s' ∧ Ext s s' ∧
        ((∀ a, ¬ Relation.TransGen (fun a b => b ∈ graph a) a a) → (∀ t, s.temp t = false) →
          (∀ t, s'.temp t = false) ∧ (∀ n ∈ names, s'.visited n = true) ∧ logged' = logged) := by
  intro names
  induction names with
  | nil =>
    intro s logged hg
    exact ⟨s, logged, rfl, hg, Ext.refl s, fun _ ht => ⟨ht, by simp, rfl⟩⟩
  | cons name rest ih =>
    intro s logged hg
    by_cases hvis : s.visited name = true
    · obtain ⟨s', logged', hrun, hg', hext, hacy⟩ := ih s logged hg
      refine ⟨s', logged', by simp [visitAll, hvis, hrun], hg', hext, ?_⟩
      intro hac ht
      obtain ⟨h1, h2, h3⟩ := hacy hac ht
      refine ⟨h1, ?_, h3⟩
      intro n hn
      rcases List.mem_cons.1 hn with h | h
      · subst h; exact hext.visited_mono _ hvis
      · exact h2 n h
    · have hvf : s.visited name = false := by simpa using hvis
      obtain ⟨b, s1, hv, hpost, hvisited, hacy1⟩ :=
        visit_spec graph keys hkeys fuel name s hg
          (lt_of_le_of_lt (free_le_card keys s.temp) hfuel)
      cases b with
      | true =>
        obtain ⟨s', logged', hrun, hg', hext, hacy⟩ := ih s1 logged hpost.good
        refine ⟨s', logged', by simp [visitAll, hvf, hv, hrun], hg', hpost.ext.trans hext, ?_⟩
        intro hac ht
        have ht1 : ∀ t, s1.temp t = false := by
          intro t; rw [hpost.temp_eq rfl]; exact ht t
        obtain ⟨h1, h2, h3⟩ := hacy hac ht1
        refine ⟨h1, ?_, h3⟩
        intro n hn
        rcases List.mem_cons.1 hn with h | h
        · subst h; exact hext.visited_mono _ (hvisited rfl)
        · exact h2 n h
      | false =>
        obtain ⟨s', logged', hrun, hg', hext, _⟩ :=
          ih s1 (logged ++ ["Warning: circular dependency detected in service " ++ name])
            hpost.good
        refine ⟨s', logged', by simp [visitAll, hvf, hv, hrun], hg', hpost.ext.trans hext, ?_⟩
        intro hac ht
        have hb : false = true := hacy1 (fun t h => by rw [ht t] at h; exact absurd h (by simp)) hac
        exact absurd hb (by simp)

theorem good_init (graph : String → List String) :
    Good graph { visited := fun _ => false, temp := fun _ => false, order := [] } :=
  ⟨List.nodup_nil, by simp, by simp, by simp [DepsFirst, depsFirstRev]⟩

/-- The traversal of `getServiceOrder` from its initial state: it ends, in a state
that satisfies the invariant. -/
theorem getServiceOrder_run (p : ComposeProject) :
    ∃ s logged, visitAll (graphOf p.Config.Services) (p.Config.Services.length + 1)
        p.Config.serviceNames
        { visited := fun _ => false, temp := fun _ => false, order := [] } [] = some (s, logged) ∧
      getServiceOrder p = some { order := s.order, logged := logged } ∧
      Good (graphOf p.Config.Services) s ∧
      (Acyclic p.Config → (∀ n ∈ p.Config.serviceNames, s.visited n = true) ∧ logged = []) := by
  have hfuel : ((p.Config.Services.map Prod.fst).toFinset).card < p.Config.Services.length + 1 := by
    have := List.toFinset_card_le (p.Config.Services.map Prod.fst)
    simp at this
    omega
  obtain ⟨s, logged, hrun, hg, _, hacy⟩ :=
    visitAll_spec (graphOf p.Config.Services) _ (graphOf_ne_nil_mem p.Config.Services) _ hfuel
      p.Config.serviceNames _ [] (good_init _)
  refine ⟨s, logged, hrun, by simp [getServiceOrder, hrun], hg, ?_⟩
  intro hac
  obtain ⟨_, h2, h3⟩ := hacy hac (fun _ => rfl)
  exact ⟨h2, h3⟩

/-- The recursion bound of the embedding is never reached: `getServiceOrder` returns
for every configuration. -/
theorem getServiceOrder_total (p : ComposeProject) : ∃ r, getServiceOrder p = some r := by
  obtain ⟨s, logged, _, h, _⟩ := getServiceOrder_run p
  exact ⟨_, h⟩

theorem service_dependsOn (cfg : ComposeConfig) (name : String) :
    (cfg.service name).DependsOn = graphOf cfg.Services name := by
  unfold ComposeConfig.service graphOf
  cases cfg.Services.lookup name <;> rfl

theorem lookup_mem_pair {β : Type} (l : List (String × β)) (k : String) (v : β)
    (h : l.lookup k = some v) : (k, v) ∈ l := by
  induction l with
  | nil => simp at h
  | cons kv rest ih =>
    obtain ⟨k', v'⟩ := kv
    by_cases hk : k = k'
    · subst hk
      simp [List.lookup_cons] at h
      simp [h]
    · have hb : (k == k') = false := by simpa using hk
      rw [List.lookup_cons, hb] at h
      exact List.mem_cons_of_mem _ (ih h)

/-- A configuration whose every declared dependency has a smaller rank than the
service that declares it is acyclic. -/
theorem acyclic_of_rank (cfg : ComposeConfig) (rank : String → Nat)
    (h : ∀ kv ∈ cfg.Services, ∀ d ∈ kv.2.DependsOn, rank d < rank kv.1) : Acyclic cfg := by
  have step : ∀ a b, DependsOn cfg a b → rank b < rank a := by
    intro a b hab
    unfold DependsOn graphOf at hab
    cases hl : cfg.Services.lookup a with
    | none => rw [hl] at hab; simp at hab
    | some v =>
      rw [hl] at hab
      exact h (a, v) (lookup_mem_pair _ _ _ hl) b hab
  have trans : ∀ a b, Relation.TransGen (DependsOn cfg) a b → rank b < rank a := by
    intro a b hab
    induction hab with
    | single h1 => exact step _ _ h1
    | tail _ h2 ih => exact lt_trans (step _ _ h2) ih
  intro a ha
  exact lt_irrefl _ (trans a a ha)

/-- C1. For every project configuration whose depends-on graph is acyclic, in every
iteration order of the service map (the order of the association list),
`getServiceOrder` returns, logs no warning, and the returned sequence has no
repetition, contains every declared service exactly once, and places every declared
dependency of a declared service at an earlier position than the service. -/
theorem getServiceOrder_acyclic (p : ComposeProject) (hac : Acyclic p.Config) :
    ∃ r, getServiceOrder p = some r ∧ r.logged = [] ∧ r.order.Nodup ∧
      (∀ name ∈ p.Config.serviceNames, r.order.count name = 1) ∧
      (∀ name ∈ p.Config.serviceNames, ∀ dep ∈ (p.Config.service name).DependsOn,
        dep ∈ r.order ∧ r.order.indexOf dep < r.order.indexOf name) := by
  obtain ⟨s, logged, _, hget, hg, hacy⟩ := getServiceOrder_run p
  obtain ⟨hall, hlog⟩ := hacy hac
  refine ⟨_, hget, hlog, hg.nodup, ?_, ?_⟩
  · intro name hname
    exact List.count_eq_one_of_mem hg.nodup ((hg.mem_iff name).2 (hall name hname))
  · intro name hname dep hdep
    rw [service_dependsOn] at hdep
    exact depsFirst_indexOf _ _ hg.topo name dep ((hg.mem_iff name).2 (hall name hname)) hdep

end Compose
namespace Compose

theorem exampleConfig_acyclic : Acyclic exampleProject.Config :=
  acyclic_of_rank _ exampleRank (by decide)

theorem getServiceOrder_acyclic_witness :
    Acyclic exampleProject.Config ∧
    ∃ r, getServiceOrder exampleProject = some r ∧ r.logged = [] ∧ r.order.Nodup ∧
      (∀ name ∈ exampleProject.Config.serviceNames, r.order.count name = 1) ∧
      (∀ name ∈ exampleProject.Config.serviceNames,
        ∀ dep ∈ (exampleProject.Config.service name).DependsOn,
        dep ∈ r.order ∧ r.order.indexOf dep < r.order.indexOf name) :=
  ⟨exampleConfig_acyclic, getServiceOrder_acyclic exampleProject exampleConfig_acyclic⟩

end Compose
namespace Compose

/-! ## Runs -/

@[simp] theorem Run.pure_val {σ α : Type} (a : α) (rt : σ) : (Run.pure a rt).val = a := rfl
@[simp] theorem Run.pure_rt {σ α : Type} (a : α) (rt : σ) : (Run.pure a rt).rt = rt := rfl
@[simp] theorem Run.pure_events {σ α : Type} (a : α) (rt : σ) : (Run.pure a rt).events = [] := rfl
@[simp] theorem Run.pure_logged {σ α : Type} (a : α) (rt : σ) : (Run.pure a rt).logged = [] := rfl

@[simp] theorem Run.bind_val {σ α β : Type} (r : Run σ α) (k : α → σ → Run σ β) :
    (r.bind k).val = (k r.val r.rt).val := rfl
@[simp] theorem Run.bind_rt {σ α β : Type} (r : Run σ α) (k : α → σ → Run σ β) :
    (r.bind k).rt = (k r.val r.rt).rt := rfl
@[simp] theorem Run.bind_events {σ α β : Type} (r : Run σ α) (k : α → σ → Run σ β) :
    (r.bind k).events = r.events ++ (k r.val r.rt).events := rfl
@[simp] theorem Run.bind_logged {σ α β : Type} (r : Run σ α) (k : α → σ → Run σ β) :
    (r.bind k).logged = r.logged ++ (k r.val r.rt).logged := rfl

@[simp] theorem Run.tag_val {σ α : Type} (service : String) (r : Run σ α) :
    (Run.tag service r).val = r.val := rfl
@[simp] theorem Run.tag_rt {σ α : Type} (service : String) (r : Run σ α) :
    (Run.tag service r).rt = r.rt := rfl
@[simp] theorem Run.tag_events {σ α : Type} (service : String) (r : Run σ α) :
    (Run.tag service r).events = r.events.map (fun e => { e with svc := some service }) := rfl
@[simp] theorem Run.tag_logged {σ α : Type} (service : String) (r : Run σ α) :
    (Run.tag service r).logged = r.logged := rfl

theorem Run.tag_svc {σ α : Type} (service : String) (r : Run σ α) :
    ∀ e ∈ (Run.tag service r).events, e.svc = some service := by
  intro e he
  simp only [Run.tag_events, List.mem_map] at he
  obtain ⟨e', _, rfl⟩ := he
  rfl

/-! ## Status on an empty listing -/

theorem mapSet_append_new {β : Type} (l : List (String × β)) (k : String) (v : β)
    (h : k ∉ l.map Prod.fst) : mapSet l k v = l ++ [(k, v)] := by
  induction l with
  | nil => rfl
  | cons kv rest ih =>
    obtain ⟨k', v'⟩ := kv
    simp only [List.map_cons, List.mem_cons, not_or] at h
    have hne : ¬ k' = k := fun hk => h.1 hk.symm
    simp [mapSet, hne, ih h.2]

theorem seed_foldl (names : List String) :
    ∀ acc : List (String × ServiceInfo), names.Nodup →
      (∀ n ∈ names, n ∉ acc.map Prod.fst) →
      names.foldl (fun services serviceName =>
        mapSet services serviceName
          { Name := serviceName, Status := "not_created", Replicas := 0, Containers := [] }) acc
        = acc ++ names.map (fun n => (n, seededInfo n)) := by
  induction names with
  | nil => intro acc _ _; simp
  | cons n rest ih =>
    intro acc hnd hdisj
    rw [List.nodup_cons] at hnd
    rw [List.foldl_cons, mapSet_append_new acc n _ (hdisj n (by simp))]
    rw [ih _ hnd.2]
    · simp [seededInfo]
    · intro m hm
      simp only [List.map_append, List.map_cons, List.map_nil, List.mem_append,
        List.mem_singleton, not_or]
      exact ⟨hdisj m (List.mem_cons_of_mem _ hm), fun h => hnd.1 (h ▸ hm)⟩

theorem seedServices_eq (names : List String) (h : names.Nodup) :
    seedServices names = names.map (fun n => (n, seededInfo n)) := by
  unfold seedServices
  rw [seed_foldl names [] h (by simp)]
  simp

theorem determineProjectStatus_seeded (names : List String) :
    determineProjectStatus (names.map (fun n => (n, seededInfo n))) =
      if names = [] then "not_created" else "partial" := by
  cases names with
  | nil => rfl
  | cons n rest =>
    have h1 : ((n :: rest).map (fun n => (n, seededInfo n))).filter
        (fun kv => kv.2.Status = "running") = [] := by
      rw [List.filter_eq_nil_iff]
      intro kv hkv
      simp only [List.mem_map] at hkv
      obtain ⟨m, _, rfl⟩ := hkv
      simp [seededInfo]
    have h2 : ((n :: rest).map (fun n => (n, seededInfo n))).filter
        (fun kv => kv.2.Status = "exited" ∨ kv.2.Status = "dead") = [] := by
      rw [List.filter_eq_nil_iff]
      intro kv hkv
      simp only [List.mem_map] at hkv
      obtain ⟨m, _, rfl⟩ := hkv
      simp [seededInfo]
    unfold determineProjectStatus
    rw [h1, h2]
    simp

/-- C2, as amended.  When the declared service names are pairwise distinct (as the keys
of a map are) and the runtime answers the project listing with no container, `Status`
returns one entry per declared service, under its name, each with status
"not_created", 0 replicas and no container; the project status is "not_created" when no
service is declared and "partial" otherwise. -/
theorem Status_empty_listing {σ : Type} (x : External σ) (p : ComposeProject) (rt : σ)
    (hkeys : p.Config.serviceNames.Nodup)
    (hlist : (x.ContainerList rt true (projectFilters p)).1 = Except.ok []) :
    ∃ st, (Status x p rt).val = Result.ok st ∧
      st.Services.length = p.Config.serviceNames.length ∧
      st.Services.map Prod.fst = p.Config.serviceNames ∧
      (∀ kv ∈ st.Services, kv.2.Name = kv.1 ∧ kv.2.Status = "not_created" ∧
        kv.2.Replicas = 0 ∧ kv.2.Containers = []) ∧
      st.Status = if p.Config.serviceNames = [] then "not_created" else "partial" := by
  refine ⟨{ Name := p.Name
            Services := p.Config.serviceNames.map (fun n => (n, seededInfo n))
            Status := if p.Config.serviceNames = [] then "not_created" else "partial" },
    ?_, by simp, by simp [Function.comp_def], ?_, rfl⟩
  · simp only [Status, clientContainerList, Run.bind_val, hlist, addContainers,
      seedServices_eq _ hkeys, determineProjectStatus_seeded, Run.pure_val]
  · intro kv hkv
    simp only [List.mem_map] at hkv
    obtain ⟨m, _, rfl⟩ := hkv
    simp [seededInfo]

theorem Status_empty_listing_witness :
    exampleProject.Config.serviceNames.Nodup ∧
    (simOk.ContainerList {} true (projectFilters exampleProject)).1 = Except.ok [] ∧
    ∃ st, (Status simOk exampleProject {}).val = Result.ok st ∧
      st.Services.length = exampleProject.Config.serviceNames.length ∧
      st.Services.map Prod.fst = exampleProject.Config.serviceNames ∧
      (∀ kv ∈ st.Services, kv.2.Name = kv.1 ∧ kv.2.Status = "not_created" ∧
        kv.2.Replicas = 0 ∧ kv.2.Containers = []) ∧
      st.Status = if exampleProject.Config.serviceNames = [] then "not_created" else "partial" :=
  ⟨by decide, rfl, Status_empty_listing simOk exampleProject {} (by decide) rfl⟩

/-- C2 fails as stated: the example project declares three services, the runtime lists
no container, and `Status` reports the project status "partial", not "not_created". -/
theorem Status_not_created_counterexample :
    exampleProject.Config.Services.length = 3 ∧
    (simOk.ContainerList {} true (projectFilters exampleProject)).1 = Except.ok [] ∧
    ∃ st, (Status simOk exampleProject {}).val = Result.ok st ∧
      st.Status = "partial" ∧ st.Status ≠ "not_created" :=
  ⟨by decide, rfl,
   { Name := "demo", Status := "partial",
     Services := [("web", seededInfo "web"), ("db", seededInfo "db"),
                  ("migrate", seededInfo "migrate")] },
   by decide, rfl, by decide⟩

end Compose
namespace Compose

/-! ## Loops -/

theorem forEach_cons_of_ok {σ α : Type} (body : α → σ → Run σ (Result Unit)) (a : α)
    (rest : List α) (rt : σ) (h : (body a rt).val = Result.ok ()) :
    (forEach body (a :: rest) rt).val = (forEach body rest (body a rt).rt).val ∧
    (forEach body (a :: rest) rt).rt = (forEach body rest (body a rt).rt).rt ∧
    (forEach body (a :: rest) rt).events =
      (body a rt).events ++ (forEach body rest (body a rt).rt).events ∧
    (forEach body (a :: rest) rt).logged =
      (body a rt).logged ++ (forEach body rest (body a rt).rt).logged := by
  simp [forEach, h]

theorem forEach_cons_of_not_ok {σ α : Type} (body : α → σ → Run σ (Result Unit)) (a : α)
    (rest : List α) (rt : σ) (h : (body a rt).val ≠ Result.ok ()) :
    (forEach body (a :: rest) rt).val = (body a rt).val ∧
    (forEach body (a :: rest) rt).rt = (body a rt).rt ∧
    (forEach body (a :: rest) rt).events = (body a rt).events ∧
    (forEach body (a :: rest) rt).logged = (body a rt).logged := by
  cases hv : (body a rt).val with
  | ok u => exact absurd hv h
  | err e => simp [forEach, hv]
  | crash e => simp [forEach, hv]

theorem forEach_map {σ α β : Type} (body : β → σ → Run σ (Result Unit)) (f : α → β) :
    ∀ (l : List α) (rt : σ), forEach body (l.map f) rt = forEach (fun a => body (f a)) l rt := by
  intro l
  induction l with
  | nil => intro rt; rfl
  | cons a rest ih =>
    intro rt
    simp only [List.map_cons, forEach]
    congr 1
    funext res
    cases res with
    | ok u => funext rt1; exact ih rt1
    | err e => rfl
    | crash e => rfl

/-! ## Scale -/

theorem intRange_length (lo hi : Int) : (intRange lo hi).length = (hi - lo).toNat := by
  simp [intRange]

theorem drop_eq_range_map (l : List Container) (n : Nat) :
    (List.range (l.length - n)).map (fun k => l.get? (n + k)) = (l.drop n).map some := by
  apply List.ext_getElem?
  intro i
  by_cases hi : i < l.length - n
  · have h1 : n + i < l.length := by omega
    simp [List.getElem?_range, hi, List.getElem?_drop, List.getElem?_eq_getElem h1]
  · have h1 : l.length ≤ n + i := by omega
    have h2 : l.length ≤ i + n := by omega
    simp [hi, List.getElem?_drop, List.getElem?_eq_none h1, h2]

theorem intRange_containerAt (containers : List Container) (replicas : Int)
    (h0 : 0 ≤ replicas) :
    (intRange replicas (containers.length : Int)).map (containerAt containers) =
      (containers.drop replicas.toNat).map some := by
  rw [← drop_eq_range_map]
  unfold intRange
  rw [List.map_map]
  have hlen : ((containers.length : Int) - replicas).toNat = containers.length - replicas.toNat := by
    omega
  rw [hlen]
  apply List.map_congr_left
  intro k _
  have hk : ¬ (replicas + (k : Int) < 0) := by omega
  have hk2 : (replicas + (k : Int)).toNat = replicas.toNat + k := by omega
  simp [containerAt, hk, hk2]

theorem forEach_cons_events {σ α : Type} (body : α → σ → Run σ (Result Unit)) (a : α)
    (rest : List α) (rt : σ) :
    ∃ tail, (forEach body (a :: rest) rt).events = (body a rt).events ++ tail :=
  ⟨_, rfl⟩

theorem removeContainer_ok {σ : Type} (x : External σ) (service : String) (c : Container)
    (rt : σ) (hall : ∀ e ∈ (removeContainer x c.ID rt).events, e.failed = false) :
    (removeContainer x c.ID rt).val = Result.ok () ∧
    (removeContainer x c.ID rt).events.map (fun e => { e with svc := some service }) =
      removalEvents service true c := by
  cases hs : (x.ContainerStop rt c.ID 30).1 with
  | some e =>
    have := hall { svc := none, call := Call.ContainerStop c.ID 30, answer := Answer.failed e }
      (by simp [removeContainer, clientContainerStop, hs, Answer.ofError])
    simp [Event.failed] at this
  | none =>
    cases hr : (x.ContainerRemove (x.ContainerStop rt c.ID 30).2 c.ID true true).1 with
    | some e =>
      have := hall { svc := none, call := Call.ContainerRemove c.ID true true,
                     answer := Answer.failed e }
        (by simp [removeContainer, clientContainerStop, clientContainerRemove, hs, hr,
              Answer.ofError])
      simp [Event.failed] at this
    | none =>
      simp [removeContainer, clientContainerStop, clientContainerRemove, hs, hr,
        removalEvents, Answer.ofError]

theorem scaleDown_loop {σ : Type} (x : External σ) (service : String)
    (containers : List Container) :
    ∀ (idxs : List Int) (cs : List Container) (rt : σ),
      idxs.map (containerAt containers) = cs.map some →
      (∀ e ∈ (forEach (scaleDownStep x containers) idxs rt).events, e.failed = false) →
      (forEach (scaleDownStep x containers) idxs rt).val = Result.ok () ∧
      (forEach (scaleDownStep x containers) idxs rt).events.map
          (fun e => { e with svc := some service }) = cs.flatMap (removalEvents service true) := by
  intro idxs
  induction idxs with
  | nil =>
    intro cs rt h _
    cases cs with
    | nil => simp [forEach]
    | cons c cs => simp at h
  | cons i rest ih =>
    intro cs rt h hall
    cases cs with
    | nil => simp at h
    | cons c cs =>
      simp only [List.map_cons, List.cons.injEq] at h
      have hstep : scaleDownStep x containers i rt = removeContainer x c.ID rt := by
        simp [scaleDownStep, h.1]
      obtain ⟨tail, htail⟩ := forEach_cons_events (scaleDownStep x containers) i rest rt
      obtain ⟨hv, hev⟩ := removeContainer_ok x service c rt (fun e he =>
        hall e (by rw [htail, hstep]; exact List.mem_append_left _ he))
      have hok : (scaleDownStep x containers i rt).val = Result.ok () := by rw [hstep, hv]
      obtain ⟨h1, _, h3, _⟩ := forEach_cons_of_ok (scaleDownStep x containers) i rest rt hok
      obtain ⟨ihv, ihe⟩ := ih cs (scaleDownStep x containers i rt).rt h.2 (fun e he =>
        hall e (by rw [h3]; exact List.mem_append_right _ he))
      refine ⟨by rw [h1, ihv], ?_⟩
      rw [h3, List.map_append, ihe, hstep, hev, List.flatMap_cons]

theorem retag_failed (service : String) (e : Event) :
    Event.failed { e with svc := some service } = e.failed := rfl

/-- C3. When `service` is declared, its listing is answered with `containers`,
`0 ≤ replicas < len(containers)` and every call of the run succeeds, `Scale` returns nil
and issues, after the listing, exactly one stop and remove pair for each of the
containers at positions `replicas .. len(containers)-1`, the last position first, and
nothing else: no create, and no call for the positions below `replicas` (when the ids of
the listing are pairwise distinct, no stop or remove addresses any of their ids). -/
theorem Scale_down {σ : Type} (x : External σ) (p : ComposeProject) (service : String)
    (svcConfig : ServiceSpec) (replicas : Int) (containers : List Container) (rt : σ)
    (hsvc : p.Config.Services.lookup service = some svcConfig)
    (hlist : (x.ContainerList rt true (serviceFilters p service)).1 = Except.ok containers)
    (h0 : 0 ≤ replicas) (hlt : replicas < (containers.length : Int))
    (hall : ∀ e ∈ (Scale x p service replicas rt).events, e.failed = false) :
    (Scale x p service replicas rt).val = Result.ok () ∧
    (Scale x p service replicas rt).events =
      { svc := some service, call := Call.ContainerList true (serviceFilters p service),
        answer := Answer.containers containers } ::
      (containers.drop replicas.toNat).reverse.flatMap (removalEvents service true) ∧
    ((Scale x p service replicas rt).events.filter Event.tearsDown).length =
      2 * (containers.length - replicas.toNat) ∧
    (∀ e ∈ (Scale x p service replicas rt).events, e.call.isCreate = false) ∧
    ((containers.map Container.ID).Nodup →
      ∀ c ∈ containers.take replicas.toNat,
        ∀ e ∈ (Scale x p service replicas rt).events, e.call.target ≠ some c.ID) := by
  have hnot : ¬ replicas > (containers.length : Int) := by omega
  have hidx : (intRange replicas (containers.length : Int)).reverse.map (containerAt containers) =
      (containers.drop replicas.toNat).reverse.map some := by
    rw [List.map_reverse, intRange_containerAt containers replicas h0, List.map_reverse]
  have hshape : (Scale x p service replicas rt).events =
      { svc := some service, call := Call.ContainerList true (serviceFilters p service),
        answer := Answer.containers containers } ::
      (forEach (scaleDownStep x containers)
        (intRange replicas (containers.length : Int)).reverse
        (x.ContainerList rt true (serviceFilters p service)).2).events.map
          (fun e => { e with svc := some service }) := by
    simp only [Scale, hsvc, Run.tag_events, Run.bind_events, clientContainerList, hlist,
      scaleTo, hnot, if_false, hlt, if_true, Run.pure_events, Run.pure_val, Run.pure_rt,
      List.map_append, List.map_cons, List.map_nil, List.nil_append, Answer.ofExcept,
      List.singleton_append]
  obtain ⟨hv, hev⟩ := scaleDown_loop x service containers _ _
    (x.ContainerList rt true (serviceFilters p service)).2 hidx (fun e he => by
      have := hall { e with svc := some service } (by
        rw [hshape]
        exact List.mem_cons_of_mem _ (List.mem_map_of_mem _ he))
      exact this)
  have hevents : (Scale x p service replicas rt).events =
      { svc := some service, call := Call.ContainerList true (serviceFilters p service),
        answer := Answer.containers containers } ::
      (containers.drop replicas.toNat).reverse.flatMap (removalEvents service true) := by
    rw [hshape, hev]
  refine ⟨?_, hevents, ?_, ?_, ?_⟩
  · simp only [Scale, hsvc, Run.tag_val, Run.bind_val, clientContainerList, hlist, scaleTo,
      hnot, if_false, hlt, if_true, Run.pure_val, Run.pure_rt, hv]
  · rw [hevents]
    have : ∀ l : List Container,
        ((l.flatMap (removalEvents service true)).filter Event.tearsDown).length = 2 * l.length := by
      intro l
      induction l with
      | nil => rfl
      | cons c l ih =>
        simp only [List.flatMap_cons, List.filter_append, List.length_append, ih]
        simp [removalEvents, Event.tearsDown, Call.isStop, Call.isRemove, List.filter]
        omega
    simp [List.filter_cons, Event.tearsDown, Call.isStop, Call.isRemove, this]
  · intro e he
    rw [hevents] at he
    rcases List.mem_cons.1 he with h | h
    · subst h; rfl
    · simp only [List.mem_flatMap, removalEvents] at h
      obtain ⟨c, _, hc⟩ := h
      simp at hc
      rcases hc with rfl | rfl <;> rfl
  · intro hnd c hc e he hcontra
    rw [hevents] at he
    rcases List.mem_cons.1 he with h | h
    · subst h; simp [Call.target] at hcontra
    · simp only [List.mem_flatMap, removalEvents] at h
      obtain ⟨c', hc', hec⟩ := h
      have hid : c'.ID = c.ID := by
        simp at hec
        rcases hec with rfl | rfl <;> simpa [Call.target] using hcontra
      have hc'd : c' ∈ containers.drop replicas.toNat := List.mem_reverse.1 hc'
      have hsplit : containers = containers.take replicas.toNat ++ containers.drop replicas.toNat :=
        (List.take_append_drop _ _).symm
      rw [hsplit, List.map_append] at hnd
      have hdisj := (List.nodup_append.1 hnd).2.2
      exact hdisj (List.mem_map_of_mem Container.ID hc)
        (hid ▸ List.mem_map_of_mem Container.ID hc'd)

/-- C6. For every service name that is not a key of the configuration's services,
`Scale` returns the error "service <name> not found", issues no call to the runtime,
logs nothing and leaves the runtime state as it was. -/
theorem Scale_unknown_service {σ : Type} (x : External σ) (p : ComposeProject)
    (service : String) (replicas : Int) (rt : σ)
    (hsvc : service ∉ p.Config.serviceNames) :
    (Scale x p service replicas rt).val = Result.err ("service " ++ service ++ " not found") ∧
    (Scale x p service replicas rt).events = [] ∧
    (Scale x p service replicas rt).logged = [] ∧
    (Scale x p service replicas rt).rt = rt := by
  have hnone : p.Config.Services.lookup service = none := by
    cases hl : p.Config.Services.lookup service with
    | none => rfl
    | some v => exact absurd (lookup_mem_keys _ _ _ hl) hsvc
  simp [Scale, hnone]

theorem Scale_unknown_service_witness :
    "cache" ∉ exampleProject.Config.serviceNames ∧
    (Scale simOk exampleProject "cache" 3 {}).val =
      Result.err ("service " ++ "cache" ++ " not found") ∧
    (Scale simOk exampleProject "cache" 3 {}).events = [] ∧
    (Scale simOk exampleProject "cache" 3 {}).logged = [] ∧
    (Scale simOk exampleProject "cache" 3 {}).rt = {} :=
  ⟨by decide, Scale_unknown_service simOk exampleProject "cache" 3 {} (by decide)⟩

end Compose

namespace Compose

theorem Scale_down_witness :
    exampleProject.Config.Services.lookup "web" =
      some { Image := "nginx", Deploy := some { Replicas := 2 } } ∧
    (simOk.ContainerList exampleState true (serviceFilters exampleProject "web")).1 =
      Except.ok [exampleContainer "c7" "web" 2, exampleContainer "c5" "web" 0,
                 exampleContainer "c6" "web" 1] ∧
    (Scale simOk exampleProject "web" 1 exampleState).events =
      [{ svc := some "web", call := Call.ContainerList true (serviceFilters exampleProject "web"),
         answer := Answer.containers [exampleContainer "c7" "web" 2,
           exampleContainer "c5" "web" 0, exampleContainer "c6" "web" 1] },
       { svc := some "web", call := Call.ContainerStop "c6" 30, answer := Answer.done },
       { svc := some "web", call := Call.ContainerRemove "c6" true true, answer := Answer.done },
       { svc := some "web", call := Call.ContainerStop "c5" 30, answer := Answer.done },
       { svc := some "web", call := Call.ContainerRemove "c5" true true, answer := Answer.done }] ∧
    (Scale simOk exampleProject "web" 1 exampleState).val = Result.ok () :=
  ⟨by decide, by rfl, by decide,
   (Scale_down simOk exampleProject "web" { Image := "nginx", Deploy := some { Replicas := 2 } } 1
      [exampleContainer "c7" "web" 2, exampleContainer "c5" "web" 0,
       exampleContainer "c6" "web" 1] exampleState
      (by decide) (by rfl) (by decide) (by decide) (by decide)).1⟩

end Compose
namespace Compose

/-! ## Provisioning -/

theorem createContainer_bad_ports {σ : Type} (x : External σ) (p : ComposeProject)
    (service : String) (config : ServiceSpec) (i : Int) (rt : σ) (msg : String)
    (hports : parsePorts x.ParsePortSpec config.Ports ([], []) = Except.error msg) :
    createContainer x p service config i rt = Run.pure (Result.err msg) rt := by
  simp [createContainer, hports]

theorem createContainer_ok {σ : Type} (x : External σ) (p : ComposeProject)
    (service : String) (config : ServiceSpec)
    (ports : List (String × List PortBinding) × List String) (i : Int) (rt : σ)
    (hports : parsePorts x.ParsePortSpec config.Ports ([], []) = Except.ok ports)
    (hall : ∀ e ∈ (createContainer x p service config i rt).events, e.failed = false) :
    ∃ id, (createContainer x p service config i rt).val = Result.ok () ∧
      (createContainer x p service config i rt).events.map
        (fun e => { e with svc := some service }) = provisionEvents p service config ports i id := by
  obtain ⟨pb, ep⟩ := ports
  cases hc : (x.ContainerCreate rt
      { Image := config.Image, Cmd := config.Command, Env := mapToEnvSlice config.Environment,
        ExposedPorts := ep, Labels := containerLabels p service i }
      { PortBindings := pb, Binds := config.Volumes }
      { EndpointsConfig := endpointKeys p } (containerName p service i)).1 with
  | error e =>
    have := hall
      { svc := none
        call := Call.ContainerCreate
          { Image := config.Image, Cmd := config.Command,
            Env := mapToEnvSlice config.Environment,
            ExposedPorts := ep, Labels := containerLabels p service i }
          { PortBindings := pb, Binds := config.Volumes }
          { EndpointsConfig := endpointKeys p } (containerName p service i)
        answer := Answer.failed e }
      (by simp [createContainer, hports, clientContainerCreate, hc, Answer.ofExcept])
    simp [Event.failed] at this
  | ok id =>
    cases hs : (x.ContainerStart (x.ContainerCreate rt
        { Image := config.Image, Cmd := config.Command, Env := mapToEnvSlice config.Environment,
          ExposedPorts := ep, Labels := containerLabels p service i }
        { PortBindings := pb, Binds := config.Volumes }
        { EndpointsConfig := endpointKeys p } (containerName p service i)).2 id).1 with
    | some e =>
      have := hall { svc := none, call := Call.ContainerStart id, answer := Answer.failed e }
        (by simp [createContainer, hports, clientContainerCreate, clientContainerStart, hc, hs,
              Answer.ofExcept, Answer.ofError])
      simp [Event.failed] at this
    | none =>
      refine ⟨id, ?_, ?_⟩
      · simp [createContainer, hports, clientContainerCreate, clientContainerStart, hc, hs]
      · simp [createContainer, hports, clientContainerCreate, clientContainerStart, hc, hs,
          Answer.ofExcept, Answer.ofError, provisionEvents, createCall]

theorem provision_loop {σ : Type} (x : External σ) (p : ComposeProject) (service : String)
    (config : ServiceSpec) (ports : List (String × List PortBinding) × List String)
    (hports : parsePorts x.ParsePortSpec config.Ports ([], []) = Except.ok ports) :
    ∀ (idxs : List Int) (rt : σ),
      (∀ e ∈ (forEach (fun i => createContainer x p service config i) idxs rt).events,
        e.failed = false) →
      (forEach (fun i => createContainer x p service config i) idxs rt).val = Result.ok () ∧
      ∃ ids : List String, ids.length = idxs.length ∧
        (forEach (fun i => createContainer x p service config i) idxs rt).events.map
          (fun e => { e with svc := some service }) =
          (idxs.zip ids).flatMap (fun q => provisionEvents p service config ports q.1 q.2) := by
  intro idxs
  induction idxs with
  | nil => intro rt _; exact ⟨rfl, [], rfl, rfl⟩
  | cons i rest ih =>
    intro rt hall
    obtain ⟨tail, htail⟩ :=
      forEach_cons_events (fun i => createContainer x p service config i) i rest rt
    obtain ⟨id, hv, hev⟩ := createContainer_ok x p service config ports i rt hports
      (fun e he => hall e (by rw [htail]; exact List.mem_append_left _ he))
    obtain ⟨h1, _, h3, _⟩ :=
      forEach_cons_of_ok (fun i => createContainer x p service config i) i rest rt hv
    obtain ⟨ihv, ids, hlen, ihe⟩ := ih (createContainer x p service config i rt).rt
      (fun e he => hall e (by rw [h3]; exact List.mem_append_right _ he))
    refine ⟨by rw [h1, ihv], id :: ids, by simp [hlen], ?_⟩
    rw [h3, List.map_append, ihe, hev]
    simp

theorem provisionEvents_tearsDown (p : ComposeProject) (service : String)
    (config : ServiceSpec) (ports : List (String × List PortBinding) × List String)
    (l : List (Int × String)) :
    ∀ e ∈ l.flatMap (fun q => provisionEvents p service config ports q.1 q.2),
      e.tearsDown = false ∧ e.provisions = true ∧ e.svc = some service ∧ e.failed = false := by
  intro e he
  simp only [List.mem_flatMap, provisionEvents] at he
  obtain ⟨q, _, hq⟩ := he
  simp at hq
  rcases hq with rfl | rfl <;> exact ⟨rfl, rfl, rfl, rfl⟩

/-- C4, as amended.  When `service` is declared, every port string of its specification
parses, its listing is answered with `containers`, `replicas > len(containers)` and every
call of the run succeeds, `Scale` returns nil and issues, after the listing, exactly
`replicas - len(containers)` create and start pairs, for the instance indices
`len(containers), ..., replicas-1` in that order, each start addressing the id its
create returned, and nothing else: no stop and no remove. -/
theorem Scale_up {σ : Type} (x : External σ) (p : ComposeProject) (service : String)
    (svcConfig : ServiceSpec) (ports : List (String × List PortBinding) × List String)
    (replicas : Int) (containers : List Container) (rt : σ)
    (hsvc : p.Config.Services.lookup service = some svcConfig)
    (hports : parsePorts x.ParsePortSpec svcConfig.Ports ([], []) = Except.ok ports)
    (hlist : (x.ContainerList rt true (serviceFilters p service)).1 = Except.ok containers)
    (hgt : replicas > (containers.length : Int))
    (hall : ∀ e ∈ (Scale x p service replicas rt).events, e.failed = false) :
    (Scale x p service replicas rt).val = Result.ok () ∧
    (∃ ids : List String, ids.length = (replicas - (containers.length : Int)).toNat ∧
      (Scale x p service replicas rt).events =
        { svc := some service, call := Call.ContainerList true (serviceFilters p service),
          answer := Answer.containers containers } ::
        ((intRange (containers.length : Int) replicas).zip ids).flatMap
          (fun q => provisionEvents p service svcConfig ports q.1 q.2)) ∧
    ((Scale x p service replicas rt).events.filter Event.provisions).length =
      2 * (replicas - (containers.length : Int)).toNat ∧
    (∀ e ∈ (Scale x p service replicas rt).events, e.tearsDown = false) := by
  have hnot : ¬ replicas < (containers.length : Int) := by omega
  have hshape : (Scale x p service replicas rt).events =
      { svc := some service, call := Call.ContainerList true (serviceFilters p service),
        answer := Answer.containers containers } ::
      (forEach (fun i => createContainer x p service svcConfig i)
        (intRange (containers.length : Int) replicas)
        (x.ContainerList rt true (serviceFilters p service)).2).events.map
          (fun e => { e with svc := some service }) := by
    cases hv : (forEach (fun i => createContainer x p service svcConfig i)
        (intRange (containers.length : Int) replicas)
        (x.ContainerList rt true (serviceFilters p service)).2).val <;>
    simp [Scale, hsvc, clientContainerList, hlist, scaleTo, hgt, hnot, hv, Answer.ofExcept]
  obtain ⟨hv, ids, hlen, hev⟩ := provision_loop x p service svcConfig ports hports _
    (x.ContainerList rt true (serviceFilters p service)).2 (fun e he => by
      have := hall { e with svc := some service } (by
        rw [hshape]
        exact List.mem_cons_of_mem _ (List.mem_map_of_mem _ he))
      exact this)
  have hevents : (Scale x p service replicas rt).events =
      { svc := some service, call := Call.ContainerList true (serviceFilters p service),
        answer := Answer.containers containers } ::
      ((intRange (containers.length : Int) replicas).zip ids).flatMap
        (fun q => provisionEvents p service svcConfig ports q.1 q.2) := by
    rw [hshape, hev]
  rw [intRange_length] at hlen
  refine ⟨?_, ⟨ids, hlen, hevents⟩, ?_, ?_⟩
  · simp [Scale, hsvc, clientContainerList, hlist, scaleTo, hgt, hnot, hv]
  · rw [hevents]
    have hcount : ∀ l : List (Int × String),
        ((l.flatMap (fun q => provisionEvents p service svcConfig ports q.1 q.2)).filter
          Event.provisions).length = 2 * l.length := by
      intro l
      induction l with
      | nil => rfl
      | cons q l ih =>
        simp only [List.flatMap_cons, List.filter_append, List.length_append, ih]
        simp [provisionEvents, Event.provisions, Call.isCreate, Call.isStart, createCall,
          List.filter]
        omega
    rw [List.filter_cons]
    simp [Event.provisions, Call.isCreate, Call.isStart, hcount, intRange_length, hlen]
  · intro e he
    rw [hevents] at he
    rcases List.mem_cons.1 he with h | h
    · subst h; rfl
    · exact (provisionEvents_tearsDown p service svcConfig ports _ e h).1

theorem Scale_up_witness :
    exampleProject.Config.Services.lookup "web" =
      some { Image := "nginx", Deploy := some { Replicas := 2 } } ∧
    (simOk.ContainerList exampleState true (serviceFilters exampleProject "web")).1 =
      Except.ok [exampleContainer "c7" "web" 2, exampleContainer "c5" "web" 0,
                 exampleContainer "c6" "web" 1] ∧
    ((Scale simOk exampleProject "web" 5 exampleState).events.map
        (fun e => (e.call.isCreate, e.call.target))) =
      [(false, none), (true, none), (false, some "c8"), (true, none), (false, some "c9")] ∧
    (Scale simOk exampleProject "web" 5 exampleState).val = Result.ok () :=
  ⟨by decide, by rfl, by decide,
   (Scale_up simOk exampleProject "web" { Image := "nginx", Deploy := some { Replicas := 2 } }
      ([], []) 5
      [exampleContainer "c7" "web" 2, exampleContainer "c5" "web" 0,
       exampleContainer "c6" "web" 1] exampleState
      (by decide) (by rfl) (by rfl) (by decide) (by decide)).1⟩

/-- C4 fails as stated: the service of `badPortProject` is declared, its listing is
empty, 2 replicas are asked for and the only runtime call of the run, the listing,
succeeds; `Scale` issues no create or start and returns the port error. -/
theorem Scale_up_counterexample :
    (simOk.ContainerList {} true (serviceFilters badPortProject "web")).1 = Except.ok [] ∧
    (∀ e ∈ (Scale simOk badPortProject "web" 2 {}).events, e.failed = false) ∧
    (Scale simOk badPortProject "web" 2 {}).events.filter Event.provisions = [] ∧
    (∃ msg, (Scale simOk badPortProject "web" 2 {}).val =
      Result.err ("invalid port mapping 8080:http: " ++ msg)) :=
  ⟨by rfl, by decide, by decide, ⟨"invalid containerPort: http", by decide⟩⟩

end Compose
namespace Compose

/-! ## Idempotence of Scale -/

theorem containerLabels_match (p : ComposeProject) (service : String) (i : Int) :
    matchesFilters (containerLabels p service i) (serviceFilters p service) = true := by
  have h1 : "com.docker.compose.project" ++ "=" = "com.docker.compose.project=" := by decide
  have h2 : "com.docker.compose.service" ++ "=" = "com.docker.compose.service=" := by decide
  simp [matchesFilters, containerLabels, serviceFilters, h1, h2]

theorem createContainer_of_ok {σ : Type} (x : External σ) (p : ComposeProject)
    (service : String) (config : ServiceSpec) (i : Int) (rt : σ) (f : Filters)
    (ids : σ → List String) (hm : ServiceModel x f ids)
    (hf : matchesFilters (containerLabels p service i) f = true)
    (hok : (createContainer x p service config i rt).val = Result.ok ()) :
    (ids (createContainer x p service config i rt).rt).length = (ids rt).length + 1 := by
  unfold createContainer at hok ⊢
  cases hp : parsePorts x.ParsePortSpec config.Ports ([], []) with
  | error e => simp [hp] at hok
  | ok ports =>
    obtain ⟨pb, ep⟩ := ports
    simp only [hp] at hok ⊢
    cases hc : x.ContainerCreate rt
      { Image := config.Image, Cmd := config.Command, Env := mapToEnvSlice config.Environment,
        ExposedPorts := ep, Labels := containerLabels p service i }
      { PortBindings := pb, Binds := config.Volumes }
      { EndpointsConfig := endpointKeys p } (containerName p service i) with
    | mk res rt1 =>
      cases res with
      | error e => simp [clientContainerCreate, hc] at hok
      | ok id =>
        have h1 := hm.create rt _ _ _ _ id rt1 hc hf
        cases hs : x.ContainerStart rt1 id with
        | mk err rt2 =>
          cases err with
          | some e => simp [clientContainerCreate, clientContainerStart, hc, hs] at hok
          | none =>
            have h2 := hm.start rt1 id rt2 hs
            simp [clientContainerCreate, clientContainerStart, hc, hs, h2, h1]

theorem removeContainer_of_ok {σ : Type} (x : External σ) (id : String) (rt : σ)
    (f : Filters) (ids : σ → List String) (hm : ServiceModel x f ids)
    (hok : (removeContainer x id rt).val = Result.ok ()) :
    ids (removeContainer x id rt).rt = (ids rt).filter (fun i => i ≠ id) := by
  unfold removeContainer at hok ⊢
  cases hs : x.ContainerStop rt id 30 with
  | mk err rt1 =>
    cases err with
    | some e => simp [clientContainerStop, hs] at hok
    | none =>
      have h1 := hm.stop rt id 30 rt1 hs
      cases hr : x.ContainerRemove rt1 id true true with
      | mk err2 rt2 =>
        cases err2 with
        | some e => simp [clientContainerStop, clientContainerRemove, hs, hr] at hok
        | none =>
          have h2 := hm.remove rt1 id true true rt2 hr
          simp [clientContainerStop, clientContainerRemove, hs, hr, h2, h1]

theorem forEach_ok_head {σ α : Type} (body : α → σ → Run σ (Result Unit)) (a : α)
    (rest : List α) (rt : σ) (hok : (forEach body (a :: rest) rt).val = Result.ok ()) :
    (body a rt).val = Result.ok () := by
  by_contra h
  rw [(forEach_cons_of_not_ok body a rest rt h).1] at hok
  exact h hok

theorem scaleUp_count {σ : Type} (x : External σ) (p : ComposeProject) (service : String)
    (config : ServiceSpec) (f : Filters) (ids : σ → List String) (hm : ServiceModel x f ids)
    (hf : ∀ i, matchesFilters (containerLabels p service i) f = true) :
    ∀ (idxs : List Int) (rt : σ),
      (forEach (fun i => createContainer x p service config i) idxs rt).val = Result.ok () →
      (ids (forEach (fun i => createContainer x p service config i) idxs rt).rt).length =
        (ids rt).length + idxs.length := by
  intro idxs
  induction idxs with
  | nil => intro rt _; simp [forEach]
  | cons i rest ih =>
    intro rt hok
    have hhead := forEach_ok_head _ i rest rt hok
    obtain ⟨h1, h2, _, _⟩ :=
      forEach_cons_of_ok (fun i => createContainer x p service config i) i rest rt hhead
    rw [h1] at hok
    rw [h2, ih _ hok, createContainer_of_ok x p service config i rt f ids hm (hf i) hhead]
    simp only [List.length_cons]
    omega

theorem scaleDown_ids {σ : Type} (x : External σ) (containers : List Container)
    (f : Filters) (ids : σ → List String) (hm : ServiceModel x f ids) :
    ∀ (idxs : List Int) (cs : List Container) (rt : σ),
      idxs.map (containerAt containers) = cs.map some →
      (forEach (scaleDownStep x containers) idxs rt).val = Result.ok () →
      ids (forEach (scaleDownStep x containers) idxs rt).rt =
        (ids rt).filter (fun i => i ∉ cs.map Container.ID) := by
  intro idxs
  induction idxs with
  | nil =>
    intro cs rt h _
    cases cs with
    | nil => simp [forEach]
    | cons c cs => simp at h
  | cons i rest ih =>
    intro cs rt h hok
    cases cs with
    | nil => simp at h
    | cons c cs =>
      simp only [List.map_cons, List.cons.injEq] at h
      have hstep : scaleDownStep x containers i rt = removeContainer x c.ID rt := by
        simp [scaleDownStep, h.1]
      have hhead := forEach_ok_head _ i rest rt hok
      obtain ⟨h1, h2, _, _⟩ := forEach_cons_of_ok (scaleDownStep x containers) i rest rt hhead
      rw [h1] at hok
      rw [h2, ih cs _ h.2 hok, hstep,
        removeContainer_of_ok x c.ID rt f ids hm (by rw [← hstep]; exact hhead),
        List.filter_filter]
      apply List.filter_congr
      intro a _
      by_cases h1 : a = c.ID <;> by_cases h2 : a ∈ cs.map Container.ID <;>
        simp [h1, h2]

theorem filter_not_mem_drop (cs : List Container) (n : Nat)
    (hnd : (cs.map Container.ID).Nodup) :
    (cs.map Container.ID).filter (fun i => i ∉ (cs.drop n).map Container.ID) =
      (cs.take n).map Container.ID := by
  have hsplit : cs.map Container.ID =
      (cs.take n).map Container.ID ++ (cs.drop n).map Container.ID := by
    rw [← List.map_append, List.take_append_drop]
  rw [hsplit] at hnd
  have hdisj := (List.nodup_append.1 hnd).2.2
  conv_lhs => rw [hsplit]
  rw [List.filter_append]
  have h1 : ((cs.take n).map Container.ID).filter
      (fun i => i ∉ (cs.drop n).map Container.ID) = (cs.take n).map Container.ID := by
    rw [List.filter_eq_self]
    intro a ha
    have hna : a ∉ (cs.drop n).map Container.ID := fun hmem => hdisj ha hmem
    simpa using hna
  have h2 : ((cs.drop n).map Container.ID).filter
      (fun i => i ∉ (cs.drop n).map Container.ID) = [] := by
    rw [List.filter_eq_nil_iff]
    intro a ha
    simpa using ha
  rw [h1, h2, List.append_nil]

/-- The state and result of `Scale` on a declared service in a model, in terms of the
loop it runs. -/
theorem Scale_reaches {σ : Type} (x : External σ) (p : ComposeProject) (service : String)
    (replicas : Int) (rt : σ) (ids : σ → List String)
    (hm : ServiceModel x (serviceFilters p service) ids)
    (h0 : 0 ≤ replicas) (hnd : (ids rt).Nodup)
    (hok : (Scale x p service replicas rt).val = Result.ok ()) :
    ((ids (Scale x p service replicas rt).rt).length : Int) = replicas := by
  unfold Scale at hok ⊢
  cases hl : p.Config.Services.lookup service with
  | none => simp [hl] at hok
  | some svcConfig =>
    obtain ⟨cs, hlist, hids⟩ := hm.list rt
    have hlen : cs.length = (ids rt).length := by rw [← hids, List.length_map]
    simp only [hl, Run.tag_val, Run.tag_rt, Run.bind_val, Run.bind_rt, clientContainerList,
      hlist] at hok ⊢
    unfold scaleTo at hok ⊢
    by_cases hgt : replicas > (cs.length : Int)
    · have hnot : ¬ replicas < (cs.length : Int) := by omega
      simp only [hgt, if_true, hnot, if_false, Run.bind_val, Run.bind_rt] at hok ⊢
      cases hv : (forEach (fun i => createContainer x p service svcConfig i)
          (intRange (cs.length : Int) replicas) rt).val with
      | err e => simp [hv] at hok
      | crash e => simp [hv] at hok
      | ok u =>
        have := scaleUp_count x p service svcConfig _ ids hm
          (containerLabels_match p service) _ rt hv
        simp only [hv, Run.pure_rt]
        rw [this, intRange_length]
        omega
    · by_cases hlt : replicas < (cs.length : Int)
      · simp only [hgt, if_false, hlt, if_true, Run.bind_val, Run.bind_rt, Run.pure_val,
          Run.pure_rt] at hok ⊢
        have hidx : (intRange replicas (cs.length : Int)).reverse.map (containerAt cs) =
            (cs.drop replicas.toNat).reverse.map some := by
          rw [List.map_reverse, intRange_containerAt cs replicas h0, List.map_reverse]
        rw [scaleDown_ids x cs _ ids hm _ _ rt hidx hok, ← hids]
        have hfil : (cs.map Container.ID).filter
            (fun i => i ∉ (cs.drop replicas.toNat).reverse.map Container.ID) =
            (cs.map Container.ID).filter
              (fun i => i ∉ (cs.drop replicas.toNat).map Container.ID) := by
          apply List.filter_congr
          intro a _
          simp
        rw [hfil, filter_not_mem_drop cs _ (hids ▸ hnd)]
        simp only [List.length_map, List.length_take]
        omega
      · simp only [hgt, if_false, hlt, Run.bind_rt, Run.pure_val, Run.pure_rt]
        omega

/-- The method `Scale` with the replica count that the listing already has: only the listing is
issued, and the state does not change. -/
theorem Scale_noop {σ : Type} (x : External σ) (p : ComposeProject) (service : String)
    (svcConfig : ServiceSpec) (replicas : Int) (rt : σ) (ids : σ → List String)
    (hm : ServiceModel x (serviceFilters p service) ids)
    (hsvc : p.Config.Services.lookup service = some svcConfig)
    (hlen : ((ids rt).length : Int) = replicas) :
    (Scale x p service replicas rt).val = Result.ok () ∧
    (Scale x p service replicas rt).rt = rt ∧
    ∃ cs, cs.map Container.ID = ids rt ∧
      (Scale x p service replicas rt).events =
        [{ svc := some service, call := Call.ContainerList true (serviceFilters p service),
           answer := Answer.containers cs }] := by
  obtain ⟨cs, hlist, hids⟩ := hm.list rt
  have hl : (cs.length : Int) = replicas := by rw [← hlen, ← hids, List.length_map]
  have h1 : ¬ replicas > (cs.length : Int) := by omega
  have h2 : ¬ replicas < (cs.length : Int) := by omega
  refine ⟨?_, ?_, cs, hids, ?_⟩ <;>
    simp [Scale, hsvc, clientContainerList, hlist, scaleTo, h1, h2, Answer.ofExcept]

/-- C5, as amended.  In a runtime model where a listing changes nothing, a successful
create adds one container to the service's listing, a successful start or stop leaves
the listing's ids as they are and a successful remove deletes the container with that
id, for every `replicas ≥ 0` and every initial state whose listed ids are pairwise
distinct: if `Scale(service, replicas)` returns nil, it ends with exactly `replicas`
listed containers, and a second `Scale(service, replicas)` from there returns nil too,
issues the listing and nothing else (no create, start, stop or remove), and ends in the
same state. -/
theorem Scale_idempotent {σ : Type} (x : External σ) (p : ComposeProject) (service : String)
    (replicas : Int) (rt : σ) (ids : σ → List String)
    (hm : ServiceModel x (serviceFilters p service) ids)
    (h0 : 0 ≤ replicas) (hnd : (ids rt).Nodup)
    (hok : (Scale x p service replicas rt).val = Result.ok ()) :
    ((ids (Scale x p service replicas rt).rt).length : Int) = replicas ∧
    (Scale x p service replicas (Scale x p service replicas rt).rt).val = Result.ok () ∧
    ((ids (Scale x p service replicas (Scale x p service replicas rt).rt).rt).length : Int) =
      replicas ∧
    (∃ cs, (cs.length : Int) = replicas ∧
      (Scale x p service replicas (Scale x p service replicas rt).rt).events =
        [{ svc := some service, call := Call.ContainerList true (serviceFilters p service),
           answer := Answer.containers cs }]) ∧
    (∀ e ∈ (Scale x p service replicas (Scale x p service replicas rt).rt).events,
      e.provisions = false ∧ e.tearsDown = false) := by
  have hreach := Scale_reaches x p service replicas rt ids hm h0 hnd hok
  cases hl : p.Config.Services.lookup service with
  | none => simp [Scale, hl] at hok
  | some svcConfig =>
    obtain ⟨hv, hrt, cs, hids, hev⟩ :=
      Scale_noop x p service svcConfig replicas _ ids hm hl hreach
    refine ⟨hreach, hv, by rw [hrt]; exact hreach,
      ⟨cs, by rw [← hreach, ← hids, List.length_map], hev⟩, ?_⟩
    intro e he
    rw [hev] at he
    simp only [List.mem_singleton] at he
    subst he
    exact ⟨rfl, rfl⟩

end Compose
namespace Compose

/-! ## The reference runtime is a model -/

theorem setState_ids (f : Filters) (id state : String) (cs : List Container) :
    ((setState id state cs).filter fun c => matchesFilters c.Labels f).map Container.ID =
      (cs.filter fun c => matchesFilters c.Labels f).map Container.ID := by
  induction cs with
  | nil => rfl
  | cons c rest ih =>
    unfold setState at ih ⊢
    by_cases hc : c.ID = id
    · by_cases hm : matchesFilters c.Labels f = true
      · simp [List.filter_cons, hc, hm, ih]
      · simp [List.filter_cons, hc, hm, ih]
    · by_cases hm : matchesFilters c.Labels f = true
      · simp [List.filter_cons, hc, hm, ih]
      · simp [List.filter_cons, hc, hm, ih]

theorem remove_ids (f : Filters) (id : String) (cs : List Container) :
    ((cs.filter fun c => c.ID ≠ id).filter fun c => matchesFilters c.Labels f).map Container.ID =
      ((cs.filter fun c => matchesFilters c.Labels f).map Container.ID).filter
        (fun i => i ≠ id) := by
  rw [List.filter_map, List.filter_filter, List.filter_filter]
  congr 1
  apply List.filter_congr
  intro c _
  simp [Bool.and_comm]

theorem simOk_model (f : Filters) : ServiceModel simOk f (simIds f) where
  list := fun rt => ⟨_, rfl, rfl⟩
  create := by
    intro rt config hostConfig networking name id rt' h hmatch
    simp only [simOk, sim, noFailure, Prod.mk.injEq] at h
    rw [← h.2]
    simp [simIds, List.filter_append, List.filter_cons, hmatch]
  start := by
    intro rt id rt' h
    simp only [simOk, sim, noFailure] at h
    split at h
    · simp only [Prod.mk.injEq, true_and] at h
      rw [← h]
      exact setState_ids f id "running" rt.containers
    · simp at h
  stop := by
    intro rt id timeout rt' h
    simp only [simOk, sim, noFailure] at h
    split at h
    · simp only [Prod.mk.injEq, true_and] at h
      rw [← h]
      exact setState_ids f id "exited" rt.containers
    · simp at h
  remove := by
    intro rt id removeVolumes force rt' h
    simp only [simOk, sim, noFailure] at h
    split at h
    · simp only [Prod.mk.injEq, true_and] at h
      rw [← h]
      exact remove_ids f id rt.containers
    · simp at h

theorem Scale_idempotent_witness :
    (0 : Int) ≤ 1 ∧
    (simIds (serviceFilters exampleProject "web") exampleState).Nodup ∧
    (Scale simOk exampleProject "web" 1 exampleState).val = Result.ok () ∧
    ((simIds (serviceFilters exampleProject "web")
        (Scale simOk exampleProject "web" 1 exampleState).rt).length : Int) = 1 ∧
    (Scale simOk exampleProject "web" 1
        (Scale simOk exampleProject "web" 1 exampleState).rt).val = Result.ok () :=
  ⟨by decide, by decide, by decide,
   (Scale_idempotent simOk exampleProject "web" 1 exampleState
      (simIds (serviceFilters exampleProject "web")) (simOk_model _)
      (by decide) (by decide) (by decide)).1,
   (Scale_idempotent simOk exampleProject "web" 1 exampleState
      (simIds (serviceFilters exampleProject "web")) (simOk_model _)
      (by decide) (by decide) (by decide)).2.1⟩

/-- C5 fails as stated: the reference runtime is a model of the kind the claim
describes, the service of `badPortProject` is declared and no container exists; two
consecutive `Scale("web", 2)` calls each return the port error and each end with 0
containers labeled for the service, not 2. -/
theorem Scale_idempotent_counterexample :
    ServiceModel simOk (serviceFilters badPortProject "web")
      (simIds (serviceFilters badPortProject "web")) ∧
    (∃ msg, (Scale simOk badPortProject "web" 2 {}).val =
      Result.err ("invalid port mapping 8080:http: " ++ msg)) ∧
    (simIds (serviceFilters badPortProject "web")
      (Scale simOk badPortProject "web" 2 {}).rt).length = 0 ∧
    (simIds (serviceFilters badPortProject "web")
      (Scale simOk badPortProject "web" 2 (Scale simOk badPortProject "web" 2 {}).rt).rt).length
        = 0 :=
  ⟨simOk_model _, ⟨"invalid containerPort: http", by decide⟩, by decide, by decide⟩

end Compose
namespace Compose

/-! ## Up and Down: what the loops issue -/

theorem forEach_cons_cases {σ α : Type} (body : α → σ → Run σ (Result Unit)) (a : α)
    (rest : List α) (rt : σ) :
    ((body a rt).val = Result.ok () ∧
      (forEach body (a :: rest) rt).val = (forEach body rest (body a rt).rt).val ∧
      (forEach body (a :: rest) rt).events =
        (body a rt).events ++ (forEach body rest (body a rt).rt).events) ∨
    ((body a rt).val ≠ Result.ok () ∧
      (forEach body (a :: rest) rt).val = (body a rt).val ∧
      (forEach body (a :: rest) rt).events = (body a rt).events) := by
  by_cases h : (body a rt).val = Result.ok ()
  · obtain ⟨h1, _, h3, _⟩ := forEach_cons_of_ok body a rest rt h
    exact Or.inl ⟨h, h1, h3⟩
  · obtain ⟨h1, _, h3, _⟩ := forEach_cons_of_not_ok body a rest rt h
    exact Or.inr ⟨h, h1, h3⟩

theorem forEach_mem {σ α : Type} (body : α → σ → Run σ (Result Unit)) :
    ∀ (l : List α) (rt : σ) (e : Event), e ∈ (forEach body l rt).events →
      ∃ a ∈ l, ∃ rt', e ∈ (body a rt').events := by
  intro l
  induction l with
  | nil => intro rt e he; simp [forEach] at he
  | cons a rest ih =>
    intro rt e he
    rcases forEach_cons_cases body a rest rt with ⟨_, _, h⟩ | ⟨_, _, h⟩
    · rw [h] at he
      rcases List.mem_append.1 he with h1 | h1
      · exact ⟨a, by simp, rt, h1⟩
      · obtain ⟨b, hb, rt', hmem⟩ := ih _ e h1
        exact ⟨b, List.mem_cons_of_mem _ hb, rt', hmem⟩
    · rw [h] at he
      exact ⟨a, by simp, rt, he⟩

theorem forEach_no_crash {σ α : Type} (body : α → σ → Run σ (Result Unit))
    (hbody : ∀ a rt, (body a rt).val = Result.ok () ∨ ∃ msg, (body a rt).val = Result.err msg) :
    ∀ (l : List α) (rt : σ),
      (forEach body l rt).val = Result.ok () ∨ ∃ msg, (forEach body l rt).val = Result.err msg := by
  intro l
  induction l with
  | nil => intro rt; exact Or.inl rfl
  | cons a rest ih =>
    intro rt
    rcases forEach_cons_cases body a rest rt with ⟨_, h, _⟩ | ⟨_, h, _⟩
    · rw [h]; exact ih _
    · rw [h]; exact hbody a rt

theorem forAll_mem {σ α : Type} (body : α → σ → Run σ Unit) :
    ∀ (l : List α) (rt : σ) (e : Event), e ∈ (forAll body l rt).events →
      ∃ a ∈ l, ∃ rt', e ∈ (body a rt').events := by
  intro l
  induction l with
  | nil => intro rt e he; simp [forAll] at he
  | cons a rest ih =>
    intro rt e he
    simp only [forAll, Run.bind_events] at he
    rcases List.mem_append.1 he with h1 | h1
    · exact ⟨a, by simp, rt, h1⟩
    · obtain ⟨b, hb, rt', hmem⟩ := ih _ e h1
      exact ⟨b, List.mem_cons_of_mem _ hb, rt', hmem⟩

/-- Along a loop over names whose body tags its calls with the name, the tags of the
issued calls follow the order of the list. -/
theorem forEach_pairwise {σ : Type} (body : String → σ → Run σ (Result Unit))
    (R : String → String → Prop)
    (hbody : ∀ a rt, ∀ e ∈ (body a rt).events, e.svc = some a) :
    ∀ (l : List String) (rt : σ), l.Pairwise R → (∀ a ∈ l, R a a) →
      (forEach body l rt).events.Pairwise
        (fun e1 e2 => ∀ a b, e1.svc = some a → e2.svc = some b → R a b) := by
  intro l
  induction l with
  | nil => intro rt _ _; simp [forEach]
  | cons a rest ih =>
    intro rt hl hrefl
    rw [List.pairwise_cons] at hl
    have hself : (body a rt).events.Pairwise
        (fun e1 e2 => ∀ a b, e1.svc = some a → e2.svc = some b → R a b) := by
      rw [List.pairwise_iff_forall_sublist]
      intro e1 e2 hsub c d hc hd
      have h1 := hbody a rt e1 (hsub.subset (by simp))
      have h2 := hbody a rt e2 (hsub.subset (by simp))
      rw [h1] at hc; rw [h2] at hd
      have hc' := Option.some.inj hc
      have hd' := Option.some.inj hd
      rw [← hc', ← hd']
      exact hrefl a (by simp)
    rcases forEach_cons_cases body a rest rt with ⟨_, _, h⟩ | ⟨_, _, h⟩
    · rw [h, List.pairwise_append]
      refine ⟨hself, ih _ hl.2 (fun b hb => hrefl b (List.mem_cons_of_mem _ hb)), ?_⟩
      intro e1 he1 e2 he2 c d hc hd
      have h1 := hbody a rt e1 he1
      obtain ⟨b, hb, rt', hmem⟩ := forEach_mem body rest _ e2 he2
      have h2 := hbody b rt' e2 hmem
      rw [h1] at hc; rw [h2] at hd
      have hc' := Option.some.inj hc
      have hd' := Option.some.inj hd
      rw [← hc', ← hd']
      exact hl.1 b hb
    · rw [h]; exact hself

theorem createContainer_events {σ : Type} (x : External σ) (p : ComposeProject)
    (service : String) (config : ServiceSpec) (i : Int) (rt : σ) :
    ∀ e ∈ (createContainer x p service config i rt).events,
      e.provisions = true ∧ e.tearsDown = false ∧
      (e.call.isCreate = true → ∃ ports, e.call = createCall p service config ports i) := by
  intro e he
  unfold createContainer at he
  cases hp : parsePorts x.ParsePortSpec config.Ports ([], []) with
  | error msg => simp [hp] at he
  | ok ports =>
    obtain ⟨pb, ep⟩ := ports
    simp only [hp, Run.bind_events, clientContainerCreate, List.singleton_append,
      List.mem_cons] at he
    rcases he with rfl | he
    · exact ⟨rfl, rfl, fun _ => ⟨(pb, ep), rfl⟩⟩
    · cases hc : (x.ContainerCreate rt
          { Image := config.Image, Cmd := config.Command,
            Env := mapToEnvSlice config.Environment,
            ExposedPorts := ep, Labels := containerLabels p service i }
          { PortBindings := pb, Binds := config.Volumes }
          { EndpointsConfig := endpointKeys p } (containerName p service i)).1 with
      | error msg => simp [hc] at he
      | ok id =>
        simp only [hc, Run.bind_events, clientContainerStart, List.singleton_append,
          List.mem_cons] at he
        rcases he with rfl | he
        · exact ⟨rfl, rfl, fun h => by simp [Call.isCreate] at h⟩
        · cases hs : (x.ContainerStart (x.ContainerCreate rt
              { Image := config.Image, Cmd := config.Command,
                Env := mapToEnvSlice config.Environment,
                ExposedPorts := ep, Labels := containerLabels p service i }
              { PortBindings := pb, Binds := config.Volumes }
              { EndpointsConfig := endpointKeys p } (containerName p service i)).2 id).1 <;>
            simp [hs] at he

theorem createContainer_no_crash {σ : Type} (x : External σ) (p : ComposeProject)
    (service : String) (config : ServiceSpec) (i : Int) (rt : σ) :
    (createContainer x p service config i rt).val = Result.ok () ∨
      ∃ msg, (createContainer x p service config i rt).val = Result.err msg := by
  unfold createContainer
  cases hp : parsePorts x.ParsePortSpec config.Ports ([], []) with
  | error msg => exact Or.inr ⟨msg, rfl⟩
  | ok ports =>
    obtain ⟨pb, ep⟩ := ports
    cases hc : (x.ContainerCreate rt
        { Image := config.Image, Cmd := config.Command,
          Env := mapToEnvSlice config.Environment,
          ExposedPorts := ep, Labels := containerLabels p service i }
        { PortBindings := pb, Binds := config.Volumes }
        { EndpointsConfig := endpointKeys p } (containerName p service i)).1 with
    | error msg =>
      exact Or.inr ⟨"failed to create container: " ++ msg, by simp [clientContainerCreate, hc]⟩
    | ok id =>
      cases hs : (x.ContainerStart (x.ContainerCreate rt
          { Image := config.Image, Cmd := config.Command,
            Env := mapToEnvSlice config.Environment,
            ExposedPorts := ep, Labels := containerLabels p service i }
          { PortBindings := pb, Binds := config.Volumes }
          { EndpointsConfig := endpointKeys p } (containerName p service i)).2 id).1 with
      | some msg =>
        exact Or.inr ⟨"failed to start container: " ++ msg,
          by simp [clientContainerCreate, clientContainerStart, hc, hs]⟩
      | none => exact Or.inl (by simp [clientContainerCreate, clientContainerStart, hc, hs])

theorem upService_events {σ : Type} (x : External σ) (p : ComposeProject)
    (service : String) (rt : σ) :
    ∀ e ∈ (upService x p service rt).events,
      e.svc = some service ∧ e.provisions = true ∧ e.tearsDown = false ∧
      (e.call.isCreate = true →
        ∃ ports i, e.call = createCall p service (p.Config.service service) ports i) := by
  intro e he
  have he' : e ∈ (Run.tag service (startService x p service rt)).events := by
    cases hv : (startService x p service rt).val <;>
      simpa [upService, hv] using he
  simp only [Run.tag_events, List.mem_map] at he'
  obtain ⟨e0, he0, rfl⟩ := he'
  obtain ⟨i, _, rt', hmem⟩ := forEach_mem _ _ _ _ he0
  obtain ⟨h1, h2, h3⟩ := createContainer_events x p service _ i rt' e0 hmem
  exact ⟨rfl, h1, h2, fun h => by obtain ⟨ports, hp⟩ := h3 h; exact ⟨ports, i, hp⟩⟩

theorem startService_no_crash {σ : Type} (x : External σ) (p : ComposeProject)
    (service : String) (rt : σ) :
    (startService x p service rt).val = Result.ok () ∨
      ∃ msg, (startService x p service rt).val = Result.err msg :=
  forEach_no_crash _ (fun i rt' => createContainer_no_crash x p service _ i rt') _ rt

theorem upService_val {σ : Type} (x : External σ) (p : ComposeProject)
    (service : String) (rt : σ) :
    ((upService x p service rt).val = Result.ok () ∧
        (startService x p service rt).val = Result.ok ()) ∨
      ∃ msg, (upService x p service rt).val = Result.err msg ∧
        ∃ msg', (startService x p service rt).val = Result.err msg' := by
  rcases startService_no_crash x p service rt with h | ⟨msg, h⟩
  · exact Or.inl ⟨by simp [upService, h], h⟩
  · exact Or.inr ⟨"failed to start service " ++ service ++ ": " ++ msg,
      by simp [upService, h], msg, h⟩

theorem upService_events_eq {σ : Type} (x : External σ) (p : ComposeProject)
    (service : String) (rt : σ) :
    (upService x p service rt).events =
      (startService x p service rt).events.map (fun e => { e with svc := some service }) ∧
    (upService x p service rt).rt = (startService x p service rt).rt := by
  cases hv : (startService x p service rt).val <;> simp [upService, hv]

theorem createNetworks_events {σ : Type} (x : External σ) (p : ComposeProject) (rt : σ) :
    ∀ e ∈ (createNetworks x p rt).events,
      e.svc = none ∧ e.provisions = false ∧ e.tearsDown = false := by
  intro e he
  obtain ⟨net, _, rt', hmem⟩ := forEach_mem _ _ _ _ he
  unfold createNetwork at hmem
  split at hmem
  · simp at hmem
  · simp only [Run.bind_events, clientNetworkCreate, List.singleton_append,
      List.mem_cons] at hmem
    rcases hmem with rfl | hmem
    · exact ⟨rfl, rfl, rfl⟩
    · cases hn : (x.NetworkCreate rt' (p.Name ++ "_" ++ net.1) "bridge"
          [("com.docker.compose.project", p.Name), ("com.docker.compose.network", net.1)]).1 with
      | none => simp [hn] at hmem
      | some msg =>
        simp only [hn] at hmem
        split at hmem <;> simp at hmem

theorem createNetworks_no_crash {σ : Type} (x : External σ) (p : ComposeProject) (rt : σ) :
    (createNetworks x p rt).val = Result.ok () ∨
      ∃ msg, (createNetworks x p rt).val = Result.err msg := by
  apply forEach_no_crash
  intro net rt'
  unfold createNetwork
  split
  · exact Or.inl rfl
  · cases hn : (x.NetworkCreate rt' (p.Name ++ "_" ++ net.1) "bridge"
        [("com.docker.compose.project", p.Name), ("com.docker.compose.network", net.1)]).1 with
    | none => exact Or.inl (by simp [clientNetworkCreate, hn])
    | some msg =>
      by_cases hc : stringsContains msg "already exists" = true
      · exact Or.inl (by simp [clientNetworkCreate, hn, hc])
      · exact Or.inr ⟨"failed to create network " ++ net.1 ++ ": " ++ msg,
          by simp [clientNetworkCreate, hn, hc]⟩

/-- The calls of `Up`: those of `createNetworks`, then, when it returned nil, those of
the loop over the resolver's order. -/
theorem upWith_events {σ : Type} (x : External σ) (p : ComposeProject)
    (resolved : Resolved) (rt : σ) :
    ((createNetworks x p rt).val = Result.ok () ∧
      (upWith x p resolved rt).events = (createNetworks x p rt).events ++
        (forEach (upService x p) resolved.order (createNetworks x p rt).rt).events ∧
      (upWith x p resolved rt).val =
        (forEach (upService x p) resolved.order (createNetworks x p rt).rt).val) ∨
    ((∃ msg, (createNetworks x p rt).val = Result.err msg) ∧
      (upWith x p resolved rt).events = (createNetworks x p rt).events ∧
      ∃ msg, (upWith x p resolved rt).val = Result.err msg) := by
  rcases createNetworks_no_crash x p rt with h | ⟨msg, h⟩
  · exact Or.inl ⟨h, by simp [upWith, h], by simp [upWith, h]⟩
  · exact Or.inr ⟨⟨msg, h⟩, by simp [upWith, h],
      "failed to create networks: " ++ msg, by simp [upWith, h]⟩

theorem order_pairwise (graph : String → List String) (order : List String)
    (hnd : order.Nodup) (htopo : DepsFirst graph order) (A B : String) (hdep : A ∈ graph B) :
    order.Pairwise (fun a b => ¬ (a = B ∧ b = A)) ∧ ∀ a ∈ order, ¬ (a = B ∧ a = A) := by
  have key : B ∈ order → order.indexOf A < order.indexOf B := fun hB =>
    (depsFirst_indexOf graph order htopo B A hB hdep).2
  constructor
  · rw [List.pairwise_iff_get]
    intro i j hij hcontra
    have hB : B ∈ order := hcontra.1 ▸ List.get_mem order i.1 i.2
    have hlt := key hB
    have h1 : order.indexOf B = i := by rw [← hcontra.1]; exact List.get_indexOf hnd i
    have h2 : order.indexOf A = j := by rw [← hcontra.2]; exact List.get_indexOf hnd j
    rw [h1, h2] at hlt
    have hij' : (i : Nat) < (j : Nat) := hij
    omega
  · intro a ha hcontra
    have hB : B ∈ order := hcontra.1 ▸ ha
    have hlt := key hB
    rw [← hcontra.1, ← hcontra.2] at hlt
    exact lt_irrefl _ hlt

end Compose
namespace Compose

/-! ## Up starts dependencies first -/

theorem getServiceOrder_good (p : ComposeProject) :
    ∃ resolved, getServiceOrder p = some resolved ∧ resolved.order.Nodup ∧
      DepsFirst (graphOf p.Config.Services) resolved.order ∧
      (Acyclic p.Config → ∀ n ∈ p.Config.serviceNames, n ∈ resolved.order) := by
  obtain ⟨s, logged, _, hget, hg, hacy⟩ := getServiceOrder_run p
  exact ⟨_, hget, hg.nodup, hg.topo, fun hac n hn => (hg.mem_iff n).2 ((hacy hac).1 n hn)⟩

theorem declared_of_dependsOn (cfg : ComposeConfig) (A B : String)
    (hdep : A ∈ (cfg.service B).DependsOn) : B ∈ cfg.serviceNames := by
  rw [service_dependsOn] at hdep
  have : graphOf cfg.Services B ≠ [] := fun h => by rw [h] at hdep; simp at hdep
  exact List.mem_toFinset.1 (graphOf_ne_nil_mem cfg.Services B this)

theorem upWith_pairwise {σ : Type} (x : External σ) (p : ComposeProject)
    (resolved : Resolved) (rt : σ) (A B : String)
    (hpair : resolved.order.Pairwise (fun a b => ¬ (a = B ∧ b = A)))
    (hrefl : ∀ a ∈ resolved.order, ¬ (a = B ∧ a = A)) :
    (upWith x p resolved rt).events.Pairwise
      (fun e1 e2 => ¬ (e1.svc = some B ∧ e1.provisions = true ∧
        e2.svc = some A ∧ e2.provisions = true)) := by
  have hnets : (createNetworks x p rt).events.Pairwise
      (fun e1 e2 => ¬ (e1.svc = some B ∧ e1.provisions = true ∧
        e2.svc = some A ∧ e2.provisions = true)) := by
    apply List.pairwise_of_forall_mem_list
    intro e1 he1 e2 _ hc
    have := (createNetworks_events x p rt e1 he1).2.1
    rw [hc.2.1] at this
    exact Bool.noConfusion this
  rcases upWith_events x p resolved rt with ⟨_, hev, _⟩ | ⟨_, hev, _⟩
  · rw [hev, List.pairwise_append]
    refine ⟨hnets, ?_, ?_⟩
    · refine (forEach_pairwise (upService x p) (fun a b => ¬ (a = B ∧ b = A))
        (fun a rt' e he => (upService_events x p a rt' e he).1) resolved.order _ hpair
        hrefl).imp ?_
      intro e1 e2 h hc
      exact h B A hc.1 hc.2.2.1 ⟨rfl, rfl⟩
    · intro e1 he1 e2 _ hc
      have := (createNetworks_events x p rt e1 he1).2.1
      rw [hc.2.1] at this
      exact Bool.noConfusion this
  · rw [hev]; exact hnets

theorem upWith_creates {σ : Type} (x : External σ) (p : ComposeProject)
    (resolved : Resolved) (rt : σ) :
    ∀ e ∈ (upWith x p resolved rt).events, e.provisions = true →
      ∃ s ∈ resolved.order, e.svc = some s ∧
        (e.call.isCreate = true →
          ∃ ports i, e.call = createCall p s (p.Config.service s) ports i) := by
  intro e he hprov
  have hloop : e ∈ (forEach (upService x p) resolved.order (createNetworks x p rt).rt).events := by
    rcases upWith_events x p resolved rt with ⟨_, hev, _⟩ | ⟨_, hev, _⟩
    · rw [hev] at he
      rcases List.mem_append.1 he with h | h
      · have := (createNetworks_events x p rt e h).2.1
        rw [hprov] at this; exact Bool.noConfusion this
      · exact h
    · rw [hev] at he
      have := (createNetworks_events x p rt e he).2.1
      rw [hprov] at this; exact Bool.noConfusion this
  obtain ⟨s, hs, rt', hmem⟩ := forEach_mem _ _ _ _ hloop
  obtain ⟨h1, _, _, h4⟩ := upService_events x p s rt' e hmem
  exact ⟨s, hs, h1, h4⟩

/-- C7. For every acyclic configuration in which service `B` lists service `A` in
`depends_on`, in every iteration order of the service map, `Up` returns, both services
are in the resolver's order with `A` before `B`, and in the sequence of calls `Up`
issues no create or start issued for `B` comes before a create or start issued for
`A`.  (A call is issued for the service whose `startService` run issues it; every
create request of that run carries this service in its labels and name.) -/
theorem Up_dependency_first {σ : Type} (x : External σ) (p : ComposeProject) (rt : σ)
    (A B : String) (hac : Acyclic p.Config) (hdep : A ∈ (p.Config.service B).DependsOn) :
    ∃ r resolved, Up x p rt = some r ∧ getServiceOrder p = some resolved ∧
      A ∈ resolved.order ∧ B ∈ resolved.order ∧
      resolved.order.indexOf A < resolved.order.indexOf B ∧
      r.events.Pairwise
        (fun e1 e2 => ¬ (e1.svc = some B ∧ e1.provisions = true ∧
          e2.svc = some A ∧ e2.provisions = true)) ∧
      (∀ e ∈ r.events, e.provisions = true →
        ∃ s ∈ resolved.order, e.svc = some s ∧
          (e.call.isCreate = true →
            ∃ ports i, e.call = createCall p s (p.Config.service s) ports i)) := by
  obtain ⟨resolved, hget, hnd, htopo, hall⟩ := getServiceOrder_good p
  have hB : B ∈ resolved.order := hall hac B (declared_of_dependsOn _ A B hdep)
  have hdep' : A ∈ graphOf p.Config.Services B := by rw [← service_dependsOn]; exact hdep
  obtain ⟨hA, hlt⟩ := depsFirst_indexOf _ _ htopo B A hB hdep'
  obtain ⟨hpair, hrefl⟩ := order_pairwise _ _ hnd htopo A B hdep'
  exact ⟨upWith x p resolved rt, resolved, by simp [Up, hget], hget, hA, hB, hlt,
    upWith_pairwise x p resolved rt A B hpair hrefl, upWith_creates x p resolved rt⟩

theorem Up_dependency_first_witness :
    Acyclic exampleProject.Config ∧
    "migrate" ∈ (exampleProject.Config.service "db").DependsOn ∧
    (Up simOk exampleProject {}).map
        (fun r => r.events.map (fun e => (e.svc, e.call.isCreate, e.call.target))) =
      some [(some "web", true, none), (some "web", false, some "c0"),
            (some "web", true, none), (some "web", false, some "c1"),
            (some "migrate", true, none), (some "migrate", false, some "c2"),
            (some "db", true, none), (some "db", false, some "c3")] ∧
    ∃ r resolved, Up simOk exampleProject {} = some r ∧
      getServiceOrder exampleProject = some resolved ∧
      "migrate" ∈ resolved.order ∧ "db" ∈ resolved.order ∧
      resolved.order.indexOf "migrate" < resolved.order.indexOf "db" ∧
      r.events.Pairwise
        (fun e1 e2 => ¬ (e1.svc = some "db" ∧ e1.provisions = true ∧
          e2.svc = some "migrate" ∧ e2.provisions = true)) ∧
      (∀ e ∈ r.events, e.provisions = true →
        ∃ s ∈ resolved.order, e.svc = some s ∧
          (e.call.isCreate = true →
            ∃ ports i, e.call =
              createCall exampleProject s (exampleProject.Config.service s) ports i)) :=
  ⟨exampleConfig_acyclic, by decide, by decide,
   Up_dependency_first simOk exampleProject {} "migrate" "db" exampleConfig_acyclic
     (by decide)⟩

end Compose
namespace Compose

/-! ## Down stops dependents first -/

theorem forEach_mem_run {σ α : Type} (body : α → σ → Run σ (Result Unit)) :
    ∀ (l : List α) (rt : σ) (e : Event), e ∈ (forEach body l rt).events →
      ∃ a ∈ l, ∃ rt', e ∈ (body a rt').events ∧
        ∀ e' ∈ (body a rt').events, e' ∈ (forEach body l rt).events := by
  intro l
  induction l with
  | nil => intro rt e he; simp [forEach] at he
  | cons a rest ih =>
    intro rt e he
    rcases forEach_cons_cases body a rest rt with ⟨_, _, h⟩ | ⟨_, _, h⟩
    · rw [h] at he ⊢
      rcases List.mem_append.1 he with h1 | h1
      · exact ⟨a, by simp, rt, h1, fun e' he' => List.mem_append_left _ he'⟩
      · obtain ⟨b, hb, rt', hmem, hsub⟩ := ih _ e h1
        exact ⟨b, List.mem_cons_of_mem _ hb, rt', hmem,
          fun e' he' => List.mem_append_right _ (hsub e' he')⟩
    · rw [h] at he ⊢
      exact ⟨a, by simp, rt, he, fun e' he' => he'⟩

theorem stopContainer_events {σ : Type} (x : External σ) (c : Container) (rt : σ) :
    ∀ e ∈ (stopContainer x c rt).events,
      e.tearsDown = true ∧ e.provisions = false ∧ e.call.target = some c.ID := by
  intro e he
  unfold stopContainer at he
  simp only [Run.bind_events, clientContainerStop, List.singleton_append, List.mem_cons] at he
  rcases he with rfl | he
  · exact ⟨rfl, rfl, rfl⟩
  · cases hs : (x.ContainerStop rt c.ID 30).1 with
    | some msg => simp [hs, logPrintf] at he
    | none =>
      simp only [hs, Run.bind_events, clientContainerRemove, List.singleton_append,
        List.mem_cons] at he
      rcases he with rfl | he
      · exact ⟨rfl, rfl, rfl⟩
      · cases hr : (x.ContainerRemove (x.ContainerStop rt c.ID 30).2 c.ID false true).1 <;>
          simp [hr, logPrintf] at he

theorem stopService_events {σ : Type} (x : External σ) (p : ComposeProject)
    (service : String) (rt : σ) :
    ∃ answer, (stopService x p service rt).events =
        { svc := none, call := Call.ContainerList true (serviceFilters p service),
          answer := answer } :: (stopService x p service rt).events.tail ∧
      ∀ e ∈ (stopService x p service rt).events.tail,
        e.tearsDown = true ∧ e.provisions = false ∧
        ∃ cs c, answer = Answer.containers cs ∧ c ∈ cs ∧ e.call.target = some c.ID := by
  unfold stopService
  cases hl : (x.ContainerList rt true (serviceFilters p service)).1 with
  | error msg =>
    refine ⟨Answer.failed msg, by simp [clientContainerList, hl, Answer.ofExcept], ?_⟩
    simp [clientContainerList, hl]
  | ok cs =>
    refine ⟨Answer.containers cs, by simp [clientContainerList, hl, Answer.ofExcept], ?_⟩
    intro e he
    simp only [Run.bind_events, clientContainerList, hl, List.singleton_append, List.tail_cons,
      Run.pure_events, List.append_nil] at he
    obtain ⟨c, hc, rt', hmem⟩ := forAll_mem _ _ _ _ he
    obtain ⟨h1, h2, h3⟩ := stopContainer_events x c rt' e hmem
    exact ⟨h1, h2, cs, c, rfl, hc, h3⟩

theorem stopService_no_crash {σ : Type} (x : External σ) (p : ComposeProject)
    (service : String) (rt : σ) :
    (stopService x p service rt).val = Result.ok () ∨
      ∃ msg, (stopService x p service rt).val = Result.err msg := by
  unfold stopService
  cases hl : (x.ContainerList rt true (serviceFilters p service)).1 with
  | error msg => exact Or.inr ⟨msg, by simp [clientContainerList, hl]⟩
  | ok cs => exact Or.inl (by simp [clientContainerList, hl])

theorem downService_events_eq {σ : Type} (x : External σ) (p : ComposeProject)
    (service : String) (rt : σ) :
    (downService x p service rt).events =
      (stopService x p service rt).events.map (fun e => { e with svc := some service }) := by
  cases hv : (stopService x p service rt).val <;> simp [downService, hv]

theorem downService_no_crash {σ : Type} (x : External σ) (p : ComposeProject)
    (service : String) (rt : σ) :
    (downService x p service rt).val = Result.ok () ∨
      ∃ msg, (downService x p service rt).val = Result.err msg := by
  rcases stopService_no_crash x p service rt with h | ⟨msg, h⟩
  · exact Or.inl (by simp [downService, h])
  · exact Or.inr ⟨"failed to stop service " ++ service ++ ": " ++ msg, by simp [downService, h]⟩

theorem downService_events {σ : Type} (x : External σ) (p : ComposeProject)
    (service : String) (rt : σ) :
    ∀ e ∈ (downService x p service rt).events,
      e.svc = some service ∧ e.provisions = false ∧
      (e.tearsDown = true →
        ∃ cs c, { svc := some service, call := Call.ContainerList true (serviceFilters p service),
                  answer := Answer.containers cs } ∈ (downService x p service rt).events ∧
          c ∈ cs ∧ e.call.target = some c.ID) := by
  intro e he
  rw [downService_events_eq] at he ⊢
  obtain ⟨answer, hhead, htail⟩ := stopService_events x p service rt
  simp only [List.mem_map] at he
  obtain ⟨e0, he0, rfl⟩ := he
  rw [hhead] at he0
  rcases List.mem_cons.1 he0 with h | h
  · subst h
    exact ⟨rfl, rfl, fun hc => by simp [Event.tearsDown, Call.isStop, Call.isRemove] at hc⟩
  · obtain ⟨h1, h2, cs, c, hans, hc, htarget⟩ := htail e0 h
    refine ⟨rfl, h2, fun _ => ⟨cs, c, ?_, hc, htarget⟩⟩
    rw [hhead, hans]
    simp

theorem removeNetworks_events {σ : Type} (x : External σ) (p : ComposeProject) (rt : σ) :
    ∀ e ∈ (removeNetworks x p rt).events,
      e.svc = none ∧ e.provisions = false ∧ e.tearsDown = false := by
  intro e he
  unfold removeNetworks at he
  simp only [Run.bind_events, clientNetworkList, List.singleton_append, List.mem_cons] at he
  rcases he with rfl | he
  · exact ⟨rfl, rfl, rfl⟩
  · cases hl : (x.NetworkList rt (projectFilters p)).1 with
    | error msg => simp [hl] at he
    | ok ns =>
      simp only [hl, Run.bind_events, Run.pure_events, List.append_nil] at he
      obtain ⟨n, _, rt', hmem⟩ := forAll_mem _ _ _ _ he
      unfold removeNetwork at hmem
      simp only [Run.bind_events, clientNetworkRemove, List.singleton_append,
        List.mem_cons] at hmem
      rcases hmem with rfl | hmem
      · exact ⟨rfl, rfl, rfl⟩
      · cases hr : (x.NetworkRemove rt' n.ID).1 <;> simp [hr, logPrintf] at hmem

/-- The calls of `Down`: those of the loop over the reversed order, then, when the
loop returned nil, those of `removeNetworks`. -/
theorem downWith_events {σ : Type} (x : External σ) (p : ComposeProject)
    (resolved : Resolved) (rt : σ) :
    ((forEach (downService x p) resolved.order.reverse rt).val = Result.ok () ∧
      (downWith x p resolved rt).events =
        (forEach (downService x p) resolved.order.reverse rt).events ++
        (removeNetworks x p (forEach (downService x p) resolved.order.reverse rt).rt).events ∧
      (downWith x p resolved rt).val =
        (removeNetworks x p (forEach (downService x p) resolved.order.reverse rt).rt).val) ∨
    ((∃ msg, (forEach (downService x p) resolved.order.reverse rt).val = Result.err msg) ∧
      (downWith x p resolved rt).events =
        (forEach (downService x p) resolved.order.reverse rt).events ∧
      (downWith x p resolved rt).val =
        (forEach (downService x p) resolved.order.reverse rt).val) := by
  rcases forEach_no_crash (downService x p) (downService_no_crash x p) resolved.order.reverse rt
    with h | ⟨msg, h⟩
  · exact Or.inl ⟨h, by simp [downWith, h], by simp [downWith, h]⟩
  · exact Or.inr ⟨⟨msg, h⟩, by simp [downWith, h], by simp [downWith, h]⟩

theorem downWith_pairwise {σ : Type} (x : External σ) (p : ComposeProject)
    (resolved : Resolved) (rt : σ) (A B : String)
    (hpair : resolved.order.Pairwise (fun a b => ¬ (a = B ∧ b = A)))
    (hrefl : ∀ a ∈ resolved.order, ¬ (a = B ∧ a = A)) :
    (downWith x p resolved rt).events.Pairwise
      (fun e1 e2 => ¬ (e1.svc = some A ∧ e1.tearsDown = true ∧
        e2.svc = some B ∧ e2.tearsDown = true)) := by
  have hloop : (forEach (downService x p) resolved.order.reverse rt).events.Pairwise
      (fun e1 e2 => ¬ (e1.svc = some A ∧ e1.tearsDown = true ∧
        e2.svc = some B ∧ e2.tearsDown = true)) := by
    refine (forEach_pairwise (downService x p) (fun a b => ¬ (a = A ∧ b = B))
      (fun a rt' e he => (downService_events x p a rt' e he).1) resolved.order.reverse rt
      ?_ ?_).imp ?_
    · rw [List.pairwise_reverse]
      exact hpair.imp (fun h hc => h ⟨hc.2, hc.1⟩)
    · intro a ha hc
      exact hrefl a (List.mem_reverse.1 ha) ⟨hc.2, hc.1⟩
    · intro e1 e2 h hc
      exact h A B hc.1 hc.2.2.1 ⟨rfl, rfl⟩
  rcases downWith_events x p resolved rt with ⟨_, hev, _⟩ | ⟨_, hev, _⟩
  · rw [hev, List.pairwise_append]
    refine ⟨hloop, ?_, ?_⟩
    · apply List.pairwise_of_forall_mem_list
      intro e1 he1 e2 _ hc
      have := (removeNetworks_events x p _ e1 he1).2.2
      rw [hc.2.1] at this
      exact Bool.noConfusion this
    · intro e1 _ e2 he2 hc
      have := (removeNetworks_events x p _ e2 he2).2.2
      rw [hc.2.2.2] at this
      exact Bool.noConfusion this
  · rw [hev]; exact hloop

theorem downWith_teardowns {σ : Type} (x : External σ) (p : ComposeProject)
    (resolved : Resolved) (rt : σ) :
    ∀ e ∈ (downWith x p resolved rt).events, e.tearsDown = true →
      ∃ s ∈ resolved.order, e.svc = some s ∧
        ∃ cs c, { svc := some s, call := Call.ContainerList true (serviceFilters p s),
                  answer := Answer.containers cs } ∈ (downWith x p resolved rt).events ∧
          c ∈ cs ∧ e.call.target = some c.ID := by
  intro e he htd
  have hsub : ∀ e', e' ∈ (forEach (downService x p) resolved.order.reverse rt).events →
      e' ∈ (downWith x p resolved rt).events := by
    intro e' he'
    rcases downWith_events x p resolved rt with ⟨_, hev, _⟩ | ⟨_, hev, _⟩
    · rw [hev]; exact List.mem_append_left _ he'
    · rw [hev]; exact he'
  have hloop : e ∈ (forEach (downService x p) resolved.order.reverse rt).events := by
    rcases downWith_events x p resolved rt with ⟨_, hev, _⟩ | ⟨_, hev, _⟩
    · rw [hev] at he
      rcases List.mem_append.1 he with h | h
      · exact h
      · have := (removeNetworks_events x p _ e h).2.2
        rw [htd] at this; exact Bool.noConfusion this
    · rw [hev] at he; exact he
  obtain ⟨s, hs, rt', hmem, hrun⟩ := forEach_mem_run _ _ _ _ hloop
  obtain ⟨h1, _, h3⟩ := downService_events x p s rt' e hmem
  obtain ⟨cs, c, hlist, hc, htarget⟩ := h3 htd
  exact ⟨s, List.mem_reverse.1 hs, h1, cs, c, hsub _ (hrun _ hlist), hc, htarget⟩

/-- C8. For every acyclic configuration in which service `B` lists service `A` in
`depends_on`, in every iteration order of the service map, `Down` returns, both
services are in the resolver's order with `A` before `B`, and in the sequence of calls
`Down` issues no stop or remove issued for `A` comes before a stop or remove issued for
`B`.  (A call is issued for the service whose `stopService` run issues it; every stop and
remove of that run addresses a container of the listing that the run obtained for the
service.) -/
theorem Down_dependents_first {σ : Type} (x : External σ) (p : ComposeProject) (rt : σ)
    (A B : String) (hac : Acyclic p.Config) (hdep : A ∈ (p.Config.service B).DependsOn) :
    ∃ r resolved, Down x p rt = some r ∧ getServiceOrder p = some resolved ∧
      A ∈ resolved.order ∧ B ∈ resolved.order ∧
      resolved.order.indexOf A < resolved.order.indexOf B ∧
      r.events.Pairwise
        (fun e1 e2 => ¬ (e1.svc = some A ∧ e1.tearsDown = true ∧
          e2.svc = some B ∧ e2.tearsDown = true)) ∧
      (∀ e ∈ r.events, e.tearsDown = true →
        ∃ s ∈ resolved.order, e.svc = some s ∧
          ∃ cs c, { svc := some s, call := Call.ContainerList true (serviceFilters p s),
                    answer := Answer.containers cs } ∈ r.events ∧
            c ∈ cs ∧ e.call.target = some c.ID) := by
  obtain ⟨resolved, hget, hnd, htopo, hall⟩ := getServiceOrder_good p
  have hB : B ∈ resolved.order := hall hac B (declared_of_dependsOn _ A B hdep)
  have hdep' : A ∈ graphOf p.Config.Services B := by rw [← service_dependsOn]; exact hdep
  obtain ⟨hA, hlt⟩ := depsFirst_indexOf _ _ htopo B A hB hdep'
  obtain ⟨hpair, hrefl⟩ := order_pairwise _ _ hnd htopo A B hdep'
  exact ⟨downWith x p resolved rt, resolved, by simp [Down, hget], hget, hA, hB, hlt,
    downWith_pairwise x p resolved rt A B hpair hrefl, downWith_teardowns x p resolved rt⟩

theorem Down_dependents_first_witness :
    Acyclic exampleProject.Config ∧
    "migrate" ∈ (exampleProject.Config.service "db").DependsOn ∧
    (Down simOk exampleProject exampleUpState).map
        (fun r => (r.events.filter Event.tearsDown).map (fun e => (e.svc, e.call.target))) =
      some [(some "db", some "c3"), (some "db", some "c3"),
            (some "migrate", some "c2"), (some "migrate", some "c2"),
            (some "web", some "c0"), (some "web", some "c0"),
            (some "web", some "c1"), (some "web", some "c1")] ∧
    ∃ r resolved, Down simOk exampleProject exampleUpState = some r ∧
      getServiceOrder exampleProject = some resolved ∧
      "migrate" ∈ resolved.order ∧ "db" ∈ resolved.order ∧
      resolved.order.indexOf "migrate" < resolved.order.indexOf "db" ∧
      r.events.Pairwise
        (fun e1 e2 => ¬ (e1.svc = some "migrate" ∧ e1.tearsDown = true ∧
          e2.svc = some "db" ∧ e2.tearsDown = true)) ∧
      (∀ e ∈ r.events, e.tearsDown = true →
        ∃ s ∈ resolved.order, e.svc = some s ∧
          ∃ cs c, { svc := some s,
                    call := Call.ContainerList true (serviceFilters exampleProject s),
                    answer := Answer.containers cs } ∈ r.events ∧
            c ∈ cs ∧ e.call.target = some c.ID) :=
  ⟨exampleConfig_acyclic, by decide, by decide,
   Down_dependents_first simOk exampleProject exampleUpState "migrate" "db"
     exampleConfig_acyclic (by decide)⟩

end Compose
namespace Compose

/-! ## Up starts max(1, replicas) instances per service -/

theorem parsePorts_service {σ : Type} (x : External σ) (p : ComposeProject)
    (hports : ∀ kv ∈ p.Config.Services,
      ∃ ports, parsePorts x.ParsePortSpec kv.2.Ports ([], []) = Except.ok ports) (s : String) :
    ∃ ports, parsePorts x.ParsePortSpec (p.Config.service s).Ports ([], []) = Except.ok ports := by
  unfold ComposeConfig.service
  cases hl : p.Config.Services.lookup s with
  | none => exact ⟨([], []), rfl⟩
  | some v => exact hports (s, v) (lookup_mem_pair _ _ _ hl)

theorem replicasOf_eq (svcConfig : ServiceSpec) :
    replicasOf svcConfig =
      match svcConfig.Deploy with
      | some deploy => max 1 deploy.Replicas
      | none => 1 := by
  unfold replicasOf
  cases svcConfig.Deploy with
  | none => rfl
  | some deploy =>
    by_cases h : deploy.Replicas > 0
    · simp only [h, if_true]; omega
    · simp only [h, if_false]; omega

theorem replicasOf_pos (svcConfig : ServiceSpec) : 0 < replicasOf svcConfig := by
  rw [replicasOf_eq]
  cases svcConfig.Deploy with
  | none => decide
  | some deploy => simp

theorem upService_all_ok {σ : Type} (x : External σ) (p : ComposeProject) (s : String)
    (ports : List (String × List PortBinding) × List String) (rt : σ)
    (hports : parsePorts x.ParsePortSpec (p.Config.service s).Ports ([], []) = Except.ok ports)
    (hall : ∀ e ∈ (upService x p s rt).events, e.failed = false) :
    (upService x p s rt).val = Result.ok () ∧
    ∃ ids : List String, (ids.length : Int) = replicasOf (p.Config.service s) ∧
      (upService x p s rt).events =
        ((intRange 0 (replicasOf (p.Config.service s))).zip ids).flatMap
          (fun q => provisionEvents p s (p.Config.service s) ports q.1 q.2) := by
  obtain ⟨hev, _⟩ := upService_events_eq x p s rt
  obtain ⟨hv, ids, hlen, hevs⟩ := provision_loop x p s (p.Config.service s) ports hports
    (intRange 0 (replicasOf (p.Config.service s))) rt (fun e he => by
      have := hall { e with svc := some s } (by
        rw [hev]; exact List.mem_map_of_mem _ he)
      exact this)
  have hv' : (startService x p s rt).val = Result.ok () := hv
  refine ⟨by simp [upService, hv'], ids, ?_, ?_⟩
  · rw [hlen, intRange_length]
    have := replicasOf_pos (p.Config.service s)
    omega
  · rw [hev]; exact hevs

theorem upLoop_all_ok {σ : Type} (x : External σ) (p : ComposeProject)
    (hports : ∀ s, ∃ ports,
      parsePorts x.ParsePortSpec (p.Config.service s).Ports ([], []) = Except.ok ports) :
    ∀ (l : List String) (rt : σ), l.Nodup →
      (∀ e ∈ (forEach (upService x p) l rt).events, e.failed = false) →
      (forEach (upService x p) l rt).val = Result.ok () ∧
      ∀ s ∈ l, ∃ ports ids,
        parsePorts x.ParsePortSpec (p.Config.service s).Ports ([], []) = Except.ok ports ∧
        (ids.length : Int) = replicasOf (p.Config.service s) ∧
        (forEach (upService x p) l rt).events.filter (fun e => e.svc = some s) =
          ((intRange 0 (replicasOf (p.Config.service s))).zip ids).flatMap
            (fun q => provisionEvents p s (p.Config.service s) ports q.1 q.2) := by
  intro l
  induction l with
  | nil => intro rt _ _; exact ⟨rfl, by simp⟩
  | cons a rest ih =>
    intro rt hnd hall
    rw [List.nodup_cons] at hnd
    obtain ⟨tail, htail⟩ := forEach_cons_events (upService x p) a rest rt
    obtain ⟨ports, hp⟩ := hports a
    obtain ⟨hv, ids, hlen, hev⟩ := upService_all_ok x p a ports rt hp
      (fun e he => hall e (by rw [htail]; exact List.mem_append_left _ he))
    obtain ⟨h1, _, h3, _⟩ := forEach_cons_of_ok (upService x p) a rest rt hv
    obtain ⟨ihv, ihs⟩ := ih (upService x p a rt).rt hnd.2
      (fun e he => hall e (by rw [h3]; exact List.mem_append_right _ he))
    refine ⟨by rw [h1, ihv], ?_⟩
    intro s hs
    rw [h3, List.filter_append]
    by_cases hsa : s = a
    · subst hsa
      refine ⟨ports, ids, hp, hlen, ?_⟩
      have hA : (upService x p s rt).events.filter (fun e => e.svc = some s) =
          (upService x p s rt).events := by
        rw [List.filter_eq_self]
        intro e he
        simpa using (upService_events x p s rt e he).1
      have hR : (forEach (upService x p) rest (upService x p s rt).rt).events.filter
          (fun e => e.svc = some s) = [] := by
        rw [List.filter_eq_nil_iff]
        intro e he
        obtain ⟨b, hb, rt', hmem⟩ := forEach_mem _ _ _ _ he
        have := (upService_events x p b rt' e hmem).1
        simp only [this, Option.some.injEq, decide_eq_true_eq]
        intro hbs
        exact hnd.1 (hbs ▸ hb)
      rw [hA, hR, List.append_nil, hev]
    · have hsr : s ∈ rest := by
        rcases List.mem_cons.1 hs with h | h
        · exact absurd h hsa
        · exact h
      obtain ⟨ports', ids', hp', hlen', hev'⟩ := ihs s hsr
      refine ⟨ports', ids', hp', hlen', ?_⟩
      have hA : (upService x p a rt).events.filter (fun e => e.svc = some s) = [] := by
        rw [List.filter_eq_nil_iff]
        intro e he
        have := (upService_events x p a rt e he).1
        simp only [this, Option.some.injEq, decide_eq_true_eq]
        exact fun h => hsa h.symm
      rw [hA, List.nil_append, hev']

/-- C9, as amended.  When every port string of every declared service parses, `Up`
returns, and if every call of the run succeeds it returns nil and, for every service `s`
of the resolver's order, the calls it issues for `s` are exactly `n` create and start
pairs for the instance indices `0, ..., n-1` in increasing order, each start addressing
the id its create returned, where `n = max(1, r)` for the declared deploy replica count
`r` and `n = 1` without a deploy directive. -/
theorem Up_replicas {σ : Type} (x : External σ) (p : ComposeProject) (rt : σ)
    (hports : ∀ kv ∈ p.Config.Services,
      ∃ ports, parsePorts x.ParsePortSpec kv.2.Ports ([], []) = Except.ok ports) :
    ∃ r resolved, Up x p rt = some r ∧ getServiceOrder p = some resolved ∧
      ((∀ e ∈ r.events, e.failed = false) →
        r.val = Result.ok () ∧
        ∀ s ∈ resolved.order, ∃ ports ids,
          parsePorts x.ParsePortSpec (p.Config.service s).Ports ([], []) = Except.ok ports ∧
          (ids.length : Int) = replicasOf (p.Config.service s) ∧
          r.events.filter (fun e => e.svc = some s) =
            ((intRange 0 (replicasOf (p.Config.service s))).zip ids).flatMap
              (fun q => provisionEvents p s (p.Config.service s) ports q.1 q.2)) ∧
      (∀ s, replicasOf (p.Config.service s) =
        match (p.Config.service s).Deploy with
        | some deploy => max 1 deploy.Replicas
        | none => 1) := by
  obtain ⟨resolved, hget, hnd, _, _⟩ := getServiceOrder_good p
  refine ⟨upWith x p resolved rt, resolved, by simp [Up, hget], hget, ?_,
    fun s => replicasOf_eq _⟩
  intro hall
  have hnets : ∀ s : String,
      (createNetworks x p rt).events.filter (fun e => e.svc = some s) = [] := by
    intro s
    rw [List.filter_eq_nil_iff]
    intro e he
    simp [(createNetworks_events x p rt e he).1]
  rcases upWith_events x p resolved rt with ⟨_, hev, hval⟩ | ⟨⟨msg, hmsg⟩, hev, _⟩
  · obtain ⟨hv, hs⟩ := upLoop_all_ok x p (parsePorts_service x p hports) resolved.order
      (createNetworks x p rt).rt hnd
      (fun e he => hall e (by rw [hev]; exact List.mem_append_right _ he))
    refine ⟨by rw [hval, hv], ?_⟩
    intro s hsmem
    obtain ⟨ports, ids, hp, hlen, hevs⟩ := hs s hsmem
    exact ⟨ports, ids, hp, hlen, by rw [hev, List.filter_append, hnets, List.nil_append, hevs]⟩
  · exfalso
    have hall' : ∀ e ∈ (createNetworks x p rt).events, e.failed = false :=
      fun e he => hall e (by rw [hev]; exact he)
    have hok : ∀ (l : List (String × NetworkSpec)) (rt0 : σ),
        (∀ e ∈ (forEach (createNetwork x p) l rt0).events, e.failed = false) →
        (forEach (createNetwork x p) l rt0).val = Result.ok () := by
      intro l
      induction l with
      | nil => intro rt0 _; rfl
      | cons net rest ih =>
        intro rt0 h
        obtain ⟨tail, htail⟩ := forEach_cons_events (createNetwork x p) net rest rt0
        have hbody : (createNetwork x p net rt0).val = Result.ok () := by
          unfold createNetwork
          split
          · rfl
          · cases hn : (x.NetworkCreate rt0 (p.Name ++ "_" ++ net.1) "bridge"
                [("com.docker.compose.project", p.Name),
                 ("com.docker.compose.network", net.1)]).1 with
            | none => simp [clientNetworkCreate, hn]
            | some m =>
              have := h { svc := none
                          call := Call.NetworkCreate (p.Name ++ "_" ++ net.1) "bridge"
                            [("com.docker.compose.project", p.Name),
                             ("com.docker.compose.network", net.1)]
                          answer := Answer.failed m } (by
                rw [htail]
                apply List.mem_append_left
                unfold createNetwork
                rw [if_neg (by assumption)]
                simp [clientNetworkCreate, hn, Answer.ofError])
              simp [Event.failed] at this
        obtain ⟨h1, _, h3, _⟩ := forEach_cons_of_ok (createNetwork x p) net rest rt0 hbody
        rw [h1]
        exact ih _ (fun e he => h e (by rw [h3]; exact List.mem_append_right _ he))
    have := hok p.Config.Networks rt hall'
    unfold createNetworks at hmsg
    rw [this] at hmsg
    exact Result.noConfusion hmsg

theorem exampleProject_ports :
    ∀ kv ∈ exampleProject.Config.Services,
      ∃ ports, parsePorts simOk.ParsePortSpec kv.2.Ports ([], []) = Except.ok ports := by
  intro kv hkv
  simp only [exampleProject, exampleConfig, List.mem_cons, List.mem_singleton,
    List.not_mem_nil, or_false] at hkv
  rcases hkv with rfl | rfl | rfl <;> exact ⟨([], []), rfl⟩

theorem Up_replicas_witness :
    (∀ kv ∈ exampleProject.Config.Services,
      ∃ ports, parsePorts simOk.ParsePortSpec kv.2.Ports ([], []) = Except.ok ports) ∧
    (Up simOk exampleProject {}).map (fun r => (r.val, r.events.all (fun e => !e.failed))) =
      some (Result.ok (), true) ∧
    (Up simOk exampleProject {}).map
        (fun r => (r.events.filter (fun e => e.svc = some "web")).map
          (fun e => (e.call.isCreate, e.call.target))) =
      some [(true, none), (false, some "c0"), (true, none), (false, some "c1")] ∧
    ∃ r resolved, Up simOk exampleProject {} = some r ∧
      getServiceOrder exampleProject = some resolved ∧
      ((∀ e ∈ r.events, e.failed = false) →
        r.val = Result.ok () ∧
        ∀ s ∈ resolved.order, ∃ ports ids,
          parsePorts simOk.ParsePortSpec (exampleProject.Config.service s).Ports ([], []) =
            Except.ok ports ∧
          (ids.length : Int) = replicasOf (exampleProject.Config.service s) ∧
          r.events.filter (fun e => e.svc = some s) =
            ((intRange 0 (replicasOf (exampleProject.Config.service s))).zip ids).flatMap
              (fun q => provisionEvents exampleProject s (exampleProject.Config.service s)
                ports q.1 q.2)) ∧
      (∀ s, replicasOf (exampleProject.Config.service s) =
        match (exampleProject.Config.service s).Deploy with
        | some deploy => max 1 deploy.Replicas
        | none => 1) :=
  ⟨exampleProject_ports, by decide, by decide,
   Up_replicas simOk exampleProject {} exampleProject_ports⟩

/-- C9 fails as stated: `web` is in the resolver's order of `badPortProject`, the only
runtime call `Up` issues is the creation of the network, which succeeds, and yet `Up`
issues no create or start for `web`, where `max(1, r) = 1` pair is claimed; it returns
the port error. -/
theorem Up_replicas_counterexample :
    getServiceOrder badPortProject = some { order := ["web"], logged := [] } ∧
    replicasOf (badPortProject.Config.service "web") = 1 ∧
    (Up simOk badPortProject {}).map (fun r => r.events) =
      some [{ svc := none
              call := Call.NetworkCreate "demo_backend" "bridge"
                [("com.docker.compose.project", "demo"),
                 ("com.docker.compose.network", "backend")]
              answer := Answer.done }] ∧
    (Up simOk badPortProject {}).map
      (fun r => (r.events.all (fun e => !e.failed), r.events.filter Event.provisions)) =
      some (true, []) ∧
    (∃ msg, (Up simOk badPortProject {}).map (fun r => r.val) =
      some (Result.err
        ("failed to start service web: invalid port mapping 8080:http: " ++ msg))) :=
  ⟨by decide, by decide, by decide, by decide, ⟨"invalid containerPort: http", by decide⟩⟩

end Compose
namespace Compose

/-! ## Up is fail-fast and does not roll back -/

theorem mem_dropLast_append {α : Type} (l1 l2 : List α) (a : α)
    (h : a ∈ (l1 ++ l2).dropLast) : a ∈ l1 ∨ a ∈ l2.dropLast := by
  cases l2 with
  | nil =>
    rw [List.append_nil] at h
    exact Or.inl (List.mem_of_mem_dropLast h)
  | cons b l2 =>
    rw [List.dropLast_append_cons] at h
    exact List.mem_append.1 h

theorem createContainer_failLast {σ : Type} (x : External σ) (p : ComposeProject)
    (service : String) (config : ServiceSpec) (i : Int) (rt : σ) :
    FailLast (createContainer x p service config i rt) := by
  unfold createContainer
  cases hp : parsePorts x.ParsePortSpec config.Ports ([], []) with
  | error msg => exact ⟨by simp, by simp⟩
  | ok ports =>
    obtain ⟨pb, ep⟩ := ports
    cases hc : (x.ContainerCreate rt
        { Image := config.Image, Cmd := config.Command,
          Env := mapToEnvSlice config.Environment,
          ExposedPorts := ep, Labels := containerLabels p service i }
        { PortBindings := pb, Binds := config.Volumes }
        { EndpointsConfig := endpointKeys p } (containerName p service i)).1 with
    | error msg =>
      exact ⟨by simp [clientContainerCreate, hc],
        fun _ => ⟨"failed to create container: " ++ msg, by simp [clientContainerCreate, hc]⟩⟩
    | ok id =>
      cases hs : (x.ContainerStart (x.ContainerCreate rt
          { Image := config.Image, Cmd := config.Command,
            Env := mapToEnvSlice config.Environment,
            ExposedPorts := ep, Labels := containerLabels p service i }
          { PortBindings := pb, Binds := config.Volumes }
          { EndpointsConfig := endpointKeys p } (containerName p service i)).2 id).1 with
      | some msg =>
        exact ⟨by simp [clientContainerCreate, clientContainerStart, hc, hs, Answer.ofExcept,
                    Event.failedProvision, Event.failed],
          fun _ => ⟨"failed to start container: " ++ msg,
            by simp [clientContainerCreate, clientContainerStart, hc, hs]⟩⟩
      | none =>
        refine ⟨by simp [clientContainerCreate, clientContainerStart, hc, hs, Answer.ofExcept,
                    Event.failedProvision, Event.failed], ?_⟩
        intro ⟨e, he, hf⟩
        simp [clientContainerCreate, clientContainerStart, hc, hs, Answer.ofExcept,
          Answer.ofError] at he
        rcases he with rfl | rfl <;> simp [Event.failedProvision, Event.failed] at hf

theorem forEach_failLast {σ α : Type} (body : α → σ → Run σ (Result Unit))
    (hbody : ∀ a rt, FailLast (body a rt)) :
    ∀ (l : List α) (rt : σ), FailLast (forEach body l rt) := by
  intro l
  induction l with
  | nil => intro rt; exact ⟨by simp [forEach], by simp [forEach]⟩
  | cons a rest ih =>
    intro rt
    rcases forEach_cons_cases body a rest rt with ⟨hok, hv, hev⟩ | ⟨_, hv, hev⟩
    · have hnone : ∀ e ∈ (body a rt).events, e.failedProvision = false := by
        intro e he
        by_contra hc
        have hc' : e.failedProvision = true := by simpa using hc
        obtain ⟨msg, hmsg⟩ := (hbody a rt).2 ⟨e, he, hc'⟩
        rw [hok] at hmsg
        exact Result.noConfusion hmsg
      constructor
      · intro e he
        rw [hev] at he
        rcases mem_dropLast_append _ _ _ he with h | h
        · exact hnone e h
        · exact (ih _).1 e h
      · intro ⟨e, he, hf⟩
        rw [hev] at he
        rw [hv]
        rcases List.mem_append.1 he with h | h
        · rw [hnone e h] at hf; exact Bool.noConfusion hf
        · exact (ih _).2 ⟨e, h, hf⟩
    · unfold FailLast
      rw [hev, hv]
      exact hbody a rt

theorem upService_failLast {σ : Type} (x : External σ) (p : ComposeProject)
    (service : String) (rt : σ) : FailLast (upService x p service rt) := by
  have hstart : FailLast (startService x p service rt) :=
    forEach_failLast _ (fun i rt' => createContainer_failLast x p service _ i rt') _ rt
  obtain ⟨hev, _⟩ := upService_events_eq x p service rt
  constructor
  · intro e he
    rw [hev, ← List.map_dropLast] at he
    simp only [List.mem_map] at he
    obtain ⟨e0, he0, rfl⟩ := he
    exact hstart.1 e0 he0
  · intro ⟨e, he, hf⟩
    rw [hev] at he
    simp only [List.mem_map] at he
    obtain ⟨e0, he0, rfl⟩ := he
    obtain ⟨msg, hmsg⟩ := hstart.2 ⟨e0, he0, hf⟩
    exact ⟨"failed to start service " ++ service ++ ": " ++ msg, by simp [upService, hmsg]⟩

theorem intRange_cons (lo hi : Int) (h : lo < hi) : ∃ tail, intRange lo hi = lo :: tail := by
  unfold intRange
  obtain ⟨n, hn⟩ : ∃ n, (hi - lo).toNat = n + 1 := ⟨(hi - lo).toNat - 1, by omega⟩
  rw [hn, List.range_succ_eq_map]
  exact ⟨List.map (fun (k : Nat) => lo + (k : Int)) (List.map Nat.succ (List.range n)),
    by simp⟩

theorem upService_bad_ports {σ : Type} (x : External σ) (p : ComposeProject)
    (s : String) (rt : σ) (msg : String)
    (hbad : parsePorts x.ParsePortSpec (p.Config.service s).Ports ([], []) = Except.error msg) :
    (upService x p s rt).events = [] ∧ ∃ m, (upService x p s rt).val = Result.err m := by
  obtain ⟨tail, htail⟩ := intRange_cons 0 (replicasOf (p.Config.service s)) (replicasOf_pos _)
  have hstart : startService x p s rt = Run.pure (Result.err msg) rt := by
    unfold startService
    rw [htail]
    simp [forEach, createContainer_bad_ports x p s _ 0 rt msg hbad, Run.bind, Run.pure]
  obtain ⟨hev, _⟩ := upService_events_eq x p s rt
  exact ⟨by rw [hev, hstart]; rfl,
    "failed to start service " ++ s ++ ": " ++ msg, by simp [upService, hstart]⟩

theorem upLoop_bad_ports {σ : Type} (x : External σ) (p : ComposeProject) (s : String)
    (msg : String)
    (hbad : parsePorts x.ParsePortSpec (p.Config.service s).Ports ([], []) = Except.error msg) :
    ∀ (l : List String) (rt : σ), s ∈ l →
      (∃ m, (forEach (upService x p) l rt).val = Result.err m) ∧
      ∀ e ∈ (forEach (upService x p) l rt).events,
        ∃ a, e.svc = some a ∧ l.indexOf a < l.indexOf s := by
  intro l
  induction l with
  | nil => intro rt hs; simp at hs
  | cons a rest ih =>
    intro rt hs
    by_cases has : a = s
    · subst has
      obtain ⟨hev, m, hm⟩ := upService_bad_ports x p a rt msg hbad
      have hnot : (upService x p a rt).val ≠ Result.ok () := by rw [hm]; exact Result.noConfusion
      obtain ⟨h1, _, h3, _⟩ := forEach_cons_of_not_ok (upService x p) a rest rt hnot
      exact ⟨⟨m, by rw [h1, hm]⟩, by rw [h3, hev]; simp⟩
    · have hsr : s ∈ rest := by
        rcases List.mem_cons.1 hs with h | h
        · exact absurd h.symm has
        · exact h
      have hbody : ∀ e ∈ (upService x p a rt).events,
          ∃ b, e.svc = some b ∧ (a :: rest).indexOf b < (a :: rest).indexOf s := by
        intro e he
        refine ⟨a, (upService_events x p a rt e he).1, ?_⟩
        rw [List.indexOf_cons_self, List.indexOf_cons_ne _ has]
        omega
      rcases forEach_cons_cases (upService x p) a rest rt with ⟨_, hv, hev⟩ | ⟨hnot, hv, hev⟩
      · obtain ⟨hm, hrest⟩ := ih (upService x p a rt).rt hsr
        refine ⟨by rw [hv]; exact hm, ?_⟩
        intro e he
        rw [hev] at he
        rcases List.mem_append.1 he with h | h
        · exact hbody e h
        · obtain ⟨b, hb, hlt⟩ := hrest e h
          refine ⟨b, hb, ?_⟩
          rw [List.indexOf_cons_ne _ has]
          by_cases hab : a = b
          · rw [List.indexOf_cons_eq _ hab]; omega
          · rw [List.indexOf_cons_ne _ hab]; omega
      · refine ⟨?_, by rw [hev]; exact hbody⟩
        rw [hv]
        rcases upService_val x p a rt with ⟨h, _⟩ | ⟨m, h, _⟩
        · exact absurd h hnot
        · exact ⟨m, h⟩

/-- C10. `Up` is fail-fast without rollback, for every configuration, runtime and
state.  It returns; it issues no stop and no remove; a create or start that the runtime
answers with an error can only be the last call `Up` issues, and `Up` then returns an
error; and when a port string of a service `s` of the resolver's order does not parse
(so that provisioning its first instance fails before any call), `Up` returns an error
and every create or start it issued is for a service that comes before `s` in the
order. -/
theorem Up_fail_fast {σ : Type} (x : External σ) (p : ComposeProject) (rt : σ) :
    ∃ r resolved, Up x p rt = some r ∧ getServiceOrder p = some resolved ∧
      (∀ e ∈ r.events, e.tearsDown = false) ∧
      (∀ e ∈ r.events.dropLast, ¬ (e.provisions = true ∧ e.failed = true)) ∧
      ((∃ e ∈ r.events, e.provisions = true ∧ e.failed = true) →
        ∃ msg, r.val = Result.err msg) ∧
      (∀ s ∈ resolved.order,
        (∃ msg, parsePorts x.ParsePortSpec (p.Config.service s).Ports ([], []) =
          Except.error msg) →
        (∃ msg, r.val = Result.err msg) ∧
        ∀ e ∈ r.events, e.provisions = true →
          ∃ a, e.svc = some a ∧ resolved.order.indexOf a < resolved.order.indexOf s) := by
  obtain ⟨resolved, hget, _, _, _⟩ := getServiceOrder_good p
  have hloop : ∀ rt', FailLast (forEach (upService x p) resolved.order rt') :=
    fun rt' => forEach_failLast _ (upService_failLast x p) _ rt'
  have hnetsFP : ∀ e ∈ (createNetworks x p rt).events, e.failedProvision = false := by
    intro e he
    simp [Event.failedProvision, (createNetworks_events x p rt e he).2.1]
  have hFP : ∀ e : Event, (e.provisions = true ∧ e.failed = true) ↔
      e.failedProvision = true := by
    intro e; simp [Event.failedProvision]
  refine ⟨upWith x p resolved rt, resolved, by simp [Up, hget], hget, ?_, ?_, ?_, ?_⟩
  · intro e he
    rcases upWith_events x p resolved rt with ⟨_, hev, _⟩ | ⟨_, hev, _⟩
    · rw [hev] at he
      rcases List.mem_append.1 he with h | h
      · exact (createNetworks_events x p rt e h).2.2
      · obtain ⟨s, _, rt', hmem⟩ := forEach_mem _ _ _ _ h
        exact (upService_events x p s rt' e hmem).2.2.1
    · rw [hev] at he
      exact (createNetworks_events x p rt e he).2.2
  · intro e he hc
    rw [hFP] at hc
    rcases upWith_events x p resolved rt with ⟨_, hev, _⟩ | ⟨_, hev, _⟩
    · rw [hev] at he
      rcases mem_dropLast_append _ _ _ he with h | h
      · rw [hnetsFP e h] at hc; exact Bool.noConfusion hc
      · rw [(hloop _).1 e h] at hc; exact Bool.noConfusion hc
    · rw [hev] at he
      rw [hnetsFP e (List.mem_of_mem_dropLast he)] at hc; exact Bool.noConfusion hc
  · intro ⟨e, he, hc⟩
    rw [hFP] at hc
    rcases upWith_events x p resolved rt with ⟨_, hev, hval⟩ | ⟨_, _, hval⟩
    · rw [hev] at he
      rw [hval]
      rcases List.mem_append.1 he with h | h
      · rw [hnetsFP e h] at hc; exact Bool.noConfusion hc
      · exact (hloop _).2 ⟨e, h, hc⟩
    · exact hval
  · intro s hs ⟨msg, hbad⟩
    rcases upWith_events x p resolved rt with ⟨_, hev, hval⟩ | ⟨_, hev, hval⟩
    · obtain ⟨hm, hrest⟩ := upLoop_bad_ports x p s msg hbad resolved.order
        (createNetworks x p rt).rt hs
      refine ⟨by rw [hval]; exact hm, ?_⟩
      intro e he hprov
      rw [hev] at he
      rcases List.mem_append.1 he with h | h
      · have := (createNetworks_events x p rt e h).2.1
        rw [hprov] at this; exact Bool.noConfusion this
      · exact hrest e h
    · refine ⟨hval, ?_⟩
      intro e he hprov
      rw [hev] at he
      have := (createNetworks_events x p rt e he).2.1
      rw [hprov] at this; exact Bool.noConfusion this

end Compose

namespace Compose

/-- An instance of the fail-fast behaviour: on the reference runtime whose start of
`c2` fails, `Up` of the example project starts `web` twice, creates `migrate`, fails to
start it, returns the error, and issues nothing for `db` and no stop or remove. -/
theorem Up_fail_fast_example :
    (Up (sim failStartC2) exampleProject {}).map (fun r => r.val) =
      some (Result.err "failed to start service migrate: failed to start container: boom") ∧
    (Up (sim failStartC2) exampleProject {}).map
      (fun r => r.events.map (fun e => (e.svc, e.call.isCreate, e.call.target))) =
      some [(some "web", true, none), (some "web", false, some "c0"),
            (some "web", true, none), (some "web", false, some "c1"),
            (some "migrate", true, none), (some "migrate", false, some "c2")] ∧
    (Up (sim failStartC2) exampleProject {}).map (fun r => r.events.map Event.failed) =
      some [false, false, false, false, false, true] := by
  decide

theorem exampleUpState_eq :
    (Up simOk exampleProject {}).map (fun r => r.rt) = some exampleUpState := by
  decide

end Compose
namespace Compose

/-! ## The resolver on every configuration -/

/-- C12. For every configuration, cyclic or not, in every iteration order of the
service map, `getServiceOrder` returns a sequence without repetition in which every
name is preceded by all the dependencies it declares: each declared dependency of a
name of the output is in the output, at an earlier position. -/
theorem getServiceOrder_deps_first (p : ComposeProject) :
    ∃ r, getServiceOrder p = some r ∧ r.order.Nodup ∧
      ∀ name ∈ r.order, ∀ dep ∈ (p.Config.service name).DependsOn,
        dep ∈ r.order ∧ r.order.indexOf dep < r.order.indexOf name := by
  obtain ⟨resolved, hget, hnd, htopo, _⟩ := getServiceOrder_good p
  refine ⟨resolved, hget, hnd, ?_⟩
  intro name hname dep hdep
  rw [service_dependsOn] at hdep
  exact depsFirst_indexOf _ _ htopo name dep hname hdep

/-! ## determineProjectStatus -/

/-- C17. The method `determineProjectStatus` returns "not_created" when the service map
is empty; otherwise "running" when every service's status is "running"; otherwise
"stopped" when every service's status is "exited" or "dead"; and "partial" in every
other case. -/
theorem determineProjectStatus_cases (services : List (String × ServiceInfo)) :
    determineProjectStatus services =
      if services = [] then "not_created"
      else if ∀ kv ∈ services, kv.2.Status = "running" then "running"
      else if ∀ kv ∈ services, kv.2.Status = "exited" ∨ kv.2.Status = "dead" then "stopped"
      else "partial" := by
  unfold determineProjectStatus
  by_cases h0 : services = []
  · subst h0; rfl
  · have hlen : ¬ services.length = 0 := fun h => h0 (List.length_eq_zero.1 h)
    simp only [hlen, h0, if_false, List.filter_length_eq_length, decide_eq_true_eq]

end Compose
namespace Compose

/-! ## Network attachments of a create request -/

theorem endpointKeys_foldl_mem (name : String) (nets : List (String × NetworkSpec)) :
    ∀ (acc : List String) (k : String),
      k ∈ nets.foldl (fun keys net =>
        if (name ++ "_" ++ net.1) ∈ keys then keys else keys ++ [name ++ "_" ++ net.1]) acc ↔
      k ∈ acc ∨ ∃ net ∈ nets, k = name ++ "_" ++ net.1 := by
  induction nets with
  | nil => intro acc k; simp
  | cons net rest ih =>
    intro acc k
    rw [List.foldl_cons, ih]
    by_cases hmem : (name ++ "_" ++ net.1) ∈ acc
    · simp only [hmem, if_true, List.mem_cons, exists_eq_or_imp]
      constructor
      · rintro (h | h)
        · exact Or.inl h
        · exact Or.inr (Or.inr h)
      · rintro (h | h | h)
        · exact Or.inl h
        · exact Or.inl (h ▸ hmem)
        · exact Or.inr h
    · simp only [hmem, if_false, List.mem_append, List.mem_singleton, List.mem_cons,
        exists_eq_or_imp]
      tauto

/-- The create request of `createContainer` attaches every declared network, external
or not, under its project-qualified name, and nothing else. -/
theorem endpointKeys_mem (p : ComposeProject) (k : String) :
    k ∈ endpointKeys p ↔ ∃ net ∈ p.Config.Networks, k = p.Name ++ "_" ++ net.1 := by
  unfold endpointKeys
  rw [endpointKeys_foldl_mem]
  simp

theorem createContainer_attachments {σ : Type} (x : External σ) (p : ComposeProject)
    (service : String) (config : ServiceSpec) (i : Int) (rt : σ) :
    ∀ e ∈ (createContainer x p service config i rt).events, e.call.isCreate = true →
      e.call.attachments = endpointKeys p := by
  intro e he hc
  obtain ⟨ports, hcall⟩ := (createContainer_events x p service config i rt e he).2.2 hc
  rw [hcall]
  rfl

/-- C20 fails on the code.  The project `externalNetProject` declares the network
`backend` and the external network `shared`; `createNetworks` skips the external one,
and the create request of `createContainer` attaches both, the external one under the
project-qualified name `demo_shared`. -/
theorem createContainer_attaches_external :
    externalNetProject.Config.Networks.map (fun net => (net.1, net.2.External)) =
      [("backend", false), ("shared", true)] ∧
    (createNetworks simOk externalNetProject {}).events.map (fun e => e.call) =
      [Call.NetworkCreate "demo_backend" "bridge"
        [("com.docker.compose.project", "demo"), ("com.docker.compose.network", "backend")]] ∧
    ((createContainer simOk externalNetProject "web"
        (externalNetProject.Config.service "web") 0 {}).events.filter
          (fun e => e.call.isCreate)).map (fun e => e.call.attachments) =
      [["demo_backend", "demo_shared"]] := by
  decide

/-! ## Down is best-effort -/

theorem forAll_runs_all {σ α : Type} (body : α → σ → Run σ Unit) :
    ∀ (l : List α) (rt : σ), ∀ a ∈ l,
      ∃ rt', ∀ e ∈ (body a rt').events, e ∈ (forAll body l rt).events := by
  intro l
  induction l with
  | nil => intro rt a ha; simp at ha
  | cons b rest ih =>
    intro rt a ha
    simp only [forAll, Run.bind_events]
    rcases List.mem_cons.1 ha with h | h
    · subst h
      exact ⟨rt, fun e he => List.mem_append_left _ he⟩
    · obtain ⟨rt', hrt'⟩ := ih (body b rt).rt a h
      exact ⟨rt', fun e he => List.mem_append_right _ (hrt' e he)⟩

/-- A loop all of whose calls satisfy `Q` runs every body and returns nil, when a body
whose calls all satisfy `Q` returns nil. -/
theorem forEach_runs_all {σ α : Type} (body : α → σ → Run σ (Result Unit))
    (Q : Event → Prop)
    (hbody : ∀ a rt, (∀ e ∈ (body a rt).events, Q e) → (body a rt).val = Result.ok ()) :
    ∀ (l : List α) (rt : σ), (∀ e ∈ (forEach body l rt).events, Q e) →
      (forEach body l rt).val = Result.ok () ∧
      ∀ a ∈ l, ∃ rt', ∀ e ∈ (body a rt').events, e ∈ (forEach body l rt).events := by
  intro l
  induction l with
  | nil => intro rt _; exact ⟨rfl, by simp⟩
  | cons b rest ih =>
    intro rt hall
    obtain ⟨tail, htail⟩ := forEach_cons_events body b rest rt
    have hok : (body b rt).val = Result.ok () :=
      hbody b rt (fun e he => hall e (by rw [htail]; exact List.mem_append_left _ he))
    obtain ⟨h1, _, h3, _⟩ := forEach_cons_of_ok body b rest rt hok
    obtain ⟨ihv, ihs⟩ := ih (body b rt).rt
      (fun e he => hall e (by rw [h3]; exact List.mem_append_right _ he))
    refine ⟨by rw [h1, ihv], ?_⟩
    intro a ha
    rw [h3]
    rcases List.mem_cons.1 ha with h | h
    · subst h
      exact ⟨rt, fun e he => List.mem_append_left _ he⟩
    · obtain ⟨rt', hrt'⟩ := ihs a h
      exact ⟨rt', fun e he => List.mem_append_right _ (hrt' e he)⟩

theorem stopContainer_attempts {σ : Type} (x : External σ) (c : Container) (rt : σ) :
    ∃ answer, { svc := none, call := Call.ContainerStop c.ID 30, answer := answer } ∈
      (stopContainer x c rt).events :=
  ⟨Answer.ofError (x.ContainerStop rt c.ID 30).1, by simp [stopContainer, clientContainerStop]⟩

theorem removeNetwork_attempts {σ : Type} (x : External σ) (n : NetworkResource) (rt : σ) :
    ∃ answer, { svc := none, call := Call.NetworkRemove n.ID, answer := answer } ∈
      (removeNetwork x n rt).events :=
  ⟨Answer.ofError (x.NetworkRemove rt n.ID).1, by simp [removeNetwork, clientNetworkRemove]⟩

/-- One `stopService` run whose listing succeeds: it returns nil, and it attempts to
stop every container of the listing. -/
theorem downService_best_effort {σ : Type} (x : External σ) (p : ComposeProject)
    (s : String) (rt : σ)
    (hlist : ∀ e ∈ (downService x p s rt).events, e.call.isList = true → e.failed = false) :
    (downService x p s rt).val = Result.ok () ∧
    ∃ cs, { svc := some s, call := Call.ContainerList true (serviceFilters p s),
            answer := Answer.containers cs } ∈ (downService x p s rt).events ∧
      ∀ c ∈ cs, ∃ answer,
        { svc := some s, call := Call.ContainerStop c.ID 30, answer := answer } ∈
          (downService x p s rt).events := by
  rw [downService_events_eq] at hlist ⊢
  cases hl : (x.ContainerList rt true (serviceFilters p s)).1 with
  | error msg =>
    have := hlist { svc := some s, call := Call.ContainerList true (serviceFilters p s),
                    answer := Answer.failed msg }
      (by simp [stopService, clientContainerList, hl, Answer.ofExcept]) rfl
    simp [Event.failed] at this
  | ok cs =>
    have hval : (stopService x p s rt).val = Result.ok () := by
      simp [stopService, clientContainerList, hl]
    have hev : (stopService x p s rt).events =
        { svc := none, call := Call.ContainerList true (serviceFilters p s),
          answer := Answer.containers cs } ::
        (forAll (stopContainer x) cs (x.ContainerList rt true (serviceFilters p s)).2).events := by
      simp [stopService, clientContainerList, hl, Answer.ofExcept]
    refine ⟨by simp [downService, hval], cs, ?_, ?_⟩
    · rw [hev]; simp
    · intro c hc
      obtain ⟨rt', hrt'⟩ := forAll_runs_all (stopContainer x) cs
        (x.ContainerList rt true (serviceFilters p s)).2 c hc
      obtain ⟨answer, hmem⟩ := stopContainer_attempts x c rt'
      refine ⟨answer, ?_⟩
      rw [hev]
      simp only [List.map_cons, List.mem_cons, List.mem_map]
      exact Or.inr ⟨_, hrt' _ hmem, rfl⟩

theorem removeNetworks_best_effort {σ : Type} (x : External σ) (p : ComposeProject) (rt : σ)
    (hlist : ∀ e ∈ (removeNetworks x p rt).events, e.call.isList = true → e.failed = false) :
    (removeNetworks x p rt).val = Result.ok () ∧
    ∃ ns, { svc := none, call := Call.NetworkList (projectFilters p),
            answer := Answer.networks ns } ∈ (removeNetworks x p rt).events ∧
      ∀ n ∈ ns, ∃ answer,
        { svc := none, call := Call.NetworkRemove n.ID, answer := answer } ∈
          (removeNetworks x p rt).events := by
  cases hl : (x.NetworkList rt (projectFilters p)).1 with
  | error msg =>
    have := hlist { svc := none, call := Call.NetworkList (projectFilters p),
                    answer := Answer.failed msg }
      (by simp [removeNetworks, clientNetworkList, hl, Answer.ofExcept]) rfl
    simp [Event.failed] at this
  | ok ns =>
    have hev : (removeNetworks x p rt).events =
        { svc := none, call := Call.NetworkList (projectFilters p),
          answer := Answer.networks ns } ::
        (forAll (removeNetwork x) ns (x.NetworkList rt (projectFilters p)).2).events := by
      simp [removeNetworks, clientNetworkList, hl, Answer.ofExcept]
    refine ⟨by simp [removeNetworks, clientNetworkList, hl], ns, by rw [hev]; simp, ?_⟩
    intro n hn
    obtain ⟨rt', hrt'⟩ := forAll_runs_all (removeNetwork x) ns
      (x.NetworkList rt (projectFilters p)).2 n hn
    obtain ⟨answer, hmem⟩ := removeNetwork_attempts x n rt'
    exact ⟨answer, by rw [hev]; exact List.mem_cons_of_mem _ (hrt' _ hmem)⟩

end Compose
namespace Compose

theorem downService_stops_listed {σ : Type} (x : External σ) (p : ComposeProject)
    (s : String) (rt : σ) (s' : String) (cs : List Container)
    (hmem : { svc := some s', call := Call.ContainerList true (serviceFilters p s'),
              answer := Answer.containers cs } ∈ (downService x p s rt).events) :
    ∀ c ∈ cs, ∃ answer,
      { svc := some s', call := Call.ContainerStop c.ID 30, answer := answer } ∈
        (downService x p s rt).events := by
  have hs : s' = s := by
    have := (downService_events x p s rt _ hmem).1
    exact Option.some.inj this
  subst hs
  rw [downService_events_eq] at hmem ⊢
  obtain ⟨answer, hhead, htail⟩ := stopService_events x p s' rt
  simp only [List.mem_map] at hmem
  obtain ⟨e0, he0, heq⟩ := hmem
  rw [hhead] at he0
  rcases List.mem_cons.1 he0 with h | h
  · subst h
    have hans : answer = Answer.containers cs := by
      have := congrArg Event.answer heq
      exact this
    subst hans
    cases hl : (x.ContainerList rt true (serviceFilters p s')).1 with
    | error msg =>
      have hev : (stopService x p s' rt).events =
          [{ svc := none, call := Call.ContainerList true (serviceFilters p s'),
             answer := Answer.failed msg }] := by
        simp [stopService, clientContainerList, hl, Answer.ofExcept]
      rw [hev] at hhead
      simp at hhead
    | ok cs0 =>
      have hev : (stopService x p s' rt).events =
          { svc := none, call := Call.ContainerList true (serviceFilters p s'),
            answer := Answer.containers cs0 } ::
          (forAll (stopContainer x) cs0
            (x.ContainerList rt true (serviceFilters p s')).2).events := by
        simp [stopService, clientContainerList, hl, Answer.ofExcept]
      have hcs : cs0 = cs := by
        rw [hev] at hhead
        have := (List.cons.inj hhead).1
        have h2 := congrArg Event.answer this
        exact Answer.containers.inj h2
      subst hcs
      intro c hc
      obtain ⟨rt', hrt'⟩ := forAll_runs_all (stopContainer x) cs0
        (x.ContainerList rt true (serviceFilters p s')).2 c hc
      obtain ⟨answer, hmem⟩ := stopContainer_attempts x c rt'
      refine ⟨answer, ?_⟩
      rw [hev]
      simp only [List.map_cons, List.mem_cons, List.mem_map]
      exact Or.inr ⟨_, hrt' _ hmem, rfl⟩
  · exfalso
    have h1 := (htail e0 h).1
    have h2 : e0.call = Call.ContainerList true (serviceFilters p s') := by
      have := congrArg Event.call heq
      exact this
    rw [Event.tearsDown, h2] at h1
    simp [Call.isStop, Call.isRemove] at h1

/-- C11. `Down` is best-effort with respect to container failures, for every
configuration, runtime and state, whatever stop and remove calls fail.  It returns; for
every container listing it obtains it attempts to stop every listed container; and when
every listing of the run succeeds it returns nil, lists the containers of every service
of the resolver's order, lists the project's networks and attempts to remove every
listed network. -/
theorem Down_best_effort {σ : Type} (x : External σ) (p : ComposeProject) (rt : σ) :
    ∃ r resolved, Down x p rt = some r ∧ getServiceOrder p = some resolved ∧
      (∀ s cs, { svc := some s, call := Call.ContainerList true (serviceFilters p s),
                 answer := Answer.containers cs } ∈ r.events →
        ∀ c ∈ cs, ∃ answer,
          { svc := some s, call := Call.ContainerStop c.ID 30, answer := answer } ∈ r.events) ∧
      ((∀ e ∈ r.events, e.call.isList = true → e.failed = false) →
        r.val = Result.ok () ∧
        (∀ s ∈ resolved.order, ∃ cs,
          { svc := some s, call := Call.ContainerList true (serviceFilters p s),
            answer := Answer.containers cs } ∈ r.events) ∧
        ∃ ns, { svc := none, call := Call.NetworkList (projectFilters p),
                answer := Answer.networks ns } ∈ r.events ∧
          ∀ n ∈ ns, ∃ answer,
            { svc := none, call := Call.NetworkRemove n.ID, answer := answer } ∈ r.events) := by
  obtain ⟨resolved, hget, _, _, _⟩ := getServiceOrder_good p
  have hsub : ∀ e', e' ∈ (forEach (downService x p) resolved.order.reverse rt).events →
      e' ∈ (downWith x p resolved rt).events := by
    intro e' he'
    rcases downWith_events x p resolved rt with ⟨_, hev, _⟩ | ⟨_, hev, _⟩
    · rw [hev]; exact List.mem_append_left _ he'
    · rw [hev]; exact he'
  refine ⟨downWith x p resolved rt, resolved, by simp [Down, hget], hget, ?_, ?_⟩
  · intro s cs hmem c hc
    have hloop : Event.mk (some s) (Call.ContainerList true (serviceFilters p s))
        (Answer.containers cs) ∈
        (forEach (downService x p) resolved.order.reverse rt).events := by
      rcases downWith_events x p resolved rt with ⟨_, hev, _⟩ | ⟨_, hev, _⟩
      · rw [hev] at hmem
        rcases List.mem_append.1 hmem with h | h
        · exact h
        · have := (removeNetworks_events x p _ _ h).1
          exact Option.noConfusion this
      · rw [hev] at hmem; exact hmem
    obtain ⟨s0, _, rt', hrun, hincl⟩ := forEach_mem_run _ _ _ _ hloop
    obtain ⟨answer, hstop⟩ := downService_stops_listed x p s0 rt' s cs hrun c hc
    exact ⟨answer, hsub _ (hincl _ hstop)⟩
  · intro hall
    obtain ⟨hv, hruns⟩ := forEach_runs_all (downService x p)
      (fun e => e.call.isList = true → e.failed = false)
      (fun a rt' h => (downService_best_effort x p a rt' h).1)
      resolved.order.reverse rt (fun e he => hall e (hsub e he))
    rcases downWith_events x p resolved rt with ⟨_, hev, hval⟩ | ⟨⟨msg, hmsg⟩, _, _⟩
    · obtain ⟨hnv, ns, hnl, hnr⟩ := removeNetworks_best_effort x p _
        (fun e he => hall e (by rw [hev]; exact List.mem_append_right _ he))
      refine ⟨by rw [hval, hnv], ?_, ns, by rw [hev]; exact List.mem_append_right _ hnl, ?_⟩
      · intro s hs
        obtain ⟨rt', hrt'⟩ := hruns s (List.mem_reverse.2 hs)
        obtain ⟨_, cs, hl, _⟩ := downService_best_effort x p s rt'
          (fun e he => hall e (hsub e (hrt' e he)))
        exact ⟨cs, hsub _ (hrt' _ hl)⟩
      · intro n hn
        obtain ⟨answer, hmem⟩ := hnr n hn
        exact ⟨answer, by rw [hev]; exact List.mem_append_right _ hmem⟩
    · rw [hv] at hmsg
      exact Result.noConfusion hmsg

/-- An instance of the best-effort teardown: on the reference runtime whose stop of `c3`
and remove of `c0` fail, `Down` of the example project still attempts every stop, skips
only the remove of the container it could not stop, and returns nil. -/
theorem Down_best_effort_example :
    (Down (sim failStopC3RemoveC0) exampleProject exampleUpState).map (fun r => r.val) =
      some (Result.ok ()) ∧
    (Down (sim failStopC3RemoveC0) exampleProject exampleUpState).map
      (fun r => (r.events.filter Event.tearsDown).map
        (fun e => (e.call.isStop, e.call.target, e.failed))) =
      some [(true, some "c3", true),
            (true, some "c2", false), (false, some "c2", false),
            (true, some "c0", false), (false, some "c0", true),
            (true, some "c1", false), (false, some "c1", false)] ∧
    (Down (sim failStopC3RemoveC0) exampleProject exampleUpState).map (fun r => r.logged) =
      some ["Warning: failed to stop container c3: cannot stop",
            "Warning: failed to remove container c0: cannot remove"] := by
  decide

end Compose
namespace Compose

/-! ## Status on a listing -/

theorem mapSet_lookup {β : Type} (m : List (String × β)) (k : String) (v : β) (k' : String) :
    (mapSet m k v).lookup k' = if k' = k then some v else m.lookup k' := by
  induction m with
  | nil =>
    by_cases h : k' = k
    · simp [mapSet, h]
    · have hb : (k' == k) = false := by simpa using h
      simp [mapSet, List.lookup_cons, hb, h]
  | cons kv rest ih =>
    obtain ⟨k0, v0⟩ := kv
    by_cases h0 : k0 = k
    · subst h0
      by_cases h : k' = k0
      · simp [mapSet, h]
      · have hb : (k' == k0) = false := by simpa using h
        simp [mapSet, List.lookup_cons, hb, h]
    · by_cases h : k' = k0
      · subst h
        have hne : ¬ k' = k := h0
        simp [mapSet, h0, hne]
      · have hb : (k' == k0) = false := by simpa using h
        simp only [mapSet, h0, if_false, List.lookup_cons, hb, ih]

theorem mapSet_keys {β : Type} (m : List (String × β)) (k : String) (v : β) :
    (mapSet m k v).map Prod.fst =
      if k ∈ m.map Prod.fst then m.map Prod.fst else m.map Prod.fst ++ [k] := by
  induction m with
  | nil => simp [mapSet]
  | cons kv rest ih =>
    obtain ⟨k0, v0⟩ := kv
    by_cases h0 : k0 = k
    · subst h0; simp [mapSet]
    · have h1 : ¬ k = k0 := fun h => h0 h.symm
      simp only [mapSet, h0, if_false, List.map_cons, ih, List.mem_cons, h1, false_or]
      split <;> simp

theorem mapSet_nodup {β : Type} (m : List (String × β)) (k : String) (v : β)
    (h : (m.map Prod.fst).Nodup) : ((mapSet m k v).map Prod.fst).Nodup := by
  rw [mapSet_keys]
  split
  · exact h
  · rename_i hk
    exact List.Nodup.append h (List.nodup_singleton _) (by simpa using hk)

theorem lookup_of_mem_nodup {β : Type} (m : List (String × β)) (k : String) (v : β)
    (hnd : (m.map Prod.fst).Nodup) (hmem : (k, v) ∈ m) : m.lookup k = some v := by
  induction m with
  | nil => simp at hmem
  | cons kv rest ih =>
    obtain ⟨k0, v0⟩ := kv
    simp only [List.map_cons, List.nodup_cons] at hnd
    rcases List.mem_cons.1 hmem with h | h
    · cases h; simp
    · have hne : ¬ k = k0 := by
        intro hk
        subst hk
        exact hnd.1 (List.mem_map_of_mem Prod.fst h)
      have hb : (k == k0) = false := by simpa using hne
      rw [List.lookup_cons, hb]
      exact ih hnd.2 h

theorem applyContainers_nil (base : ServiceInfo) : applyContainers base [] = base := by
  simp [applyContainers]

theorem applyContainers_cons (base : ServiceInfo) (c : Container) (rest : List Container) :
    applyContainers
      { base with Replicas := base.Replicas + 1, Status := c.State,
                  Containers := base.Containers ++ [containerInfoOf c] } rest =
    applyContainers base (c :: rest) := by
  cases rest with
  | nil => simp [applyContainers]
  | cons d rest =>
    simp only [applyContainers, List.length_cons, List.map_cons, List.append_assoc,
      List.singleton_append, List.getLast?_cons_cons]
    congr 1
    push_cast
    ring

/-- The second loop of `Status` on a listing whose containers all have a name: it does
not panic, it keeps the keys distinct, and the entry of every key is the one it had,
updated with the containers that carry the key as service label. -/
theorem addContainers_spec :
    ∀ (cs : List Container) (services : List (String × ServiceInfo)),
      (∀ c ∈ cs, c.Names ≠ []) → (services.map Prod.fst).Nodup →
      ∃ result, addContainers cs services = some result ∧
        (result.map Prod.fst).Nodup ∧
        (∀ k, k ∈ result.map Prod.fst →
          k ∈ services.map Prod.fst ∨ ∃ c ∈ cs, serviceLabel c = k) ∧
        ∀ k, result.lookup k =
          if labeledFor k cs = [] then services.lookup k
          else some (applyContainers ((services.lookup k).getD {}) (labeledFor k cs)) := by
  intro cs
  induction cs with
  | nil =>
    intro services _ hnd
    exact ⟨services, rfl, hnd, fun k hk => Or.inl hk, fun k => by simp [labeledFor]⟩
  | cons c rest ih =>
    intro services hnames hnd
    have hc : c.Names ≠ [] := hnames c (by simp)
    obtain ⟨name0, names, hn⟩ : ∃ a l, c.Names = a :: l := by
      cases hN : c.Names with
      | nil => exact absurd hN hc
      | cons a l => exact ⟨a, l, rfl⟩
    have hinfo : ContainerInfo.mk c.ID (trimSlash name0) c.Status c.Created =
        containerInfoOf c := by
      simp [containerInfoOf, hn]
    obtain ⟨result, hres, hrnd, hkeys, hlook⟩ := ih
      (mapSet services (serviceLabel c)
        { (services.lookup (serviceLabel c)).getD {} with
          Replicas := ((services.lookup (serviceLabel c)).getD {}).Replicas + 1
          Status := c.State
          Containers := ((services.lookup (serviceLabel c)).getD {}).Containers ++
            [containerInfoOf c] })
      (fun d hd => hnames d (List.mem_cons_of_mem _ hd)) (mapSet_nodup _ _ _ hnd)
    refine ⟨result, ?_, hrnd, ?_, ?_⟩
    · rw [← hres]
      simp only [addContainers, hn, hinfo, serviceLabel]
    · intro k hk
      rcases hkeys k hk with h | ⟨d, hd, hdk⟩
      · rw [mapSet_keys] at h
        split at h
        · exact Or.inl h
        · rcases List.mem_append.1 h with h1 | h1
          · exact Or.inl h1
          · exact Or.inr ⟨c, by simp, (List.mem_singleton.1 h1).symm⟩
      · exact Or.inr ⟨d, List.mem_cons_of_mem _ hd, hdk⟩
    · intro k
      rw [hlook k, mapSet_lookup]
      by_cases hk : serviceLabel c = k
      · subst hk
        have hl : labeledFor (serviceLabel c) (c :: rest) =
            c :: labeledFor (serviceLabel c) rest := by
          simp [labeledFor]
        rw [hl]
        simp only [if_true, Option.getD_some, reduceCtorEq, if_false]
        by_cases hr : labeledFor (serviceLabel c) rest = []
        · rw [hr, if_pos rfl, ← applyContainers_cons, applyContainers_nil]
        · rw [if_neg hr, applyContainers_cons]
      · have hl : labeledFor k (c :: rest) = labeledFor k rest := by
          simp [labeledFor, hk]
        have hk' : ¬ k = serviceLabel c := fun h => hk h.symm
        rw [hl]
        simp only [hk', if_false]

end Compose
namespace Compose

theorem determineProjectStatus_running (services : List (String × ServiceInfo))
    (hne : services ≠ []) (hall : ∀ kv ∈ services, kv.2.Status = "running") :
    determineProjectStatus services = "running" := by
  unfold determineProjectStatus
  have hlen : ¬ services.length = 0 := fun h => hne (List.length_eq_zero.1 h)
  have hf : (services.filter (fun kv => kv.2.Status = "running")).length = services.length := by
    rw [List.filter_length_eq_length]
    intro kv hkv
    simpa using hall kv hkv
  simp only [hlen, if_false, hf, if_true]

theorem seedServices_lookup (names : List String) (hnd : names.Nodup) (name : String)
    (h : name ∈ names) : (seedServices names).lookup name = some (seededInfo name) := by
  rw [seedServices_eq names hnd]
  apply lookup_of_mem_nodup
  · simpa [Function.comp_def] using hnd
  · exact List.mem_map.2 ⟨name, h, rfl⟩

theorem seedServices_keys (names : List String) (hnd : names.Nodup) :
    (seedServices names).map Prod.fst = names := by
  rw [seedServices_eq names hnd]
  simp [Function.comp_def]

/-- The result of `Status` on a listing whose containers all have a name: the map it
returns, with the entry of every declared service that has a listed container. -/
theorem Status_entries {σ : Type} (x : External σ) (p : ComposeProject) (rt : σ)
    (cs : List Container)
    (hkeys : p.Config.serviceNames.Nodup)
    (hlist : (x.ContainerList rt true (projectFilters p)).1 = Except.ok cs)
    (hnames : ∀ c ∈ cs, c.Names ≠ []) :
    ∃ st, (Status x p rt).val = Result.ok st ∧
      st.Status = determineProjectStatus st.Services ∧
      (st.Services.map Prod.fst).Nodup ∧
      (∀ k, k ∈ st.Services.map Prod.fst →
        k ∈ p.Config.serviceNames ∨ ∃ c ∈ cs, serviceLabel c = k) ∧
      ∀ name ∈ p.Config.serviceNames,
        st.Services.lookup name =
          some (applyContainers (seededInfo name) (labeledFor name cs)) := by
  obtain ⟨result, hres, hrnd, hrkeys, hlook⟩ :=
    addContainers_spec cs (seedServices p.Config.serviceNames) hnames
      (by rw [seedServices_keys _ hkeys]; exact hkeys)
  refine ⟨{ Name := p.Name, Services := result, Status := determineProjectStatus result },
    ?_, rfl, hrnd, ?_, ?_⟩
  · simp only [Status, clientContainerList, Run.bind_val, hlist, hres, Run.pure_val]
  · intro k hk
    rcases hrkeys k hk with h | h
    · rw [seedServices_keys _ hkeys] at h; exact Or.inl h
    · exact Or.inr h
  · intro name hname
    show result.lookup name = _
    rw [hlook name, seedServices_lookup _ hkeys name hname]
    by_cases hl : labeledFor name cs = []
    · rw [if_pos hl, hl, applyContainers_nil]
    · rw [if_neg hl]; rfl

/-- C18, as amended.  When at least one service is declared (under pairwise distinct
names), the project listing is answered with containers that all have a name and all
carry the service label of a declared service, and for every declared service the last
listed container that carries its label has the runtime state "running", `Status`
returns the project status "running", with every service status "running". -/
theorem Status_running {σ : Type} (x : External σ) (p : ComposeProject) (rt : σ)
    (cs : List Container)
    (hkeys : p.Config.serviceNames.Nodup) (hne : p.Config.serviceNames ≠ [])
    (hlist : (x.ContainerList rt true (projectFilters p)).1 = Except.ok cs)
    (hnames : ∀ c ∈ cs, c.Names ≠ [])
    (hdecl : ∀ c ∈ cs, serviceLabel c ∈ p.Config.serviceNames)
    (hlast : ∀ name ∈ p.Config.serviceNames,
      ∃ c, (labeledFor name cs).getLast? = some c ∧ c.State = "running") :
    ∃ st, (Status x p rt).val = Result.ok st ∧ st.Status = "running" ∧
      ∀ kv ∈ st.Services, kv.2.Status = "running" := by
  obtain ⟨st, hval, hstatus, hnd, hk, hlook⟩ := Status_entries x p rt cs hkeys hlist hnames
  have hall : ∀ kv ∈ st.Services, kv.2.Status = "running" := by
    intro kv hkv
    have hname : kv.1 ∈ p.Config.serviceNames := by
      rcases hk kv.1 (List.mem_map_of_mem Prod.fst hkv) with h | ⟨c, hc, hck⟩
      · exact h
      · exact hck ▸ hdecl c hc
    have h1 := lookup_of_mem_nodup st.Services kv.1 kv.2 hnd hkv
    rw [hlook kv.1 hname] at h1
    obtain ⟨c, hc, hrun⟩ := hlast kv.1 hname
    rw [← Option.some.inj h1]
    simp [applyContainers, hc, hrun]
  have hnonempty : st.Services ≠ [] := by
    obtain ⟨name, hname⟩ := List.exists_mem_of_ne_nil _ hne
    intro hnil
    have := hlook name hname
    rw [hnil] at this
    simp at this
  exact ⟨st, hval, by rw [hstatus]; exact determineProjectStatus_running _ hnonempty hall, hall⟩

theorem exampleUpState_listing :
    (simOk.ContainerList exampleUpState true (projectFilters exampleProject)).1 =
      Except.ok exampleUpState.containers := by
  rfl

theorem Status_running_witness :
    exampleProject.Config.serviceNames.Nodup ∧
    (Status simOk exampleProject exampleUpState).val =
      Result.ok
        { Name := "demo", Status := "running",
          Services :=
            [("web", { Name := "web", Status := "running", Replicas := 2,
                       Containers := [{ ID := "c0", Name := "demo_web_0", Status := "Created" },
                                      { ID := "c1", Name := "demo_web_1", Status := "Created" }] }),
             ("db", { Name := "db", Status := "running", Replicas := 1,
                      Containers := [{ ID := "c3", Name := "demo_db_0", Status := "Created" }] }),
             ("migrate", { Name := "migrate", Status := "running", Replicas := 1,
                           Containers :=
                             [{ ID := "c2", Name := "demo_migrate_0", Status := "Created" }] })] } ∧
    ∃ st, (Status simOk exampleProject exampleUpState).val = Result.ok st ∧
      st.Status = "running" ∧ ∀ kv ∈ st.Services, kv.2.Status = "running" :=
  ⟨by decide, by decide,
   Status_running simOk exampleProject exampleUpState exampleUpState.containers
     (by decide) (by decide) exampleUpState_listing (by decide) (by decide) (by decide)⟩

/-- C18 fails as stated: in `mixedState` every declared service of the example project
has a listed container whose state is "running", but the last listed `web` container is
"exited"; `Status` reports `web` as "exited" and the project as "partial". -/
theorem Status_running_counterexample :
    (∀ name ∈ exampleProject.Config.serviceNames,
      ∃ c ∈ mixedState.containers, serviceLabel c = name ∧ c.State = "running") ∧
    (simOk.ContainerList mixedState true (projectFilters exampleProject)).1 =
      Except.ok mixedState.containers ∧
    ∃ st, (Status simOk exampleProject mixedState).val = Result.ok st ∧
      st.Services.lookup "web" =
        some { Name := "web", Status := "exited", Replicas := 2,
               Containers := [{ ID := "c0", Name := "demo_web_0", Status := "Up 5 minutes" },
                              { ID := "c1", Name := "demo_web_1", Status := "Exited (0)" }] } ∧
      st.Status = "partial" ∧ st.Status ≠ "running" :=
  ⟨by decide, rfl,
   { Name := "demo", Status := "partial",
     Services :=
       [("web", { Name := "web", Status := "exited", Replicas := 2,
                  Containers := [{ ID := "c0", Name := "demo_web_0", Status := "Up 5 minutes" },
                                 { ID := "c1", Name := "demo_web_1", Status := "Exited (0)" }] }),
        ("db", { Name := "db", Status := "running", Replicas := 1,
                 Containers := [{ ID := "c3", Name := "demo_db_0", Status := "Up 5 minutes" }] }),
        ("migrate", { Name := "migrate", Status := "running", Replicas := 1,
                      Containers :=
                        [{ ID := "c2", Name := "demo_migrate_0", Status := "Up 5 minutes" }] })] },
   by decide, by decide, rfl, by decide⟩

/-- An entry of the map `Status` returns: for a declared service with at least one
listed container that carries its label, on a listing whose containers all have a name,
the replica count is the number of those containers, the `Containers` list holds their
infos in listing order, and the status is the state of the last of them. -/
theorem Status_service_entry {σ : Type} (x : External σ) (p : ComposeProject) (rt : σ)
    (cs : List Container) (name : String)
    (hkeys : p.Config.serviceNames.Nodup)
    (hlist : (x.ContainerList rt true (projectFilters p)).1 = Except.ok cs)
    (hnames : ∀ c ∈ cs, c.Names ≠ [])
    (hname : name ∈ p.Config.serviceNames) (hsome : labeledFor name cs ≠ []) :
    ∃ st info, (Status x p rt).val = Result.ok st ∧ st.Services.lookup name = some info ∧
      info.Replicas = ((labeledFor name cs).length : Int) ∧
      info.Containers = (labeledFor name cs).map containerInfoOf ∧
      info.Containers.length = (labeledFor name cs).length ∧
      ∃ c, (labeledFor name cs).getLast? = some c ∧ info.Status = c.State := by
  obtain ⟨st, hval, _, _, _, hlook⟩ := Status_entries x p rt cs hkeys hlist hnames
  obtain ⟨c, hc⟩ : ∃ c, (labeledFor name cs).getLast? = some c := by
    cases hl : (labeledFor name cs).getLast? with
    | none => exact absurd (List.getLast?_eq_none_iff.1 hl) hsome
    | some c => exact ⟨c, rfl⟩
  refine ⟨st, _, hval, hlook name hname, ?_, ?_, ?_, c, hc, ?_⟩
  · simp [applyContainers, seededInfo]
  · simp [applyContainers, seededInfo]
  · simp [applyContainers, seededInfo]
  · simp [applyContainers, hc]

/-- C19 fails on the code: on a listing with a container that has no name, the
expression `c.Names[0]` panics and `Status` reports nothing, although the declared
service `web` has a listed container that carries its label. -/
theorem Status_nameless_crash :
    (simOk.ContainerList namelessState true (projectFilters exampleProject)).1 =
      Except.ok namelessState.containers ∧
    (labeledFor "web" namelessState.containers).length = 1 ∧
    (Status simOk exampleProject namelessState).val = Result.crash "index out of range" :=
  ⟨rfl, by decide, by decide⟩

end Compose
namespace Compose

/-! ## The resolver and cycles -/

theorem visit_post (graph : String → List String) (keys : Finset String)
    (hkeys : ∀ n, graph n ≠ [] → n ∈ keys) (fuel : Nat) (node : String) (s : VisitState)
    (b : Bool) (s' : VisitState) (h : visit graph fuel node s = some (b, s'))
    (hg : Good graph s) (hfree : free keys s.temp < fuel) :
    VisitPost graph s b s' ∧ (b = true → s'.visited node = true) := by
  obtain ⟨b2, s2, hv, hpost, hvis, _⟩ := visit_spec graph keys hkeys fuel node s hg hfree
  rw [hv] at h
  have := Option.some.inj h
  cases this
  exact ⟨hpost, hvis⟩

theorem order_reach (graph : String → List String) (order : List String)
    (htopo : DepsFirst graph order) (n m : String) (hn : n ∈ order)
    (h : Relation.TransGen (fun a b => b ∈ graph a) n m) :
    m ∈ order ∧ order.indexOf m < order.indexOf n := by
  induction h with
  | single hab => exact depsFirst_indexOf graph order htopo n _ hn hab
  | tail _ hbc ih =>
    obtain ⟨hb, hlt⟩ := ih
    obtain ⟨hc, hlt2⟩ := depsFirst_indexOf graph order htopo _ _ hb hbc
    exact ⟨hc, lt_trans hlt2 hlt⟩

/-- A name of an order that lists dependencies first neither lies on a cycle nor
reaches one. -/
theorem order_not_reachesCycle (graph : String → List String) (order : List String)
    (htopo : DepsFirst graph order) (n : String) (hn : n ∈ order) :
    ¬ ReachesCycle graph n := by
  rintro ⟨m, hnm, hmm⟩
  have hm : m ∈ order := by
    rcases Relation.reflTransGen_iff_eq_or_transGen.1 hnm with h | h
    · exact h ▸ hn
    · exact (order_reach graph order htopo n m hn h).1
  exact lt_irrefl _ (order_reach graph order htopo m m hm hmm).2

theorem reachesCycle_of_edge (graph : String → List String) (n d : String)
    (hd : d ∈ graph n) (h : ReachesCycle graph d) : ReachesCycle graph n := by
  obtain ⟨m, hdm, hmm⟩ := h
  exact ⟨m, Relation.ReflTransGen.head hd hdm, hmm⟩

theorem polluted_mono (graph : String → List String) (s s' : VisitState) (hext : Ext s s')
    (t : String) (h : Polluted graph s t) : Polluted graph s' t := by
  obtain ⟨hc, l1, d, l2, hg, hv, ht⟩ := h
  exact ⟨hc, l1, d, l2, hg, fun x hx => hext.visited_mono x (hv x hx), hext.temp_mono d ht⟩

theorem visitDeps_cycle (graph : String → List String) (keys : Finset String)
    (names : List String) (fuel : Nat)
    (ih : ∀ (node : String) (s : VisitState) (b : Bool) (s' : VisitState) (S : String → Prop),
      visit graph fuel node s = some (b, s') → Good graph s → free keys s.temp < fuel →
      (∀ t, S t → Relation.TransGen (fun a b => b ∈ graph a) t node) →
      (∀ t, s.temp t = true → S t ∨ Polluted graph s t) →
      Entered graph names node →
      (∀ n, s.visited n = true ∨ s.temp n = true → Entered graph names n) →
      CyclePost graph names S node s b s')
    (node : String) (S0 : String → Prop)
    (hS0 : ∀ t, S0 t → Relation.ReflTransGen (fun a b => b ∈ graph a) t node)
    (hEn : Entered graph names node) :
    ∀ (rest done : List String) (s : VisitState) (b : Bool) (s' : VisitState),
      graph node = done ++ rest → (∀ x ∈ done, s.visited x = true) →
      visitDeps (visit graph fuel) rest s = some (b, s') → Good graph s →
      (rest ≠ [] → free keys s.temp < fuel) →
      (∀ t, s.temp t = true → S0 t ∨ Polluted graph s t) →
      (∀ n, s.visited n = true ∨ s.temp n = true → Entered graph names n) →
      Good graph s' ∧ Ext s s' ∧ (b = true → s'.temp = s.temp) ∧
      (b = true → ∀ x ∈ rest, s'.visited x = true) ∧
      (b = false → ReachesCycle graph node ∧ FailedAt graph s' node) ∧
      (∀ t, s'.temp t = true → S0 t ∨ Polluted graph s' t) ∧
      (∀ n, s'.visited n = true ∨ s'.temp n = true → Entered graph names n) := by
  intro rest
  induction rest with
  | nil =>
    intro done s b s' _ _ h hg _ hmarks hent
    simp only [visitDeps, Option.some.injEq, Prod.mk.injEq] at h
    obtain ⟨rfl, rfl⟩ := h
    exact ⟨hg, Ext.refl _, fun _ => rfl, by simp, by simp, hmarks, hent⟩
  | cons d rest ihr =>
    intro done s b s' hgraph hdone h hg hfree hmarks hent
    have hf : free keys s.temp < fuel := hfree (by simp)
    have hedge : d ∈ graph node := by rw [hgraph]; simp
    have hdoneOK : ∀ x ∈ done, ¬ ReachesCycle graph x := fun x hx =>
      order_not_reachesCycle graph s.order hg.topo x ((hg.mem_iff x).2 (hdone x hx))
    have hEd : Entered graph names d := Entered.dep hEn hgraph hdoneOK
    cases hv : visit graph fuel d s with
    | none => simp [visitDeps, hv] at h
    | some res =>
      obtain ⟨b1, s1⟩ := res
      have hpost := ih d s b1 s1 S0 hv hg hf
        (fun t ht => Relation.TransGen.tail' (hS0 t ht) hedge) hmarks hEd hent
      cases b1 with
      | false =>
        simp only [visitDeps, hv, Option.some.injEq, Prod.mk.injEq] at h
        obtain ⟨rfl, rfl⟩ := h
        refine ⟨hpost.good, hpost.ext, by simp, by simp, ?_, hpost.marks, hpost.entered⟩
        intro _
        exact ⟨reachesCycle_of_edge graph node d hedge (hpost.fail_cycle rfl),
          done, d, rest, hgraph, fun x hx => hpost.ext.visited_mono x (hdone x hx),
          hpost.fail_temp rfl⟩
      | true =>
        simp only [visitDeps, hv] at h
        have ht : s1.temp = s.temp := hpost.ok_temp rfl
        obtain ⟨h1, h2, h3, h4, h5, h6, h7⟩ := ihr (done ++ [d]) s1 b s'
          (by rw [hgraph]; simp)
          (by
            intro x hx
            rcases List.mem_append.1 hx with hx1 | hx1
            · exact hpost.ext.visited_mono x (hdone x hx1)
            · rw [List.mem_singleton.1 hx1]; exact hpost.ok_visited rfl)
          h hpost.good (fun _ => by rw [ht]; exact hf) hpost.marks hpost.entered
        refine ⟨h1, hpost.ext.trans h2, fun hb => by rw [h3 hb, ht], ?_, h5, h6, h7⟩
        intro hb x hx
        rcases List.mem_cons.1 hx with hx1 | hx1
        · rw [hx1]; exact h2.visited_mono d (hpost.ok_visited rfl)
        · exact h4 hb x hx1

theorem visit_cycle (graph : String → List String) (keys : Finset String)
    (hkeys : ∀ n, graph n ≠ [] → n ∈ keys) (names : List String) :
    ∀ (fuel : Nat) (node : String) (s : VisitState) (b : Bool) (s' : VisitState)
      (S : String → Prop),
      visit graph fuel node s = some (b, s') → Good graph s → free keys s.temp < fuel →
      (∀ t, S t → Relation.TransGen (fun a b => b ∈ graph a) t node) →
      (∀ t, s.temp t = true → S t ∨ Polluted graph s t) →
      Entered graph names node →
      (∀ n, s.visited n = true ∨ s.temp n = true → Entered graph names n) →
      CyclePost graph names S node s b s' := by
  intro fuel
  induction fuel with
  | zero => intro node s b s' S h; simp [visit] at h
  | succ fuel ih =>
    intro node s b s' S h hg hfree hS hmarks hEn hent
    obtain ⟨hpost, hvisited⟩ := visit_post graph keys hkeys (fuel + 1) node s b s' h hg hfree
    by_cases htemp : s.temp node = true
    · simp only [visit, htemp, if_true, Option.some.injEq, Prod.mk.injEq] at h
      obtain ⟨rfl, rfl⟩ := h
      refine ⟨hg, Ext.refl _, by simp, by simp, ?_, fun _ => htemp, hmarks, hent⟩
      intro _
      rcases hmarks node htemp with hs | hp
      · exact ⟨node, Relation.ReflTransGen.refl, hS node hs⟩
      · exact hp.1
    · have htf : s.temp node = false := by simpa using htemp
      by_cases hvis : s.visited node = true
      · simp only [visit, htf, hvis, if_true, Option.some.injEq, Prod.mk.injEq] at h
        obtain ⟨rfl, rfl⟩ := h
        exact ⟨hg, Ext.refl _, fun _ => rfl, fun _ => hvis, by simp, by simp, hmarks, hent⟩
      · have hvf : s.visited node = false := by simpa using hvis
        have hg0 : Good graph { s with temp := Function.update s.temp node true } := by
          refine ⟨hg.nodup, hg.mem_iff, ?_, hg.topo⟩
          intro n hn ht
          by_cases hnn : n = node
          · subst hnn; simp [hvf] at hn
          · simp only [Function.update_noteq hnn] at ht
            exact hg.disj n hn ht
        have hext0 : Ext s { s with temp := Function.update s.temp node true } := by
          refine ⟨fun _ hn => hn, ?_, ⟨[], (List.append_nil _).symm⟩⟩
          intro n hn
          by_cases hnn : n = node
          · subst hnn; simp
          · simpa [Function.update_noteq hnn] using hn
        have hfree0 : graph node ≠ [] →
            free keys (Function.update s.temp node true) < fuel := by
          intro hne
          have := free_update_lt keys s.temp node (hkeys node hne) htf
          omega
        have hmarks0 : ∀ t, Function.update s.temp node true t = true →
            (S t ∨ t = node) ∨
              Polluted graph { s with temp := Function.update s.temp node true } t := by
          intro t ht
          by_cases htn : t = node
          · exact Or.inl (Or.inr htn)
          · simp only [Function.update_noteq htn] at ht
            rcases hmarks t ht with h1 | h1
            · exact Or.inl (Or.inl h1)
            · exact Or.inr (polluted_mono graph s _ hext0 t h1)
        have hent0 : ∀ n, s.visited n = true ∨ Function.update s.temp node true n = true →
            Entered graph names n := by
          intro n hn
          by_cases hnn : n = node
          · rw [hnn]; exact hEn
          · simp only [Function.update_noteq hnn] at hn
            exact hent n hn
        cases hvd : visitDeps (visit graph fuel) (graph node)
            { s with temp := Function.update s.temp node true } with
        | none => simp [visit, htf, hvf, hvd] at h
        | some res =>
          obtain ⟨b1, s1⟩ := res
          obtain ⟨h1, h2, h3, h4, h5, h6, h7⟩ :=
            visitDeps_cycle graph keys names fuel (ih) node (fun t => S t ∨ t = node)
              (by
                intro t ht
                rcases ht with ht | ht
                · exact (hS t ht).to_reflTransGen
                · rw [ht])
              hEn (graph node) [] { s with temp := Function.update s.temp node true } b1 s1
              (by simp) (by simp) hvd hg0 hfree0 hmarks0 hent0
          cases b1 with
          | false =>
            simp only [visit, htf, hvf, hvd, if_false, Bool.false_eq_true,
              Option.some.injEq, Prod.mk.injEq] at h
            obtain ⟨rfl, rfl⟩ := h
            obtain ⟨hcyc, hfail⟩ := h5 rfl
            refine ⟨hpost.good, hpost.ext, by simp, by simp, fun _ => hcyc, ?_, ?_, h7⟩
            · intro _
              exact h2.temp_mono node (by simp)
            · intro t ht
              rcases h6 t ht with (hs | hs) | hp
              · exact Or.inl hs
              · rw [hs]; exact Or.inr ⟨hcyc, hfail⟩
              · exact Or.inr hp
          | true =>
            simp only [visit, htf, hvf, hvd, if_false, Bool.false_eq_true,
              Option.some.injEq, Prod.mk.injEq] at h
            obtain ⟨rfl, rfl⟩ := h
            have htempeq := hpost.temp_eq rfl
            refine ⟨hpost.good, hpost.ext, fun _ => htempeq, hvisited, by simp, by simp,
              ?_, ?_⟩
            · intro t ht
              rw [htempeq] at ht
              rcases hmarks t ht with hs | hp
              · exact Or.inl hs
              · exact Or.inr (polluted_mono graph s _ hpost.ext t hp)
            · intro n hn
              by_cases hnn : n = node
              · rw [hnn]; exact hEn
              · apply h7 n
                rcases hn with hn | hn
                · left; simpa [Function.update_noteq hnn] using hn
                · right; simpa [Function.update_noteq hnn] using hn

end Compose
namespace Compose

theorem visitAll_cycle (graph : String → List String) (keys : Finset String)
    (hkeys : ∀ n, graph n ≠ [] → n ∈ keys) (names : List String) (fuel : Nat)
    (hfuel : keys.card < fuel) :
    ∀ (todo : List String) (s : VisitState) (logged : List String) (s' : VisitState)
      (logged' : List String),
      visitAll graph fuel todo s logged = some (s', logged') → Good graph s →
      (∀ n ∈ todo, n ∈ names) →
      (∀ t, s.temp t = true → Polluted graph s t) →
      (∀ n, s.visited n = true ∨ s.temp n = true → Entered graph names n) →
      Good graph s' ∧ Ext s s' ∧
      (∀ t, s'.temp t = true → Polluted graph s' t) ∧
      (∀ n, s'.visited n = true ∨ s'.temp n = true → Entered graph names n) ∧
      (∀ n ∈ todo, s'.visited n = true ∨
        (s'.temp n = true ∧ cycleWarning n ∈ logged')) ∧
      (∀ line ∈ logged, line ∈ logged') := by
  intro todo
  induction todo with
  | nil =>
    intro s logged s' logged' h hg _ hmarks hent
    simp only [visitAll, Option.some.injEq, Prod.mk.injEq] at h
    obtain ⟨rfl, rfl⟩ := h
    exact ⟨hg, Ext.refl _, hmarks, hent, by simp, fun _ hl => hl⟩
  | cons name rest ih =>
    intro s logged s' logged' h hg htodo hmarks hent
    have hrest : ∀ n ∈ rest, n ∈ names := fun n hn => htodo n (List.mem_cons_of_mem _ hn)
    by_cases hvis : s.visited name = true
    · simp only [visitAll, hvis, if_true] at h
      obtain ⟨h1, h2, h3, h4, h5, h6⟩ := ih s logged s' logged' h hg hrest hmarks hent
      refine ⟨h1, h2, h3, h4, ?_, h6⟩
      intro n hn
      rcases List.mem_cons.1 hn with hn1 | hn1
      · rw [hn1]; exact Or.inl (h2.visited_mono name hvis)
      · exact h5 n hn1
    · have hvf : s.visited name = false := by simpa using hvis
      cases hv : visit graph fuel name s with
      | none => simp [visitAll, hvf, hv] at h
      | some res =>
        obtain ⟨b, s1⟩ := res
        have hpost := visit_cycle graph keys hkeys names fuel name s b s1 (fun _ => False) hv hg
          (lt_of_le_of_lt (free_le_card keys s.temp) hfuel) (fun _ hf => hf.elim)
          (fun t ht => Or.inr (hmarks t ht)) (Entered.root (htodo name (by simp))) hent
        have hmarks1 : ∀ t, s1.temp t = true → Polluted graph s1 t := by
          intro t ht
          rcases hpost.marks t ht with hf | hp
          · exact hf.elim
          · exact hp
        cases b with
        | true =>
          simp only [visitAll, hvf, hv, Bool.false_eq_true, if_false] at h
          obtain ⟨h1, h2, h3, h4, h5, h6⟩ :=
            ih s1 logged s' logged' h hpost.good hrest hmarks1 hpost.entered
          refine ⟨h1, hpost.ext.trans h2, h3, h4, ?_, h6⟩
          intro n hn
          rcases List.mem_cons.1 hn with hn1 | hn1
          · rw [hn1]; exact Or.inl (h2.visited_mono name (hpost.ok_visited rfl))
          · exact h5 n hn1
        | false =>
          simp only [visitAll, hvf, hv, Bool.false_eq_true, if_false] at h
          obtain ⟨h1, h2, h3, h4, h5, h6⟩ :=
            ih s1 _ s' logged' h hpost.good hrest hmarks1 hpost.entered
          refine ⟨h1, hpost.ext.trans h2, h3, h4, ?_,
            fun line hl => h6 line (List.mem_append_left _ hl)⟩
          intro n hn
          rcases List.mem_cons.1 hn with hn1 | hn1
          · rw [hn1]
            exact Or.inr ⟨h2.temp_mono name (hpost.fail_temp rfl),
              h6 _ (List.mem_append_right _ (by simp [cycleWarning]))⟩
          · exact h5 n hn1

/-- The final state of the traversal of `getServiceOrder`, for every configuration. -/
theorem getServiceOrder_final (p : ComposeProject) :
    ∃ s logged, getServiceOrder p = some { order := s.order, logged := logged } ∧
      Good (graphOf p.Config.Services) s ∧
      (∀ t, s.temp t = true → Polluted (graphOf p.Config.Services) s t) ∧
      (∀ n, s.visited n = true ∨ s.temp n = true →
        Entered (graphOf p.Config.Services) p.Config.serviceNames n) ∧
      (∀ n ∈ p.Config.serviceNames, s.visited n = true ∨
        (s.temp n = true ∧ cycleWarning n ∈ logged)) := by
  obtain ⟨s, logged, hrun, hget, _, _⟩ := getServiceOrder_run p
  have hfuel : ((p.Config.Services.map Prod.fst).toFinset).card < p.Config.Services.length + 1 := by
    have := List.toFinset_card_le (p.Config.Services.map Prod.fst)
    simp at this
    omega
  obtain ⟨h1, _, h3, h4, h5, _⟩ :=
    visitAll_cycle (graphOf p.Config.Services) _ (graphOf_ne_nil_mem p.Config.Services)
      p.Config.serviceNames _ hfuel p.Config.serviceNames _ [] s logged hrun (good_init _)
      (fun _ hn => hn) (by simp) (by simp)
  exact ⟨s, logged, hget, h1, h3, h4, h5⟩

theorem entered_final (graph : String → List String) (names : List String) (s : VisitState)
    (hg : Good graph s)
    (hmarks : ∀ t, s.temp t = true → Polluted graph s t)
    (hnames : ∀ n ∈ names, s.visited n = true ∨ s.temp n = true) (n : String)
    (h : Entered graph names n) : s.visited n = true ∨ s.temp n = true := by
  induction h with
  | root hn => exact hnames _ hn
  | @dep m d l1 l2 _ hgraph hl1 ih =>
    rcases ih with hv | ht
    · left
      have hm : m ∈ s.order := (hg.mem_iff m).2 hv
      have hd : d ∈ graph m := by rw [hgraph]; simp
      exact (hg.mem_iff d).1 (depsFirst_indexOf graph s.order hg.topo m d hm hd).1
    · obtain ⟨_, l1', d', l2', hgraph', hvis', htemp'⟩ := hmarks m ht
      have hbad : ReachesCycle graph d' := (hmarks d' htemp').1
      rw [hgraph] at hgraph'
      rcases List.append_eq_append_iff.1 hgraph' with ⟨a', h1, h2⟩ | ⟨c', h1, h2⟩
      · cases a' with
        | nil =>
          simp only [List.nil_append, List.cons.injEq] at h2
          right; rw [h2.1]; exact htemp'
        | cons a a' =>
          simp only [List.cons_append, List.cons.injEq] at h2
          left
          apply hvis'
          rw [h1, h2.1]
          simp
      · cases c' with
        | nil =>
          simp only [List.nil_append, List.cons.injEq] at h2
          right; rw [← h2.1]; exact htemp'
        | cons c c' =>
          simp only [List.cons_append, List.cons.injEq] at h2
          exfalso
          apply hl1 d' _ hbad
          rw [h1, h2.1]
          simp

/-- The names of the resolver's order, for every configuration: the names on which
`visit` is called that neither lie on a cycle nor reach one. -/
theorem getServiceOrder_members (p : ComposeProject) :
    ∃ r, getServiceOrder p = some r ∧ r.order.Nodup ∧
      (∀ n, n ∈ r.order ↔
        Entered (graphOf p.Config.Services) p.Config.serviceNames n ∧
          ¬ ReachesCycle (graphOf p.Config.Services) n) ∧
      (∀ n ∈ p.Config.serviceNames, n ∉ r.order → cycleWarning n ∈ r.logged) := by
  obtain ⟨s, logged, hget, hg, hmarks, hent, hnames⟩ := getServiceOrder_final p
  refine ⟨_, hget, hg.nodup, ?_, ?_⟩
  · intro n
    constructor
    · intro hn
      exact ⟨hent n (Or.inl ((hg.mem_iff n).1 hn)),
        order_not_reachesCycle _ _ hg.topo n hn⟩
    · rintro ⟨hen, hnot⟩
      rcases entered_final _ _ s hg hmarks
        (fun m hm => (hnames m hm).imp id (fun h => h.1)) n hen with hv | ht
      · exact (hg.mem_iff n).2 hv
      · exact absurd (hmarks n ht).1 hnot
  · intro n hn hnot
    rcases hnames n hn with hv | ⟨_, hw⟩
    · exact absurd ((hg.mem_iff n).2 hv) hnot
    · exact hw

theorem entangled_iff (cfg : ComposeConfig) (n : String) :
    Entangled cfg n ↔ ReachesCycle (graphOf cfg.Services) n := by
  unfold Entangled OnCycle ReachesCycle
  constructor
  · rintro (h | ⟨m, hnm, hmm⟩)
    · exact ⟨n, Relation.ReflTransGen.refl, h⟩
    · exact ⟨m, hnm.to_reflTransGen, hmm⟩
  · rintro ⟨m, hnm, hmm⟩
    rcases Relation.reflTransGen_iff_eq_or_transGen.1 hnm with h | h
    · left; rw [← h]; exact hmm
    · exact Or.inr ⟨m, h, hmm⟩

/-- C13. For every configuration, in every iteration order of the service map,
`getServiceOrder` returns, and a declared service is absent from the returned order if
and only if it lies on a dependency cycle or transitively depends on a name that does;
every other declared service is in the order. -/
theorem getServiceOrder_absent_iff (p : ComposeProject) :
    ∃ r, getServiceOrder p = some r ∧
      (∀ name ∈ p.Config.serviceNames, name ∉ r.order ↔ Entangled p.Config name) ∧
      (∀ name ∈ p.Config.serviceNames, ¬ Entangled p.Config name → name ∈ r.order) := by
  obtain ⟨r, hget, _, hmem, _⟩ := getServiceOrder_members p
  have key : ∀ name ∈ p.Config.serviceNames, name ∉ r.order ↔ Entangled p.Config name := by
    intro name hname
    rw [entangled_iff, hmem name]
    constructor
    · intro h
      by_contra hc
      exact h ⟨Entered.root hname, hc⟩
    · intro h hc
      exact hc.2 h
  refine ⟨r, hget, key, ?_⟩
  intro name hname hnot
  by_contra hc
  exact hnot ((key name hname).1 hc)

/-- The resolver on `cyclicProject`: the pair `a`, `b`, the service `c` that depends on
it and the self-dependent `s` are left out and reported; `d` and `e` are ordered. -/
theorem getServiceOrder_cyclic_example :
    getServiceOrder cyclicProject =
      some { order := ["d", "e"],
             logged := [cycleWarning "c", cycleWarning "a", cycleWarning "b",
                        cycleWarning "s"] } := by
  decide

/-- C14. For every configuration with a service `a` that depends on itself, or with
two services `a` and `b` that depend on each other, `getServiceOrder` returns, the
top-level visit of `a` reports the cycle (the warning naming `a` is logged), `a` is not
in the returned order, and no name occurs more than once in the returned order. -/
theorem getServiceOrder_reports_cycle (p : ComposeProject) (a : String)
    (hcycle : a ∈ (p.Config.service a).DependsOn ∨
      ∃ b, b ∈ (p.Config.service a).DependsOn ∧ a ∈ (p.Config.service b).DependsOn) :
    ∃ r, getServiceOrder p = some r ∧ cycleWarning a ∈ r.logged ∧ a ∉ r.order ∧
      r.order.Nodup := by
  obtain ⟨r, hget, hnd, hmem, hwarn⟩ := getServiceOrder_members p
  have hdecl : a ∈ p.Config.serviceNames := by
    rcases hcycle with h | ⟨b, h, _⟩
    · exact declared_of_dependsOn _ a a h
    · exact declared_of_dependsOn _ b a h
  have hbad : ReachesCycle (graphOf p.Config.Services) a := by
    refine ⟨a, Relation.ReflTransGen.refl, ?_⟩
    rcases hcycle with h | ⟨b, h1, h2⟩
    · rw [service_dependsOn] at h
      exact Relation.TransGen.single h
    · rw [service_dependsOn] at h1 h2
      exact Relation.TransGen.tail (Relation.TransGen.single h1) h2
  have hnot : a ∉ r.order := fun h => ((hmem a).1 h).2 hbad
  exact ⟨r, hget, hwarn a hdecl hnot, hnot, hnd⟩

theorem getServiceOrder_reports_cycle_witness :
    (∃ b, b ∈ (cyclicProject.Config.service "a").DependsOn ∧
      "a" ∈ (cyclicProject.Config.service b).DependsOn) ∧
    "s" ∈ (cyclicProject.Config.service "s").DependsOn ∧
    (∃ r, getServiceOrder cyclicProject = some r ∧ cycleWarning "a" ∈ r.logged ∧
      "a" ∉ r.order ∧ r.order.Nodup) ∧
    ∃ r, getServiceOrder cyclicProject = some r ∧ cycleWarning "s" ∈ r.logged ∧
      "s" ∉ r.order ∧ r.order.Nodup :=
  ⟨⟨"b", by decide, by decide⟩, by decide,
   getServiceOrder_reports_cycle cyclicProject "a" (Or.inr ⟨"b", by decide, by decide⟩),
   getServiceOrder_reports_cycle cyclicProject "s" (Or.inl (by decide))⟩

end Compose
namespace Compose

/-! ## The resolver and the iteration order of the map -/

theorem lookup_perm {β : Type} (l1 l2 : List (String × β)) (hperm : l1.Perm l2)
    (hnd : (l1.map Prod.fst).Nodup) (k : String) : l1.lookup k = l2.lookup k := by
  have hnd2 : (l2.map Prod.fst).Nodup := (hperm.map Prod.fst).nodup_iff.1 hnd
  cases h1 : l1.lookup k with
  | some v =>
    exact (lookup_of_mem_nodup l2 k v hnd2 (hperm.subset (lookup_mem_pair l1 k v h1))).symm
  | none =>
    cases h2 : l2.lookup k with
    | none => rfl
    | some v =>
      have := lookup_of_mem_nodup l1 k v hnd (hperm.symm.subset (lookup_mem_pair l2 k v h2))
      rw [h1] at this
      exact Option.noConfusion this

theorem graphOf_perm (l1 l2 : List (String × ServiceSpec)) (hperm : l1.Perm l2)
    (hnd : (l1.map Prod.fst).Nodup) : graphOf l1 = graphOf l2 := by
  funext k
  unfold graphOf
  rw [lookup_perm l1 l2 hperm hnd k]

theorem entered_congr (graph : String → List String) (names names' : List String)
    (hsame : ∀ n, n ∈ names → n ∈ names') (n : String) (h : Entered graph names n) :
    Entered graph names' n := by
  induction h with
  | root hn => exact Entered.root (hsame _ hn)
  | dep _ hgraph hl1 ih => exact Entered.dep ih hgraph hl1

/-- C16, as amended.  For a fixed configuration (a map: the service names are pairwise
distinct), `getServiceOrder` returns for every iteration order of the service map, and
the sequences it returns for two iteration orders are permutations of each other: they
hold the same names, each once.  The positions are not fixed by the configuration. -/
theorem getServiceOrder_perm (p p' : ComposeProject)
    (hperm : p'.Config.Services.Perm p.Config.Services)
    (hnd : p.Config.serviceNames.Nodup) :
    ∃ r r', getServiceOrder p = some r ∧ getServiceOrder p' = some r' ∧
      r'.order.Perm r.order ∧ ∀ n, n ∈ r'.order ↔ n ∈ r.order := by
  obtain ⟨r, hget, hrnd, hmem, _⟩ := getServiceOrder_members p
  obtain ⟨r', hget', hrnd', hmem', _⟩ := getServiceOrder_members p'
  have hnd' : (p'.Config.Services.map Prod.fst).Nodup :=
    (hperm.map Prod.fst).nodup_iff.2 hnd
  have hgraph : graphOf p'.Config.Services = graphOf p.Config.Services :=
    graphOf_perm _ _ hperm hnd'
  have hnames : ∀ n, n ∈ p'.Config.serviceNames ↔ n ∈ p.Config.serviceNames :=
    fun n => (hperm.map Prod.fst).mem_iff
  have hsame : ∀ n, n ∈ r'.order ↔ n ∈ r.order := by
    intro n
    rw [hmem n, hmem' n, hgraph]
    constructor
    · rintro ⟨h1, h2⟩
      exact ⟨entered_congr _ _ _ (fun m hm => (hnames m).1 hm) n h1, h2⟩
    · rintro ⟨h1, h2⟩
      exact ⟨entered_congr _ _ _ (fun m hm => (hnames m).2 hm) n h1, h2⟩
  exact ⟨r, r', hget, hget', (List.perm_ext_iff_of_nodup hrnd' hrnd).2 hsame, hsame⟩

theorem getServiceOrder_perm_witness :
    cyclicProject.Config.Services.reverse.Perm cyclicProject.Config.Services ∧
    cyclicProject.Config.serviceNames.Nodup ∧
    ∃ r r', getServiceOrder cyclicProject = some r ∧
      getServiceOrder
        { cyclicProject with
          Config := { cyclicProject.Config with
                      Services := cyclicProject.Config.Services.reverse } } = some r' ∧
      r'.order.Perm r.order ∧ ∀ n, n ∈ r'.order ↔ n ∈ r.order :=
  ⟨List.reverse_perm _, by decide,
   getServiceOrder_perm cyclicProject
     { cyclicProject with
       Config := { cyclicProject.Config with
                   Services := cyclicProject.Config.Services.reverse } }
     (List.reverse_perm _) (by decide)⟩

/-- C16 fails as stated: `twoServices` and `twoServicesSwapped` are the same map, two
independent services, in its two iteration orders, and `getServiceOrder` returns `a, b`
for the one and `b, a` for the other. -/
theorem getServiceOrder_order_counterexample :
    twoServicesSwapped.Config.Services.Perm twoServices.Config.Services ∧
    twoServices.Config.serviceNames.Nodup ∧
    getServiceOrder twoServices = some { order := ["a", "b"], logged := [] } ∧
    getServiceOrder twoServicesSwapped = some { order := ["b", "a"], logged := [] } ∧
    getServiceOrder twoServices ≠ getServiceOrder twoServicesSwapped :=
  ⟨List.Perm.swap _ _ _, by decide, by decide, by decide, by decide⟩

end Compose
namespace Compose

/-! ## A dependency that is not declared -/

theorem lookup_none_of_not_mem {β : Type} (l : List (String × β)) (k : String)
    (h : k ∉ l.map Prod.fst) : l.lookup k = none := by
  cases hl : l.lookup k with
  | none => rfl
  | some v => exact absurd (lookup_mem_keys l k v hl) h

theorem service_undeclared (cfg : ComposeConfig) (name : String)
    (h : name ∉ cfg.serviceNames) : cfg.service name = {} := by
  unfold ComposeConfig.service
  rw [lookup_none_of_not_mem cfg.Services name h]
  rfl

/-- The calls of `Up` when every port string parses and every call succeeds: it returns
nil, and for every name of the order it issues the create and start pairs of that
name's instances. -/
theorem upWith_all_ok {σ : Type} (x : External σ) (p : ComposeProject)
    (resolved : Resolved) (rt : σ) (hnd : resolved.order.Nodup)
    (hports : ∀ kv ∈ p.Config.Services,
      ∃ ports, parsePorts x.ParsePortSpec kv.2.Ports ([], []) = Except.ok ports)
    (hall : ∀ e ∈ (upWith x p resolved rt).events, e.failed = false) :
    (upWith x p resolved rt).val = Result.ok () ∧
    ∀ s ∈ resolved.order, ∃ ports ids,
      parsePorts x.ParsePortSpec (p.Config.service s).Ports ([], []) = Except.ok ports ∧
      (ids.length : Int) = replicasOf (p.Config.service s) ∧
      (upWith x p resolved rt).events.filter (fun e => e.svc = some s) =
        ((intRange 0 (replicasOf (p.Config.service s))).zip ids).flatMap
          (fun q => provisionEvents p s (p.Config.service s) ports q.1 q.2) := by
  have hnets : ∀ s : String,
      (createNetworks x p rt).events.filter (fun e => e.svc = some s) = [] := by
    intro s
    rw [List.filter_eq_nil_iff]
    intro e he
    simp [(createNetworks_events x p rt e he).1]
  rcases upWith_events x p resolved rt with ⟨_, hev, hval⟩ | ⟨⟨msg, hmsg⟩, hev, _⟩
  · obtain ⟨hv, hs⟩ := upLoop_all_ok x p (parsePorts_service x p hports) resolved.order
      (createNetworks x p rt).rt hnd
      (fun e he => hall e (by rw [hev]; exact List.mem_append_right _ he))
    refine ⟨by rw [hval, hv], ?_⟩
    intro s hsmem
    obtain ⟨ports, ids, hp, hlen, hevs⟩ := hs s hsmem
    exact ⟨ports, ids, hp, hlen, by rw [hev, List.filter_append, hnets, List.nil_append, hevs]⟩
  · exfalso
    have hq : (createNetworks x p rt).val = Result.ok () := by
      refine (forEach_runs_all (createNetwork x p) (fun e => e.failed = false) ?_
        p.Config.Networks rt (fun e he => hall e (by rw [hev]; exact he))).1
      intro net rt0 h
      unfold createNetwork at h ⊢
      split
      · rfl
      · rename_i hext
        rw [if_neg hext] at h
        cases hn : (x.NetworkCreate rt0 (p.Name ++ "_" ++ net.1) "bridge"
            [("com.docker.compose.project", p.Name),
             ("com.docker.compose.network", net.1)]).1 with
        | none => simp [clientNetworkCreate, hn]
        | some m =>
          have := h (Event.mk none (Call.NetworkCreate (p.Name ++ "_" ++ net.1) "bridge"
              [("com.docker.compose.project", p.Name),
               ("com.docker.compose.network", net.1)]) (Answer.failed m))
            (by simp [clientNetworkCreate, hn, Answer.ofError])
          simp [Event.failed] at this
    rw [hq] at hmsg
    exact Result.noConfusion hmsg

theorem createContainer_ok_events {σ : Type} (x : External σ) (p : ComposeProject)
    (service : String) (config : ServiceSpec) (i : Int) (rt : σ)
    (hok : (createContainer x p service config i rt).val = Result.ok ()) :
    ∃ ports id, parsePorts x.ParsePortSpec config.Ports ([], []) = Except.ok ports ∧
      (createContainer x p service config i rt).events.map
        (fun e => { e with svc := some service }) = provisionEvents p service config ports i id := by
  cases hp : parsePorts x.ParsePortSpec config.Ports ([], []) with
  | error e =>
    rw [createContainer_bad_ports x p service config i rt e hp] at hok
    simp [Run.pure] at hok
  | ok ports =>
    obtain ⟨pb, ep⟩ := ports
    cases hc : (x.ContainerCreate rt
        { Image := config.Image, Cmd := config.Command, Env := mapToEnvSlice config.Environment,
          ExposedPorts := ep, Labels := containerLabels p service i }
        { PortBindings := pb, Binds := config.Volumes }
        { EndpointsConfig := endpointKeys p } (containerName p service i)).1 with
    | error e => simp [createContainer, hp, clientContainerCreate, hc] at hok
    | ok id =>
      cases hs : (x.ContainerStart (x.ContainerCreate rt
          { Image := config.Image, Cmd := config.Command,
            Env := mapToEnvSlice config.Environment,
            ExposedPorts := ep, Labels := containerLabels p service i }
          { PortBindings := pb, Binds := config.Volumes }
          { EndpointsConfig := endpointKeys p } (containerName p service i)).2 id).1 with
      | some e =>
        simp [createContainer, hp, clientContainerCreate, clientContainerStart, hc, hs] at hok
      | none =>
        refine ⟨(pb, ep), id, rfl, ?_⟩
        simp [createContainer, hp, clientContainerCreate, clientContainerStart, hc, hs,
          Answer.ofExcept, Answer.ofError, provisionEvents, createCall]

/-- The calls `Up` issues for a name of the order when its loop returns nil: they are the
calls of one `startService` that returned nil. -/
theorem upLoop_ok_segment {σ : Type} (x : External σ) (p : ComposeProject) :
    ∀ (l : List String) (rt : σ), l.Nodup →
      (forEach (upService x p) l rt).val = Result.ok () →
      ∀ s ∈ l, ∃ rt', (upService x p s rt').val = Result.ok () ∧
        (forEach (upService x p) l rt).events.filter (fun e => e.svc = some s) =
          (upService x p s rt').events := by
  intro l
  induction l with
  | nil => intro rt _ _ s hs; simp at hs
  | cons a rest ih =>
    intro rt hnd hok s hs
    rw [List.nodup_cons] at hnd
    have hv := forEach_ok_head (upService x p) a rest rt hok
    obtain ⟨h1, _, h3, _⟩ := forEach_cons_of_ok (upService x p) a rest rt hv
    rw [h1] at hok
    rw [h3, List.filter_append]
    by_cases hsa : s = a
    · subst hsa
      refine ⟨rt, hv, ?_⟩
      have hA : (upService x p s rt).events.filter (fun e => e.svc = some s) =
          (upService x p s rt).events := by
        rw [List.filter_eq_self]
        intro e he
        simpa using (upService_events x p s rt e he).1
      have hR : (forEach (upService x p) rest (upService x p s rt).rt).events.filter
          (fun e => e.svc = some s) = [] := by
        rw [List.filter_eq_nil_iff]
        intro e he
        obtain ⟨b, hb, rt', hmem⟩ := forEach_mem _ _ _ _ he
        have := (upService_events x p b rt' e hmem).1
        simp only [this, Option.some.injEq, decide_eq_true_eq]
        intro hbs
        exact hnd.1 (hbs ▸ hb)
      rw [hA, hR, List.append_nil]
    · have hsr : s ∈ rest := by
        rcases List.mem_cons.1 hs with h | h
        · exact absurd h hsa
        · exact h
      obtain ⟨rt', hv', hev'⟩ := ih (upService x p a rt).rt hnd.2 hok s hsr
      refine ⟨rt', hv', ?_⟩
      have hA : (upService x p a rt).events.filter (fun e => e.svc = some s) = [] := by
        rw [List.filter_eq_nil_iff]
        intro e he
        have := (upService_events x p a rt e he).1
        simp only [this, Option.some.injEq, decide_eq_true_eq]
        exact fun h => hsa h.symm
      rw [hA, List.nil_append, hev']

/-- The calls of `startService` for a name that is not a key of the services map, when it
returns nil: one create and start pair for instance 0 from the zero-value
specification. -/
theorem upService_undeclared {σ : Type} (x : External σ) (p : ComposeProject) (U : String)
    (rt : σ) (hundecl : U ∉ p.Config.serviceNames)
    (hok : (upService x p U rt).val = Result.ok ()) :
    ∃ id, (upService x p U rt).events = provisionEvents p U {} ([], []) 0 id := by
  have hstart : (startService x p U rt).val = Result.ok () := by
    rcases upService_val x p U rt with ⟨_, h⟩ | ⟨msg, h, _⟩
    · exact h
    · rw [h] at hok
      exact Result.noConfusion hok
  rw [(upService_events_eq x p U rt).1]
  unfold startService at hstart ⊢
  rw [service_undeclared _ U hundecl] at hstart ⊢
  have hrange : intRange 0 (replicasOf ({} : ServiceSpec)) = [0] := by decide
  rw [hrange] at hstart ⊢
  have hc := forEach_ok_head (fun i => createContainer x p U {} i) 0 [] rt hstart
  obtain ⟨_, _, h3, _⟩ := forEach_cons_of_ok (fun i => createContainer x p U {} i) 0 [] rt hc
  obtain ⟨ports, id, hp, hev⟩ := createContainer_ok_events x p U {} 0 rt hc
  have hports0 : ports = ([], []) := by
    have h0 : parsePorts x.ParsePortSpec ({} : ServiceSpec).Ports ([], []) =
        Except.ok ([], []) := rfl
    rw [h0] at hp
    exact (Except.ok.inj hp).symm
  refine ⟨id, ?_⟩
  rw [h3]
  simp only [forEach, Run.pure, List.append_nil]
  rw [hev, hports0]

theorem Scale_undeclared {σ : Type} (x : External σ) (p : ComposeProject) (U : String)
    (n : Int) (rt : σ) (hundecl : U ∉ p.Config.serviceNames) :
    Scale x p U n rt = Run.pure (Result.err ("service " ++ U ++ " not found")) rt := by
  unfold Scale
  rw [lookup_none_of_not_mem p.Config.Services U hundecl]

/-- C15.  No step of `Up` checks that a dependency name is a key of the services map.
For every acyclic configuration in which a service `B` declares a dependency `U` that is
not a key, and on every runtime: `Up` returns, the resolver's order contains `U`, before
`B`; whenever `Up` returns nil, the calls it issued for `U` are one create and start pair
for instance 0 from the zero-value specification (the empty image, the container name
`<project>_U_0`), so the container has been created; and when every port string parses
and no call of the run fails, `Up` returns nil.  `Scale` for the same name checks the key
and returns `service U not found` without a call to the runtime. -/
theorem Up_undeclared_dependency {σ : Type} (x : External σ) (p : ComposeProject) (rt : σ)
    (B U : String) (hac : Acyclic p.Config) (hdep : U ∈ (p.Config.service B).DependsOn)
    (hundecl : U ∉ p.Config.serviceNames) :
    ∃ r resolved, Up x p rt = some r ∧ getServiceOrder p = some resolved ∧
      U ∈ resolved.order ∧ resolved.order.indexOf U < resolved.order.indexOf B ∧
      (r.val = Result.ok () →
        ∃ id, r.events.filter (fun e => e.svc = some U) =
          provisionEvents p U {} ([], []) 0 id) ∧
      ((∀ kv ∈ p.Config.Services,
          ∃ ports, parsePorts x.ParsePortSpec kv.2.Ports ([], []) = Except.ok ports) →
        (∀ e ∈ r.events, e.failed = false) → r.val = Result.ok ()) ∧
      ∀ n, (Scale x p U n rt).val = Result.err ("service " ++ U ++ " not found") ∧
        (Scale x p U n rt).events = [] ∧ (Scale x p U n rt).rt = rt := by
  obtain ⟨resolved, hget, hnd, htopo, hall⟩ := getServiceOrder_good p
  have hB : B ∈ resolved.order := hall hac B (declared_of_dependsOn _ U B hdep)
  have hdep' : U ∈ graphOf p.Config.Services B := by rw [← service_dependsOn]; exact hdep
  obtain ⟨hU, hlt⟩ := depsFirst_indexOf _ _ htopo B U hB hdep'
  refine ⟨upWith x p resolved rt, resolved, by simp [Up, hget], hget, hU, hlt, ?_, ?_, ?_⟩
  · intro hok
    have hnets : (createNetworks x p rt).events.filter (fun e => e.svc = some U) = [] := by
      rw [List.filter_eq_nil_iff]
      intro e he
      simp [(createNetworks_events x p rt e he).1]
    rcases upWith_events x p resolved rt with ⟨_, hev, hval⟩ | ⟨_, _, msg, hmsg⟩
    · rw [hval] at hok
      obtain ⟨rt', hv, hseg⟩ := upLoop_ok_segment x p resolved.order _ hnd hok U hU
      obtain ⟨id, hid⟩ := upService_undeclared x p U rt' hundecl hv
      exact ⟨id, by rw [hev, List.filter_append, hnets, List.nil_append, hseg, hid]⟩
    · rw [hmsg] at hok
      exact Result.noConfusion hok
  · intro hports hok
    exact (upWith_all_ok x p resolved rt hnd hports hok).1
  · intro n
    rw [Scale_undeclared x p U n rt hundecl]
    exact ⟨rfl, rfl, rfl⟩

theorem undeclaredDepProject_acyclic : Acyclic undeclaredDepProject.Config :=
  acyclic_of_rank _ (fun name => if name = "web" then 1 else 0) (by decide)

/-- The theorem at `undeclaredDepProject`, whose service `web` depends on `cache`, on the
strict runtime from the empty state. -/
theorem Up_undeclared_dependency_witness :
    Acyclic undeclaredDepProject.Config ∧
    "cache" ∈ (undeclaredDepProject.Config.service "web").DependsOn ∧
    "cache" ∉ undeclaredDepProject.Config.serviceNames ∧
    ∃ r resolved, Up simStrict undeclaredDepProject {} = some r ∧
      getServiceOrder undeclaredDepProject = some resolved ∧
      "cache" ∈ resolved.order ∧
      resolved.order.indexOf "cache" < resolved.order.indexOf "web" ∧
      (r.val = Result.ok () →
        ∃ id, r.events.filter (fun e => e.svc = some "cache") =
          provisionEvents undeclaredDepProject "cache" {} ([], []) 0 id) ∧
      ((∀ kv ∈ undeclaredDepProject.Config.Services,
          ∃ ports, parsePorts simStrict.ParsePortSpec kv.2.Ports ([], []) = Except.ok ports) →
        (∀ e ∈ r.events, e.failed = false) → r.val = Result.ok ()) ∧
      ∀ n, (Scale simStrict undeclaredDepProject "cache" n {}).val =
          Result.err ("service " ++ "cache" ++ " not found") ∧
        (Scale simStrict undeclaredDepProject "cache" n {}).events = [] ∧
        (Scale simStrict undeclaredDepProject "cache" n {}).rt = {} :=
  ⟨undeclaredDepProject_acyclic, by decide, by decide,
   Up_undeclared_dependency simStrict undeclaredDepProject {} "web" "cache"
     undeclaredDepProject_acyclic (by decide) (by decide)⟩

theorem createContainer_first {σ : Type} (x : External σ) (p : ComposeProject)
    (service : String) (config : ServiceSpec)
    (ports : List (String × List PortBinding) × List String) (i : Int) (rt : σ)
    (hports : parsePorts x.ParsePortSpec config.Ports ([], []) = Except.ok ports) :
    (createContainer x p service config i rt).events.head? = some
      { svc := none
        call := createCall p service config ports i
        answer := Answer.ofExcept Answer.created
          (x.ContainerCreate rt
            { Image := config.Image, Cmd := config.Command,
              Env := mapToEnvSlice config.Environment, ExposedPorts := ports.2,
              Labels := containerLabels p service i }
            { PortBindings := ports.1, Binds := config.Volumes }
            { EndpointsConfig := endpointKeys p } (containerName p service i)).1 } ∧
    ∀ msg,
      (x.ContainerCreate rt
        { Image := config.Image, Cmd := config.Command,
          Env := mapToEnvSlice config.Environment, ExposedPorts := ports.2,
          Labels := containerLabels p service i }
        { PortBindings := ports.1, Binds := config.Volumes }
        { EndpointsConfig := endpointKeys p } (containerName p service i)).1 =
          Except.error msg →
      (createContainer x p service config i rt).val =
        Result.err ("failed to create container: " ++ msg) ∧
      (createContainer x p service config i rt).events.length = 1 := by
  obtain ⟨pb, ep⟩ := ports
  constructor
  · simp [createContainer, hports, clientContainerCreate, createCall]
  · intro msg hc
    simp [createContainer, hports, clientContainerCreate, hc]

/-- The first call of `Up` of `undeclaredDepProject`, on every runtime and from every
state, is the create request for the container `demo_cache_0` with the empty image, and
when the runtime refuses it `Up` returns the runtime message wrapped as a failure to start
the service `cache`, after that one call. -/
theorem Up_undeclared_request {σ : Type} (x : External σ) (rt : σ) :
    getServiceOrder undeclaredDepProject = some { order := ["cache", "web"], logged := [] } ∧
    createCall undeclaredDepProject "cache" {} ([], []) 0 =
      Call.ContainerCreate
        { Image := "", Cmd := [], Env := [], ExposedPorts := [],
          Labels := [("com.docker.compose.project", "demo"),
                     ("com.docker.compose.service", "cache"),
                     ("com.docker.compose.instance", "0")] }
        { PortBindings := [], Binds := [] } { EndpointsConfig := [] } "demo_cache_0" ∧
    ∃ r, Up x undeclaredDepProject rt = some r ∧
      r.events.head? = some
        { svc := some "cache"
          call := createCall undeclaredDepProject "cache" {} ([], []) 0
          answer := Answer.ofExcept Answer.created
            (x.ContainerCreate rt
              { Image := "", Cmd := [], Env := [], ExposedPorts := [],
                Labels := containerLabels undeclaredDepProject "cache" 0 }
              { PortBindings := [], Binds := [] } { EndpointsConfig := [] }
              "demo_cache_0").1 } ∧
      ∀ msg,
        (x.ContainerCreate rt
          { Image := "", Cmd := [], Env := [], ExposedPorts := [],
            Labels := containerLabels undeclaredDepProject "cache" 0 }
          { PortBindings := [], Binds := [] } { EndpointsConfig := [] }
          "demo_cache_0").1 = Except.error msg →
        r.val = Result.err
          ("failed to start service cache: failed to create container: " ++ msg) ∧
        r.events.length = 1 := by
  have hget : getServiceOrder undeclaredDepProject =
      some { order := ["cache", "web"], logged := [] } := by decide
  have hnets : createNetworks x undeclaredDepProject rt = Run.pure (Result.ok ()) rt := rfl
  have hstart : startService x undeclaredDepProject "cache" rt =
      forEach (fun i => createContainer x undeclaredDepProject "cache" {} i) [0] rt := rfl
  obtain ⟨hfirst, hrefused⟩ := createContainer_first x undeclaredDepProject "cache" {}
    ([], []) 0 rt rfl
  have hname : containerName undeclaredDepProject "cache" 0 = "demo_cache_0" := by decide
  have hkeys : endpointKeys undeclaredDepProject = [] := by decide
  have henv : mapToEnvSlice ({} : ServiceSpec).Environment = [] := by decide
  simp only [hname, hkeys, henv] at hfirst hrefused
  refine ⟨hget, by decide,
    upWith x undeclaredDepProject { order := ["cache", "web"], logged := [] } rt,
    by rw [Up, hget]; rfl, ?_, ?_⟩
  · have hup : (upService x undeclaredDepProject "cache" rt).events.head? = some
        { svc := some "cache"
          call := createCall undeclaredDepProject "cache" {} ([], []) 0
          answer := Answer.ofExcept Answer.created
            (x.ContainerCreate rt
              { Image := "", Cmd := [], Env := [], ExposedPorts := [],
                Labels := containerLabels undeclaredDepProject "cache" 0 }
              { PortBindings := [], Binds := [] } { EndpointsConfig := [] }
              "demo_cache_0").1 } := by
      rw [(upService_events_eq x undeclaredDepProject "cache" rt).1, hstart]
      obtain ⟨tail, htail⟩ := forEach_cons_events
        (fun i => createContainer x undeclaredDepProject "cache" {} i) 0 [] rt
      rw [htail]
      cases hev : (createContainer x undeclaredDepProject "cache" {} 0 rt).events with
      | nil => rw [hev] at hfirst; simp at hfirst
      | cons e es =>
        rw [hev] at hfirst
        simp only [List.head?_cons, Option.some.injEq] at hfirst
        subst hfirst
        rfl
    obtain ⟨tail, htail⟩ := forEach_cons_events (upService x undeclaredDepProject)
      "cache" ["web"] rt
    rcases upWith_events x undeclaredDepProject
        { order := ["cache", "web"], logged := [] } rt with ⟨_, hev, _⟩ | ⟨⟨m, hm⟩, _, _⟩
    · rw [hev, hnets]
      simp only [Run.pure, List.nil_append]
      rw [htail]
      cases hev2 : (upService x undeclaredDepProject "cache" rt).events with
      | nil => rw [hev2] at hup; simp at hup
      | cons e es =>
        rw [hev2] at hup
        simpa using hup
    · rw [hnets] at hm
      simp [Run.pure] at hm
  · intro msg hc
    obtain ⟨hv, hlen⟩ := hrefused msg hc
    have hs : (startService x undeclaredDepProject "cache" rt).val =
          Result.err ("failed to create container: " ++ msg) ∧
        (startService x undeclaredDepProject "cache" rt).events.length = 1 := by
      rw [hstart]
      obtain ⟨h1, _, h3, _⟩ := forEach_cons_of_not_ok
        (fun i => createContainer x undeclaredDepProject "cache" {} i) 0 [] rt
        (by rw [hv]; exact fun h => Result.noConfusion h)
      rw [h1, h3]
      exact ⟨hv, hlen⟩
    have hu : (upService x undeclaredDepProject "cache" rt).val =
          Result.err ("failed to start service cache: failed to create container: " ++ msg) ∧
        (upService x undeclaredDepProject "cache" rt).events.length = 1 := by
      constructor
      · have hmsg : "failed to start service cache: " ++ ("failed to create container: " ++ msg) =
            "failed to start service cache: failed to create container: " ++ msg := by
          rw [← String.append_assoc]
          congr 1
        rw [← hmsg]
        simp [upService, hs.1, Run.bind, Run.pure, Run.tag]
      · rw [(upService_events_eq x undeclaredDepProject "cache" rt).1, List.length_map]
        exact hs.2
    obtain ⟨h1, _, h3, _⟩ := forEach_cons_of_not_ok (upService x undeclaredDepProject)
      "cache" ["web"] rt (by rw [hu.1]; exact fun h => Result.noConfusion h)
    rcases upWith_events x undeclaredDepProject
        { order := ["cache", "web"], logged := [] } rt with ⟨_, hev, hval⟩ | ⟨⟨m, hm⟩, _, _⟩
    · rw [hval, hev, hnets]
      simp only [Run.pure, List.nil_append]
      rw [h1, h3]
      exact hu
    · rw [hnets] at hm
      simp [Run.pure] at hm

/-- The run of `Up` of `undeclaredDepProject` from the empty state.  On the strict
runtime the create request for `demo_cache_0` is refused for want of an image and a
command: `Up` returns that runtime error, it has issued this one call, and no container
exists.  On the reference runtime, which accepts the request, `Up` returns nil and the
first container is `demo_cache_0`.  On both, `Scale` of `cache` returns
`service cache not found`. -/
theorem Up_undeclared_example :
    (Up simStrict undeclaredDepProject {}).map (fun r => r.val) =
      some (Result.err
        "failed to start service cache: failed to create container: No command specified") ∧
    (Up simStrict undeclaredDepProject {}).map (fun r => r.events) =
      some [{ svc := some "cache"
              call := createCall undeclaredDepProject "cache" {} ([], []) 0
              answer := Answer.failed "No command specified" }] ∧
    (Up simStrict undeclaredDepProject {}).map (fun r => r.rt.containers) = some [] ∧
    (Up simOk undeclaredDepProject {}).map (fun r => r.val) = some (Result.ok ()) ∧
    (Up simOk undeclaredDepProject {}).map (fun r => r.events.take 2) =
      some (provisionEvents undeclaredDepProject "cache" {} ([], []) 0 "c0") ∧
    (Up simOk undeclaredDepProject {}).map (fun r => r.rt.containers.map Container.Names) =
      some [["/demo_cache_0"], ["/demo_web_0"]] ∧
    (Scale simStrict undeclaredDepProject "cache" 1 {}).val =
      Result.err "service cache not found" ∧
    (Scale simOk undeclaredDepProject "cache" 1 {}).val =
      Result.err "service cache not found" := by
  refine ⟨by decide, by decide, by decide, by decide, by decide, by decide, by decide,
    by decide⟩

end Compose
namespace Compose

/-! ## The identity of a create request -/

theorem mem_intRange (lo hi a : Int) : a ∈ intRange lo hi ↔ lo ≤ a ∧ a < hi := by
  unfold intRange
  simp only [List.mem_map, List.mem_range]
  constructor
  · rintro ⟨k, hk, rfl⟩
    omega
  · rintro ⟨h1, h2⟩
    exact ⟨(a - lo).toNat, by omega, by omega⟩

theorem createCall_identity (p : ComposeProject) (s : String) (config : ServiceSpec)
    (ports : List (String × List PortBinding) × List String) (i : Int) :
    CarriesIdentity p s i (createCall p s config ports i) :=
  ⟨_, _, _, rfl, by simp [containerLabels, List.lookup],
    by simp [containerLabels, List.lookup], by simp [containerLabels, List.lookup]⟩

theorem provisionLoop_creates {σ : Type} (x : External σ) (p : ComposeProject) (s : String)
    (config : ServiceSpec) (lo hi : Int) (rt : σ) :
    ∀ e ∈ (forEach (fun i => createContainer x p s config i) (intRange lo hi) rt).events,
      e.call.isCreate = true → ∃ i, lo ≤ i ∧ i < hi ∧ CarriesIdentity p s i e.call := by
  intro e he hc
  obtain ⟨i, hi, rt', hmem⟩ := forEach_mem _ _ _ e he
  obtain ⟨ports, hcall⟩ := (createContainer_events x p s config i rt' e hmem).2.2 hc
  rw [mem_intRange] at hi
  exact ⟨i, hi.1, hi.2, hcall ▸ createCall_identity p s config ports i⟩

theorem removeContainer_events {σ : Type} (x : External σ) (id : String) (rt : σ) :
    ∀ e ∈ (removeContainer x id rt).events,
      e.tearsDown = true ∧ e.call.isCreate = false ∧ e.call.target = some id := by
  intro e he
  unfold removeContainer at he
  simp only [Run.bind_events, clientContainerStop, List.singleton_append, List.mem_cons] at he
  rcases he with rfl | he
  · exact ⟨rfl, rfl, rfl⟩
  · cases hs : (x.ContainerStop rt id 30).1 with
    | some msg => simp [hs] at he
    | none =>
      simp only [hs, Run.bind_events, clientContainerRemove, List.singleton_append,
        List.mem_cons] at he
      rcases he with rfl | he
      · exact ⟨rfl, rfl, rfl⟩
      · cases hr : (x.ContainerRemove (x.ContainerStop rt id 30).2 id true true).1 <;>
          simp [hr] at he

theorem scaleDownStep_events {σ : Type} (x : External σ) (containers : List Container)
    (i : Int) (rt : σ) :
    ∀ e ∈ (scaleDownStep x containers i rt).events,
      e.tearsDown = true ∧ e.call.isCreate = false := by
  intro e he
  unfold scaleDownStep at he
  cases hc : containerAt containers i with
  | none => simp [hc, Run.pure] at he
  | some c =>
    simp only [hc] at he
    exact ⟨(removeContainer_events x c.ID rt e he).1, (removeContainer_events x c.ID rt e he).2.1⟩

theorem scaleTo_creates {σ : Type} (x : External σ) (p : ComposeProject) (service : String)
    (svcConfig : ServiceSpec) (replicas : Int) (containers : List Container) (rt : σ) :
    ∀ e ∈ (scaleTo x p service svcConfig replicas containers rt).events,
      e.call.isCreate = true →
      ∃ i, (containers.length : Int) ≤ i ∧ i < replicas ∧ CarriesIdentity p service i e.call := by
  intro e he hc
  unfold scaleTo at he
  simp only [Run.bind_events, List.mem_append] at he
  rcases he with he | he
  · by_cases hgt : replicas > (containers.length : Int)
    · simp only [hgt, if_true] at he
      exact provisionLoop_creates x p service svcConfig _ _ rt e he hc
    · simp [hgt, Run.pure] at he
  · exfalso
    revert he
    generalize (if replicas > (containers.length : Int) then
        forEach (fun i => createContainer x p service svcConfig i)
          (intRange (containers.length : Int) replicas) rt
      else Run.pure (Result.ok ()) rt) = r0
    intro he
    cases hv : r0.val with
    | err msg => simp [hv, Run.pure] at he
    | crash msg => simp [hv, Run.pure] at he
    | ok u =>
      simp only [hv] at he
      by_cases hlt : replicas < (containers.length : Int)
      · simp only [hlt, if_true] at he
        obtain ⟨i, _, rt', hmem⟩ := forEach_mem _ _ _ e he
        have := (scaleDownStep_events x containers i rt' e hmem).2
        rw [hc] at this
        exact Bool.noConfusion this
      · simp [hlt, Run.pure] at he

theorem Scale_creates {σ : Type} (x : External σ) (p : ComposeProject) (service : String)
    (replicas : Int) (rt : σ) :
    ∀ e ∈ (Scale x p service replicas rt).events, e.call.isCreate = true →
      e.svc = some service ∧ ∃ i, 0 ≤ i ∧ i < replicas ∧ CarriesIdentity p service i e.call := by
  intro e he hc
  unfold Scale at he
  cases hl : p.Config.Services.lookup service with
  | none => simp [hl, Run.pure] at he
  | some svcConfig =>
    simp only [hl] at he
    refine ⟨Run.tag_svc service _ e he, ?_⟩
    simp only [Run.tag, List.mem_map] at he
    obtain ⟨e0, he0, rfl⟩ := he
    simp only [Run.bind_events, clientContainerList, List.singleton_append,
      List.mem_cons] at he0
    rcases he0 with rfl | he0
    · exact Bool.noConfusion hc
    · cases hres : (x.ContainerList rt true (serviceFilters p service)).1 with
      | error msg => simp [hres, Run.pure] at he0
      | ok containers =>
        simp only [hres] at he0
        obtain ⟨i, h1, h2, h3⟩ := scaleTo_creates x p service svcConfig replicas containers _
          e0 he0 hc
        exact ⟨i, by omega, h2, h3⟩

theorem startService_creates {σ : Type} (x : External σ) (p : ComposeProject) (s : String)
    (rt : σ) :
    ∀ e ∈ (startService x p s rt).events, e.call.isCreate = true →
      ∃ i, 0 ≤ i ∧ i < replicasOf (p.Config.service s) ∧ CarriesIdentity p s i e.call :=
  provisionLoop_creates x p s (p.Config.service s) 0 _ rt

theorem upWith_creates_identity {σ : Type} (x : External σ) (p : ComposeProject)
    (resolved : Resolved) (rt : σ) :
    ∀ e ∈ (upWith x p resolved rt).events, e.call.isCreate = true →
      ∃ s i, s ∈ resolved.order ∧ e.svc = some s ∧ 0 ≤ i ∧
        i < replicasOf (p.Config.service s) ∧ CarriesIdentity p s i e.call := by
  intro e he hc
  have hnet : e ∉ (createNetworks x p rt).events := by
    intro h
    have := (createNetworks_events x p rt e h).2.1
    simp [Event.provisions, hc] at this
  have hloop : e ∈ (forEach (upService x p) resolved.order (createNetworks x p rt).rt).events := by
    rcases upWith_events x p resolved rt with ⟨_, hev, _⟩ | ⟨_, hev, _⟩
    · rw [hev, List.mem_append] at he
      exact he.resolve_left hnet
    · rw [hev] at he
      exact absurd he hnet
  obtain ⟨s, hs, rt', hmem⟩ := forEach_mem _ _ _ e hloop
  rw [(upService_events_eq x p s rt').1, List.mem_map] at hmem
  obtain ⟨e0, he0, rfl⟩ := hmem
  obtain ⟨i, h0, h1, h2⟩ := startService_creates x p s rt' e0 he0 hc
  exact ⟨s, i, hs, rfl, h0, h1, h2⟩

/-- C21. Every create request that `Up` issues belongs to a service `s` of the order and
an instance index `0 ≤ i < replicas of s`, and every create request that `Scale` issues
for `service` belongs to an index `0 ≤ i < replicas`; the request carries the labels
project = project name, service = the service, instance = the decimal string of `i`, and
the container name `<project>_<service>_<i>`. -/
theorem create_request_identity {σ : Type} (x : External σ) (p : ComposeProject) (rt : σ)
    (service : String) (replicas : Int) :
    (∃ r resolved, Up x p rt = some r ∧ getServiceOrder p = some resolved ∧
      ∀ e ∈ r.events, e.call.isCreate = true →
        ∃ s i, s ∈ resolved.order ∧ e.svc = some s ∧ 0 ≤ i ∧
          i < replicasOf (p.Config.service s) ∧ CarriesIdentity p s i e.call) ∧
    ∀ e ∈ (Scale x p service replicas rt).events, e.call.isCreate = true →
      e.svc = some service ∧
      ∃ i, 0 ≤ i ∧ i < replicas ∧ CarriesIdentity p service i e.call := by
  obtain ⟨resolved, hres⟩ := getServiceOrder_total p
  exact ⟨⟨upWith x p resolved rt, resolved, by simp [Up, hres], hres,
    upWith_creates_identity x p resolved rt⟩, Scale_creates x p service replicas rt⟩

/-- An instance of C21 on the reference runtime: `Scale` of `web` to 2 from no
containers issues the create requests of the instances 0 and 1. -/
theorem create_request_example :
    ((Scale simOk exampleProject "web" 2 {}).events.filter (fun e => e.call.isCreate)).map
        (fun e =>
          match e.call with
          | Call.ContainerCreate config _ _ name => (name, config.Labels)
          | _ => ("", [])) =
      [("demo_web_0", [("com.docker.compose.project", "demo"),
                       ("com.docker.compose.service", "web"),
                       ("com.docker.compose.instance", "0")]),
       ("demo_web_1", [("com.docker.compose.project", "demo"),
                       ("com.docker.compose.service", "web"),
                       ("com.docker.compose.instance", "1")])] := by
  decide

end Compose
namespace Compose

/-! ## Network creation in `Up` -/

theorem createNetwork_events {σ : Type} (x : External σ) (p : ComposeProject)
    (net : String × NetworkSpec) (rt : σ) :
    ∀ e ∈ (createNetwork x p net rt).events,
      net.2.External = false ∧
      e = Event.mk none
            (Call.NetworkCreate (p.Name ++ "_" ++ net.1) "bridge"
              [("com.docker.compose.project", p.Name), ("com.docker.compose.network", net.1)])
            (Answer.ofError (x.NetworkCreate rt (p.Name ++ "_" ++ net.1) "bridge"
              [("com.docker.compose.project", p.Name),
               ("com.docker.compose.network", net.1)]).1) ∧
      (createNetwork x p net rt).events = [e] := by
  intro e he
  unfold createNetwork at he ⊢
  cases hext : net.2.External with
  | true => simp [hext, Run.pure] at he
  | false =>
    simp only [hext, Bool.false_eq_true, if_false] at he ⊢
    cases hr : (x.NetworkCreate rt (p.Name ++ "_" ++ net.1) "bridge"
        [("com.docker.compose.project", p.Name), ("com.docker.compose.network", net.1)]).1 with
    | none =>
      simp [clientNetworkCreate, hr, Run.pure] at he ⊢
      exact ⟨he, he.symm⟩
    | some m =>
      by_cases hc : stringsContains m "already exists" = true
      · simp [clientNetworkCreate, hr, Run.pure, hc] at he ⊢
        exact ⟨he, he.symm⟩
      · simp [clientNetworkCreate, hr, Run.pure, hc] at he ⊢
        exact ⟨he, he.symm⟩

theorem createNetwork_val {σ : Type} (x : External σ) (p : ComposeProject)
    (net : String × NetworkSpec) (rt : σ) :
    ((createNetwork x p net rt).val = Result.ok () ∧
      ∀ e ∈ (createNetwork x p net rt).events, ∀ msg, e.answer = Answer.failed msg →
        stringsContains msg "already exists" = true) ∨
    ((∃ m, (createNetwork x p net rt).val = Result.err m) ∧
      ∃ e ∈ (createNetwork x p net rt).events, ∃ msg, e.answer = Answer.failed msg ∧
        stringsContains msg "already exists" = false) := by
  unfold createNetwork
  cases hext : net.2.External with
  | true => exact Or.inl ⟨rfl, by simp [Run.pure]⟩
  | false =>
    simp only [Bool.false_eq_true, if_false]
    cases hr : (x.NetworkCreate rt (p.Name ++ "_" ++ net.1) "bridge"
        [("com.docker.compose.project", p.Name), ("com.docker.compose.network", net.1)]).1 with
    | none =>
      refine Or.inl ⟨by simp [clientNetworkCreate, hr], ?_⟩
      intro e he msg hmsg
      simp [clientNetworkCreate, hr, Run.pure, Answer.ofError] at he
      rw [he] at hmsg
      simp at hmsg
    | some m =>
      by_cases hc : stringsContains m "already exists" = true
      · refine Or.inl ⟨by simp [clientNetworkCreate, hr, hc], ?_⟩
        intro e he msg hmsg
        simp [clientNetworkCreate, hr, Run.pure, Answer.ofError, hc] at he
        rw [he] at hmsg
        simp at hmsg
        rw [← hmsg]; exact hc
      · refine Or.inr ⟨⟨_, by simp [clientNetworkCreate, hr, hc]; rfl⟩, ?_⟩
        refine ⟨Event.mk none
          (Call.NetworkCreate (p.Name ++ "_" ++ net.1) "bridge"
            [("com.docker.compose.project", p.Name), ("com.docker.compose.network", net.1)])
          (Answer.failed m), ?_, m, rfl, by simpa using hc⟩
        simp [clientNetworkCreate, hr, Run.pure, Answer.ofError, hc]

theorem createNetwork_issues {σ : Type} (x : External σ) (p : ComposeProject)
    (net : String × NetworkSpec) (rt : σ) (hext : net.2.External = false) :
    ∃ e ∈ (createNetwork x p net rt).events,
      e.call = Call.NetworkCreate (p.Name ++ "_" ++ net.1) "bridge"
        [("com.docker.compose.project", p.Name), ("com.docker.compose.network", net.1)] := by
  refine ⟨Event.mk none
    (Call.NetworkCreate (p.Name ++ "_" ++ net.1) "bridge"
      [("com.docker.compose.project", p.Name), ("com.docker.compose.network", net.1)])
    (Answer.ofError (x.NetworkCreate rt (p.Name ++ "_" ++ net.1) "bridge"
      [("com.docker.compose.project", p.Name), ("com.docker.compose.network", net.1)]).1),
    ?_, rfl⟩
  unfold createNetwork
  simp only [hext, Bool.false_eq_true, if_false, Run.bind_events, clientNetworkCreate,
    List.singleton_append, List.mem_cons, true_or]

theorem forEach_ok_mem {σ α : Type} (body : α → σ → Run σ (Result Unit)) :
    ∀ (l : List α) (rt : σ), (forEach body l rt).val = Result.ok () →
      ∀ e ∈ (forEach body l rt).events,
        ∃ a ∈ l, ∃ rt', e ∈ (body a rt').events ∧ (body a rt').val = Result.ok () := by
  intro l
  induction l with
  | nil => intro rt _ e he; simp [forEach, Run.pure] at he
  | cons a rest ih =>
    intro rt hok e he
    rcases forEach_cons_cases body a rest rt with ⟨hb, hv, hev⟩ | ⟨hb, hv, _⟩
    · rw [hev, List.mem_append] at he
      rcases he with he | he
      · exact ⟨a, List.mem_cons_self _ _, rt, he, hb⟩
      · obtain ⟨a', ha', rt', h1, h2⟩ := ih (body a rt).rt (hv ▸ hok) e he
        exact ⟨a', List.mem_cons_of_mem _ ha', rt', h1, h2⟩
    · exact absurd (hv ▸ hok) hb

theorem createNetworks_outcome {σ : Type} (x : External σ) (p : ComposeProject) (rt : σ) :
    (∀ e ∈ (createNetworks x p rt).events,
      e.svc = none ∧ e.call.isNetworkCreate = true ∧
      ∃ net ∈ p.Config.Networks, net.2.External = false ∧
        e.call = Call.NetworkCreate (p.Name ++ "_" ++ net.1) "bridge"
          [("com.docker.compose.project", p.Name), ("com.docker.compose.network", net.1)]) ∧
    ((∀ e ∈ (createNetworks x p rt).events, ∀ msg, e.answer = Answer.failed msg →
        stringsContains msg "already exists" = true) →
      (createNetworks x p rt).val = Result.ok () ∧
      ∀ net ∈ p.Config.Networks, net.2.External = false →
        ∃ e ∈ (createNetworks x p rt).events,
          e.call = Call.NetworkCreate (p.Name ++ "_" ++ net.1) "bridge"
            [("com.docker.compose.project", p.Name), ("com.docker.compose.network", net.1)]) ∧
    ((∃ e ∈ (createNetworks x p rt).events, ∃ msg, e.answer = Answer.failed msg ∧
        stringsContains msg "already exists" = false) →
      ∃ m, (createNetworks x p rt).val = Result.err m) := by
  refine ⟨?_, ?_, ?_⟩
  · intro e he
    obtain ⟨net, hnet, rt', hmem⟩ := forEach_mem _ _ _ e he
    obtain ⟨hext, heq, _⟩ := createNetwork_events x p net rt' e hmem
    refine ⟨by rw [heq], by rw [heq]; rfl, net, hnet, hext, by rw [heq]⟩
  · intro hall
    have hbody : ∀ (net : String × NetworkSpec) (rt' : σ),
        (∀ e ∈ (createNetwork x p net rt').events, ∀ msg, e.answer = Answer.failed msg →
          stringsContains msg "already exists" = true) →
        (createNetwork x p net rt').val = Result.ok () := by
      intro net rt' h
      rcases createNetwork_val x p net rt' with ⟨hv, _⟩ | ⟨_, e, he, msg, hmsg, hc⟩
      · exact hv
      · rw [h e he msg hmsg] at hc
        exact Bool.noConfusion hc
    obtain ⟨hv, hrun⟩ := forEach_runs_all (createNetwork x p)
      (fun e => ∀ msg, e.answer = Answer.failed msg →
        stringsContains msg "already exists" = true) hbody p.Config.Networks rt hall
    refine ⟨hv, ?_⟩
    intro net hnet hext
    obtain ⟨rt', hsub⟩ := hrun net hnet
    obtain ⟨e, he, hcall⟩ := createNetwork_issues x p net rt' hext
    exact ⟨e, hsub e he, hcall⟩
  · rintro ⟨e, he, msg, hmsg, hc⟩
    rcases createNetworks_no_crash x p rt with hok | herr
    · exfalso
      obtain ⟨net, _, rt', hmem, hval⟩ := forEach_ok_mem _ _ _ hok e he
      rcases createNetwork_val x p net rt' with ⟨_, hall⟩ | ⟨⟨m, hm⟩, _⟩
      · rw [hall e hmem msg hmsg] at hc
        exact Bool.noConfusion hc
      · rw [hval] at hm
        exact Result.noConfusion hm
    · exact herr

/-- C22. Every network-create request of `Up` is for a declared network with
`external = false`, under the project-qualified name.  When each network-create error
of the run has a message that contains "already exists", every declared non-external
network gets its create request and the run goes on to the service loop, whose result
is the result of `Up`.  When a network-create error of the run has another message,
`Up` returns an error and the run holds no container create. -/
theorem Up_networks {σ : Type} (x : External σ) (p : ComposeProject) (rt : σ) :
    ∃ r resolved, Up x p rt = some r ∧ getServiceOrder p = some resolved ∧
      (∀ e ∈ r.events, e.call.isNetworkCreate = true →
        ∃ net ∈ p.Config.Networks, net.2.External = false ∧
          e.call = Call.NetworkCreate (p.Name ++ "_" ++ net.1) "bridge"
            [("com.docker.compose.project", p.Name),
             ("com.docker.compose.network", net.1)]) ∧
      ((∀ e ∈ r.events, e.call.isNetworkCreate = true → ∀ msg, e.answer = Answer.failed msg →
          stringsContains msg "already exists" = true) →
        (∀ net ∈ p.Config.Networks, net.2.External = false →
          ∃ e ∈ r.events, e.call = Call.NetworkCreate (p.Name ++ "_" ++ net.1) "bridge"
            [("com.docker.compose.project", p.Name),
             ("com.docker.compose.network", net.1)]) ∧
        ∃ netEvents rt1, (∀ e ∈ netEvents, e.call.isNetworkCreate = true) ∧
          r.events = netEvents ++ (forEach (upService x p) resolved.order rt1).events ∧
          r.val = (forEach (upService x p) resolved.order rt1).val) ∧
      ((∃ e ∈ r.events, e.call.isNetworkCreate = true ∧ ∃ msg, e.answer = Answer.failed msg ∧
          stringsContains msg "already exists" = false) →
        (∃ m, r.val = Result.err m) ∧ ∀ e ∈ r.events, e.call.isCreate = false) := by
  obtain ⟨resolved, hres⟩ := getServiceOrder_total p
  refine ⟨upWith x p resolved rt, resolved, by simp [Up, hres], hres, ?_⟩
  obtain ⟨hshape, hgood, hbad⟩ := createNetworks_outcome x p rt
  have hloop : ∀ e ∈ (forEach (upService x p) resolved.order (createNetworks x p rt).rt).events,
      e.call.isNetworkCreate = false := by
    intro e he
    obtain ⟨s, _, rt', hmem⟩ := forEach_mem _ _ _ e he
    have hp := (upService_events x p s rt' e hmem).2.1
    cases hcall : e.call <;> simp [Event.provisions, Call.isCreate, Call.isStart, hcall] at hp ⊢ <;>
      rfl
  have hsplit : ∀ e ∈ (upWith x p resolved rt).events, e.call.isNetworkCreate = true →
      e ∈ (createNetworks x p rt).events := by
    intro e he hnc
    rcases upWith_events x p resolved rt with ⟨_, hev, _⟩ | ⟨_, hev, _⟩
    · rw [hev, List.mem_append] at he
      rcases he with he | he
      · exact he
      · rw [hloop e he] at hnc
        exact Bool.noConfusion hnc
    · rw [hev] at he
      exact he
  have hsub : ∀ e ∈ (createNetworks x p rt).events, e ∈ (upWith x p resolved rt).events := by
    intro e he
    rcases upWith_events x p resolved rt with ⟨_, hev, _⟩ | ⟨_, hev, _⟩
    · rw [hev]; exact List.mem_append_left _ he
    · rw [hev]; exact he
  refine ⟨?_, ?_, ?_⟩
  · intro e he hnc
    exact (hshape e (hsplit e he hnc)).2.2
  · intro hall
    obtain ⟨hv, hevery⟩ := hgood (fun e he msg hmsg =>
      hall e (hsub e he) (hshape e he).2.1 msg hmsg)
    refine ⟨fun net hnet hext => ?_, ?_⟩
    · obtain ⟨e, he, hcall⟩ := hevery net hnet hext
      exact ⟨e, hsub e he, hcall⟩
    · rcases upWith_events x p resolved rt with ⟨_, hev, hval⟩ | ⟨⟨m, hm⟩, _, _⟩
      · exact ⟨_, _, fun e he => (hshape e he).2.1, hev, hval⟩
      · rw [hv] at hm
        exact Result.noConfusion hm
  · rintro ⟨e, he, hnc, msg, hmsg, hc⟩
    obtain ⟨m, hm⟩ := hbad ⟨e, hsplit e he hnc, msg, hmsg, hc⟩
    rcases upWith_events x p resolved rt with ⟨hok, _, _⟩ | ⟨_, hev, herr⟩
    · rw [hm] at hok
      exact Result.noConfusion hok
    · refine ⟨herr, ?_⟩
      intro e' he'
      rw [hev] at he'
      have hp := (createNetworks_events x p rt e' he').2.1
      cases hcall : e'.call <;> simp [Event.provisions, Call.isCreate, hcall] at hp ⊢

/-- An instance of C22 on the reference runtime: `backend` is answered with "already
exists", the external network `shared` is skipped, the error of `front` makes `Up`
return an error, and no container is created. -/
theorem Up_networks_example :
    (Up (sim failNetworks) threeNetProject {}).map (fun r => (r.val, r.events.map Event.call)) =
      some (Result.err
          "failed to create networks: failed to create network front: daemon unreachable",
        [Call.NetworkCreate "demo_backend" "bridge"
           [("com.docker.compose.project", "demo"), ("com.docker.compose.network", "backend")],
         Call.NetworkCreate "demo_front" "bridge"
           [("com.docker.compose.project", "demo"), ("com.docker.compose.network", "front")]]) := by
  decide

end Compose
namespace Compose

/-! ## A stop failure during scale-down -/

theorem removeContainer_trace {σ : Type} (x : External σ) (id : String) (rt : σ) :
    (∃ msg, (x.ContainerStop rt id 30).1 = some msg ∧
      (removeContainer x id rt).events =
        [Event.mk none (Call.ContainerStop id 30) (Answer.failed msg)] ∧
      (removeContainer x id rt).val =
        Result.err ("failed to stop container " ++ id ++ ": " ++ msg)) ∨
    ((x.ContainerStop rt id 30).1 = none ∧
      ∃ answer, (removeContainer x id rt).events =
        [Event.mk none (Call.ContainerStop id 30) Answer.done,
         Event.mk none (Call.ContainerRemove id true true) answer]) := by
  unfold removeContainer
  cases hs : (x.ContainerStop rt id 30).1 with
  | some msg =>
    refine Or.inl ⟨msg, rfl, ?_, ?_⟩
    · simp [clientContainerStop, hs, Run.pure, Answer.ofError]
    · simp [clientContainerStop, hs, Run.pure]
  | none =>
    refine Or.inr ⟨rfl, Answer.ofError
      (x.ContainerRemove (x.ContainerStop rt id 30).2 id true true).1, ?_⟩
    cases hr : (x.ContainerRemove (x.ContainerStop rt id 30).2 id true true).1 <;>
      simp [clientContainerStop, clientContainerRemove, hs, hr, Run.pure, Answer.ofError]

theorem scaleDown_stop_failure {σ : Type} (x : External σ) (containers : List Container) :
    ∀ (idxs : List Int) (rt : σ) (e : Event),
      e ∈ (forEach (scaleDownStep x containers) idxs rt).events →
      e.call.isStop = true → e.failed = true →
      ∃ pre done i rest c msg, idxs = done ++ i :: rest ∧
        containerAt containers i = some c ∧
        (forEach (scaleDownStep x containers) idxs rt).events = pre ++ [e] ∧
        e = Event.mk none (Call.ContainerStop c.ID 30) (Answer.failed msg) ∧
        (forEach (scaleDownStep x containers) idxs rt).val =
          Result.err ("failed to stop container " ++ c.ID ++ ": " ++ msg) ∧
        ∀ e' ∈ pre, ∃ j ∈ done, ∃ c', containerAt containers j = some c' ∧
          e'.call.target = some c'.ID := by
  intro idxs
  induction idxs with
  | nil => intro rt e he; simp [forEach, Run.pure] at he
  | cons i rest ih =>
    intro rt e he hstop hfail
    have hbody : ∀ e' ∈ (scaleDownStep x containers i rt).events,
        ∃ c, containerAt containers i = some c ∧
          (scaleDownStep x containers i rt) = removeContainer x c.ID rt := by
      intro e' he'
      unfold scaleDownStep at he' ⊢
      cases hc : containerAt containers i with
      | none => simp [hc, Run.pure] at he'
      | some c => exact ⟨c, rfl, rfl⟩
    rcases forEach_cons_cases (scaleDownStep x containers) i rest rt with
      ⟨hb, hv, hev⟩ | ⟨hb, hv, hev⟩
    · have hnot : e ∉ (scaleDownStep x containers i rt).events := by
        intro hmem
        obtain ⟨c, hc, hrun⟩ := hbody e hmem
        rw [hrun] at hmem hb
        rcases removeContainer_trace x c.ID rt with ⟨msg, _, _, hval⟩ | ⟨_, answer, hevs⟩
        · rw [hval] at hb
          exact Result.noConfusion hb
        · rw [hevs] at hmem
          simp only [List.mem_cons, List.mem_singleton, List.not_mem_nil, or_false] at hmem
          rcases hmem with rfl | rfl
          · exact Bool.noConfusion hfail
          · exact Bool.noConfusion hstop
      rw [hev, List.mem_append] at he
      obtain ⟨pre, done, k, rest', c, msg, hidx, hc, hevs, he', hval, hpre⟩ :=
        ih (scaleDownStep x containers i rt).rt e (he.resolve_left hnot) hstop hfail
      refine ⟨(scaleDownStep x containers i rt).events ++ pre, i :: done, k, rest', c, msg,
        by rw [hidx]; rfl, hc, by rw [hev, hevs, List.append_assoc], he', by rw [hv, hval], ?_⟩
      intro e' hmem
      rw [List.mem_append] at hmem
      rcases hmem with hmem | hmem
      · obtain ⟨c', hc', hrun⟩ := hbody e' hmem
        rw [hrun] at hmem
        exact ⟨i, List.mem_cons_self _ _, c', hc', (removeContainer_events x c'.ID rt e' hmem).2.2⟩
      · obtain ⟨j, hj, c', hc', ht⟩ := hpre e' hmem
        exact ⟨j, List.mem_cons_of_mem _ hj, c', hc', ht⟩
    · rw [hev] at he
      obtain ⟨c, hc, hrun⟩ := hbody e he
      rw [hrun] at he
      rcases removeContainer_trace x c.ID rt with ⟨msg, _, hevs, hval⟩ | ⟨_, answer, hevs⟩
      · rw [hevs, List.mem_singleton] at he
        refine ⟨[], [], i, rest, c, msg, rfl, hc, ?_, he, ?_, ?_⟩
        · rw [hev, hrun, hevs, he]; rfl
        · rw [hv, hrun, hval]
        · intro e' h; simp at h
      · rw [hevs] at he
        simp only [List.mem_cons, List.mem_singleton, List.not_mem_nil, or_false] at he
        rcases he with rfl | rfl
        · exact Bool.noConfusion hfail
        · exact Bool.noConfusion hstop

theorem intRange_reverse_split (lo hi : Int) (done rest : List Int) (i : Int)
    (h : (intRange lo hi).reverse = done ++ i :: rest) :
    lo ≤ i ∧ i < hi ∧ (∀ j ∈ done, i < j ∧ j < hi) ∧ ∀ j ∈ rest, lo ≤ j ∧ j < i := by
  have hpw : (intRange lo hi).Pairwise (· < ·) := by
    unfold intRange
    rw [List.pairwise_map]
    exact (List.pairwise_lt_range _).imp (fun hab => by omega)
  have hrev : ((intRange lo hi).reverse).Pairwise (fun a b => b < a) :=
    List.pairwise_reverse.mpr hpw
  rw [h] at hrev
  have hmem : ∀ j, j ∈ done ++ i :: rest → lo ≤ j ∧ j < hi := by
    intro j hj
    rw [← h, List.mem_reverse, mem_intRange] at hj
    exact hj
  have hi' := hmem i (by simp)
  rw [List.pairwise_append] at hrev
  obtain ⟨_, hright, hcross⟩ := hrev
  refine ⟨hi'.1, hi'.2, ?_, ?_⟩
  · intro j hj
    exact ⟨hcross j hj i (List.mem_cons_self _ _), (hmem j (by simp [hj])).2⟩
  · intro j hj
    exact ⟨(hmem j (by simp [hj])).1, (List.pairwise_cons.mp hright).1 j hj⟩

theorem scaleTo_down {σ : Type} (x : External σ) (p : ComposeProject) (service : String)
    (svcConfig : ServiceSpec) (replicas : Int) (containers : List Container) (rt : σ)
    (hlt : replicas < (containers.length : Int)) :
    scaleTo x p service svcConfig replicas containers rt =
      forEach (scaleDownStep x containers)
        (intRange replicas (containers.length : Int)).reverse rt := by
  have hgt : ¬ replicas > (containers.length : Int) := by omega
  unfold scaleTo
  simp [hgt, hlt, Run.bind, Run.pure]

theorem scaleTo_stop {σ : Type} (x : External σ) (p : ComposeProject) (service : String)
    (svcConfig : ServiceSpec) (replicas : Int) (containers : List Container) (rt : σ) :
    ∀ e ∈ (scaleTo x p service svcConfig replicas containers rt).events,
      e.call.isStop = true → replicas < (containers.length : Int) := by
  intro e he hstop
  by_contra hlt
  unfold scaleTo at he
  simp only [Run.bind_events, List.mem_append] at he
  rcases he with he | he
  · by_cases hgt : replicas > (containers.length : Int)
    · simp only [hgt, if_true] at he
      obtain ⟨i, _, rt', hmem⟩ := forEach_mem _ _ _ e he
      have := (createContainer_events x p service svcConfig i rt' e hmem).2.1
      simp [Event.tearsDown, hstop] at this
    · simp [hgt, Run.pure] at he
  · revert he
    generalize (if replicas > (containers.length : Int) then
        forEach (fun i => createContainer x p service svcConfig i)
          (intRange (containers.length : Int) replicas) rt
      else Run.pure (Result.ok ()) rt) = r0
    intro he
    cases hv : r0.val <;> simp [hv, hlt, Run.pure] at he

theorem containerAt_inj (containers : List Container)
    (hnd : (containers.map Container.ID).Nodup) (j k : Int) (c c' : Container)
    (hj : containerAt containers j = some c) (hk : containerAt containers k = some c')
    (hid : c.ID = c'.ID) : j = k := by
  unfold containerAt at hj hk
  by_cases hj0 : j < 0
  · simp [hj0] at hj
  by_cases hk0 : k < 0
  · simp [hk0] at hk
  simp only [hj0, hk0, if_false] at hj hk
  have h1 : (containers.map Container.ID).get? j.toNat = some c.ID := by
    rw [List.get?_eq_getElem?, List.getElem?_map, ← List.get?_eq_getElem?, hj]; rfl
  have h2 : (containers.map Container.ID).get? k.toNat = some c.ID := by
    rw [List.get?_eq_getElem?, List.getElem?_map, ← List.get?_eq_getElem?, hk, hid]; rfl
  have hlt1 : j.toNat < (containers.map Container.ID).length := by
    rw [List.get?_eq_some] at h1
    exact h1.1
  have hlt2 : k.toNat < (containers.map Container.ID).length := by
    rw [List.get?_eq_some] at h2
    exact h2.1
  have heq : (containers.map Container.ID).get ⟨j.toNat, hlt1⟩ =
      (containers.map Container.ID).get ⟨k.toNat, hlt2⟩ := by
    rw [List.get?_eq_get hlt1] at h1
    rw [List.get?_eq_get hlt2] at h2
    exact Option.some.inj (h1.trans h2.symm)
  have := (List.Nodup.get_inj_iff hnd).mp heq
  have hjk : j.toNat = k.toNat := by simpa using this
  omega

/-- C23. When a stop request of `Scale` fails, it is the last call of the run: `Scale`
returns the error of that stop, wrapped with the container id, and issues nothing after
it, so no remove for the failing container and no stop or remove for the targets that
remain.  The failing container stands at a position `k ≥ replicas` of the listing, and
every stop and remove before the failure addresses a container at a position above `k`;
when the ids of the listing are pairwise distinct, no call of the run other than the
failed stop addresses a container at a position up to `k`. -/
theorem Scale_stop_failure {σ : Type} (x : External σ) (p : ComposeProject) (service : String)
    (replicas : Int) (rt : σ) (e : Event)
    (he : e ∈ (Scale x p service replicas rt).events)
    (hstop : e.call.isStop = true) (hfail : e.failed = true) :
    ∃ pre containers k c msg,
      (Scale x p service replicas rt).events = pre ++ [e] ∧
      Event.mk (some service) (Call.ContainerList true (serviceFilters p service))
        (Answer.containers containers) ∈ pre ∧
      replicas ≤ k ∧ k < (containers.length : Int) ∧ containerAt containers k = some c ∧
      e = Event.mk (some service) (Call.ContainerStop c.ID 30) (Answer.failed msg) ∧
      (Scale x p service replicas rt).val =
        Result.err ("failed to stop container " ++ c.ID ++ ": " ++ msg) ∧
      (∀ e' ∈ pre, e'.call.isList = true ∨
        ∃ j c', k < j ∧ containerAt containers j = some c' ∧ e'.call.target = some c'.ID) ∧
      ((containers.map Container.ID).Nodup →
        ∀ j c', j ≤ k → containerAt containers j = some c' →
          ∀ e' ∈ pre, e'.call.target ≠ some c'.ID) := by
  unfold Scale at he ⊢
  cases hl : p.Config.Services.lookup service with
  | none => simp [hl, Run.pure] at he
  | some svcConfig =>
    simp only [hl] at he ⊢
    simp only [Run.tag, List.mem_map] at he
    obtain ⟨e0, he0, rfl⟩ := he
    simp only [Run.bind_events, clientContainerList, List.singleton_append,
      List.mem_cons] at he0
    rcases he0 with rfl | he0
    · exact Bool.noConfusion hstop
    cases hres : (x.ContainerList rt true (serviceFilters p service)).1 with
    | error msg => simp [hres, Run.pure] at he0
    | ok containers =>
      simp only [hres] at he0
      have hlt := scaleTo_stop x p service svcConfig replicas containers _ e0 he0 hstop
      rw [scaleTo_down x p service svcConfig replicas containers _ hlt] at he0
      obtain ⟨pre, done, k, rest, c, msg, hidx, hc, hevs, he', hval, hpre⟩ :=
        scaleDown_stop_failure x containers _ _ e0 he0 hstop hfail
      obtain ⟨hk1, hk2, hdone, _⟩ := intRange_reverse_split _ _ _ _ _ hidx
      have hshape : ∀ e' ∈
          (Event.mk (some service) (Call.ContainerList true (serviceFilters p service))
            (Answer.containers containers) ::
            pre.map (fun e => { e with svc := some service })),
          e'.call.isList = true ∨
            ∃ j c', k < j ∧ containerAt containers j = some c' ∧
              e'.call.target = some c'.ID := by
        intro e' hmem
        rw [List.mem_cons] at hmem
        rcases hmem with rfl | hmem
        · exact Or.inl rfl
        · rw [List.mem_map] at hmem
          obtain ⟨e1, he1, rfl⟩ := hmem
          obtain ⟨j, hj, c', hc', ht⟩ := hpre e1 he1
          exact Or.inr ⟨j, c', (hdone j hj).1, hc', ht⟩
      refine ⟨Event.mk (some service) (Call.ContainerList true (serviceFilters p service))
          (Answer.containers containers) ::
          pre.map (fun e => { e with svc := some service }),
        containers, k, c, msg, ?_, List.mem_cons_self _ _, hk1, hk2, hc, ?_, ?_, hshape, ?_⟩
      · simp only [Run.tag, Run.bind_events, clientContainerList, hres,
          scaleTo_down x p service svcConfig replicas containers _ hlt, hevs,
          List.singleton_append, List.map_cons, List.map_append, List.map_nil,
          List.cons_append, List.nil_append, Answer.ofExcept]
      · rw [he']
      · simp only [Run.tag, Run.bind_val, clientContainerList, hres,
          scaleTo_down x p service svcConfig replicas containers _ hlt, hval]
      · intro hnd j c' hjk hc' e' hmem htarget
        rcases hshape e' hmem with hlist | ⟨j', c'', hj', hc'', ht⟩
        · cases hcall : e'.call <;> simp [hcall, Call.isList, Call.target] at hlist htarget
        · rw [ht] at htarget
          have hid : c''.ID = c'.ID := Option.some.inj htarget
          have := containerAt_inj containers hnd j' j c'' c' hc'' hc' hid
          omega

theorem Scale_stop_failure_witness :
    failedStopC5 ∈ (Scale (sim failStopC5) exampleProject "web" 1 exampleState).events ∧
    failedStopC5.call.isStop = true ∧ failedStopC5.failed = true ∧
    ∃ pre containers k c msg,
      (Scale (sim failStopC5) exampleProject "web" 1 exampleState).events =
        pre ++ [failedStopC5] ∧
      Event.mk (some "web") (Call.ContainerList true (serviceFilters exampleProject "web"))
        (Answer.containers containers) ∈ pre ∧
      1 ≤ k ∧ k < (containers.length : Int) ∧ containerAt containers k = some c ∧
      failedStopC5 = Event.mk (some "web") (Call.ContainerStop c.ID 30) (Answer.failed msg) ∧
      (Scale (sim failStopC5) exampleProject "web" 1 exampleState).val =
        Result.err ("failed to stop container " ++ c.ID ++ ": " ++ msg) ∧
      (∀ e' ∈ pre, e'.call.isList = true ∨
        ∃ j c', k < j ∧ containerAt containers j = some c' ∧ e'.call.target = some c'.ID) ∧
      ((containers.map Container.ID).Nodup →
        ∀ j c', j ≤ k → containerAt containers j = some c' →
          ∀ e' ∈ pre, e'.call.target ≠ some c'.ID) :=
  ⟨by decide, rfl, rfl,
   Scale_stop_failure (sim failStopC5) exampleProject "web" 1 exampleState failedStopC5
     (by decide) rfl rfl⟩

/-- An instance of C23 on the reference runtime: scaling `web` from three containers to
one, with the stop of `c5` failing.  The container `c6` at the last position is stopped
and removed, the stop of `c5` fails, and nothing follows: `c5` is not removed. -/
theorem Scale_stop_failure_example :
    (Scale (sim failStopC5) exampleProject "web" 1 exampleState).events.tail =
      [{ svc := some "web", call := Call.ContainerStop "c6" 30, answer := Answer.done },
       { svc := some "web", call := Call.ContainerRemove "c6" true true, answer := Answer.done },
       failedStopC5] ∧
    (Scale (sim failStopC5) exampleProject "web" 1 exampleState).val =
      Result.err "failed to stop container c5: cannot stop" ∧
    (Scale (sim failStopC5) exampleProject "web" 1 exampleState).rt.containers.map
        Container.ID = ["c7", "c3", "c5"] := by
  decide

end Compose
namespace Compose

/-! ## Log streaming -/

theorem string_join_append (l1 l2 : List String) :
    String.join (l1 ++ l2) = String.join l1 ++ String.join l2 := by
  have h : ∀ (l : List String) (acc : String),
      List.foldl (fun r s => r ++ s) acc l = acc ++ List.foldl (fun r s => r ++ s) "" l := by
    intro l
    induction l with
    | nil => intro acc; simp
    | cons a rest ih =>
      intro acc
      rw [List.foldl_cons, List.foldl_cons, ih (acc ++ a), ih ("" ++ a), String.empty_append,
        String.append_assoc]
  unfold String.join
  rw [List.foldl_append, h l2]

theorem string_join_cons (a : String) (l : List String) :
    String.join (a :: l) = a ++ String.join l := by
  rw [show a :: l = [a] ++ l from rfl, string_join_append]
  simp [String.join]

theorem collectLogs_spec {σ : Type} (x : External σ) (follow : Bool) :
    ∀ (cs : List Container) (readers : List String) (rt : σ),
      ∃ answers : List Answer, answers.length = cs.length ∧
        (collectLogs x follow cs readers rt).events =
          List.zipWith (fun c a => Event.mk none (Call.ContainerLogs c.ID follow) a) cs answers ∧
        multiReader (collectLogs x follow cs readers rt).val =
          multiReader readers ++ String.join (answers.map Answer.content) := by
  intro cs
  induction cs with
  | nil =>
    intro readers rt
    exact ⟨[], rfl, rfl, by simp [collectLogs, Run.pure, String.join]⟩
  | cons c rest ih =>
    intro readers rt
    cases hr : (x.ContainerLogs rt c.ID follow).1 with
    | error msg =>
      obtain ⟨answers, hlen, hev, hval⟩ := ih readers (x.ContainerLogs rt c.ID follow).2
      refine ⟨Answer.failed msg :: answers, by simp [hlen], ?_, ?_⟩
      · simp [collectLogs, clientContainerLogs, hr, Answer.ofExcept, hev]
      · simp only [collectLogs, Run.bind_val, clientContainerLogs, hr, hval, List.map_cons,
          Answer.content, string_join_cons, String.empty_append]
    | ok logs =>
      obtain ⟨answers, hlen, hev, hval⟩ :=
        ih (readers ++ [logs]) (x.ContainerLogs rt c.ID follow).2
      refine ⟨Answer.stream logs :: answers, by simp [hlen], ?_, ?_⟩
      · simp [collectLogs, clientContainerLogs, hr, Answer.ofExcept, hev]
      · simp only [collectLogs, Run.bind_val, clientContainerLogs, hr]
        rw [hval]
        simp only [List.map_cons, Answer.content, string_join_cons, multiReader,
          string_join_append, String.append_assoc]
        simp [String.join]

/-- C24. When the listing of `Logs` is answered with `cs`, `Logs` lists with the project
filter (and the service filter when a service is named), asks for the log stream of each
container of `cs` in listing order, and returns nil and a single stream whose content is
the concatenation, in listing order, of the streams it was answered with; a request that
failed contributes the empty content. -/
theorem Logs_concatenates {σ : Type} (x : External σ) (p : ComposeProject) (service : String)
    (follow : Bool) (rt : σ) (cs : List Container)
    (hlist : (x.ContainerList rt true (logsFilters p service)).1 = Except.ok cs) :
    (service = "" → logsFilters p service = projectFilters p) ∧
    (service ≠ "" → logsFilters p service = serviceFilters p service) ∧
    ∃ answers : List Answer, answers.length = cs.length ∧
      (Logs x p service follow rt).events =
        Event.mk none (Call.ContainerList true (logsFilters p service)) (Answer.containers cs) ::
          List.zipWith (fun c a => Event.mk none (Call.ContainerLogs c.ID follow) a) cs answers ∧
      (Logs x p service follow rt).val =
        Result.ok (String.join (answers.map Answer.content)) := by
  refine ⟨fun h => by simp [logsFilters, projectFilters, h],
    fun h => by simp [logsFilters, serviceFilters, h], ?_⟩
  obtain ⟨answers, hlen, hev, hval⟩ :=
    collectLogs_spec x follow cs [] (x.ContainerList rt true (logsFilters p service)).2
  refine ⟨answers, hlen, ?_, ?_⟩
  · simp [Logs, clientContainerList, hlist, Answer.ofExcept, hev, Run.pure]
  · simp only [Logs, Run.bind_val, clientContainerList, hlist, Run.pure, hval]
    simp [multiReader, String.join]

theorem Logs_concatenates_witness :
    (simOk.ContainerList exampleUpState true (logsFilters exampleProject "web")).1 =
      Except.ok exampleWebListing ∧
    ∃ answers : List Answer, answers.length = exampleWebListing.length ∧
      (Logs simOk exampleProject "web" false exampleUpState).events =
        Event.mk none (Call.ContainerList true (logsFilters exampleProject "web"))
            (Answer.containers exampleWebListing) ::
          List.zipWith (fun c a => Event.mk none (Call.ContainerLogs c.ID false) a)
            exampleWebListing answers ∧
      (Logs simOk exampleProject "web" false exampleUpState).val =
        Result.ok (String.join (answers.map Answer.content)) :=
  ⟨by rfl,
   (Logs_concatenates simOk exampleProject "web" false exampleUpState exampleWebListing
      (by rfl)).2.2⟩

/-- An instance of C24 on the reference runtime: the log request for `c1` fails, the
stream holds the logs of the other three containers in listing order, and `Logs` does
not fail; with a service named, only the containers of that service are asked. -/
theorem Logs_example :
    (Logs (sim failLogsC1) exampleProject "" false exampleUpState).val =
      Result.ok "log of c0\nlog of c2\nlog of c3\n" ∧
    (Logs (sim failLogsC1) exampleProject "" false exampleUpState).events.tail =
      [{ svc := none, call := Call.ContainerLogs "c0" false,
         answer := Answer.stream "log of c0\n" },
       { svc := none, call := Call.ContainerLogs "c1" false, answer := Answer.failed "no logs" },
       { svc := none, call := Call.ContainerLogs "c2" false,
         answer := Answer.stream "log of c2\n" },
       { svc := none, call := Call.ContainerLogs "c3" false,
         answer := Answer.stream "log of c3\n" }] ∧
    (Logs (sim failLogsC1) exampleProject "web" true exampleUpState).val =
      Result.ok "log of c0\n" ∧
    (Logs (sim failLogsC1) exampleProject "web" true exampleUpState).events.tail.map Event.call =
      [Call.ContainerLogs "c0" true, Call.ContainerLogs "c1" true] := by
  decide

end Compose
namespace Compose

/-! ## The project lock -/

theorem stepThread_cases (t : Thread) (mu : RWMutex) (t' : Thread) (mu' : RWMutex)
    (h : stepThread t mu = some (t', mu')) :
    t'.op = t.op ∧
    ((t.phase = Phase.idle ∧ t'.phase = Phase.running ∧
        ((t.op.acquires = some LockMode.write ∧ mu.writer = false ∧ mu.readers = 0 ∧
            mu' = { mu with writer := true }) ∨
          (t.op.acquires = some LockMode.read ∧ mu.writer = false ∧
            mu' = { mu with readers := mu.readers + 1 }) ∨
          (t.op.acquires = none ∧ mu' = mu))) ∨
      (t.phase = Phase.running ∧ t'.phase = Phase.returned ∧
        ((t.op.acquires = some LockMode.write ∧ mu' = mu.unlock) ∨
          (t.op.acquires = some LockMode.read ∧ mu' = mu.runlock) ∨
          (t.op.acquires = none ∧ mu' = mu)))) := by
  obtain ⟨op, phase⟩ := t
  unfold stepThread at h
  cases phase with
  | idle =>
    cases ha : op.acquires with
    | none =>
      simp only [ha, Option.some.injEq, Prod.mk.injEq] at h
      obtain ⟨rfl, rfl⟩ := h
      exact ⟨rfl, Or.inl ⟨rfl, rfl, Or.inr (Or.inr ⟨rfl, rfl⟩)⟩⟩
    | some m =>
      cases m with
      | write =>
        simp only [ha, RWMutex.lock, Option.map_eq_some'] at h
        obtain ⟨mu1, hmu, heq⟩ := h
        by_cases hc : mu.writer = false ∧ mu.readers = 0
        · rw [if_pos hc] at hmu
          simp only [Option.some.injEq] at hmu
          simp only [Prod.mk.injEq] at heq
          obtain ⟨rfl, rfl⟩ := heq
          exact ⟨rfl, Or.inl ⟨rfl, rfl, Or.inl ⟨rfl, hc.1, hc.2, hmu.symm⟩⟩⟩
        · rw [if_neg hc] at hmu
          exact Option.noConfusion hmu
      | read =>
        simp only [ha, RWMutex.rlock, Option.map_eq_some'] at h
        obtain ⟨mu1, hmu, heq⟩ := h
        by_cases hc : mu.writer = false
        · rw [if_pos hc] at hmu
          simp only [Option.some.injEq] at hmu
          simp only [Prod.mk.injEq] at heq
          obtain ⟨rfl, rfl⟩ := heq
          exact ⟨rfl, Or.inl ⟨rfl, rfl, Or.inr (Or.inl ⟨rfl, hc, hmu.symm⟩)⟩⟩
        · rw [if_neg hc] at hmu
          exact Option.noConfusion hmu
  | running =>
    cases ha : op.acquires with
    | none =>
      simp only [ha, Option.some.injEq, Prod.mk.injEq] at h
      obtain ⟨rfl, rfl⟩ := h
      exact ⟨rfl, Or.inr ⟨rfl, rfl, Or.inr (Or.inr ⟨rfl, rfl⟩)⟩⟩
    | some m =>
      cases m with
      | write =>
        simp only [ha, Option.some.injEq, Prod.mk.injEq] at h
        obtain ⟨rfl, rfl⟩ := h
        exact ⟨rfl, Or.inr ⟨rfl, rfl, Or.inl ⟨rfl, rfl⟩⟩⟩
      | read =>
        simp only [ha, Option.some.injEq, Prod.mk.injEq] at h
        obtain ⟨rfl, rfl⟩ := h
        exact ⟨rfl, Or.inr ⟨rfl, rfl, Or.inr (Or.inl ⟨rfl, rfl⟩)⟩⟩
  | returned => simp at h

theorem stepAt_spec :
    ∀ (ts : List Thread) (i : Nat) (mu : RWMutex) (ts' : List Thread) (mu' : RWMutex),
      stepAt ts i mu = some (ts', mu') →
      ∃ t t', stepThread t mu = some (t', mu') ∧
        ts'.countP Thread.holdsWrite + (if t.holdsWrite then 1 else 0) =
          ts.countP Thread.holdsWrite + (if t'.holdsWrite then 1 else 0) ∧
        ts'.countP Thread.holdsRead + (if t.holdsRead then 1 else 0) =
          ts.countP Thread.holdsRead + (if t'.holdsRead then 1 else 0) ∧
        ts'.map Thread.op = ts.map Thread.op := by
  intro ts
  induction ts with
  | nil => intro i mu ts' mu' h; simp [stepAt] at h
  | cons t ts ih =>
    intro i mu ts' mu' h
    cases i with
    | zero =>
      simp only [stepAt, Option.map_eq_some'] at h
      obtain ⟨⟨t', mu1⟩, hstep, heq⟩ := h
      simp only [Prod.mk.injEq] at heq
      obtain ⟨rfl, rfl⟩ := heq
      refine ⟨t, t', hstep, ?_, ?_, ?_⟩
      · simp only [List.countP_cons]; omega
      · simp only [List.countP_cons]; omega
      · simp [(stepThread_cases t mu t' mu1 hstep).1]
    | succ i =>
      simp only [stepAt, Option.map_eq_some'] at h
      obtain ⟨⟨ts1, mu1⟩, hstep, heq⟩ := h
      simp only [Prod.mk.injEq] at heq
      obtain ⟨rfl, rfl⟩ := heq
      obtain ⟨t0, t0', h1, h2, h3, h4⟩ := ih i mu ts1 mu1 hstep
      refine ⟨t0, t0', h1, ?_, ?_, ?_⟩
      · simp only [List.countP_cons]; omega
      · simp only [List.countP_cons]; omega
      · simp [h4]

theorem lockInv_step (ts : List Thread) (i : Nat) (mu : RWMutex) (ts' : List Thread)
    (mu' : RWMutex) (hinv : LockInv ts mu) (h : stepAt ts i mu = some (ts', mu')) :
    LockInv ts' mu' := by
  obtain ⟨t, t', hstep, hw, hr, _⟩ := stepAt_spec ts i mu ts' mu' h
  obtain ⟨hop, hcases⟩ := stepThread_cases t mu t' mu' hstep
  obtain ⟨hreaders, hheld, hfree⟩ := hinv
  rcases hcases with ⟨hp, hp', hacq⟩ | ⟨hp, hp', hacq⟩
  · have hw0 : t.holdsWrite = false := by simp [Thread.holdsWrite, Thread.isRunning, hp]
    have hr0 : t.holdsRead = false := by simp [Thread.holdsRead, Thread.isRunning, hp]
    rcases hacq with ⟨ha, hwr, hrd, rfl⟩ | ⟨ha, hwr, rfl⟩ | ⟨ha, rfl⟩
    · have hw1 : t'.holdsWrite = true := by
        simp [Thread.holdsWrite, Thread.isRunning, hp', hop, ha]
      have hr1 : t'.holdsRead = false := by
        simp [Thread.holdsRead, Thread.isRunning, hp', hop, ha]
      simp only [hw0, hw1, hr0, hr1, if_true, if_false, Bool.false_eq_true] at hw hr
      have := hfree hwr
      exact ⟨by simp only; omega, fun _ => ⟨by omega, by omega⟩,
        fun hc => by simp at hc⟩
    · have hw1 : t'.holdsWrite = false := by
        simp [Thread.holdsWrite, Thread.isRunning, hp', hop, ha]
      have hr1 : t'.holdsRead = true := by
        simp [Thread.holdsRead, Thread.isRunning, hp', hop, ha]
      simp only [hw0, hw1, hr0, hr1, if_true, if_false, Bool.false_eq_true] at hw hr
      have := hfree hwr
      exact ⟨by simp only; omega, fun hc => by simp only at hc; rw [hwr] at hc; simp at hc,
        fun _ => by omega⟩
    · have hw1 : t'.holdsWrite = false := by
        simp [Thread.holdsWrite, Thread.isRunning, hp', hop, ha]
      have hr1 : t'.holdsRead = false := by
        simp [Thread.holdsRead, Thread.isRunning, hp', hop, ha]
      simp only [hw0, hw1, hr0, hr1, if_true, if_false, Bool.false_eq_true] at hw hr
      exact ⟨by omega, fun hc => by have := hheld hc; omega, fun hc => by have := hfree hc; omega⟩
  · have hw1 : t'.holdsWrite = false := by simp [Thread.holdsWrite, Thread.isRunning, hp']
    have hr1 : t'.holdsRead = false := by simp [Thread.holdsRead, Thread.isRunning, hp']
    rcases hacq with ⟨ha, rfl⟩ | ⟨ha, rfl⟩ | ⟨ha, rfl⟩
    · have hw0 : t.holdsWrite = true := by simp [Thread.holdsWrite, Thread.isRunning, hp, ha]
      have hr0 : t.holdsRead = false := by simp [Thread.holdsRead, Thread.isRunning, hp, ha]
      simp only [hw0, hw1, hr0, hr1, if_true, if_false, Bool.false_eq_true] at hw hr
      have hheld' : mu.writer = true := by
        cases hmw : mu.writer with
        | true => rfl
        | false => have := hfree hmw; omega
      have := hheld hheld'
      exact ⟨by simp only [RWMutex.unlock]; omega,
        fun hc => by simp [RWMutex.unlock] at hc, fun _ => by omega⟩
    · have hw0 : t.holdsWrite = false := by simp [Thread.holdsWrite, Thread.isRunning, hp, ha]
      have hr0 : t.holdsRead = true := by simp [Thread.holdsRead, Thread.isRunning, hp, ha]
      simp only [hw0, hw1, hr0, hr1, if_true, if_false, Bool.false_eq_true] at hw hr
      have hfree' : mu.writer = false := by
        cases hmw : mu.writer with
        | false => rfl
        | true => have := hheld hmw; omega
      have := hfree hfree'
      exact ⟨by simp only [RWMutex.runlock]; omega,
        fun hc => by simp only [RWMutex.runlock] at hc; rw [hfree'] at hc; simp at hc,
        fun _ => by omega⟩
    · have hw0 : t.holdsWrite = false := by simp [Thread.holdsWrite, Thread.isRunning, hp, ha]
      have hr0 : t.holdsRead = false := by simp [Thread.holdsRead, Thread.isRunning, hp, ha]
      simp only [hw0, hw1, hr0, hr1, if_true, if_false, Bool.false_eq_true] at hw hr
      exact ⟨by omega, fun hc => by have := hheld hc; omega, fun hc => by have := hfree hc; omega⟩

theorem lockInv_run :
    ∀ (schedule : List Nat) (s s' : List Thread × RWMutex), LockInv s.1 s.2 →
      runSchedule schedule s = some s' →
      LockInv s'.1 s'.2 ∧ s'.1.map Thread.op = s.1.map Thread.op := by
  intro schedule
  induction schedule with
  | nil =>
    intro s s' hinv h
    simp only [runSchedule, Option.some.injEq] at h
    rw [← h]
    exact ⟨hinv, rfl⟩
  | cons i rest ih =>
    intro s s' hinv h
    simp only [runSchedule] at h
    cases hs : stepAt s.1 i s.2 with
    | none => simp [hs] at h
    | some s1 =>
      simp only [hs] at h
      obtain ⟨ts1, mu1⟩ := s1
      have hinv1 := lockInv_step s.1 i s.2 ts1 mu1 hinv hs
      obtain ⟨_, _, _, _, _, hops⟩ := stepAt_spec s.1 i s.2 ts1 mu1 hs
      obtain ⟨h1, h2⟩ := ih (ts1, mu1) s' hinv1 h
      exact ⟨h1, h2.trans hops⟩

theorem lockInv_initial (ops : List Operation) :
    LockInv (initialThreads ops).1 (initialThreads ops).2 := by
  have hw : ∀ l : List Operation,
      (l.map fun o => ({ op := o, phase := Phase.idle } : Thread)).countP Thread.holdsWrite = 0 := by
    intro l
    induction l with
    | nil => rfl
    | cons o l ih => simp [List.countP_cons, ih, Thread.holdsWrite, Thread.isRunning]
  have hr : ∀ l : List Operation,
      (l.map fun o => ({ op := o, phase := Phase.idle } : Thread)).countP Thread.holdsRead = 0 := by
    intro l
    induction l with
    | nil => rfl
    | cons o l ih => simp [List.countP_cons, ih, Thread.holdsRead, Thread.isRunning]
  exact ⟨by simp [initialThreads, hr], fun hc => by simp [initialThreads] at hc,
    fun _ => by simp [initialThreads, hw]⟩

theorem running_count (ts : List Thread) (hall : ∀ t ∈ ts, t.op.acquires ≠ none) :
    ts.countP Thread.isRunning = ts.countP Thread.holdsWrite + ts.countP Thread.holdsRead ∧
    ts.countP (fun t => t.isRunning && t.op.mutates) ≤ ts.countP Thread.holdsWrite := by
  have hone : ∀ t : Thread, t.op.acquires ≠ none →
      ((if t.isRunning = true then 1 else 0) =
          (if t.holdsWrite = true then 1 else 0) + (if t.holdsRead = true then 1 else 0) ∧
        (if (t.isRunning && t.op.mutates) = true then 1 else 0) ≤
          (if t.holdsWrite = true then 1 else 0)) := by
    rintro ⟨op, phase⟩ h
    cases op <;> cases phase <;>
      simp [Thread.isRunning, Thread.holdsWrite, Thread.holdsRead, Operation.acquires,
        Operation.mutates] at h ⊢
  induction ts with
  | nil => exact ⟨rfl, le_refl _⟩
  | cons t ts ih =>
    obtain ⟨h1, h2⟩ := ih (fun t' ht' => hall t' (List.mem_cons_of_mem _ ht'))
    obtain ⟨h3, h4⟩ := hone t (hall t (List.mem_cons_self _ _))
    simp only [List.countP_cons]
    constructor <;> omega

/-- Goroutines that call `Up`, `Down`, `Scale` and `Status` on one project exclude each
other as the specification says: under every schedule, no mutating operation overlaps
another operation. -/
theorem locked_operations_exclusive (ops : List Operation) (schedule : List Nat)
    (ts : List Thread) (mu : RWMutex)
    (hops : ∀ o ∈ ops, o ≠ Operation.Logs)
    (hrun : runSchedule schedule (initialThreads ops) = some (ts, mu)) :
    ¬ Overlap ts := by
  obtain ⟨hinv, hmap⟩ := lockInv_run schedule (initialThreads ops) (ts, mu)
    (lockInv_initial ops) hrun
  have hall : ∀ t ∈ ts, t.op.acquires ≠ none := by
    intro t ht
    have hmem : t.op ∈ ts.map Thread.op := List.mem_map.mpr ⟨t, ht, rfl⟩
    have hmem' : t.op ∈ ops := by
      simp only [initialThreads, List.map_map] at hmap
      rw [hmap] at hmem
      simpa [Function.comp_def] using hmem
    have := hops t.op hmem'
    cases hop : t.op <;> simp [Operation.acquires, hop] at this ⊢
  obtain ⟨hcount, hmut⟩ := running_count ts hall
  rintro ⟨h1, h2⟩
  cases hw : mu.writer with
  | false =>
    have h : ts.countP Thread.holdsWrite = 0 := hinv.free hw
    omega
  | true =>
    have h : ts.countP Thread.holdsWrite = 1 ∧ ts.countP Thread.holdsRead = 0 := hinv.held hw
    omega

/-- C25. The lock calls of the five methods: `Up`, `Down` and `Scale` lock for writing,
`Status` locks for reading, and `Logs` takes no lock.  A goroutine that calls `Logs`
enters it while a goroutine that called `Up` is still inside `Up`, holding the lock for
writing: a mutating operation overlaps another operation.  A goroutine that calls
`Status` instead is blocked at that point. -/
theorem Logs_overlaps_Up :
    [Operation.Up, Operation.Down, Operation.Scale, Operation.Status, Operation.Logs].map
        Operation.acquires =
      [some LockMode.write, some LockMode.write, some LockMode.write, some LockMode.read,
       none] ∧
    runSchedule [0, 1] (initialThreads [Operation.Up, Operation.Logs]) =
      some ([{ op := Operation.Up, phase := Phase.running },
             { op := Operation.Logs, phase := Phase.running }],
            { writer := true, readers := 0 }) ∧
    Overlap [{ op := Operation.Up, phase := Phase.running },
             { op := Operation.Logs, phase := Phase.running }] ∧
    runSchedule [0, 1] (initialThreads [Operation.Up, Operation.Status]) = none := by
  decide

end Compose
namespace Compose

/-! ## A negative replica count -/

theorem intRange_succ_right (lo hi : Int) (h : lo ≤ hi) :
    intRange lo (hi + 1) = intRange lo hi ++ [hi] := by
  unfold intRange
  have h1 : (hi + 1 - lo).toNat = (hi - lo).toNat + 1 := by omega
  rw [h1, List.range_succ, List.map_append, List.map_singleton]
  congr 2
  omega

theorem intRange_append (a b : Int) (hab : a ≤ b) :
    ∀ (n : Nat), intRange a (b + n) = intRange a b ++ intRange b (b + n) := by
  intro n
  induction n with
  | zero =>
    have : intRange b (b + ((0 : Nat) : Int)) = [] := by simp [intRange]
    rw [this, List.append_nil]
    simp
  | succ n ih =>
    have e1 : b + ((n + 1 : Nat) : Int) = (b + (n : Int)) + 1 := by push_cast; ring
    rw [e1, intRange_succ_right a (b + n) (by omega), intRange_succ_right b (b + n) (by omega),
      ih, List.append_assoc]

theorem containerAt_neg (containers : List Container) (i : Int) (h : i < 0) :
    containerAt containers i = none := by
  simp [containerAt, h]

theorem scaleDown_then_crash {σ : Type} (x : External σ) (containers : List Container)
    (j : Int) (rest : List Int) (hj : containerAt containers j = none) :
    ∀ (idxs : List Int) (cs : List Container) (rt : σ),
      idxs.map (containerAt containers) = cs.map some →
      (∀ e ∈ (forEach (scaleDownStep x containers) (idxs ++ j :: rest) rt).events,
        e.failed = false) →
      (forEach (scaleDownStep x containers) (idxs ++ j :: rest) rt).val =
        Result.crash "index out of range" ∧
      (forEach (scaleDownStep x containers) (idxs ++ j :: rest) rt).events.map Event.call =
        cs.flatMap (fun c => [Call.ContainerStop c.ID 30, Call.ContainerRemove c.ID true true]) := by
  intro idxs
  induction idxs with
  | nil =>
    intro cs rt hmap _
    have hcs : cs = [] := by
      cases cs with
      | nil => rfl
      | cons c cs' => simp at hmap
    have hstep : scaleDownStep x containers j rt = Run.pure (Result.crash "index out of range") rt := by
      simp [scaleDownStep, hj]
    have hne : (scaleDownStep x containers j rt).val ≠ Result.ok () := by
      rw [hstep]; simp [Run.pure]
    obtain ⟨hv, _, hev, _⟩ := forEach_cons_of_not_ok (scaleDownStep x containers) j rest rt hne
    rw [List.nil_append, hv, hev, hstep, hcs]
    exact ⟨rfl, rfl⟩
  | cons i idxs ih =>
    intro cs rt hmap hall
    cases cs with
    | nil => simp at hmap
    | cons c cs' =>
      simp only [List.map_cons, List.cons.injEq] at hmap
      obtain ⟨hc, hrest⟩ := hmap
      have hstep : scaleDownStep x containers i rt = removeContainer x c.ID rt := by
        simp [scaleDownStep, hc]
      obtain ⟨tail, htail⟩ := forEach_cons_events (scaleDownStep x containers) i
        (idxs ++ j :: rest) rt
      have hbody : ∀ e ∈ (removeContainer x c.ID rt).events, e.failed = false := by
        intro e he
        apply hall e
        rw [List.cons_append, htail, hstep]
        exact List.mem_append_left _ he
      obtain ⟨hok, hevs⟩ := removeContainer_ok x "" c rt hbody
      have hcalls : (removeContainer x c.ID rt).events.map Event.call =
          [Call.ContainerStop c.ID 30, Call.ContainerRemove c.ID true true] := by
        have := congrArg (List.map Event.call) hevs
        simpa [removalEvents, List.map_map, Function.comp_def] using this
      obtain ⟨hv, _, hev, _⟩ := forEach_cons_of_ok (scaleDownStep x containers) i
        (idxs ++ j :: rest) rt (by rw [hstep]; exact hok)
      have hsub : ∀ e ∈ (forEach (scaleDownStep x containers) (idxs ++ j :: rest)
          (scaleDownStep x containers i rt).rt).events, e.failed = false := by
        intro e he
        apply hall e
        rw [List.cons_append, hev]
        exact List.mem_append_right _ he
      obtain ⟨h1, h2⟩ := ih cs' _ hrest hsub
      refine ⟨by rw [List.cons_append, hv, h1], ?_⟩
      rw [List.cons_append, hev, List.map_append, h2, hstep, hcalls]
      rfl

theorem intRange_reverse_neg (replicas : Int) (n : Nat) (hneg : replicas < 0) :
    (intRange replicas (n : Int)).reverse =
      (intRange 0 (n : Int)).reverse ++ (-1) :: (intRange replicas (-1)).reverse := by
  have h1 : intRange replicas (n : Int) = intRange replicas 0 ++ intRange 0 (n : Int) := by
    have := intRange_append replicas 0 (by omega) n
    simpa using this
  have h2 : intRange replicas 0 = intRange replicas (-1) ++ [-1] := by
    have := intRange_succ_right replicas (-1) (by omega)
    simpa using this
  rw [h1, h2, List.reverse_append, List.reverse_append, List.reverse_singleton,
    List.singleton_append]

/-- For every negative replica count: when the service is declared, its listing is
answered and every call of the run succeeds, `Scale` stops and removes every listed
container, the last position first, and then indexes position -1 of the listing: it
ends with the index-out-of-range panic. -/
theorem Scale_negative_crash {σ : Type} (x : External σ) (p : ComposeProject)
    (service : String) (svcConfig : ServiceSpec) (replicas : Int)
    (containers : List Container) (rt : σ)
    (hsvc : p.Config.Services.lookup service = some svcConfig)
    (hlist : (x.ContainerList rt true (serviceFilters p service)).1 = Except.ok containers)
    (hneg : replicas < 0)
    (hall : ∀ e ∈ (Scale x p service replicas rt).events, e.failed = false) :
    (Scale x p service replicas rt).val = Result.crash "index out of range" ∧
    (Scale x p service replicas rt).events.map Event.call =
      Call.ContainerList true (serviceFilters p service) ::
        containers.reverse.flatMap
          (fun c => [Call.ContainerStop c.ID 30, Call.ContainerRemove c.ID true true]) := by
  have hlt : replicas < (containers.length : Int) := by omega
  have hmap : (intRange 0 (containers.length : Int)).reverse.map (containerAt containers) =
      containers.reverse.map some := by
    rw [List.map_reverse, intRange_containerAt containers 0 (le_refl 0), List.map_reverse]
    simp
  have hScale : Scale x p service replicas rt =
      Run.tag service ((clientContainerList x (serviceFilters p service) rt).bind fun _ =>
        forEach (scaleDownStep x containers)
          ((intRange 0 (containers.length : Int)).reverse ++
            (-1) :: (intRange replicas (-1)).reverse)) := by
    unfold Scale
    simp only [hsvc]
    congr 1
    simp only [Run.bind, clientContainerList, hlist]
    rw [scaleTo_down x p service svcConfig replicas containers _ hlt,
      intRange_reverse_neg replicas containers.length hneg]
  rw [hScale] at hall ⊢
  have hloop : ∀ e ∈ (forEach (scaleDownStep x containers)
      ((intRange 0 (containers.length : Int)).reverse ++
        (-1) :: (intRange replicas (-1)).reverse)
      (x.ContainerList rt true (serviceFilters p service)).2).events, e.failed = false := by
    intro e he
    have := hall { e with svc := some service } (by
      simp only [Run.tag, Run.bind_events, List.map_append, List.mem_append, List.mem_map]
      exact Or.inr ⟨e, he, rfl⟩)
    rwa [retag_failed] at this
  obtain ⟨hv, hev⟩ := scaleDown_then_crash x containers (-1) (intRange replicas (-1)).reverse
    (containerAt_neg containers (-1) (by decide)) _ _ _ hmap hloop
  refine ⟨by simp only [Run.tag, Run.bind_val]; exact hv, ?_⟩
  simp only [Run.tag, Run.bind_events, clientContainerList, List.map_map, List.map_append,
    List.singleton_append, List.map_cons, List.map_nil, List.cons_append, List.nil_append]
  have : (fun e : Event => Event.call { e with svc := some service }) = Event.call := rfl
  rw [show (Event.call ∘ fun e : Event => { e with svc := some service }) = Event.call from rfl,
    hev]

/-- C26. `Scale` with the replica count -1: on an empty listing the scale-down loop
starts at position -1 and `Scale` ends at once with the index-out-of-range panic; on the
listing of the two `web` containers of the example it removes both and then ends with
the same panic. -/
theorem Scale_negative_replicas :
    (Scale simOk exampleProject "web" (-1) {}).val = Result.crash "index out of range" ∧
    (Scale simOk exampleProject "web" (-1) {}).events =
      [{ svc := some "web", call := Call.ContainerList true (serviceFilters exampleProject "web"),
         answer := Answer.containers [] }] ∧
    (Scale simOk exampleProject "web" (-1) exampleUpState).val =
      Result.crash "index out of range" ∧
    (Scale simOk exampleProject "web" (-1) exampleUpState).events.tail.map Event.call =
      [Call.ContainerStop "c1" 30, Call.ContainerRemove "c1" true true,
       Call.ContainerStop "c0" 30, Call.ContainerRemove "c0" true true] := by
  decide

end Compose
namespace Compose

/-! ## Decimal strings are injective -/

/-- The value of a decimal digit character. -/
theorem digitChar_toNat (d : Nat) (h : d < 10) : (Nat.digitChar d).toNat - 48 = d := by
  interval_cases d <;> rfl

theorem toDigitsCore_append (fuel : Nat) :
    ∀ (n : Nat) (ds : List Char),
      Nat.toDigitsCore 10 fuel n ds = Nat.toDigitsCore 10 fuel n [] ++ ds := by
  induction fuel with
  | zero => intro n ds; simp [Nat.toDigitsCore]
  | succ fuel ih =>
    intro n ds
    simp only [Nat.toDigitsCore]
    by_cases h : n / 10 = 0
    · simp [h]
    · simp only [h, if_false]
      rw [ih (n / 10) (Nat.digitChar (n % 10) :: ds), ih (n / 10) [Nat.digitChar (n % 10)]]
      simp

theorem toDigitsCore_fuel (fuel1 : Nat) :
    ∀ (fuel2 n : Nat), n < fuel1 → n < fuel2 →
      Nat.toDigitsCore 10 fuel1 n [] = Nat.toDigitsCore 10 fuel2 n [] := by
  induction fuel1 with
  | zero => intro fuel2 n h; omega
  | succ fuel1 ih =>
    intro fuel2 n h1 h2
    cases fuel2 with
    | zero => omega
    | succ fuel2 =>
      simp only [Nat.toDigitsCore]
      by_cases h : n / 10 = 0
      · simp [h]
      · simp only [h, if_false]
        rw [toDigitsCore_append fuel1, toDigitsCore_append fuel2,
          ih fuel2 (n / 10) (by omega) (by omega)]

theorem toDigits_step (n : Nat) :
    Nat.toDigits 10 n =
      if n / 10 = 0 then [Nat.digitChar (n % 10)]
      else Nat.toDigits 10 (n / 10) ++ [Nat.digitChar (n % 10)] := by
  have hcore : Nat.toDigitsCore 10 (n + 1) n [] =
      if n / 10 = 0 then [Nat.digitChar (n % 10)]
      else Nat.toDigitsCore 10 n (n / 10) [Nat.digitChar (n % 10)] := by
    simp only [Nat.toDigitsCore]
  unfold Nat.toDigits
  rw [hcore]
  by_cases h : n / 10 = 0
  · simp [h]
  · simp only [h, if_false]
    rw [toDigitsCore_append n, toDigitsCore_fuel n (n / 10 + 1) (n / 10) (by omega) (by omega)]

theorem toDigits_value (n : Nat) :
    (Nat.toDigits 10 n).foldl (fun acc c => 10 * acc + (c.toNat - 48)) 0 = n := by
  induction n using Nat.strong_induction_on with
  | _ n ih =>
    rw [toDigits_step n]
    by_cases h : n / 10 = 0
    · simp only [h, if_true, List.foldl_cons, List.foldl_nil]
      rw [digitChar_toNat _ (Nat.mod_lt _ (by decide))]
      omega
    · simp only [h, if_false, List.foldl_append, List.foldl_cons, List.foldl_nil]
      rw [ih (n / 10) (by omega), digitChar_toNat _ (Nat.mod_lt _ (by decide))]
      omega

theorem toString_nat_injective (a b : Nat) (h : toString a = toString b) : a = b := by
  have hd : Nat.toDigits 10 a = Nat.toDigits 10 b := by
    have h' : (Nat.toDigits 10 a).asString = (Nat.toDigits 10 b).asString := h
    exact congrArg String.data h'
  have := congrArg (List.foldl (fun acc c => 10 * acc + (c.toNat - 48)) 0) hd
  rwa [toDigits_value, toDigits_value] at this

theorem toString_int_ofNat (k : Nat) : toString ((k : Nat) : Int) = toString k := rfl

theorem string_append_left_cancel (a b c : String) (h : a ++ b = a ++ c) : b = c := by
  have := congrArg String.data h
  simp only [String.data_append] at this
  exact String.ext (List.append_cancel_left this)

end Compose
namespace Compose

theorem intRange_cons_eq (lo hi : Int) (h : lo < hi) :
    intRange lo hi = lo :: intRange (lo + 1) hi := by
  unfold intRange
  have h1 : (hi - lo).toNat = (hi - (lo + 1)).toNat + 1 := by omega
  rw [h1, List.range_succ_eq_map, List.map_cons, List.map_map]
  congr 1
  · simp
  · apply List.map_congr_left
    intro k _
    simp only [Function.comp, Nat.succ_eq_add_one]
    push_cast
    ring

theorem intRange_nil (lo hi : Int) (h : hi ≤ lo) : intRange lo hi = [] := by
  unfold intRange
  have h1 : (hi - lo).toNat = 0 := by omega
  rw [h1]
  rfl

theorem forEach_ok_all {σ α : Type} (body : α → σ → Run σ (Result Unit)) :
    ∀ (l : List α) (rt : σ), (forEach body l rt).val = Result.ok () →
      ∀ a ∈ l, ∃ rt', (body a rt').val = Result.ok () := by
  intro l
  induction l with
  | nil => intro rt _ a ha; simp at ha
  | cons b rest ih =>
    intro rt hok a ha
    have hb := forEach_ok_head body b rest rt hok
    rw [List.mem_cons] at ha
    rcases ha with rfl | ha
    · exact ⟨rt, hb⟩
    · obtain ⟨hv, _, _, _⟩ := forEach_cons_of_ok body b rest rt hb
      exact ih (body b rt).rt (hv ▸ hok) a ha

end Compose
namespace Compose

/-! ## `Scale` and the instance indices -/

theorem containerName_injective (p : ComposeProject) (service : String) (a b : Nat)
    (h : ["/" ++ containerName p service (a : Int)] = ["/" ++ containerName p service (b : Int)]) :
    a = b := by
  have h1 := List.head_eq_of_cons_eq h
  have h2 := string_append_left_cancel _ _ _ h1
  unfold containerName at h2
  have h3 := string_append_left_cancel _ _ _ h2
  rw [toString_int_ofNat, toString_int_ofNat] at h3
  exact toString_nat_injective a b h3

end Compose
namespace Compose

/-! ## The strict reference runtime is a runtime with unique names -/

/-- Scale to 3, to 2 and to 3 on the strict runtime: after the second call the listed
containers are the instances 2 and 1, the third call counts two containers and asks for a
container named `demo_web_2`, the runtime refuses the name in use, and the call returns
that error, so the sequence is not one of successful calls. -/
theorem Scale_reuse_refused :
    scaleSeq simStrict exampleProject "web" [3, 2] {} = some strictReuseState ∧
    liveInstances simStrict exampleProject "web" strictReuseState = [some "2", some "1"] ∧
    (Scale simStrict exampleProject "web" 3 strictReuseState).val =
      Result.err ("failed to create container: " ++
        "Conflict. The container name /demo_web_2 is already in use") ∧
    (Scale simStrict exampleProject "web" 3 strictReuseState).rt = strictReuseState ∧
    scaleSeq simStrict exampleProject "web" [3, 2, 3] {} = none := by
  refine ⟨by decide, by decide, by decide, by decide, by decide⟩

end Compose
namespace Compose

/-! ## The keys of the status map -/

/-- C28, as amended.  For every configuration and every listing whose containers all
have a name, the keys of the service map that `Status` returns are pairwise distinct,
and a name is a key exactly when it is a declared service name or the service label of a
listed container (the empty string for a container without the label).  When every
listed container carries the label of a declared service, the keys are exactly the
declared names. -/
theorem Status_keys {σ : Type} (x : External σ) (p : ComposeProject) (rt : σ)
    (cs : List Container)
    (hkeys : p.Config.serviceNames.Nodup)
    (hlist : (x.ContainerList rt true (projectFilters p)).1 = Except.ok cs)
    (hnames : ∀ c ∈ cs, c.Names ≠ []) :
    ∃ st, (Status x p rt).val = Result.ok st ∧
      (st.Services.map Prod.fst).Nodup ∧
      (∀ k, k ∈ st.Services.map Prod.fst ↔
        k ∈ p.Config.serviceNames ∨ ∃ c ∈ cs, serviceLabel c = k) ∧
      ((∀ c ∈ cs, serviceLabel c ∈ p.Config.serviceNames) →
        ∀ k, k ∈ st.Services.map Prod.fst ↔ k ∈ p.Config.serviceNames) := by
  obtain ⟨result, hres, hnd, hsub, hlook⟩ := addContainers_spec cs
    (seedServices p.Config.serviceNames) hnames
    (by rw [seedServices_keys _ hkeys]; exact hkeys)
  have hval : (Status x p rt).val = Result.ok
      { Name := p.Name, Services := result, Status := determineProjectStatus result } := by
    simp [Status, clientContainerList, hlist, hres, Run.pure]
  have hiff : ∀ k, k ∈ result.map Prod.fst ↔
      k ∈ p.Config.serviceNames ∨ ∃ c ∈ cs, serviceLabel c = k := by
    intro k
    constructor
    · intro hk
      rcases hsub k hk with h | h
      · rw [seedServices_keys _ hkeys] at h
        exact Or.inl h
      · exact Or.inr h
    · intro hk
      have hsome : ∃ v, result.lookup k = some v := by
        rw [hlook k]
        by_cases hlab : labeledFor k cs = []
        · rw [if_pos hlab]
          rcases hk with h | ⟨c, hc, hlabel⟩
          · exact ⟨_, seedServices_lookup _ hkeys k h⟩
          · exfalso
            have : c ∈ labeledFor k cs := by
              simp [labeledFor, hc, hlabel]
            rw [hlab] at this
            exact List.not_mem_nil _ this
        · rw [if_neg hlab]
          exact ⟨_, rfl⟩
      obtain ⟨v, hv⟩ := hsome
      exact lookup_mem_keys _ _ _ hv
  refine ⟨_, hval, hnd, hiff, ?_⟩
  intro hdecl k
  rw [hiff k]
  constructor
  · rintro (h | ⟨c, hc, rfl⟩)
    · exact h
    · exact hdecl c hc
  · exact Or.inl

theorem Status_keys_witness :
    exampleProject.Config.serviceNames.Nodup ∧
    (simOk.ContainerList orphanState true (projectFilters exampleProject)).1 =
      Except.ok orphanState.containers ∧
    (∀ c ∈ orphanState.containers, c.Names ≠ []) ∧
    ∃ st, (Status simOk exampleProject orphanState).val = Result.ok st ∧
      (st.Services.map Prod.fst).Nodup ∧
      (∀ k, k ∈ st.Services.map Prod.fst ↔
        k ∈ exampleProject.Config.serviceNames ∨
          ∃ c ∈ orphanState.containers, serviceLabel c = k) ∧
      ((∀ c ∈ orphanState.containers, serviceLabel c ∈ exampleProject.Config.serviceNames) →
        ∀ k, k ∈ st.Services.map Prod.fst ↔ k ∈ exampleProject.Config.serviceNames) :=
  ⟨by decide, by rfl, by decide,
   Status_keys simOk exampleProject orphanState orphanState.containers
     (by decide) (by rfl) (by decide)⟩

/-- The statement of C28 fails on the example project with a listing that holds a
container labelled for the undeclared service `cache` and a container without a service
label: `Status` returns a map with the two extra keys `cache` and the empty string. -/
theorem Status_keys_counterexample :
    statusKeys (Status simOk exampleProject orphanState).val =
      ["web", "db", "migrate", "cache", ""] ∧
    exampleProject.Config.serviceNames = ["web", "db", "migrate"] ∧
    ¬ (∀ k, k ∈ statusKeys (Status simOk exampleProject orphanState).val ↔
        k ∈ exampleProject.Config.serviceNames) := by
  refine ⟨by decide, by decide, ?_⟩
  intro h
  exact absurd ((h "cache").1 (by decide)) (by decide)

end Compose
namespace Compose

/-! ## When `Down` returns an error -/

theorem forAll_events_mem {σ α : Type} (body : α → σ → Run σ Unit) (Q : Event → Prop)
    (hbody : ∀ a rt, ∀ e ∈ (body a rt).events, Q e) :
    ∀ (l : List α) (rt : σ), ∀ e ∈ (forAll body l rt).events, Q e := by
  intro l rt e he
  obtain ⟨a, _, rt', hmem⟩ := forAll_mem body l rt e he
  exact hbody a rt' e hmem

theorem downService_cases {σ : Type} (x : External σ) (p : ComposeProject) (s : String)
    (rt : σ) :
    (∃ msg, (x.ContainerList rt true (serviceFilters p s)).1 = Except.error msg ∧
      (downService x p s rt).events =
        [Event.mk (some s) (Call.ContainerList true (serviceFilters p s)) (Answer.failed msg)] ∧
      (downService x p s rt).val =
        Result.err ("failed to stop service " ++ s ++ ": " ++ msg)) ∨
    (∃ cs, (x.ContainerList rt true (serviceFilters p s)).1 = Except.ok cs ∧
      Event.mk (some s) (Call.ContainerList true (serviceFilters p s)) (Answer.containers cs) ∈
        (downService x p s rt).events ∧
      (downService x p s rt).val = Result.ok () ∧
      ∀ e ∈ (downService x p s rt).events, e.call.isList = true → e.failed = false) := by
  cases hl : (x.ContainerList rt true (serviceFilters p s)).1 with
  | error msg =>
    refine Or.inl ⟨msg, rfl, ?_, ?_⟩
    · simp [downService, stopService, Run.tag, clientContainerList, hl, Run.pure,
        Answer.ofExcept]
    · simp [downService, stopService, Run.tag, clientContainerList, hl, Run.pure]
  | ok cs =>
    have hhead : (stopService x p s rt).events.head? =
        some (Event.mk none (Call.ContainerList true (serviceFilters p s))
          (Answer.containers cs)) := by
      simp [stopService, clientContainerList, hl, Answer.ofExcept]
    obtain ⟨answer, hev, htail⟩ := stopService_events x p s rt
    have hans : answer = Answer.containers cs := by
      rw [hev] at hhead
      simp at hhead
      exact hhead
    refine Or.inr ⟨cs, rfl, ?_, ?_, ?_⟩
    · rw [downService_events_eq, hev, hans]
      exact List.mem_map.mpr ⟨_, List.mem_cons_self _ _, rfl⟩
    · simp [downService, stopService, Run.tag, clientContainerList, hl, Run.pure]
    · intro e he hlist
      rw [downService_events_eq, List.mem_map] at he
      obtain ⟨e0, he0, rfl⟩ := he
      rw [hev, List.mem_cons] at he0
      rcases he0 with rfl | he0
      · rw [hans]
        rfl
      · have ht := (htail e0 he0).1
        have hcall : e0.call.isList = true := hlist
        cases hc : e0.call <;>
          simp [hc, Event.tearsDown, Call.isStop, Call.isRemove, Call.isList] at ht hcall

theorem removeNetworks_cases {σ : Type} (x : External σ) (p : ComposeProject) (rt : σ) :
    (∃ msg, (x.NetworkList rt (projectFilters p)).1 = Except.error msg ∧
      (removeNetworks x p rt).events =
        [Event.mk none (Call.NetworkList (projectFilters p)) (Answer.failed msg)] ∧
      (removeNetworks x p rt).val = Result.err msg) ∨
    (∃ ns, (x.NetworkList rt (projectFilters p)).1 = Except.ok ns ∧
      Event.mk none (Call.NetworkList (projectFilters p)) (Answer.networks ns) ∈
        (removeNetworks x p rt).events ∧
      (removeNetworks x p rt).val = Result.ok () ∧
      ∀ e ∈ (removeNetworks x p rt).events, e.call.isList = true → e.failed = false) := by
  cases hl : (x.NetworkList rt (projectFilters p)).1 with
  | error msg =>
    refine Or.inl ⟨msg, rfl, ?_, ?_⟩
    · simp [removeNetworks, clientNetworkList, hl, Run.pure, Answer.ofExcept]
    · simp [removeNetworks, clientNetworkList, hl, Run.pure]
  | ok ns =>
    refine Or.inr ⟨ns, rfl, ?_, ?_, ?_⟩
    · simp [removeNetworks, clientNetworkList, hl, Run.pure, Answer.ofExcept]
    · simp [removeNetworks, clientNetworkList, hl, Run.pure]
    · intro e he hlist
      simp only [removeNetworks, Run.bind_events, clientNetworkList, hl, Run.pure,
        List.singleton_append, List.append_nil, List.mem_cons] at he
      rcases he with rfl | he
      · rfl
      · have hQ := forAll_events_mem (removeNetwork x) (fun e => e.call.isList = false)
          (by
            intro n rt' e' he'
            unfold removeNetwork at he'
            simp only [Run.bind_events, clientNetworkRemove, List.singleton_append,
              List.mem_cons] at he'
            rcases he' with rfl | he'
            · rfl
            · cases hr : (x.NetworkRemove rt' n.ID).1 <;>
                simp [hr, Run.pure, logPrintf] at he') ns _ e he
        rw [hQ] at hlist
        exact Bool.noConfusion hlist

theorem downLoop_cases {σ : Type} (x : External σ) (p : ComposeProject) :
    ∀ (l : List String) (rt : σ),
      ((forEach (downService x p) l rt).val = Result.ok () ∧
        (∀ e ∈ (forEach (downService x p) l rt).events,
          (e.call.isList = true → e.failed = false) ∧ ∃ s ∈ l, e.svc = some s) ∧
        ∀ s ∈ l, ∃ rt' cs,
          (x.ContainerList rt' true (serviceFilters p s)).1 = Except.ok cs ∧
          Event.mk (some s) (Call.ContainerList true (serviceFilters p s))
            (Answer.containers cs) ∈ (forEach (downService x p) l rt).events) ∨
      ∃ done s rest msg pre rt', l = done ++ s :: rest ∧
        (x.ContainerList rt' true (serviceFilters p s)).1 = Except.error msg ∧
        (forEach (downService x p) l rt).events = pre ++
          [Event.mk (some s) (Call.ContainerList true (serviceFilters p s))
            (Answer.failed msg)] ∧
        (forEach (downService x p) l rt).val =
          Result.err ("failed to stop service " ++ s ++ ": " ++ msg) ∧
        (∀ e ∈ pre, (e.call.isList = true → e.failed = false) ∧ ∃ s' ∈ done, e.svc = some s') ∧
        ∀ s' ∈ done, ∃ rt'' cs,
          (x.ContainerList rt'' true (serviceFilters p s')).1 = Except.ok cs ∧
          Event.mk (some s') (Call.ContainerList true (serviceFilters p s'))
            (Answer.containers cs) ∈ pre := by
  intro l
  induction l with
  | nil =>
    intro rt
    exact Or.inl ⟨rfl, by intro e he; simp [forEach, Run.pure] at he,
      by intro s hs; simp at hs⟩
  | cons a rest ih =>
    intro rt
    rcases downService_cases x p a rt with ⟨msg, hrun, hev, hval⟩ | ⟨cs, hrun, hmem, hok, hlist⟩
    · have hne : (downService x p a rt).val ≠ Result.ok () := by
        rw [hval]; exact fun h => Result.noConfusion h
      obtain ⟨hv, _, hevs, _⟩ := forEach_cons_of_not_ok (downService x p) a rest rt hne
      refine Or.inr ⟨[], a, rest, msg, [], rt, rfl, hrun, by rw [hevs, hev]; rfl,
        by rw [hv, hval], ?_, ?_⟩
      · intro e he
        simp at he
      · intro s' hs'
        simp at hs'
    · obtain ⟨hv, _, hevs, _⟩ := forEach_cons_of_ok (downService x p) a rest rt hok
      have hhead : ∀ e ∈ (downService x p a rt).events,
          (e.call.isList = true → e.failed = false) ∧ e.svc = some a :=
        fun e he => ⟨hlist e he, (downService_events x p a rt e he).1⟩
      rcases ih (downService x p a rt).rt with ⟨hok', hall, hcov⟩ |
          ⟨done, s, rest', msg, pre, rt', hl, hrun', hev', hval', hpre, hcov⟩
      · refine Or.inl ⟨by rw [hv, hok'], ?_, ?_⟩
        · intro e he
          rw [hevs, List.mem_append] at he
          rcases he with he | he
          · exact ⟨(hhead e he).1, a, List.mem_cons_self _ _, (hhead e he).2⟩
          · obtain ⟨h1, s, hs, h2⟩ := hall e he
            exact ⟨h1, s, List.mem_cons_of_mem _ hs, h2⟩
        · intro s hs
          rw [List.mem_cons] at hs
          rcases hs with rfl | hs
          · exact ⟨rt, cs, hrun, by rw [hevs]; exact List.mem_append_left _ hmem⟩
          · obtain ⟨rt'', cs', h1, h2⟩ := hcov s hs
            exact ⟨rt'', cs', h1, by rw [hevs]; exact List.mem_append_right _ h2⟩
      · refine Or.inr ⟨a :: done, s, rest', msg, (downService x p a rt).events ++ pre, rt',
          by rw [hl]; rfl, hrun', by rw [hevs, hev', List.append_assoc], by rw [hv, hval'],
          ?_, ?_⟩
        · intro e he
          rw [List.mem_append] at he
          rcases he with he | he
          · exact ⟨(hhead e he).1, a, List.mem_cons_self _ _, (hhead e he).2⟩
          · obtain ⟨h1, s', hs', h2⟩ := hpre e he
            exact ⟨h1, s', List.mem_cons_of_mem _ hs', h2⟩
        · intro s' hs'
          rw [List.mem_cons] at hs'
          rcases hs' with rfl | hs'
          · exact ⟨rt, cs, hrun, List.mem_append_left _ hmem⟩
          · obtain ⟨rt'', cs', h1, h2⟩ := hcov s' hs'
            exact ⟨rt'', cs', h1, List.mem_append_right _ h2⟩

theorem downWith_outcome {σ : Type} (x : External σ) (p : ComposeProject)
    (resolved : Resolved) (rt : σ) :
    DownOutcome x p resolved.order (downWith x p resolved rt) := by
  rcases downLoop_cases x p resolved.order.reverse rt with ⟨hok, hall, hcov⟩ |
      ⟨done, s, rest, msg, pre, rt', hl, hrun, hev, hval, hpre, hcov⟩
  · rcases downWith_events x p resolved rt with ⟨_, hevs, hv⟩ | ⟨⟨m, hm⟩, _, _⟩
    · rcases removeNetworks_cases x p
          (forEach (downService x p) resolved.order.reverse rt).rt with
        ⟨msg, hrun, hnev, hnval⟩ | ⟨ns, hrun, hnmem, hnok, hnall⟩
      · refine Or.inr (Or.inl ⟨msg, _, _, hrun, by rw [hv, hnval], by rw [hevs, hnev],
          fun e he => (hall e he).1, ?_⟩)
        intro s hs
        exact hcov s (List.mem_reverse.mpr hs)
      · refine Or.inl ⟨by rw [hv, hnok], ?_, ?_, _, ns, hrun,
          by rw [hevs]; exact List.mem_append_right _ hnmem⟩
        · intro e he
          rw [hevs, List.mem_append] at he
          rcases he with he | he
          · exact (hall e he).1
          · exact hnall e he
        · intro s hs
          obtain ⟨rt', cs, h1, h2⟩ := hcov s (List.mem_reverse.mpr hs)
          exact ⟨rt', cs, h1, by rw [hevs]; exact List.mem_append_left _ h2⟩
    · rw [hok] at hm
      exact Result.noConfusion hm
  · rcases downWith_events x p resolved rt with ⟨hok, _, _⟩ | ⟨_, hevs, hv⟩
    · rw [hval] at hok
      exact Result.noConfusion hok
    · have horder : resolved.order = rest.reverse ++ s :: done.reverse := by
        have := congrArg List.reverse hl
        rw [List.reverse_reverse] at this
        rw [this]
        simp
      refine Or.inr (Or.inr ⟨rest.reverse, s, done.reverse, msg, pre, rt', horder, hrun,
        by rw [hevs, hev], by rw [hv, hval], ?_, ?_⟩)
      · intro e he
        obtain ⟨h1, s', hs', h2⟩ := hpre e he
        exact ⟨h1, s', List.mem_reverse.mpr hs', h2⟩
      · intro s' hs'
        exact hcov s' (List.mem_reverse.mp hs')

/-- C29. `Down` returns nil or an error, and its run ends in one of three ways
(`DownOutcome`): every service of the order and the networks were listed, all with
success, and `Down` returns nil; or every service was listed with success, the network
listing failed and `Down` returns its error; or the listing for a service `s` failed,
the services after `s` in the order were listed with success before it, and `Down`
returns the error of that listing.  So `Down` returns an error exactly when a listing of
its run failed, and the failed listing is the last call of the run.  When the listing
for `s` failed, the order is `before ++ s :: after`, every call of the run was issued for
`s` or for a service after it in the order: there is no call for a service before `s`
and no network call.  In terms of the runtime: when the runtime fails every listing for
some service of the order, or every network listing, `Down` returns an error; when it
answers every listing for the services of the order and every network listing, `Down`
returns nil. -/
theorem Down_error_iff {σ : Type} (x : External σ) (p : ComposeProject) (rt : σ) :
    ∃ r resolved, Down x p rt = some r ∧ getServiceOrder p = some resolved ∧
      DownOutcome x p resolved.order r ∧
      (r.val = Result.ok () ∨ ∃ msg, r.val = Result.err msg) ∧
      ((∃ msg, r.val = Result.err msg) ↔
        ∃ e ∈ r.events, e.call.isList = true ∧ e.failed = true) ∧
      (∀ e ∈ r.events, e.call.isList = true → e.failed = true →
        ∃ pre, r.events = pre ++ [e] ∧
          ∀ e' ∈ pre, e'.call.isList = true → e'.failed = false) ∧
      (∀ e ∈ r.events, ∀ s, e.svc = some s → e.call.isList = true → e.failed = true →
        ∃ before after, resolved.order = before ++ s :: after ∧
          (∀ e' ∈ r.events, ∃ s' ∈ s :: after, e'.svc = some s') ∧
          (∀ b ∈ before, ∀ e' ∈ r.events, e'.svc ≠ some b) ∧
          (∀ e' ∈ r.events, e'.svc ≠ none)) ∧
      (∀ s ∈ resolved.order,
        (∀ rt', ∃ msg, (x.ContainerList rt' true (serviceFilters p s)).1 = Except.error msg) →
        ∃ msg, r.val = Result.err msg) ∧
      ((∀ rt', ∃ msg, (x.NetworkList rt' (projectFilters p)).1 = Except.error msg) →
        ∃ msg, r.val = Result.err msg) ∧
      ((∀ s ∈ resolved.order, ∀ rt', ∃ cs,
          (x.ContainerList rt' true (serviceFilters p s)).1 = Except.ok cs) →
        (∀ rt', ∃ ns, (x.NetworkList rt' (projectFilters p)).1 = Except.ok ns) →
        r.val = Result.ok ()) := by
  obtain ⟨resolved, hres, hnd, _, _⟩ := getServiceOrder_good p
  have hout := downWith_outcome x p resolved rt
  refine ⟨downWith x p resolved rt, resolved, by simp [Down, hres], hres, hout, ?_⟩
  rcases hout with ⟨hok, hall, hcov, rtn, ns, hnet, _⟩ |
      ⟨msg, pre, rtn, hnet, hval, hev, hpre, hcov⟩ |
      ⟨before, s, after, msg, pre, rts, horder, hrun, hev, hval, hpre, hcov⟩
  · refine ⟨Or.inl hok, ?_, ?_, ?_, ?_, ?_, fun _ _ => hok⟩
    · constructor
      · rintro ⟨m, hm⟩
        rw [hok] at hm
        exact Result.noConfusion hm
      · rintro ⟨e, he, hlist, hfail⟩
        rw [hall e he hlist] at hfail
        exact Bool.noConfusion hfail
    · intro e he hlist hfail
      rw [hall e he hlist] at hfail
      exact Bool.noConfusion hfail
    · intro e he s _ hlist hfail
      rw [hall e he hlist] at hfail
      exact Bool.noConfusion hfail
    · intro s hs hfails
      obtain ⟨rt', cs, h1, _⟩ := hcov s hs
      obtain ⟨m, hm⟩ := hfails rt'
      rw [h1] at hm
      exact Except.noConfusion hm
    · intro hfails
      obtain ⟨m, hm⟩ := hfails rtn
      rw [hnet] at hm
      exact Except.noConfusion hm
  · have hlast : ∀ e ∈ (downWith x p resolved rt).events, e.call.isList = true →
        e.failed = true →
        e = Event.mk none (Call.NetworkList (projectFilters p)) (Answer.failed msg) := by
      intro e he hlist hfail
      rw [hev, List.mem_append, List.mem_singleton] at he
      rcases he with he | he
      · rw [hpre e he hlist] at hfail
        exact Bool.noConfusion hfail
      · exact he
    refine ⟨Or.inr ⟨msg, hval⟩, ?_, ?_, ?_, fun _ _ _ => ⟨msg, hval⟩, fun _ => ⟨msg, hval⟩, ?_⟩
    · exact ⟨fun _ => ⟨Event.mk none (Call.NetworkList (projectFilters p)) (Answer.failed msg),
        by rw [hev]; simp, rfl, rfl⟩, fun _ => ⟨msg, hval⟩⟩
    · intro e he hlist hfail
      exact ⟨pre, by rw [hev, hlast e he hlist hfail], hpre⟩
    · intro e he s hs hlist hfail
      rw [hlast e he hlist hfail] at hs
      exact Option.noConfusion hs
    · intro _ hnets
      obtain ⟨ns, hns⟩ := hnets rtn
      rw [hnet] at hns
      exact Except.noConfusion hns
  · have hlast : ∀ e ∈ (downWith x p resolved rt).events, e.call.isList = true →
        e.failed = true →
        e = Event.mk (some s) (Call.ContainerList true (serviceFilters p s))
          (Answer.failed msg) := by
      intro e he hlist hfail
      rw [hev, List.mem_append, List.mem_singleton] at he
      rcases he with he | he
      · rw [(hpre e he).1 hlist] at hfail
        exact Bool.noConfusion hfail
      · exact he
    have htag : ∀ e' ∈ (downWith x p resolved rt).events,
        ∃ s' ∈ s :: after, e'.svc = some s' := by
      intro e' he'
      rw [hev, List.mem_append, List.mem_singleton] at he'
      rcases he' with he' | he'
      · obtain ⟨_, s', hs', h⟩ := hpre e' he'
        exact ⟨s', List.mem_cons_of_mem _ hs', h⟩
      · exact ⟨s, List.mem_cons_self _ _, by rw [he']⟩
    have hsmem : s ∈ resolved.order := by rw [horder]; simp
    refine ⟨Or.inr ⟨_, hval⟩, ?_, ?_, ?_, fun _ _ _ => ⟨_, hval⟩, fun _ => ⟨_, hval⟩, ?_⟩
    · exact ⟨fun _ => ⟨Event.mk (some s) (Call.ContainerList true (serviceFilters p s))
        (Answer.failed msg), by rw [hev]; simp, rfl, rfl⟩, fun _ => ⟨_, hval⟩⟩
    · intro e he hlist hfail
      exact ⟨pre, by rw [hev, hlast e he hlist hfail], fun e' he' => (hpre e' he').1⟩
    · intro e he s0 hs0 hlist hfail
      have hs : s0 = s := by
        rw [hlast e he hlist hfail] at hs0
        exact (Option.some.inj hs0).symm
      subst hs
      refine ⟨before, after, horder, htag, ?_, ?_⟩
      · intro b hb e' he' hsvc
        obtain ⟨s', hs', h⟩ := htag e' he'
        rw [hsvc] at h
        have hbs : b = s' := Option.some.inj h
        rw [horder] at hnd
        have hdisj := (List.nodup_append.mp hnd).2.2
        exact hdisj hb (hbs ▸ hs')
      · intro e' he' hnone
        obtain ⟨s', _, h⟩ := htag e' he'
        rw [hnone] at h
        exact Option.noConfusion h
    · intro hall _
      obtain ⟨cs, hcs⟩ := hall s hsmem rts
      rw [hrun] at hcs
      exact Except.noConfusion hcs

/-- The theorem at the example project, from the state that `Up` leaves, on three
runtimes: the one that fails every listing for `migrate`, the one that fails every
network listing, and the one that answers every call.  `Down` returns an error on the
first two and nil on the third. -/
theorem Down_error_iff_witness :
    (getServiceOrder exampleProject).map Resolved.order = some ["web", "migrate", "db"] ∧
    (∀ rt', ∃ msg,
      ((sim failListMigrate).ContainerList rt' true
        (serviceFilters exampleProject "migrate")).1 = Except.error msg) ∧
    (∃ r, Down (sim failListMigrate) exampleProject exampleUpState = some r ∧
      ∃ msg, r.val = Result.err msg) ∧
    (∀ rt', ∃ msg,
      ((sim failNetworkList).NetworkList rt' (projectFilters exampleProject)).1 =
        Except.error msg) ∧
    (∃ r, Down (sim failNetworkList) exampleProject exampleUpState = some r ∧
      ∃ msg, r.val = Result.err msg) ∧
    ∃ r, Down simOk exampleProject exampleUpState = some r ∧ r.val = Result.ok () := by
  have hfail1 : ∀ rt' : SimState, ∃ msg,
      ((sim failListMigrate).ContainerList rt' true
        (serviceFilters exampleProject "migrate")).1 = Except.error msg :=
    fun _ => ⟨"boom", rfl⟩
  have hfail2 : ∀ rt' : SimState, ∃ msg,
      ((sim failNetworkList).NetworkList rt' (projectFilters exampleProject)).1 =
        Except.error msg :=
    fun _ => ⟨"boom", rfl⟩
  refine ⟨by decide, hfail1, ?_, hfail2, ?_, ?_⟩
  · obtain ⟨r, resolved, hD, hres, _, _, _, _, _, h6, _, _⟩ :=
      Down_error_iff (sim failListMigrate) exampleProject exampleUpState
    have hmem : "migrate" ∈ resolved.order := by
      have h0 : getServiceOrder exampleProject =
          some { order := ["web", "migrate", "db"], logged := [] } := by decide
      rw [h0] at hres
      rw [← Option.some.inj hres]
      decide
    exact ⟨r, hD, h6 "migrate" hmem hfail1⟩
  · obtain ⟨r, resolved, hD, _, _, _, _, _, _, _, h7, _⟩ :=
      Down_error_iff (sim failNetworkList) exampleProject exampleUpState
    exact ⟨r, hD, h7 hfail2⟩
  · obtain ⟨r, resolved, hD, _, _, _, _, _, _, _, _, h8⟩ :=
      Down_error_iff simOk exampleProject exampleUpState
    exact ⟨r, hD, h8 (fun _ _ _ => ⟨_, rfl⟩) (fun _ => ⟨_, rfl⟩)⟩

/-- An instance of C29 on the reference runtime, from the state that `Up` of the example
project leaves.  With the listing for `migrate` failing, `Down` tears down `db`, fails
at the listing for `migrate` and returns: nothing is issued for `web`, no network call
is made.  With the network listing failing, every service is torn down and `Down`
returns the error of the listing. -/
theorem Down_error_example :
    (getServiceOrder exampleProject).map Resolved.order = some ["web", "migrate", "db"] ∧
    (Down (sim failListMigrate) exampleProject exampleUpState).map
        (fun r => (r.val, r.events.map (fun e => (e.svc, e.call.target, e.failed)))) =
      some (Result.err "failed to stop service migrate: boom",
        [(some "db", none, false), (some "db", some "c3", false), (some "db", some "c3", false),
         (some "migrate", none, true)]) ∧
    (Down (sim failNetworkList) exampleProject exampleUpState).map
        (fun r => (r.val, r.events.length, r.events.getLast?.map Event.call)) =
      some (Result.err "boom", 12, some (Call.NetworkList (projectFilters exampleProject))) := by
  refine ⟨by decide, by decide, by decide⟩

end Compose
namespace Compose

/-! ## Demultiplexing of an exec stream -/

/-- A chunk of at least eight bytes whose first byte is 1 goes to `stdout` from position 8
on, one whose first byte is 2 goes to `stderr`, and `written` grows by the number of
those bytes, when the writer takes them all. -/
theorem copyChunk_long (data : List Nat) (st : CopyState) (h8 : 8 ≤ data.length) :
    (data.head? = some 1 →
      copyChunk writeAll writeAll data st =
        Result.ok ({ st with written := st.written + ((data.length - 8 : Nat) : Int),
                             stdout := st.stdout ++ data.drop 8 }, none)) ∧
    (data.head? = some 2 →
      copyChunk writeAll writeAll data st =
        Result.ok ({ st with written := st.written + ((data.length - 8 : Nat) : Int),
                             stderr := st.stderr ++ data.drop 8 }, none)) := by
  cases data with
  | nil => simp at h8
  | cons b0 rest =>
    have hslice : sliceFrom8 (b0 :: rest) (b0 :: rest).length = some ((b0 :: rest).drop 8) := by
      simp only [sliceFrom8]
      rw [if_pos h8, List.take_length]
    have hlen : ((b0 :: rest).drop 8).length = (b0 :: rest).length - 8 := List.length_drop _ _
    constructor
    · intro h
      simp only [List.head?_cons, Option.some.injEq] at h
      subst h
      by_cases hpos : ((1 :: rest : List Nat).drop 8).length > 0
      · simp only [copyChunk, chooseDst, hslice, writeAll, hpos, if_true, List.take_length]
        rw [hlen]
      · have hz : ((1 :: rest : List Nat).drop 8).length = 0 := by omega
        simp only [copyChunk, chooseDst, hslice, writeAll, hpos, if_true, if_false,
          List.take_length]
        rw [← hlen, hz]
        simp
    · intro h
      simp only [List.head?_cons, Option.some.injEq] at h
      subst h
      by_cases hpos : ((2 :: rest : List Nat).drop 8).length > 0
      · simp only [copyChunk, chooseDst, hslice, writeAll, hpos, if_true, List.take_length]
        simp [hlen]
      · have hz : ((2 :: rest : List Nat).drop 8).length = 0 := by omega
        simp only [copyChunk, chooseDst, hslice, writeAll, hpos, if_true, if_false,
          List.take_length]
        rw [← hlen, hz]
        simp

/-- A chunk of one to seven bytes whose first byte is 1 or 2 makes `stdCopy` evaluate
`buf[8:nr]` with `nr < 8`: the run ends with the slice-bounds panic, whatever the
writers and the later reads are. -/
theorem stdCopyLoop_short_chunk (stdout stderr : Writer) (r : ReadResult)
    (rest : List ReadResult) (st : CopyState)
    (hlen : r.data.length < 8) (hfirst : r.data.head? = some 1 ∨ r.data.head? = some 2) :
    stdCopyLoop stdout stderr (r :: rest) st = Result.crash "slice bounds out of range" := by
  obtain ⟨data, err⟩ := r
  cases data with
  | nil => simp at hfirst
  | cons b0 tail =>
    have hslice : sliceFrom8 (b0 :: tail) (b0 :: tail).length = none := by
      simp only [sliceFrom8]
      rw [if_neg (by simp only at hlen; omega)]
    simp only [List.head?_cons, Option.some.injEq] at hfirst
    rcases hfirst with rfl | rfl
    · simp only [stdCopyLoop, copyChunk, chooseDst, hslice, if_true]
    · simp only [stdCopyLoop, copyChunk, chooseDst, hslice, if_true]
      rfl

/-- C30. A read that returns the three bytes `1, 0, 0` makes `stdCopy` end with the
slice-bounds panic of `buf[8:nr]`; so does a read of seven bytes that starts with 2.
A read of eleven bytes that starts with 1 is copied as the claim says: the bytes at
positions 8 to 10 reach `stdout` and `written` is 3. -/
theorem stdCopy_short_read :
    stdCopy writeAll writeAll [{ data := [1, 0, 0] }] =
      Result.crash "slice bounds out of range" ∧
    stdCopy writeAll writeAll [{ data := [2, 0, 0, 0, 0, 0, 0], err := some ReadError.eof }] =
      Result.crash "slice bounds out of range" ∧
    stdCopy writeAll writeAll
        [{ data := [1, 0, 0, 0, 0, 0, 0, 3, 104, 105, 10], err := some ReadError.eof }] =
      Result.ok { state := { written := 3, stdout := [104, 105, 10], stderr := [] },
                  err := none } := by
  decide

end Compose
